import Mathlib

/-!
# ArchiTechs front end: the floor-plan normalizer

A shallow embedding of `src/utils/floorPlanProcessor.js` and theorems about it.

The processor receives an arbitrary JavaScript value (the body of an API
response) and is written defensively against it, so the embedding works over an
untyped value universe `JSVal`.  The parts of the JavaScript runtime the
processor relies on (truthiness, property access, `typeof`, `parseFloat`,
`ToNumber`, `Math.max`, `Math.min`, `isFinite`, the comparison operators) are
modelled after ECMA-262.

Numbers.  A JavaScript number is modelled by `JSNum`: `NaN`, the two infinities
or a finite value given as a rational.  The finite JavaScript numbers are the
rationals that IEEE 754 binary64 represents (`isDouble`); `roundDouble` rounds a
rational to the nearest of them, ties to even, with overflow to an infinity and
underflow to zero, and `parseFloat`, `ToNumber` and the arithmetic operators
round with it.  A rational that is not a double stands for no JavaScript number:
an operation that meets one leaves its result exact.  Every number the program
computes is a double: the numbers of a payload are, the parsers and the
operators return doubles, and a decimal constant of the source that enters an
operation (`0.1`, `0.2`, `0.3`, `0.7`) is the double it denotes.  A decimal
constant that is handed to the canvas as it is (a line width such as `0.3`, and
the lower limit `0.8` of the label font size, which the canvas receives in the
string `0.8px`) is written as the decimal fraction of the source; the operations
on a font size of `0.8` are therefore exact.  The sign of zero is
outside the model (`-0` and `+0` are one value, as they are for `===`).

Exceptions.  The only exception the processor can meet on JSON-shaped input is
a `TypeError` (a property read on `null`/`undefined`, or a conversion of an
object that has no callable `toString`).  Functions that can throw return
`Except JSError`.
-/

namespace ArchiTechs

/-! ## Numbers -/

/-- A JavaScript number: `NaN`, an infinity, or a finite value given as a
rational (a double, for a number of the program). -/
inductive JSNum where
  | nan
  | negInf
  | posInf
  | fin (q : ℚ)
  deriving DecidableEq, Repr

/-! ### Rounding to double precision

The Number type of ECMA-262 is the set of IEEE 754 binary64 values, and every
operation rounds its exact result to the nearest of them, ties to even.  In units
of `2 ^ -1074` (the smallest subnormal) a non-negative double is a natural
number `k = m * 2 ^ j` with `m < 2 ^ 53`, below `2 ^ 2098 = 2 ^ 1024 * 2 ^ 1074`. -/

/-- Doubling search: an exponent `e` with `n < 2 ^ e`. -/
def log2Upper : Nat → Nat → Nat → Nat
  | 0, _, e => e
  | fuel + 1, n, e => if n < 1 <<< e then e else log2Upper fuel n (2 * e)

/-- Bisection: from `2 ^ lo ≤ n < 2 ^ (lo + step)` to the position of the leading
bit of `n`. -/
def log2Bisect : Nat → Nat → Nat → Nat → Nat
  | 0, _, lo, _ => lo
  | fuel + 1, n, lo, step =>
    if step ≤ 1 then lo
    else if 1 <<< (lo + step / 2) ≤ n then log2Bisect fuel n (lo + step / 2) (step - step / 2)
    else log2Bisect fuel n lo (step / 2)

/-- The position of the leading bit of `n`: the `l` with `2 ^ l ≤ n < 2 ^ (l + 1)`,
and 0 for 0. -/
def floorLog2 (n : Nat) : Nat := log2Bisect (log2Upper n n 1) n 0 (log2Upper n n 1)

/-- The quotient `a / m` rounded to the nearest integer, ties to even. -/
def roundHalfEven (a m : Nat) : Nat :=
  if 2 * (a % m) < m then a / m
  else if m < 2 * (a % m) then a / m + 1
  else if (a / m) % 2 = 0 then a / m else a / m + 1

/-- The exponent of the grid on which `n / d` is rounded, in units of
`2 ^ -1074`: 53 significant bits, and no finer than the subnormals. -/
def gridExponent (n d : Nat) : Nat := floorLog2 (n <<< 1074 / d) - 52

/-- The non-negative rational `n / d` rounded to that grid, in units of
`2 ^ -1074`. -/
def roundMagnitude (n d : Nat) : Nat :=
  roundHalfEven (n <<< 1074) (d <<< gridExponent n d) <<< gridExponent n d

/-- The magnitude of a rational rounded to a double, in units of `2 ^ -1074`. -/
def roundAbs (q : ℚ) : Nat := roundMagnitude q.num.natAbs q.den

/-- The double nearest to a rational, ties to even: an infinity from
`2 ^ 1024 - 2 ^ 970` on, zero up to `2 ^ -1075`. -/
def roundDouble (q : ℚ) : JSNum :=
  if 1 <<< 2098 ≤ roundAbs q then (if 0 ≤ q then .posInf else .negInf)
  else if 0 ≤ q then .fin (mkRat (roundAbs q) (1 <<< 1074))
  else .fin (mkRat (-(roundAbs q : ℤ)) (1 <<< 1074))

/-- Whether a rational is a double: rounding leaves it as it is, that is, the
rounded magnitude does not overflow and is the magnitude itself. -/
def isDouble (q : ℚ) : Bool :=
  decide (roundAbs q < 1 <<< 2098) && decide (roundAbs q * q.den = q.num.natAbs <<< 1074)

namespace JSNum

/-- The finite result of an operation on the finite operands `a` and `b` whose
exact result is `r`: `r` rounded to a double when both operands are doubles, as
the operation does in JavaScript; outside the doubles, where there is no
JavaScript operation to follow, `r` itself. -/
def arith (a b r : ℚ) : JSNum :=
  if isDouble a && isDouble b then roundDouble r else fin r

/-- The global `isFinite` on a number. -/
def isFinite : JSNum → Bool
  | fin _ => true
  | _ => false

/-- The operator `a <= b` on numbers (false as soon as one side is `NaN`). -/
def le : JSNum → JSNum → Bool
  | nan, _ => false
  | _, nan => false
  | negInf, _ => true
  | _, posInf => true
  | posInf, _ => false
  | _, negInf => false
  | fin a, fin b => decide (a ≤ b)

/-- The operator `a >= b` on numbers. -/
def ge (a b : JSNum) : Bool := le b a

/-- The operator `a < b` on numbers. -/
def lt : JSNum → JSNum → Bool
  | nan, _ => false
  | _, nan => false
  | posInf, _ => false
  | _, negInf => false
  | negInf, _ => true
  | _, posInf => true
  | fin a, fin b => decide (a < b)

/-- The operator `a > b` on numbers. -/
def gt (a b : JSNum) : Bool := lt b a

/-- The operator `a === b` on numbers (`NaN` is not equal to itself). -/
def strictEq : JSNum → JSNum → Bool
  | nan, _ => false
  | _, nan => false
  | a, b => decide (a = b)

/-- The two-argument `Math.max` on numbers. -/
def max : JSNum → JSNum → JSNum
  | nan, _ => nan
  | _, nan => nan
  | a, b => if le a b then b else a

/-- The two-argument `Math.min` on numbers. -/
def min : JSNum → JSNum → JSNum
  | nan, _ => nan
  | _, nan => nan
  | a, b => if le a b then a else b

/-- The operator `a + b` on numbers. -/
def add : JSNum → JSNum → JSNum
  | nan, _ => nan
  | _, nan => nan
  | posInf, negInf => nan
  | negInf, posInf => nan
  | posInf, _ => posInf
  | _, posInf => posInf
  | negInf, _ => negInf
  | _, negInf => negInf
  | fin a, fin b => arith a b (a + b)

/-- Unary minus. -/
def neg : JSNum → JSNum
  | nan => nan
  | posInf => negInf
  | negInf => posInf
  | fin a => fin (-a)

/-- The operator `a - b` on numbers. -/
def sub (a b : JSNum) : JSNum := add a (neg b)

end JSNum

/-! ## Values -/

/-- A JavaScript value as `JSON.parse` can produce it, plus `undefined`, `NaN`
and the infinities.  An object is its list of own properties; on a repeated key
the first binding counts. -/
inductive JSVal where
  | undefined
  | null
  | bool (b : Bool)
  | num (n : JSNum)
  | str (s : String)
  | arr (elems : List JSVal)
  | obj (fields : List (String × JSVal))

/-- The exception a step of the processor can raise. -/
inductive JSError where
  | typeError
  deriving DecidableEq, Repr

namespace JSVal

/-- A finite number literal. -/
def ofRat (q : ℚ) : JSVal := num (.fin q)

/-- Own-property lookup in a property list; `undefined` when the key is absent. -/
def lookup (k : String) : List (String × JSVal) → JSVal
  | [] => undefined
  | (k', v) :: rest => if k' = k then v else lookup k rest

/-- Whether a property list has an own property `k`. -/
def hasKey (k : String) : List (String × JSVal) → Bool
  | [] => false
  | (k', _) :: rest => if k' = k then true else hasKey k rest

/-- The abstract operation ToBoolean. -/
def truthy : JSVal → Bool
  | undefined => false
  | null => false
  | bool b => b
  | num .nan => false
  | num (.fin q) => decide (q ≠ 0)
  | num _ => true
  | str s => decide (s ≠ "")
  | arr _ => true
  | obj _ => true

/-- The operator `a || b`. -/
def or (a b : JSVal) : JSVal := if a.truthy then a else b

/-- The test `typeof v === 'object'` (true for `null`, arrays and objects). -/
def typeofObject : JSVal → Bool
  | null => true
  | arr _ => true
  | obj _ => true
  | _ => false

/-- The property read `v.k`, for the property names the processor uses (`id`,
`name`, `type`, `dimensions`, `x`, `width`, ...): none of them is `length`, an
index or a name defined on a built-in prototype, so the read yields an own
property of a plain object, `undefined` on any other value that can be boxed,
and throws on `null` and `undefined`. -/
def getProp (v : JSVal) (k : String) : Except JSError JSVal :=
  match v with
  | undefined => .error .typeError
  | null => .error .typeError
  | obj fields => .ok (lookup k fields)
  | _ => .ok undefined

/-- The optional-chaining read `v?.k`. -/
def optChain (v : JSVal) (k : String) : JSVal :=
  match v with
  | undefined => undefined
  | null => undefined
  | obj fields => lookup k fields
  | _ => undefined

/-- The test `Array.isArray(v)`, returning the elements. -/
def asArray : JSVal → Option (List JSVal)
  | arr elems => some elems
  | _ => none

end JSVal

/-! ## String to number -/

/-- WhiteSpace and LineTerminator code points, which `parseFloat` and `ToNumber`
strip. -/
def isStrWhiteSpace (c : Char) : Bool :=
  let n := c.toNat
  n == 0x09 || n == 0x0A || n == 0x0B || n == 0x0C || n == 0x0D || n == 0x20 ||
  n == 0xA0 || n == 0x1680 || (0x2000 ≤ n && n ≤ 0x200A) || n == 0x2028 ||
  n == 0x2029 || n == 0x202F || n == 0x205F || n == 0x3000 || n == 0xFEFF

/-- The value of a run of decimal digits. -/
def digitsToNat (ds : List Char) : Nat :=
  ds.foldl (fun acc c => 10 * acc + (c.toNat - 48)) 0

/-- The value `m * 10 ^ e` as a rational. -/
def scale10 (m : Nat) (e : Int) : ℚ :=
  if 0 ≤ e then (m : ℚ) * ((10 ^ e.toNat : Nat) : ℚ)
  else (m : ℚ) / ((10 ^ (-e).toNat : Nat) : ℚ)

/-- An optional ExponentPart at the head of `cs`: the exponent and the rest
(exponent 0 and `cs` itself when there is none). -/
def parseExponentPart (cs : List Char) : Int × List Char :=
  match cs with
  | c :: rest =>
    if c = 'e' || c = 'E' then
      match rest with
      | '+' :: r =>
        if (r.takeWhile Char.isDigit).isEmpty then (0, cs)
        else (digitsToNat (r.takeWhile Char.isDigit), r.dropWhile Char.isDigit)
      | '-' :: r =>
        if (r.takeWhile Char.isDigit).isEmpty then (0, cs)
        else (-(digitsToNat (r.takeWhile Char.isDigit) : Int), r.dropWhile Char.isDigit)
      | r =>
        if (r.takeWhile Char.isDigit).isEmpty then (0, cs)
        else (digitsToNat (r.takeWhile Char.isDigit), r.dropWhile Char.isDigit)
    else (0, cs)
  | [] => (0, cs)

/-- The longest StrUnsignedDecimalLiteral at the head of `cs`: its value, rounded
to the nearest double, and the rest, or `none` when no prefix of `cs` is one. -/
def parseUnsignedDecimal (cs : List Char) : Option (JSNum × List Char) :=
  match cs with
  | 'I' :: 'n' :: 'f' :: 'i' :: 'n' :: 'i' :: 't' :: 'y' :: rest => some (.posInf, rest)
  | _ =>
    let intDs := cs.takeWhile Char.isDigit
    let r1 := cs.dropWhile Char.isDigit
    let fracDs := match r1 with
      | '.' :: r => r.takeWhile Char.isDigit
      | _ => []
    let r2 := match r1 with
      | '.' :: r => r.dropWhile Char.isDigit
      | _ => r1
    if intDs.isEmpty && fracDs.isEmpty then none
    else
      let ex := parseExponentPart r2
      some (roundDouble (scale10 (digitsToNat (intDs ++ fracDs)) (ex.1 - fracDs.length)), ex.2)

/-- The longest StrDecimalLiteral (an optionally signed StrUnsignedDecimalLiteral)
at the head of `cs`. -/
def parseStrDecimalLiteral (cs : List Char) : Option (JSNum × List Char) :=
  match cs with
  | '+' :: r => parseUnsignedDecimal r
  | '-' :: r => (parseUnsignedDecimal r).map (fun p => (p.1.neg, p.2))
  | _ => parseUnsignedDecimal cs

/-- The function `parseFloat` on a string: leading white space is skipped and the
longest prefix that is a StrDecimalLiteral is read; `NaN` when there is none. -/
def parseFloatStr (s : String) : JSNum :=
  match parseStrDecimalLiteral (s.toList.dropWhile isStrWhiteSpace) with
  | some (v, _) => v
  | none => .nan

/-- The value of a digit of a NonDecimalIntegerLiteral in the given radix. -/
def radixDigit (radix : Nat) (c : Char) : Option Nat :=
  let n := c.toNat
  let d := if 48 ≤ n && n ≤ 57 then n - 48
    else if 97 ≤ n && n ≤ 102 then n - 87
    else if 65 ≤ n && n ≤ 70 then n - 55
    else 16
  if d < radix then some d else none

/-- The value of a non-empty run of digits in the given radix, rounded to the
nearest double; `NaN` when the run is empty or has a character that is no digit. -/
def parseRadix (radix : Nat) (cs : List Char) : JSNum :=
  if cs.isEmpty then .nan
  else
    match cs.foldl (fun acc c => acc.bind (fun a => (radixDigit radix c).map (fun d => radix * a + d)))
        (some 0) with
    | some n => roundDouble (n : ℚ)
    | none => .nan

/-- The abstract operation StringToNumber: the whole string, apart from white
space at both ends, must be a StrNumericLiteral; the empty string is 0. -/
def stringToNumber (s : String) : JSNum :=
  let cs := ((s.toList.dropWhile isStrWhiteSpace).reverse.dropWhile isStrWhiteSpace).reverse
  match cs with
  | [] => .fin 0
  | '0' :: 'x' :: r => parseRadix 16 r
  | '0' :: 'X' :: r => parseRadix 16 r
  | '0' :: 'o' :: r => parseRadix 8 r
  | '0' :: 'O' :: r => parseRadix 8 r
  | '0' :: 'b' :: r => parseRadix 2 r
  | '0' :: 'B' :: r => parseRadix 2 r
  | _ =>
    match parseStrDecimalLiteral cs with
    | some (v, []) => v
    | _ => .nan

/-! ## Conversions of values -/

namespace JSVal

mutual
/-- Whether the abstract operation ToString (equally ToPrimitive) throws on a
value.  A plain object converts through `Object.prototype.toString` unless it
has an own property `toString`, which on JSON-shaped data is never callable and
leaves no method to call: a `TypeError`.  An array converts through `join`,
which converts every element other than `null` and `undefined`. -/
def throwsOnConvert : JSVal → Bool
  | obj fields => hasKey "toString" fields
  | arr elems => throwsOnConvertAny elems
  | _ => false
/-- Whether ToString throws on some element of a list. -/
def throwsOnConvertAny : List JSVal → Bool
  | [] => false
  | v :: rest => throwsOnConvert v || throwsOnConvertAny rest
end

mutual
/-- The number `parseFloat(v)` reads from the string of a value whose conversion
does not throw.  A number reads back as itself, `undefined`, `null`, a boolean
and a plain object (`"[object Object]"`) give `NaN`, and an array gives what its
first element gives, the text of an array being the texts of its elements
joined by commas, at which the longest numeric prefix stops. -/
def parseFloatOf : JSVal → JSNum
  | num n => n
  | str s => parseFloatStr s
  | arr elems => parseFloatHead elems
  | _ => .nan
/-- The number `parseFloat` reads from the joined text of a list of elements. -/
def parseFloatHead : List JSVal → JSNum
  | [] => .nan
  | v :: _ => parseFloatOf v
end

/-- The global function `parseFloat`. -/
def parseFloat (v : JSVal) : Except JSError JSNum :=
  if throwsOnConvert v then .error .typeError else .ok (parseFloatOf v)

/-- The number StringToNumber gives for the joined text of a list of elements:
0 for the empty text, `NaN` as soon as there is a comma; the text of a single
element is empty for `null` and `undefined`, `"true"`/`"false"` for a boolean and
`"[object Object]"` for a plain object. -/
def toNumberJoined : List JSVal → JSNum
  | [] => .fin 0
  | [undefined] => .fin 0
  | [null] => .fin 0
  | [bool _] => .nan
  | [num n] => n
  | [str s] => stringToNumber s
  | [obj _] => .nan
  | [arr elems] => toNumberJoined elems
  | _ :: _ :: _ => .nan

/-- The abstract operation ToNumber on a value whose conversion does not throw. -/
def toNumberOf : JSVal → JSNum
  | undefined => .nan
  | null => .fin 0
  | bool b => if b then .fin 1 else .fin 0
  | num n => n
  | str s => stringToNumber s
  | arr elems => toNumberJoined elems
  | obj _ => .nan

/-- The abstract operation ToNumber. -/
def toNumber (v : JSVal) : Except JSError JSNum :=
  if throwsOnConvert v then .error .typeError else .ok (toNumberOf v)

end JSVal

/-- The function `Math.max(a, b)`: both arguments go through ToNumber. -/
def mathMax (a b : JSVal) : Except JSError JSNum := do
  let x ← a.toNumber
  let y ← b.toNumber
  pure (JSNum.max x y)

/-! ## The normalized model -/

/-- The object `{ x, y }` built by `validatePoint`. -/
structure Point where
  x : JSNum
  y : JSNum
  deriving DecidableEq, Repr

/-- The object `{ x, y, width, height }` built by `validateDimensions`. -/
structure Dimensions where
  x : JSNum
  y : JSNum
  width : JSNum
  height : JSNum
  deriving DecidableEq, Repr

/-- A processed room; `dimensions` is `none` for the JavaScript `null`. -/
structure Room where
  id : JSVal
  name : JSVal
  type : JSVal
  dimensions : Option Dimensions
  color : JSVal
  features : List JSVal

/-- A processed wall (`end_` is the field `end`). -/
structure Wall where
  id : JSVal
  start : Option Point
  end_ : Option Point
  thickness : JSNum
  type : JSVal

/-- A processed door. -/
structure Door where
  id : JSVal
  position : Option Point
  width : JSNum
  rotation : JSVal
  type : JSVal
  connects : List JSVal

/-- A processed window. -/
structure Window where
  id : JSVal
  position : Option Point
  width : JSNum
  height : JSNum
  wallId : JSVal

/-- A processed furniture item. -/
structure Furniture where
  id : JSVal
  type : JSVal
  position : Option Point
  dimensions : Option Dimensions
  rotation : JSVal
  roomId : JSVal
  color : JSVal

/-- The object `{ minX, minY, width, height }` built by `calculateOptimalBounds`. -/
structure Bounds where
  minX : JSNum
  minY : JSNum
  width : JSNum
  height : JSNum
  deriving DecidableEq, Repr

/-- The object `processFloorPlanData` returns. -/
structure FloorPlan where
  rooms : List Room
  walls : List Wall
  doors : List Door
  windows : List Window
  furniture : List Furniture
  bounds : Bounds
  scale : JSVal
  totalArea : JSVal

/-! ## The processor -/

/-- The method `xs.map((x, index) => f(x, index))` with a callback that can
throw, the index starting at `i`. -/
def mapIdxFrom {β : Type} (f : JSVal → Nat → Except JSError β) :
    Nat → List JSVal → Except JSError (List β)
  | _, [] => .ok []
  | i, v :: rest => do
    let y ← f v i
    let ys ← mapIdxFrom f (i + 1) rest
    pure (y :: ys)

/-- The function `validateDimensions`. -/
def validateDimensions (dimensions : JSVal) : Except JSError (Option Dimensions) :=
  if !dimensions.truthy || !dimensions.typeofObject then pure none
  else do
    let x ← (← dimensions.getProp "x").parseFloat
    let y ← (← dimensions.getProp "y").parseFloat
    let width ← (← dimensions.getProp "width").parseFloat
    let height ← (← dimensions.getProp "height").parseFloat
    if !x.isFinite || !y.isFinite || !width.isFinite || !height.isFinite then
      pure none
    else if width.le (.fin 0) || height.le (.fin 0) then
      pure none
    else
      pure (some { x := x, y := y, width := width, height := height })

/-- The function `validatePoint`. -/
def validatePoint (point : JSVal) : Except JSError (Option Point) :=
  if !point.truthy || !point.typeofObject then pure none
  else do
    let x ← (← point.getProp "x").parseFloat
    let y ← (← point.getProp "y").parseFloat
    if !x.isFinite || !y.isFinite then pure none
    else pure (some { x := x, y := y })

/-- The ten colours of `getDefaultRoomColor`. -/
def roomColors : List String :=
  ["#f8f9fa", "#e3f2fd", "#f3e5f5", "#e8f5e8", "#fff3e0",
   "#fce4ec", "#e1f5fe", "#f1f8e9", "#fef7e0", "#e8eaf6"]

/-- The function `getDefaultRoomColor`. -/
def getDefaultRoomColor (index : Nat) : JSVal :=
  match roomColors.get? (index % roomColors.length) with
  | some c => .str c
  | none => .undefined

/-- The object the callback of `processRooms` builds for one room. -/
def processRoom (room : JSVal) (index : Nat) : Except JSError Room := do
  let id ← room.getProp "id"
  let name ← room.getProp "name"
  let type ← room.getProp "type"
  let dimensions ← validateDimensions (← room.getProp "dimensions")
  let color ← room.getProp "color"
  let features ← room.getProp "features"
  pure {
    id := id.or (.str ("room_" ++ toString index))
    name := name.or (.str ("Room " ++ toString (index + 1)))
    type := type.or (.str "room")
    dimensions := dimensions
    color := color.or (getDefaultRoomColor index)
    features := (features.asArray).getD [] }

/-- The function `processRooms`. -/
def processRooms (rooms : JSVal) : Except JSError (List Room) :=
  match rooms.asArray with
  | none => pure []
  | some elems => do
    let mapped ← mapIdxFrom processRoom 0 elems
    pure (mapped.filter (fun room => room.dimensions.isSome))

/-- The object the callback of `processWalls` builds for one wall. -/
def processWall (wall : JSVal) (index : Nat) : Except JSError Wall := do
  let id ← wall.getProp "id"
  let start ← validatePoint (← wall.getProp "start")
  let end_ ← validatePoint (← wall.getProp "end")
  let thickness ← mathMax (.ofRat 1) ((← wall.getProp "thickness").or (.ofRat 4))
  let type ← wall.getProp "type"
  pure {
    id := id.or (.str ("wall_" ++ toString index))
    start := start.orElse (fun _ => some { x := .fin 0, y := .fin 0 })
    end_ := end_.orElse (fun _ => some { x := .fin 100, y := .fin 0 })
    thickness := thickness
    type := type.or (.str "interior") }

/-- The filter of `processWalls`:
`wall.start && wall.end && (wall.start.x !== wall.end.x || wall.start.y !== wall.end.y)`. -/
def wallKept (wall : Wall) : Bool :=
  match wall.start, wall.end_ with
  | some s, some e => !(s.x.strictEq e.x) || !(s.y.strictEq e.y)
  | _, _ => false

/-- The function `processWalls`. -/
def processWalls (walls : JSVal) : Except JSError (List Wall) :=
  match walls.asArray with
  | none => pure []
  | some elems => do
    let mapped ← mapIdxFrom processWall 0 elems
    pure (mapped.filter wallKept)

/-- The object the callback of `processDoors` builds for one door. -/
def processDoor (door : JSVal) (index : Nat) : Except JSError Door := do
  let id ← door.getProp "id"
  let position ← validatePoint (← door.getProp "position")
  let width ← mathMax (.ofRat 10) ((← door.getProp "width").or (.ofRat 30))
  let rotation ← door.getProp "rotation"
  let type ← door.getProp "type"
  let connects ← door.getProp "connects"
  pure {
    id := id.or (.str ("door_" ++ toString index))
    position := position.orElse (fun _ => some { x := .fin 0, y := .fin 0 })
    width := width
    rotation := rotation.or (.ofRat 0)
    type := type.or (.str "interior")
    connects := (connects.asArray).getD [] }

/-- The function `processDoors`. -/
def processDoors (doors : JSVal) : Except JSError (List Door) :=
  match doors.asArray with
  | none => pure []
  | some elems => do
    let mapped ← mapIdxFrom processDoor 0 elems
    pure (mapped.filter (fun door => door.position.isSome))

/-- The object the callback of `processWindows` builds for one window. -/
def processWindow (window : JSVal) (index : Nat) : Except JSError Window := do
  let id ← window.getProp "id"
  let position ← validatePoint (← window.getProp "position")
  let width ← mathMax (.ofRat 10) ((← window.getProp "width").or (.ofRat 40))
  let height ← mathMax (.ofRat 5) ((← window.getProp "height").or (.ofRat 20))
  let wallId ← window.getProp "wallId"
  pure {
    id := id.or (.str ("window_" ++ toString index))
    position := position.orElse (fun _ => some { x := .fin 0, y := .fin 0 })
    width := width
    height := height
    wallId := wallId.or .null }

/-- The function `processWindows`. -/
def processWindows (windows : JSVal) : Except JSError (List Window) :=
  match windows.asArray with
  | none => pure []
  | some elems => do
    let mapped ← mapIdxFrom processWindow 0 elems
    pure (mapped.filter (fun window => window.position.isSome))

/-- The object the callback of `processFurniture` builds for one item. -/
def processFurnitureItem (item : JSVal) (index : Nat) : Except JSError Furniture := do
  let id ← item.getProp "id"
  let type ← item.getProp "type"
  let position ← validatePoint (← item.getProp "position")
  let dimensions ← validateDimensions (← item.getProp "dimensions")
  let rotation ← item.getProp "rotation"
  let roomId ← item.getProp "roomId"
  let color ← item.getProp "color"
  pure {
    id := id.or (.str ("furniture_" ++ toString index))
    type := type.or (.str "furniture")
    position := position.orElse (fun _ => some { x := .fin 0, y := .fin 0 })
    dimensions := dimensions.orElse
      (fun _ => some { x := .fin 0, y := .fin 0, width := .fin 10, height := .fin 10 })
    rotation := rotation.or (.ofRat 0)
    roomId := roomId.or .null
    color := color.or (.str "#6b7280") }

/-- The function `processFurniture`. -/
def processFurniture (furniture : JSVal) : Except JSError (List Furniture) :=
  match furniture.asArray with
  | none => pure []
  | some elems => do
    let mapped ← mapIdxFrom processFurnitureItem 0 elems
    pure (mapped.filter (fun item => item.position.isSome && item.dimensions.isSome))

/-- The local variables of `calculateOptimalBounds`. -/
structure BoundsAcc where
  minX : JSNum
  minY : JSNum
  maxX : JSNum
  maxY : JSNum
  hasValidElements : Bool
  deriving DecidableEq, Repr

/-- The initial values of the local variables of `calculateOptimalBounds`. -/
def boundsInit : BoundsAcc :=
  { minX := .posInf, minY := .posInf, maxX := .negInf, maxY := .negInf,
    hasValidElements := false }

/-- The body of `rooms.forEach` in `calculateOptimalBounds`. -/
def boundsAddRoom (acc : BoundsAcc) (room : Room) : BoundsAcc :=
  match room.dimensions with
  | some d =>
    { minX := JSNum.min acc.minX d.x
      minY := JSNum.min acc.minY d.y
      maxX := JSNum.max acc.maxX (d.x.add d.width)
      maxY := JSNum.max acc.maxY (d.y.add d.height)
      hasValidElements := true }
  | none => acc

/-- The body of `walls.forEach` in `calculateOptimalBounds`. -/
def boundsAddWall (acc : BoundsAcc) (wall : Wall) : BoundsAcc :=
  match wall.start, wall.end_ with
  | some s, some e =>
    { minX := JSNum.min (JSNum.min acc.minX s.x) e.x
      minY := JSNum.min (JSNum.min acc.minY s.y) e.y
      maxX := JSNum.max (JSNum.max acc.maxX s.x) e.x
      maxY := JSNum.max (JSNum.max acc.maxY s.y) e.y
      hasValidElements := true }
  | _, _ => acc

/-- The function `calculateOptimalBounds`. -/
def calculateOptimalBounds (rooms : List Room) (walls : List Wall) : Bounds :=
  let acc := walls.foldl boundsAddWall (rooms.foldl boundsAddRoom boundsInit)
  if !acc.hasValidElements || acc.minX.strictEq .posInf then
    { minX := .fin 0, minY := .fin 0, width := .fin 100, height := .fin 100 }
  else
    { minX := acc.minX
      minY := acc.minY
      width := JSNum.max (acc.maxX.sub acc.minX) (.fin 10)
      height := JSNum.max (acc.maxY.sub acc.minY) (.fin 10) }

/-- The expression `apiResponse?.analysis?.floorPlan`. -/
def floorPlanSection (apiResponse : JSVal) : JSVal :=
  (apiResponse.optChain "analysis").optChain "floorPlan"

/-- The `try` block of `processFloorPlanData`. -/
def processFloorPlanBody (apiResponse floorPlan : JSVal) : Except JSError FloorPlan := do
  let processedRooms ← processRooms ((← floorPlan.getProp "rooms").or (.arr []))
  let processedWalls ← processWalls ((← floorPlan.getProp "walls").or (.arr []))
  let processedDoors ← processDoors ((← floorPlan.getProp "doors").or (.arr []))
  let processedWindows ← processWindows ((← floorPlan.getProp "windows").or (.arr []))
  let processedFurniture ← processFurniture ((← floorPlan.getProp "furniture").or (.arr []))
  let bounds := calculateOptimalBounds processedRooms processedWalls
  let scale ← floorPlan.getProp "scale"
  let projectInfo ← (← apiResponse.getProp "analysis").getProp "projectInfo"
  pure {
    rooms := processedRooms
    walls := processedWalls
    doors := processedDoors
    windows := processedWindows
    furniture := processedFurniture
    bounds := bounds
    scale := scale.or (.str "1:100")
    totalArea := (projectInfo.optChain "totalArea").or (.str "Custom Size") }

/-- The function `processFloorPlanData`: `.ok none` is the return value `null`,
`.error` an exception that escapes to the caller.  Whatever the `try` block
throws is caught and turned into `null`. -/
def processFloorPlanData (apiResponse : JSVal) : Except JSError (Option FloorPlan) :=
  if !(floorPlanSection apiResponse).truthy then pure none
  else do
    let floorPlan ← (← apiResponse.getProp "analysis").getProp "floorPlan"
    match processFloorPlanBody apiResponse floorPlan with
    | .ok processedFloorPlan => pure (some processedFloorPlan)
    | .error _ => pure none

/-! ## The validation of a model -/

/-- The object `validateFloorPlan` returns; `hasRooms` and `hasWalls` are
`undefined` where the object has no such property. -/
structure Validation where
  valid : Bool
  errors : List String
  hasRooms : JSVal
  hasWalls : JSVal

/-- The length of a string in UTF-16 code units. -/
def utf16Length (s : String) : Nat :=
  s.toList.foldl (fun n c => n + (if 0x10000 ≤ c.toNat then 2 else 1)) 0

namespace JSVal

/-- The property read `v.length`: the number of elements of an array, the number
of code units of a string, the own property `length` of a plain object,
`undefined` on a boolean or a number; it throws on `null` and `undefined`. -/
def getLength (v : JSVal) : Except JSError JSVal :=
  match v with
  | undefined => .error .typeError
  | null => .error .typeError
  | arr elems => .ok (ofRat elems.length)
  | str s => .ok (ofRat (utf16Length s))
  | obj fields => .ok (lookup "length" fields)
  | _ => .ok undefined

/-- The expression `v > 0`: with a number on the right the left side goes
through ToNumber. -/
def greaterThanZero (v : JSVal) : Except JSError Bool := do
  let n ← v.toNumber
  pure (JSNum.gt n (.fin 0))

/-- The expression `v && v.length > 0`. -/
def andLengthPositive (v : JSVal) : Except JSError JSVal :=
  if !v.truthy then pure v
  else do
    let len ← v.getLength
    let positive ← len.greaterThanZero
    pure (bool positive)

end JSVal

/-- The function `validateFloorPlan`. -/
def validateFloorPlan (floorPlan : JSVal) : Except JSError Validation :=
  if !floorPlan.truthy || !floorPlan.typeofObject then
    pure { valid := false, errors := ["Floor plan is not an object"],
           hasRooms := .undefined, hasWalls := .undefined }
  else do
    let errors0 : List String := []
    let errors1 :=
      if ((← floorPlan.getProp "rooms").asArray).isNone then
        errors0 ++ ["Rooms array is missing or invalid"]
      else errors0
    let errors2 :=
      if ((← floorPlan.getProp "walls").asArray).isNone then
        errors1 ++ ["Walls array is missing or invalid"]
      else errors1
    let hasRooms ← (← floorPlan.getProp "rooms").andLengthPositive
    let hasWalls ← (← floorPlan.getProp "walls").andLengthPositive
    let errors3 :=
      if !hasRooms.truthy && !hasWalls.truthy then
        errors2 ++ ["Floor plan has no rooms or walls to display"]
      else errors2
    pure { valid := errors3.length == 0, errors := errors3,
           hasRooms := hasRooms, hasWalls := hasWalls }

/-! ## The renderer (`Components/FloorPlanViewerV2.jsx`)

The renderer is embedded as a function from the model and the size of the
surface to the sequence of calls it issues on the 2D context, together with how
the sequence ends.  Numbers are the doubles of the normalizer, and the operators
round; `Math.PI` is the rational value of the double, and `Math.cos`,
`Math.sin` are parameters.  `toLowerCase` is the lower-casing of the Unicode
standard (the simple mappings of version 14.0, the special casing of the capital
I with dot above and of the final sigma), on the code points of the string. -/

namespace JSNum

/-- The operator `a * b` on numbers. -/
def mul : JSNum → JSNum → JSNum
  | nan, _ => nan
  | _, nan => nan
  | fin a, fin b => arith a b (a * b)
  | fin a, posInf => if a = 0 then nan else if 0 < a then posInf else negInf
  | fin a, negInf => if a = 0 then nan else if 0 < a then negInf else posInf
  | posInf, fin b => if b = 0 then nan else if 0 < b then posInf else negInf
  | negInf, fin b => if b = 0 then nan else if 0 < b then negInf else posInf
  | posInf, posInf => posInf
  | posInf, negInf => negInf
  | negInf, posInf => negInf
  | negInf, negInf => posInf

/-- The operator `a / b` on numbers; a zero divisor is `+0`. -/
def div : JSNum → JSNum → JSNum
  | nan, _ => nan
  | _, nan => nan
  | fin a, fin b =>
    if b = 0 then (if a = 0 then nan else if 0 < a then posInf else negInf)
    else arith a b (a / b)
  | fin _, posInf => fin 0
  | fin _, negInf => fin 0
  | posInf, fin b => if 0 ≤ b then posInf else negInf
  | negInf, fin b => if 0 ≤ b then negInf else posInf
  | posInf, posInf => nan
  | posInf, negInf => nan
  | negInf, posInf => nan
  | negInf, negInf => nan

/-- The expression `a || b` on numbers: `a` unless it is 0 or `NaN`. -/
def orElse (a b : JSNum) : JSNum :=
  match a with
  | nan => b
  | fin q => if q = 0 then b else a
  | _ => a

end JSNum

/-- The constant `Math.PI`: the double nearest to π, as a rational. -/
def mathPI : JSNum := .fin (884279719003555 / 281474976710656)

/-- The functions `Math.cos` and `Math.sin` of the runtime. -/
structure MathFns where
  cos : JSNum → JSNum
  sin : JSNum → JSNum

/-- What a render pass can throw: the `Error` of the scale check, a
`TypeError`, or the `IndexSizeError` of `arc` with a negative radius. -/
inductive RenderError where
  | invalidScale (scale : JSNum)
  | typeError
  | indexSizeError
  deriving DecidableEq, Repr

/-- The text argument of `fillText`: a value of the model (or a string literal),
or the message of a caught error. -/
inductive Text where
  | value (v : JSVal)
  | errorMessage (e : RenderError)

/-- A call on the canvas or on its 2D context (assignments to its properties
included). -/
inductive CanvasCall where
  | clearRect (x y w h : JSNum)
  | setWidth (w : Nat)
  | setHeight (h : Nat)
  | save
  | restore
  | translate (x y : JSNum)
  | scale (x y : JSNum)
  | rotate (angle : JSNum)
  | fillStyle (v : JSVal)
  | strokeStyle (s : String)
  | lineWidth (w : JSNum)
  | lineCap (s : String)
  | setLineDash (segments : List JSNum)
  | font (px : JSNum)
  | textAlign (s : String)
  | textBaseline (s : String)
  | fillRect (x y w h : JSNum)
  | strokeRect (x y w h : JSNum)
  | beginPath
  | moveTo (x y : JSNum)
  | lineTo (x y : JSNum)
  | arc (x y radius startAngle endAngle : JSNum)
  | stroke
  | fill
  | fillText (text : Text) (x y : JSNum)

/-- How a piece of drawing code ends: it returns, it throws, or it never
returns. -/
inductive Outcome where
  | returned
  | threw (e : RenderError)
  | hangs
  deriving DecidableEq, Repr

/-- The calls a piece of drawing code issues and how it ends.  With `hangs` the
calls are those issued before the loop that never ends is entered, and in its
first iteration. -/
structure Draw where
  calls : List CanvasCall
  outcome : Outcome

namespace Draw

/-- Drawing code that issues the given calls and returns. -/
def emit (calls : List CanvasCall) : Draw := { calls := calls, outcome := .returned }

/-- Drawing code that throws at once. -/
def throw (e : RenderError) : Draw := { calls := [], outcome := .threw e }

/-- Drawing code that never returns. -/
def hang : Draw := { calls := [], outcome := .hangs }

/-- Sequential composition: the second piece runs only when the first
returns. -/
def seq (a b : Draw) : Draw :=
  match a.outcome with
  | .returned => { calls := a.calls ++ b.calls, outcome := b.outcome }
  | _ => a

/-- The method `xs.forEach(x => body(x))`. -/
def forEach {α : Type} (xs : List α) (body : α → Draw) : Draw :=
  xs.foldr (fun x rest => (body x).seq rest) (emit [])

end Draw

/-- The values the variable of `for (v = start; v < bound; v += step)` takes in
the iterations that are left when it has the value `v`, for a loop that ends;
`none` for a loop that never ends.  The loop never ends when an iteration is
entered and `v += step` does not increase `v`: the value then stays below the
bound, or falls, for ever.  The fuel bounds the number of iterations. -/
def loopValues : Nat → JSNum → JSNum → JSNum → Option (List JSNum)
  | 0, _, _, _ => none
  | fuel + 1, v, bound, step =>
    if !v.lt bound then some []
    else if (v.add step).le v then none
    else (loopValues fuel (v.add step) bound step).map (fun vs => v :: vs)

/-- The position of a rational among the multiples of `2 ^ -1074`, the grid in
which every double lies: `floor (q * 2 ^ 1074)`. -/
def gridIndex (q : ℚ) : Int := q.num * ((1 <<< 1074 : Nat) : Int) / (q.den : Int)

/-- A number of iterations that a loop from `start` to `bound` that ends cannot
reach.  With a rounded sum the variable, when it increases, moves at least to
the next double, and there are at most `gridIndex bound - gridIndex start + 1`
doubles from `start` to below `bound`, at most `2 ^ 2098 - gridIndex start` from
`start` to the largest double (`forRange_fuel` below proves that this fuel is
enough on doubles); with an exact sum it moves by `step`. -/
def loopFuel (start bound step : JSNum) : Nat :=
  match start, bound, step with
  | .fin a, .fin b, .fin s =>
    (gridIndex b - gridIndex a).toNat + (if 0 < s then (⌈(b - a) / s⌉).toNat else 0) + 3
  | .fin a, .posInf, _ => ((1 <<< 2098 : Nat) - gridIndex a).toNat + 3
  | _, _, _ => 3

/-- The values the variable of `for (v = start; v < bound; v += step)` takes in
the iterations of a loop that ends, `none` for a loop that never ends. -/
def forRange (start bound step : JSNum) : Option (List JSNum) :=
  loopValues (loopFuel start bound step) start bound step

/-- The loop `for (v = start; v < bound; v += step) body(v)`. -/
def forLoop (start bound step : JSNum) (body : JSNum → Draw) : Draw :=
  match forRange start bound step with
  | some vs => Draw.forEach vs body
  | none => (body start).seq Draw.hang

/-- The assignment `ctx.fillStyle = v`: the value is converted to a string, which
throws where ToString does. -/
def setFillStyle (v : JSVal) : Draw :=
  if v.throwsOnConvert then Draw.throw .typeError else Draw.emit [.fillStyle v]

/-- The call `ctx.fillText(v, x, y)`: the text is converted to a string, which
throws where ToString does. -/
def fillTextOf (v : JSVal) (x y : JSNum) : Draw :=
  if v.throwsOnConvert then Draw.throw .typeError else Draw.emit [.fillText (.value v) x y]

/-- The call `ctx.arc(x, y, radius, startAngle, endAngle)`: with finite
arguments a negative radius throws an `IndexSizeError`. -/
def arcOf (x y radius startAngle endAngle : JSNum) : Draw :=
  if x.isFinite && y.isFinite && radius.isFinite && startAngle.isFinite && endAngle.isFinite
      && radius.lt (.fin 0) then
    Draw.throw .indexSizeError
  else Draw.emit [.arc x y radius startAngle endAngle]

/-- The simple lower-case mappings of the Unicode character database (version
14.0), in runs `(first, last, stride, delta)`: a code point `c` with
`first <= c <= last` and `c - first` a multiple of `stride` is mapped to
`c + delta`; every other code point is mapped to itself. -/
def lowerRuns : List (Nat × Nat × Nat × Int) :=
  [(65, 90, 1, 32), (192, 214, 1, 32), (216, 222, 1, 32), (256, 302, 2, 1), (306, 310, 2, 1),
   (313, 327, 2, 1), (330, 374, 2, 1), (376, 376, 1, -121), (377, 381, 2, 1), (385, 385, 1, 210),
   (386, 388, 2, 1), (390, 390, 1, 206), (391, 391, 1, 1), (393, 394, 1, 205), (395, 395, 1, 1),
   (398, 398, 1, 79), (399, 399, 1, 202), (400, 400, 1, 203), (401, 401, 1, 1), (403, 403, 1, 205),
   (404, 404, 1, 207), (406, 406, 1, 211), (407, 407, 1, 209), (408, 408, 1, 1),
   (412, 412, 1, 211), (413, 413, 1, 213), (415, 415, 1, 214), (416, 420, 2, 1),
   (422, 422, 1, 218), (423, 423, 1, 1), (425, 425, 1, 218), (428, 428, 1, 1), (430, 430, 1, 218),
   (431, 431, 1, 1), (433, 434, 1, 217), (435, 437, 2, 1), (439, 439, 1, 219), (440, 440, 1, 1),
   (444, 444, 1, 1), (452, 452, 1, 2), (453, 453, 1, 1), (455, 455, 1, 2), (456, 456, 1, 1),
   (458, 458, 1, 2), (459, 475, 2, 1), (478, 494, 2, 1), (497, 497, 1, 2), (498, 500, 2, 1),
   (502, 502, 1, -97), (503, 503, 1, -56), (504, 542, 2, 1), (544, 544, 1, -130), (546, 562, 2, 1),
   (570, 570, 1, 10795), (571, 571, 1, 1), (573, 573, 1, -163), (574, 574, 1, 10792),
   (577, 577, 1, 1), (579, 579, 1, -195), (580, 580, 1, 69), (581, 581, 1, 71), (582, 590, 2, 1),
   (880, 882, 2, 1), (886, 886, 1, 1), (895, 895, 1, 116), (902, 902, 1, 38), (904, 906, 1, 37),
   (908, 908, 1, 64), (910, 911, 1, 63), (913, 929, 1, 32), (931, 939, 1, 32), (975, 975, 1, 8),
   (984, 1006, 2, 1), (1012, 1012, 1, -60), (1015, 1015, 1, 1), (1017, 1017, 1, -7),
   (1018, 1018, 1, 1), (1021, 1023, 1, -130), (1024, 1039, 1, 80), (1040, 1071, 1, 32),
   (1120, 1152, 2, 1), (1162, 1214, 2, 1), (1216, 1216, 1, 15), (1217, 1229, 2, 1),
   (1232, 1326, 2, 1), (1329, 1366, 1, 48), (4256, 4293, 1, 7264), (4295, 4295, 1, 7264),
   (4301, 4301, 1, 7264), (5024, 5103, 1, 38864), (5104, 5109, 1, 8), (7312, 7354, 1, -3008),
   (7357, 7359, 1, -3008), (7680, 7828, 2, 1), (7838, 7838, 1, -7615), (7840, 7934, 2, 1),
   (7944, 7951, 1, -8), (7960, 7965, 1, -8), (7976, 7983, 1, -8), (7992, 7999, 1, -8),
   (8008, 8013, 1, -8), (8025, 8031, 2, -8), (8040, 8047, 1, -8), (8072, 8079, 1, -8),
   (8088, 8095, 1, -8), (8104, 8111, 1, -8), (8120, 8121, 1, -8), (8122, 8123, 1, -74),
   (8124, 8124, 1, -9), (8136, 8139, 1, -86), (8140, 8140, 1, -9), (8152, 8153, 1, -8),
   (8154, 8155, 1, -100), (8168, 8169, 1, -8), (8170, 8171, 1, -112), (8172, 8172, 1, -7),
   (8184, 8185, 1, -128), (8186, 8187, 1, -126), (8188, 8188, 1, -9), (8486, 8486, 1, -7517),
   (8490, 8490, 1, -8383), (8491, 8491, 1, -8262), (8498, 8498, 1, 28), (8544, 8559, 1, 16),
   (8579, 8579, 1, 1), (9398, 9423, 1, 26), (11264, 11311, 1, 48), (11360, 11360, 1, 1),
   (11362, 11362, 1, -10743), (11363, 11363, 1, -3814), (11364, 11364, 1, -10727),
   (11367, 11371, 2, 1), (11373, 11373, 1, -10780), (11374, 11374, 1, -10749),
   (11375, 11375, 1, -10783), (11376, 11376, 1, -10782), (11378, 11378, 1, 1),
   (11381, 11381, 1, 1), (11390, 11391, 1, -10815), (11392, 11490, 2, 1), (11499, 11501, 2, 1),
   (11506, 11506, 1, 1), (42560, 42604, 2, 1), (42624, 42650, 2, 1), (42786, 42798, 2, 1),
   (42802, 42862, 2, 1), (42873, 42875, 2, 1), (42877, 42877, 1, -35332), (42878, 42886, 2, 1),
   (42891, 42891, 1, 1), (42893, 42893, 1, -42280), (42896, 42898, 2, 1), (42902, 42920, 2, 1),
   (42922, 42922, 1, -42308), (42923, 42923, 1, -42319), (42924, 42924, 1, -42315),
   (42925, 42925, 1, -42305), (42926, 42926, 1, -42308), (42928, 42928, 1, -42258),
   (42929, 42929, 1, -42282), (42930, 42930, 1, -42261), (42931, 42931, 1, 928),
   (42932, 42946, 2, 1), (42948, 42948, 1, -48), (42949, 42949, 1, -42307),
   (42950, 42950, 1, -35384), (42951, 42953, 2, 1), (42960, 42960, 1, 1), (42966, 42968, 2, 1),
   (42997, 42997, 1, 1), (65313, 65338, 1, 32), (66560, 66599, 1, 40), (66736, 66771, 1, 40),
   (66928, 66938, 1, 39), (66940, 66954, 1, 39), (66956, 66962, 1, 39), (66964, 66965, 1, 39),
   (68736, 68786, 1, 64), (71840, 71871, 1, 32), (93760, 93791, 1, 32), (125184, 125217, 1, 34)]

/-- The code points with the property `Case_Ignorable`, in ranges
`(first, last)`. -/
def caseIgnorableRanges : List (Nat × Nat) :=
  [(39, 39), (46, 46), (58, 58), (94, 94), (96, 96), (168, 168), (173, 173), (175, 175),
   (180, 180), (183, 184), (688, 879), (884, 885), (890, 890), (900, 901), (903, 903),
   (1155, 1161), (1369, 1369), (1375, 1375), (1425, 1469), (1471, 1471), (1473, 1474),
   (1476, 1477), (1479, 1479), (1524, 1524), (1536, 1541), (1552, 1562), (1564, 1564),
   (1600, 1600), (1611, 1631), (1648, 1648), (1750, 1757), (1759, 1768), (1770, 1773),
   (1807, 1807), (1809, 1809), (1840, 1866), (1958, 1968), (2027, 2037), (2042, 2042),
   (2045, 2045), (2070, 2093), (2137, 2139), (2184, 2184), (2192, 2193), (2200, 2207),
   (2249, 2306), (2362, 2362), (2364, 2364), (2369, 2376), (2381, 2381), (2385, 2391),
   (2402, 2403), (2417, 2417), (2433, 2433), (2492, 2492), (2497, 2500), (2509, 2509),
   (2530, 2531), (2558, 2558), (2561, 2562), (2620, 2620), (2625, 2626), (2631, 2632),
   (2635, 2637), (2641, 2641), (2672, 2673), (2677, 2677), (2689, 2690), (2748, 2748),
   (2753, 2757), (2759, 2760), (2765, 2765), (2786, 2787), (2810, 2815), (2817, 2817),
   (2876, 2876), (2879, 2879), (2881, 2884), (2893, 2893), (2901, 2902), (2914, 2915),
   (2946, 2946), (3008, 3008), (3021, 3021), (3072, 3072), (3076, 3076), (3132, 3132),
   (3134, 3136), (3142, 3144), (3146, 3149), (3157, 3158), (3170, 3171), (3201, 3201),
   (3260, 3260), (3263, 3263), (3270, 3270), (3276, 3277), (3298, 3299), (3328, 3329),
   (3387, 3388), (3393, 3396), (3405, 3405), (3426, 3427), (3457, 3457), (3530, 3530),
   (3538, 3540), (3542, 3542), (3633, 3633), (3636, 3642), (3654, 3662), (3761, 3761),
   (3764, 3772), (3782, 3782), (3784, 3789), (3864, 3865), (3893, 3893), (3895, 3895),
   (3897, 3897), (3953, 3966), (3968, 3972), (3974, 3975), (3981, 3991), (3993, 4028),
   (4038, 4038), (4141, 4144), (4146, 4151), (4153, 4154), (4157, 4158), (4184, 4185),
   (4190, 4192), (4209, 4212), (4226, 4226), (4229, 4230), (4237, 4237), (4253, 4253),
   (4348, 4348), (4957, 4959), (5906, 5908), (5938, 5939), (5970, 5971), (6002, 6003),
   (6068, 6069), (6071, 6077), (6086, 6086), (6089, 6099), (6103, 6103), (6109, 6109),
   (6155, 6159), (6211, 6211), (6277, 6278), (6313, 6313), (6432, 6434), (6439, 6440),
   (6450, 6450), (6457, 6459), (6679, 6680), (6683, 6683), (6742, 6742), (6744, 6750),
   (6752, 6752), (6754, 6754), (6757, 6764), (6771, 6780), (6783, 6783), (6823, 6823),
   (6832, 6862), (6912, 6915), (6964, 6964), (6966, 6970), (6972, 6972), (6978, 6978),
   (7019, 7027), (7040, 7041), (7074, 7077), (7080, 7081), (7083, 7085), (7142, 7142),
   (7144, 7145), (7149, 7149), (7151, 7153), (7212, 7219), (7222, 7223), (7288, 7293),
   (7376, 7378), (7380, 7392), (7394, 7400), (7405, 7405), (7412, 7412), (7416, 7417),
   (7468, 7530), (7544, 7544), (7579, 7679), (8125, 8125), (8127, 8129), (8141, 8143),
   (8157, 8159), (8173, 8175), (8189, 8190), (8203, 8207), (8216, 8217), (8228, 8228),
   (8231, 8231), (8234, 8238), (8288, 8292), (8294, 8303), (8305, 8305), (8319, 8319),
   (8336, 8348), (8400, 8432), (11388, 11389), (11503, 11505), (11631, 11631), (11647, 11647),
   (11744, 11775), (11823, 11823), (12293, 12293), (12330, 12333), (12337, 12341), (12347, 12347),
   (12441, 12446), (12540, 12542), (40981, 40981), (42232, 42237), (42508, 42508), (42607, 42610),
   (42612, 42621), (42623, 42623), (42652, 42655), (42736, 42737), (42752, 42785), (42864, 42864),
   (42888, 42890), (42994, 42996), (43000, 43001), (43010, 43010), (43014, 43014), (43019, 43019),
   (43045, 43046), (43052, 43052), (43204, 43205), (43232, 43249), (43263, 43263), (43302, 43309),
   (43335, 43345), (43392, 43394), (43443, 43443), (43446, 43449), (43452, 43453), (43471, 43471),
   (43493, 43494), (43561, 43566), (43569, 43570), (43573, 43574), (43587, 43587), (43596, 43596),
   (43632, 43632), (43644, 43644), (43696, 43696), (43698, 43700), (43703, 43704), (43710, 43711),
   (43713, 43713), (43741, 43741), (43756, 43757), (43763, 43764), (43766, 43766), (43867, 43871),
   (43881, 43883), (44005, 44005), (44008, 44008), (44013, 44013), (64286, 64286), (64434, 64450),
   (65024, 65039), (65043, 65043), (65056, 65071), (65106, 65106), (65109, 65109), (65279, 65279),
   (65287, 65287), (65294, 65294), (65306, 65306), (65342, 65342), (65344, 65344), (65392, 65392),
   (65438, 65439), (65507, 65507), (65529, 65531), (66045, 66045), (66272, 66272), (66422, 66426),
   (67456, 67461), (67463, 67504), (67506, 67514), (68097, 68099), (68101, 68102), (68108, 68111),
   (68152, 68154), (68159, 68159), (68325, 68326), (68900, 68903), (69291, 69292), (69446, 69456),
   (69506, 69509), (69633, 69633), (69688, 69702), (69744, 69744), (69747, 69748), (69759, 69761),
   (69811, 69814), (69817, 69818), (69821, 69821), (69826, 69826), (69837, 69837), (69888, 69890),
   (69927, 69931), (69933, 69940), (70003, 70003), (70016, 70017), (70070, 70078), (70089, 70092),
   (70095, 70095), (70191, 70193), (70196, 70196), (70198, 70199), (70206, 70206), (70367, 70367),
   (70371, 70378), (70400, 70401), (70459, 70460), (70464, 70464), (70502, 70508), (70512, 70516),
   (70712, 70719), (70722, 70724), (70726, 70726), (70750, 70750), (70835, 70840), (70842, 70842),
   (70847, 70848), (70850, 70851), (71090, 71093), (71100, 71101), (71103, 71104), (71132, 71133),
   (71219, 71226), (71229, 71229), (71231, 71232), (71339, 71339), (71341, 71341), (71344, 71349),
   (71351, 71351), (71453, 71455), (71458, 71461), (71463, 71467), (71727, 71735), (71737, 71738),
   (71995, 71996), (71998, 71998), (72003, 72003), (72148, 72151), (72154, 72155), (72160, 72160),
   (72193, 72202), (72243, 72248), (72251, 72254), (72263, 72263), (72273, 72278), (72281, 72283),
   (72330, 72342), (72344, 72345), (72752, 72758), (72760, 72765), (72767, 72767), (72850, 72871),
   (72874, 72880), (72882, 72883), (72885, 72886), (73009, 73014), (73018, 73018), (73020, 73021),
   (73023, 73029), (73031, 73031), (73104, 73105), (73109, 73109), (73111, 73111), (73459, 73460),
   (78896, 78904), (92912, 92916), (92976, 92982), (92992, 92995), (94031, 94031), (94095, 94111),
   (94176, 94177), (94179, 94180), (110576, 110579), (110581, 110587), (110589, 110590),
   (113821, 113822), (113824, 113827), (118528, 118573), (118576, 118598), (119143, 119145),
   (119155, 119170), (119173, 119179), (119210, 119213), (119362, 119364), (121344, 121398),
   (121403, 121452), (121461, 121461), (121476, 121476), (121499, 121503), (121505, 121519),
   (122880, 122886), (122888, 122904), (122907, 122913), (122915, 122916), (122918, 122922),
   (123184, 123197), (123566, 123566), (123628, 123631), (125136, 125142), (125252, 125259),
   (127995, 127999), (917505, 917505), (917536, 917631), (917760, 917999)]

/-- The code points with the property `Cased` that are not `Case_Ignorable`, in
ranges `(first, last)`. -/
def casedRanges : List (Nat × Nat) :=
  [(65, 90), (97, 122), (170, 170), (181, 181), (186, 186), (192, 214), (216, 246), (248, 442),
   (444, 447), (452, 659), (661, 687), (880, 883), (886, 887), (891, 893), (895, 895), (902, 902),
   (904, 906), (908, 908), (910, 929), (931, 1013), (1015, 1153), (1162, 1327), (1329, 1366),
   (1376, 1416), (4256, 4293), (4295, 4295), (4301, 4301), (4304, 4346), (4349, 4351),
   (5024, 5109), (5112, 5117), (7296, 7304), (7312, 7354), (7357, 7359), (7424, 7467),
   (7531, 7543), (7545, 7578), (7680, 7957), (7960, 7965), (7968, 8005), (8008, 8013),
   (8016, 8023), (8025, 8025), (8027, 8027), (8029, 8029), (8031, 8061), (8064, 8116),
   (8118, 8124), (8126, 8126), (8130, 8132), (8134, 8140), (8144, 8147), (8150, 8155),
   (8160, 8172), (8178, 8180), (8182, 8188), (8450, 8450), (8455, 8455), (8458, 8467),
   (8469, 8469), (8473, 8477), (8484, 8484), (8486, 8486), (8488, 8488), (8490, 8493),
   (8495, 8500), (8505, 8505), (8508, 8511), (8517, 8521), (8526, 8526), (8544, 8575),
   (8579, 8580), (9398, 9449), (11264, 11387), (11390, 11492), (11499, 11502), (11506, 11507),
   (11520, 11557), (11559, 11559), (11565, 11565), (42560, 42605), (42624, 42651), (42786, 42863),
   (42865, 42887), (42891, 42894), (42896, 42954), (42960, 42961), (42963, 42963), (42965, 42969),
   (42997, 42998), (43002, 43002), (43824, 43866), (43872, 43880), (43888, 43967), (64256, 64262),
   (64275, 64279), (65313, 65338), (65345, 65370), (66560, 66639), (66736, 66771), (66776, 66811),
   (66928, 66938), (66940, 66954), (66956, 66962), (66964, 66965), (66967, 66977), (66979, 66993),
   (66995, 67001), (67003, 67004), (68736, 68786), (68800, 68850), (71840, 71903), (93760, 93823),
   (119808, 119892), (119894, 119964), (119966, 119967), (119970, 119970), (119973, 119974),
   (119977, 119980), (119982, 119993), (119995, 119995), (119997, 120003), (120005, 120069),
   (120071, 120074), (120077, 120084), (120086, 120092), (120094, 120121), (120123, 120126),
   (120128, 120132), (120134, 120134), (120138, 120144), (120146, 120485), (120488, 120512),
   (120514, 120538), (120540, 120570), (120572, 120596), (120598, 120628), (120630, 120654),
   (120656, 120686), (120688, 120712), (120714, 120744), (120746, 120770), (120772, 120779),
   (122624, 122633), (122635, 122654), (125184, 125251), (127280, 127305), (127312, 127337),
   (127344, 127369)]

/-- Whether `n` lies in one of the ranges. -/
def inRanges (ranges : List (Nat × Nat)) (n : Nat) : Bool :=
  ranges.any (fun r => decide (r.1 ≤ n) && decide (n ≤ r.2))

/-- The simple lower-case mapping of a code point. -/
def lowerCode (n : Nat) : Nat :=
  match lowerRuns.find?
      (fun r => decide (r.1 ≤ n) && decide (n ≤ r.2.1) && (n - r.1) % r.2.2.1 == 0) with
  | some r => ((n : Int) + r.2.2.2).toNat
  | none => n

/-- Whether a character is case-ignorable. -/
def caseIgnorable (c : Char) : Bool := inRanges caseIgnorableRanges c.toNat

/-- Whether a character that is not case-ignorable is cased. -/
def cased (c : Char) : Bool := inRanges casedRanges c.toNat

/-- The condition `Final_Sigma` of the Unicode special casing for a capital sigma
with the characters `before` in front of it (the nearest first) and `after`
behind it: going backwards over case-ignorable characters a cased letter is
found, and going forwards over case-ignorable characters none is. -/
def finalSigma (before after : List Char) : Bool :=
  (match before.dropWhile caseIgnorable with
    | c :: _ => cased c
    | [] => false) &&
  (match after.dropWhile caseIgnorable with
    | c :: _ => !cased c
    | [] => true)

/-- The lower-case form of one character of a string: an ASCII capital becomes
the small letter; a capital sigma (U+03A3) becomes the final small sigma (U+03C2)
under `Final_Sigma` and the small sigma (U+03C3) otherwise; the capital I with
dot above (U+0130) becomes `i` followed by a combining dot above (U+0307); every
other character takes its simple mapping. -/
def lowerChar (before after : List Char) (c : Char) : List Char :=
  if c.toNat < 128 then [c.toLower]
  else if c.toNat = 0x3A3 then
    [if finalSigma before after then Char.ofNat 0x3C2 else Char.ofNat 0x3C3]
  else if c.toNat = 0x130 then [Char.ofNat 0x69, Char.ofNat 0x307]
  else [Char.ofNat (lowerCode c.toNat)]

/-- The lower-case form of the characters `rest` that follow the characters
`before` (the nearest first). -/
def lowerFrom : List Char → List Char → List Char
  | _, [] => []
  | before, c :: rest => lowerChar before rest c ++ lowerFrom (c :: before) rest

/-- The method `toLowerCase`: the locale-independent lower-casing of the Unicode
standard that ECMAScript prescribes. -/
def toLowerCase (s : String) : List Char := lowerFrom [] s.toList

/-- The expression `v?.toLowerCase() || ''`: a value that is neither a string
nor `null` or `undefined` has no method `toLowerCase`, and the call throws. -/
def lowerOrEmpty (v : JSVal) : Except RenderError (List Char) :=
  match v with
  | .undefined => .ok []
  | .null => .ok []
  | .str s => .ok (toLowerCase s)
  | _ => .error .typeError

/-- Whether `s` starts with `t`. -/
def startsWithChars : List Char → List Char → Bool
  | _, [] => true
  | [], _ :: _ => false
  | c :: s, d :: t => c == d && startsWithChars s t

/-- The method `s.includes(t)`. -/
def includes : List Char → String → Bool
  | [], t => t.toList.isEmpty
  | c :: s, t => startsWithChars (c :: s) t.toList || includes s t

/-- The flags `isHallway` ... `isBedroom` of `drawRooms`. -/
structure RoomFlags where
  isHallway : Bool
  isBalcony : Bool
  isPool : Bool
  isGarden : Bool
  isDeck : Bool
  isKitchen : Bool
  isBathroom : Bool
  isBedroom : Bool
  deriving DecidableEq, Repr

/-- The detection of the room type in `drawRooms`. -/
def roomFlags (roomType roomName : List Char) : RoomFlags :=
  { isHallway := includes roomType "hallway" || includes roomType "foyer" ||
      includes roomType "corridor"
    isBalcony := includes roomType "balcony" || includes roomType "terrace"
    isPool := includes roomType "pool" || includes roomType "swimming" ||
      includes roomName "pool"
    isGarden := includes roomType "garden" || includes roomType "outdoor" ||
      includes roomName "garden"
    isDeck := includes roomType "deck" || includes roomType "patio" || includes roomName "deck"
    isKitchen := includes roomType "kitchen" || includes roomName "kitchen"
    isBathroom := includes roomType "bathroom" || includes roomType "bath" ||
      includes roomName "bath"
    isBedroom := includes roomType "bedroom" || includes roomType "bed" ||
      includes roomName "bedroom" }

/-- The variables `roomColor`, `strokeColor`, `strokeWidth` and `isSpecialSpace`
of `drawRooms`. -/
structure RoomStyle where
  roomColor : JSVal
  strokeColor : String
  strokeWidth : JSNum
  isSpecialSpace : Bool

/-- The colour chain of `drawRooms`. -/
def roomStyle (flags : RoomFlags) (color : JSVal) : RoomStyle :=
  if flags.isHallway then
    { roomColor := .str "#f8f8f8", strokeColor := "#888888", strokeWidth := .fin (3 / 10),
      isSpecialSpace := false }
  else if flags.isBalcony || flags.isDeck then
    { roomColor := .str "#e8f5e8", strokeColor := "#4CAF50", strokeWidth := .fin (8 / 10),
      isSpecialSpace := true }
  else if flags.isPool then
    { roomColor := .str "#e3f2fd", strokeColor := "#2196F3", strokeWidth := .fin 1,
      isSpecialSpace := true }
  else if flags.isGarden then
    { roomColor := .str "#f1f8e9", strokeColor := "#8BC34A", strokeWidth := .fin (8 / 10),
      isSpecialSpace := true }
  else if flags.isKitchen then
    { roomColor := .str "#fff3e0", strokeColor := "#888888", strokeWidth := .fin (3 / 10),
      isSpecialSpace := false }
  else if flags.isBathroom then
    { roomColor := .str "#f3e5f5", strokeColor := "#888888", strokeWidth := .fin (3 / 10),
      isSpecialSpace := false }
  else if flags.isBedroom then
    { roomColor := .str "#fce4ec", strokeColor := "#888888", strokeWidth := .fin (3 / 10),
      isSpecialSpace := false }
  else
    { roomColor := color, strokeColor := "#888888", strokeWidth := .fin (3 / 10),
      isSpecialSpace := false }

/-- One iteration of the ripple loop of `drawRooms`. -/
def drawRipple (x y width height : JSNum) (i : Nat) : Draw :=
  (Draw.emit [.beginPath]).seq
    ((arcOf (x.add (width.mul ((JSNum.fin (1 / 4)).add ((JSNum.fin i).mul (.fin (1 / 4))))))
      (y.add (height.mul (.fin (1 / 2))))
      ((width.mul (roundDouble (1 / 10))).mul
        ((JSNum.fin 1).add ((JSNum.fin i).mul (roundDouble (3 / 10)))))
      (.fin 0) (mathPI.mul (.fin 2))).seq
    (Draw.emit [.stroke]))

/-- The body of the inner plant loop of `drawRooms`. -/
def drawPlant (plantSize px py : JSNum) : Draw :=
  (Draw.emit [.beginPath]).seq
    ((arcOf px py (plantSize.mul (roundDouble (3 / 10))) (.fin 0) (mathPI.mul (.fin 2))).seq
    (Draw.emit [.fill]))

/-- The pattern chain of `drawRooms`. -/
def roomPattern (flags : RoomFlags) (x y width height : JSNum) : Draw :=
  if flags.isHallway then
    Draw.emit [.fillStyle (.str "rgba(200, 200, 200, 0.3)"), .fillRect x y width height]
  else if flags.isPool then
    (Draw.emit [.fillStyle (.str "rgba(33, 150, 243, 0.2)"), .fillRect x y width height,
      .strokeStyle "#64B5F6", .lineWidth (.fin (2 / 10))]).seq
    (Draw.forEach [0, 1, 2] (drawRipple x y width height))
  else if flags.isGarden then
    (Draw.emit [.fillStyle (.str "rgba(76, 175, 80, 0.2)"), .fillRect x y width height,
      .fillStyle (.str "#4CAF50")]).seq
    (forLoop (x.add ((JSNum.min width height).mul (roundDouble (1 / 10))))
      ((x.add width).sub ((JSNum.min width height).mul (roundDouble (1 / 10))))
      (((JSNum.min width height).mul (roundDouble (1 / 10))).mul (.fin 2))
      (fun px =>
        forLoop (y.add ((JSNum.min width height).mul (roundDouble (1 / 10))))
          ((y.add height).sub ((JSNum.min width height).mul (roundDouble (1 / 10))))
          (((JSNum.min width height).mul (roundDouble (1 / 10))).mul (.fin 2))
          (fun py => drawPlant ((JSNum.min width height).mul (roundDouble (1 / 10))) px py)))
  else Draw.emit []

/-- The body of `rooms.forEach` in `drawRooms`. -/
def drawRoom (room : Room) : Draw :=
  match room.dimensions with
  | none => Draw.emit []
  | some d =>
    match lowerOrEmpty room.type with
    | .error e => Draw.throw e
    | .ok roomType =>
      match lowerOrEmpty room.name with
      | .error e => Draw.throw e
      | .ok roomName =>
        (setFillStyle (roomStyle (roomFlags roomType roomName) room.color).roomColor).seq
        ((Draw.emit [.fillRect d.x d.y d.width d.height]).seq
        ((roomPattern (roomFlags roomType roomName) d.x d.y d.width d.height).seq
        ((Draw.emit [
          .strokeStyle (roomStyle (roomFlags roomType roomName) room.color).strokeColor,
          .lineWidth (roomStyle (roomFlags roomType roomName) room.color).strokeWidth,
          .strokeRect d.x d.y d.width d.height]).seq
        (if (roomStyle (roomFlags roomType roomName) room.color).isSpecialSpace then
          Draw.emit [.setLineDash [.fin 2, .fin 2], .strokeRect d.x d.y d.width d.height,
            .setLineDash []]
        else Draw.emit []))))

/-- The function `drawRooms`. -/
def drawRooms (rooms : List Room) : Draw := Draw.forEach rooms drawRoom

/-- The body of `walls.forEach` in `drawWalls`. -/
def drawWall (wall : Wall) : Draw :=
  match wall.start, wall.end_ with
  | some s, some e => Draw.emit [.beginPath, .moveTo s.x s.y, .lineTo e.x e.y, .stroke]
  | _, _ => Draw.emit []

/-- The function `drawWalls`. -/
def drawWalls (walls : List Wall) : Draw :=
  (Draw.emit [.strokeStyle "#666666", .lineWidth (.fin (1 / 2)), .lineCap "square"]).seq
    (Draw.forEach walls drawWall)

/-- The local variables `minX`, `minY`, `maxX`, `maxY` of `drawHouseOutline`. -/
structure OutlineAcc where
  minX : JSNum
  minY : JSNum
  maxX : JSNum
  maxY : JSNum
  deriving DecidableEq, Repr

/-- The body of `rooms.forEach` in `drawHouseOutline`. -/
def outlineAddRoom (acc : OutlineAcc) (room : Room) : OutlineAcc :=
  match room.dimensions with
  | some d =>
    { minX := JSNum.min acc.minX d.x
      minY := JSNum.min acc.minY d.y
      maxX := JSNum.max acc.maxX (d.x.add d.width)
      maxY := JSNum.max acc.maxY (d.y.add d.height) }
  | none => acc

/-- The function `drawHouseOutline`. -/
def drawHouseOutline (rooms : List Room) : Draw :=
  if rooms.length == 0 then Draw.emit []
  else
    let acc := rooms.foldl outlineAddRoom
      { minX := .posInf, minY := .posInf, maxX := .negInf, maxY := .negInf }
    if acc.minX.strictEq .posInf then Draw.emit []
    else
      let minX := acc.minX.sub (.fin 1)
      let minY := acc.minY.sub (.fin 1)
      let maxX := acc.maxX.add (.fin 1)
      let maxY := acc.maxY.add (.fin 1)
      Draw.emit [.strokeStyle "#444444", .lineWidth (.fin (8 / 10)),
        .strokeRect minX minY (maxX.sub minX) (maxY.sub minY),
        .fillStyle (.str "rgba(0, 0, 0, 0.1)"),
        .fillRect (minX.add (.fin (1 / 2))) (minY.add (.fin (1 / 2))) (maxX.sub minX)
          (maxY.sub minY)]

/-- The expression `(v || 0) * Math.PI / 180`; the product converts its left
operand with ToNumber, which can throw. -/
def toRadians (v : JSVal) : Except RenderError JSNum :=
  match (v.or (.ofRat 0)).toNumber with
  | .ok n => .ok ((n.mul mathPI).div (.fin 180))
  | .error _ => .error .typeError

/-- The body of `doors.forEach` in `drawDoors`. -/
def drawDoor (m : MathFns) (door : Door) : Draw :=
  match door.position with
  | none => Draw.emit []
  | some p =>
    match toRadians door.rotation with
    | .error e => Draw.throw e
    | .ok rotation =>
      (Draw.emit [.save, .translate p.x p.y, .rotate rotation,
        .fillStyle (.str "#ffffff"),
        .fillRect (((door.width.orElse (.fin 3)).neg).div (.fin 2)) (.fin (-(3 / 10)))
          (door.width.orElse (.fin 3)) (.fin (6 / 10)),
        .strokeStyle "#888888", .lineWidth (.fin (1 / 10)), .beginPath]).seq
      ((arcOf ((door.width.orElse (.fin 3)).div (.fin 2)) (.fin 0)
        ((door.width.orElse (.fin 3)).div (.fin 2)) mathPI (mathPI.mul (.fin (3 / 2)))).seq
      (Draw.emit [.stroke, .beginPath,
        .moveTo ((door.width.orElse (.fin 3)).div (.fin 2)) (.fin 0),
        .lineTo
          (((door.width.orElse (.fin 3)).div (.fin 2)).add
            (((door.width.orElse (.fin 3)).div (.fin 2)).mul
              (m.cos (mathPI.mul (.fin (5 / 4))))))
          (((door.width.orElse (.fin 3)).div (.fin 2)).mul (m.sin (mathPI.mul (.fin (5 / 4))))),
        .stroke, .restore]))

/-- The function `drawDoors`. -/
def drawDoors (m : MathFns) (doors : List Door) : Draw := Draw.forEach doors (drawDoor m)

/-- The body of `windows.forEach` in `drawWindows`. -/
def drawWindow (window : Window) : Draw :=
  match window.position with
  | none => Draw.emit []
  | some p =>
    Draw.emit [.beginPath,
      .moveTo (p.x.sub ((window.width.orElse (.fin 4)).div (.fin 2))) p.y,
      .lineTo (p.x.add ((window.width.orElse (.fin 4)).div (.fin 2))) p.y,
      .stroke,
      .strokeStyle "#60a5fa", .lineWidth (.fin (2 / 10)), .beginPath,
      .moveTo (p.x.sub ((window.width.orElse (.fin 4)).div (.fin 2)))
        (p.y.sub (roundDouble (2 / 10))),
      .lineTo (p.x.add ((window.width.orElse (.fin 4)).div (.fin 2)))
        (p.y.sub (roundDouble (2 / 10))),
      .stroke,
      .strokeStyle "#3b82f6", .lineWidth (.fin (6 / 10))]

/-- The function `drawWindows`. -/
def drawWindows (windows : List Window) : Draw :=
  (Draw.emit [.strokeStyle "#3b82f6", .lineWidth (.fin (6 / 10))]).seq
    (Draw.forEach windows drawWindow)

/-- The body of `furniture.forEach` in `drawFurniture`. -/
def drawFurnitureItem (item : Furniture) : Draw :=
  match item.position, item.dimensions with
  | some p, some d =>
    match toRadians item.rotation with
    | .error e => Draw.throw e
    | .ok rotation =>
      (Draw.emit [.save,
        .translate (p.x.add (d.width.div (.fin 2))) (p.y.add (d.height.div (.fin 2))),
        .rotate rotation]).seq
      ((setFillStyle (item.color.or (.str "#6b7280"))).seq
      (Draw.emit [
        .fillRect ((d.width.neg).div (.fin 2)) ((d.height.neg).div (.fin 2)) d.width d.height,
        .strokeStyle "#4b5563", .lineWidth (.fin (2 / 10)),
        .strokeRect ((d.width.neg).div (.fin 2)) ((d.height.neg).div (.fin 2)) d.width d.height,
        .restore]))
  | _, _ => Draw.emit []

/-- The function `drawFurniture`. -/
def drawFurniture (furniture : List Furniture) : Draw :=
  Draw.forEach furniture drawFurnitureItem

/-- The font size of a label:
`Math.max(0.8, Math.min(1.5, Math.min(width, height) / 8))`.  The lower limit is
written as the decimal fraction `0.8`: the double `0.8` is the least double that
is not below it, so that the comparison with a double is the one of the code. -/
def labelFontSize (width height : JSNum) : JSNum :=
  JSNum.max (.fin (8 / 10)) (JSNum.min (.fin (3 / 2)) ((JSNum.min width height).div (.fin 8)))

/-- The test `room.type && room.type !== room.name.toLowerCase()` of
`drawRoomLabels`, for a truthy name: a name that is no string has no method
`toLowerCase`; the method is not called when the type is falsy. -/
def typeTagShown (type name : JSVal) : Except RenderError Bool :=
  if !type.truthy then .ok false
  else
    match name with
    | .str n =>
      match type with
      | .str t => .ok (!(t.toList == toLowerCase n))
      | _ => .ok true
    | _ => .error .typeError

/-- The body of `rooms.forEach` in `drawRoomLabels`. -/
def drawRoomLabel (room : Room) : Draw :=
  match room.dimensions with
  | none => Draw.emit []
  | some d =>
    if !room.name.truthy then Draw.emit []
    else
      (Draw.emit [.font (labelFontSize d.width d.height)]).seq
      ((fillTextOf room.name (d.x.add (d.width.div (.fin 2)))
        ((d.y.add (d.height.div (.fin 2))).sub
          ((labelFontSize d.width d.height).div (.fin 2)))).seq
      (match typeTagShown room.type room.name with
        | .error e => Draw.throw e
        | .ok false => Draw.emit []
        | .ok true =>
          (Draw.emit [.font ((labelFontSize d.width d.height).mul (roundDouble (7 / 10))),
            .fillStyle (.str "#6b7280")]).seq
          ((fillTextOf room.type (d.x.add (d.width.div (.fin 2)))
            ((d.y.add (d.height.div (.fin 2))).add
              ((labelFontSize d.width d.height).div (.fin 2)))).seq
          (Draw.emit [.fillStyle (.str "#374151")]))))

/-- The function `drawRoomLabels`. -/
def drawRoomLabels (rooms : List Room) : Draw :=
  (Draw.emit [.fillStyle (.str "#374151"), .textAlign "center", .textBaseline "middle"]).seq
    (Draw.forEach rooms drawRoomLabel)

/-- The size of a canvas; the canvas keeps its width and height as non-negative
integers. -/
structure Size where
  width : Nat
  height : Nat
  deriving DecidableEq, Repr

/-- The scale of the render effect:
`Math.min((canvas.width - padding * 2) / bounds.width,
(canvas.height - padding * 2) / bounds.height)` with `padding = 50`. -/
def renderScale (bounds : Bounds) (canvas : Size) : JSNum :=
  JSNum.min
    (((JSNum.fin canvas.width).sub ((JSNum.fin 50).mul (.fin 2))).div bounds.width)
    (((JSNum.fin canvas.height).sub ((JSNum.fin 50).mul (.fin 2))).div bounds.height)

/-- The offset `(canvas.width - bounds.width * scale) / 2 - bounds.minX * scale`
of the render effect. -/
def renderOffsetX (bounds : Bounds) (canvas : Size) (scale : JSNum) : JSNum :=
  (((JSNum.fin canvas.width).sub (bounds.width.mul scale)).div (.fin 2)).sub
    (bounds.minX.mul scale)

/-- The offset `(canvas.height - bounds.height * scale) / 2 - bounds.minY * scale`
of the render effect. -/
def renderOffsetY (bounds : Bounds) (canvas : Size) (scale : JSNum) : JSNum :=
  (((JSNum.fin canvas.height).sub (bounds.height.mul scale)).div (.fin 2)).sub
    (bounds.minY.mul scale)

/-- The seven drawing stages of the render effect, in the order of the code. -/
def renderStages (m : MathFns) (floorPlan : FloorPlan) : Draw :=
  (drawRooms floorPlan.rooms).seq
  ((drawWalls floorPlan.walls).seq
  ((drawHouseOutline floorPlan.rooms).seq
  ((drawDoors m floorPlan.doors).seq
  ((drawWindows floorPlan.windows).seq
  ((drawFurniture floorPlan.furniture).seq
  (drawRoomLabels floorPlan.rooms))))))

/-- The `try` block of the render effect. -/
def renderTry (m : MathFns) (floorPlan : FloorPlan) (scale : JSNum) : Draw :=
  if !scale.isFinite || scale.le (.fin 0) then Draw.throw (.invalidScale scale)
  else renderStages m floorPlan

/-- The calls of the render effect before its `try` block: the canvas is
cleared at its previous size, takes the size `dimensions`, and the transform is
set. -/
def renderPrelude (floorPlan : FloorPlan) (canvas dimensions : Size) : List CanvasCall :=
  [.clearRect (.fin 0) (.fin 0) (.fin canvas.width) (.fin canvas.height),
   .setWidth dimensions.width, .setHeight dimensions.height,
   .save,
   .translate
     (renderOffsetX floorPlan.bounds dimensions (renderScale floorPlan.bounds dimensions))
     (renderOffsetY floorPlan.bounds dimensions (renderScale floorPlan.bounds dimensions)),
   .scale (renderScale floorPlan.bounds dimensions) (renderScale floorPlan.bounds dimensions)]

/-- The calls of the `catch` block of the render effect. -/
def renderDiagnostic (e : RenderError) (dimensions : Size) : List CanvasCall :=
  [.restore, .fillStyle (.str "#666"), .font (.fin 16), .textAlign "center",
   .fillText (.value (.str "Error rendering floor plan"))
     ((JSNum.fin dimensions.width).div (.fin 2)) ((JSNum.fin dimensions.height).div (.fin 2)),
   .fillText (.errorMessage e)
     ((JSNum.fin dimensions.width).div (.fin 2))
     (((JSNum.fin dimensions.height).div (.fin 2)).add (.fin 20))]

/-- The render effect of `FloorPlanViewerV2`: `floorPlan` is the model (or
`none`), `canvas` the size the canvas has when the effect starts (`none` when
there is no canvas yet) and `dimensions` the size it is given. -/
def renderEffect (m : MathFns) (floorPlan : Option FloorPlan) (canvas : Option Size)
    (dimensions : Size) : Draw :=
  match floorPlan, canvas with
  | some fp, some cv =>
    match (renderTry m fp (renderScale fp.bounds dimensions)).outcome with
    | .returned =>
      { calls := renderPrelude fp cv dimensions ++
          (renderTry m fp (renderScale fp.bounds dimensions)).calls ++ [.restore]
        outcome := .returned }
    | .threw e =>
      { calls := renderPrelude fp cv dimensions ++
          (renderTry m fp (renderScale fp.bounds dimensions)).calls ++
          renderDiagnostic e dimensions
        outcome := .returned }
    | .hangs =>
      { calls := renderPrelude fp cv dimensions ++
          (renderTry m fp (renderScale fp.bounds dimensions)).calls
        outcome := .hangs }
  | _, _ => Draw.emit []

/-! ## The guards of the view (`Components/FloorPlanViewerV2.jsx`) -/

/-- What the component returns: one of the two placeholders, or the canvas. -/
inductive View where
  | noData
  | incompleteData
  | canvas
  deriving DecidableEq, Repr

/-- The expression `v?.length`. -/
def JSVal.optLength (v : JSVal) : Except JSError JSVal :=
  match v with
  | .undefined => .ok .undefined
  | .null => .ok .undefined
  | _ => v.getLength

/-- The guards before the `return` of the canvas: `!floorPlan` gives the
placeholder "No floor plan data available"; otherwise
`hasRooms = floorPlan.rooms?.length > 0` and
`hasWalls = floorPlan.walls?.length > 0` are computed and `!hasRooms && !hasWalls`
gives the placeholder "Floor plan data is incomplete". -/
def viewGuard (floorPlan : JSVal) : Except JSError View :=
  if !floorPlan.truthy then pure .noData
  else do
    let hasRooms ← (← (← floorPlan.getProp "rooms").optLength).greaterThanZero
    let hasWalls ← (← (← floorPlan.getProp "walls").optLength).greaterThanZero
    if !hasRooms && !hasWalls then pure .incompleteData else pure .canvas

/-! ## The layout packer (`Components/FloorPlanViewer.jsx`) -/

/-- The local variables `adjusted`, `currentX`, `currentY` and `maxRowHeight` of
`adjustOverlappingRooms`. -/
structure PackAcc where
  adjusted : List Room
  currentX : JSNum
  currentY : JSNum
  maxRowHeight : JSNum

/-- The test `currentX > 0 && currentX + width > maxWidth` of
`adjustOverlappingRooms`, with `maxWidth = 30`. -/
def packWraps (acc : PackAcc) (width : JSNum) : Bool :=
  acc.currentX.gt (.fin 0) && (acc.currentX.add width).gt (.fin 30)

/-- The body of `rooms.forEach` in `adjustOverlappingRooms`, with `margin = 2`. -/
def packRoom (acc : PackAcc) (room : Room) : PackAcc :=
  match room.dimensions with
  | none => acc
  | some d =>
    let currentX := if packWraps acc d.width then .fin 0 else acc.currentX
    let currentY :=
      if packWraps acc d.width then acc.currentY.add (acc.maxRowHeight.add (.fin 2))
      else acc.currentY
    let maxRowHeight := if packWraps acc d.width then .fin 0 else acc.maxRowHeight
    { adjusted := acc.adjusted ++
        [{ room with dimensions := some { d with x := currentX, y := currentY } }]
      currentX := currentX.add (d.width.add (.fin 2))
      currentY := currentY
      maxRowHeight := JSNum.max maxRowHeight d.height }

/-- The initial values of the local variables of `adjustOverlappingRooms`. -/
def packInit : PackAcc :=
  { adjusted := [], currentX := .fin 0, currentY := .fin 0, maxRowHeight := .fin 0 }

/-- The function `adjustOverlappingRooms`. -/
def adjustOverlappingRooms (rooms : List Room) : List Room :=
  if rooms.length == 0 then []
  else (rooms.foldl packRoom packInit).adjusted

/-! ## Definitions used to state the properties -/

namespace JSVal
mutual
/-- Whether some object inside a value has an own property named `toString`. -/
def hasOwnToString : JSVal → Bool
  | obj fields => hasKey "toString" fields || hasOwnToStringFields fields
  | arr elems => hasOwnToStringElems elems
  | _ => false
/-- Whether some element of a list has such an object inside. -/
def hasOwnToStringElems : List JSVal → Bool
  | [] => false
  | v :: rest => hasOwnToString v || hasOwnToStringElems rest
/-- Whether some property value of a property list has such an object inside. -/
def hasOwnToStringFields : List (String × JSVal) → Bool
  | [] => false
  | (_, v) :: rest => hasOwnToString v || hasOwnToStringFields rest
end
end JSVal

/-- The value `floorPlan.<k> || []` that the processor hands to the pass for
the array `k`. -/
def sectionField (apiResponse : JSVal) (k : String) : JSVal :=
  ((floorPlanSection apiResponse).optChain k).or (.arr [])

/-- The entries the pass for the array `k` iterates over: the elements of
`floorPlan.<k> || []` when it is an array, none otherwise. -/
def sectionEntries (apiResponse : JSVal) (k : String) : List JSVal :=
  ((sectionField apiResponse k).asArray).getD []

/-- Whether a value is `null` or `undefined`. -/
def JSVal.isNullish : JSVal → Bool
  | .undefined => true
  | .null => true
  | _ => false

/-- Whether no entry of the five arrays of the floor-plan section is `null` or
`undefined`. -/
def noNullishEntries (apiResponse : JSVal) : Bool :=
  ["rooms", "walls", "doors", "windows", "furniture"].all
    (fun k => (sectionEntries apiResponse k).all (fun x => !x.isNullish))

/-- What `validateDimensions(room.dimensions)` yields for a raw room: the
validated rectangle, `none` when it is rejected. -/
def rawRoomDimensions (room : JSVal) : Option Dimensions :=
  match validateDimensions (room.optChain "dimensions") with
  | .ok (some d) => some d
  | _ => none

/-- Whether a raw `dimensions` value is missing (falsy or no object), has a
field that does not read as a finite number, or has a width or a height that is
not positive. -/
def dimensionsRejected (dimensions : JSVal) : Bool :=
  !dimensions.truthy || !dimensions.typeofObject ||
  !(dimensions.optChain "x").parseFloatOf.isFinite ||
  !(dimensions.optChain "y").parseFloatOf.isFinite ||
  !(dimensions.optChain "width").parseFloatOf.isFinite ||
  !(dimensions.optChain "height").parseFloatOf.isFinite ||
  (dimensions.optChain "width").parseFloatOf.le (.fin 0) ||
  (dimensions.optChain "height").parseFloatOf.le (.fin 0)

/-- The point `validatePoint(v) || fallback`. -/
def pointOr (v : JSVal) (fallback : Point) : Point :=
  match validatePoint v with
  | .ok (some p) => p
  | _ => fallback

/-- The parsed start and end of a raw wall:
`validatePoint(wall.start) || { x: 0, y: 0 }` and
`validatePoint(wall.end) || { x: 100, y: 0 }`. -/
def rawWallEnds (wall : JSVal) : Point × Point :=
  (pointOr (wall.optChain "start") { x := .fin 0, y := .fin 0 },
   pointOr (wall.optChain "end") { x := .fin 100, y := .fin 0 })

/-- The parsed end points of a raw wall when they differ, nothing when the
parsed start equals the parsed end. -/
def rawWallKeptEnds (wall : JSVal) : Option (Point × Point) :=
  if (rawWallEnds wall).1 = (rawWallEnds wall).2 then none else some (rawWallEnds wall)

/-! ### Concrete payloads -/

/-- The payload `{ analysis: { floorPlan: { ... } } }` with the given properties
of the floor-plan section. -/
def payloadOf (floorPlanFields : List (String × JSVal)) : JSVal :=
  .obj [("analysis", .obj [("floorPlan", .obj floorPlanFields)])]

/-- The raw object `{ x, y, width, height }`. -/
def rectOf (x y w h : ℚ) : JSVal :=
  .obj [("x", .ofRat x), ("y", .ofRat y), ("width", .ofRat w), ("height", .ofRat h)]

/-- The raw object `{ x, y }`. -/
def pointOf (x y : ℚ) : JSVal := .obj [("x", .ofRat x), ("y", .ofRat y)]

/-- The number a JSON literal with the decimal value `q` denotes: the double
nearest to `q`. -/
def JSVal.ofDecimal (q : ℚ) : JSVal := .num (roundDouble q)

/-- The raw object `{ x, y, width, height }` of four JSON literals. -/
def rectOfDecimal (x y w h : ℚ) : JSVal :=
  .obj [("x", .ofDecimal x), ("y", .ofDecimal y), ("width", .ofDecimal w),
    ("height", .ofDecimal h)]

/-- A payload with `rooms: [null, {dimensions: {x: 0, y: 0, width: 10, height: 10}}]`. -/
def payloadNullRoom : JSVal :=
  payloadOf [("rooms", .arr [.null, .obj [("dimensions", rectOf 0 0 10 10)]])]

/-- A payload with
`rooms: [5, "room", {dimensions: null}, {dimensions: {x: 0, y: 0, width: -5, height: 10}},
{dimensions: {x: 1, y: 2, width: 3, height: 4}}]` and `walls: "none"`. -/
def payloadMalformedRooms : JSVal :=
  payloadOf [("rooms", .arr [.ofRat 5, .str "room", .obj [("dimensions", .null)],
    .obj [("dimensions", rectOf 0 0 (-5) 10)], .obj [("dimensions", rectOf 1 2 3 4)]]),
    ("walls", .str "none")]

/-- The raw wall `{start: {x: 0, y: 0}, end: {x: 10, y: 0}, thickness: 0}`. -/
def rawZeroThicknessWall : JSVal :=
  .obj [("start", pointOf 0 0), ("end", pointOf 10 0), ("thickness", .ofRat 0)]

/-- A payload with `walls: [{start: {x: 0, y: 0}, end: {x: 10, y: 0}, thickness: 0}]`. -/
def payloadZeroThickness : JSVal := payloadOf [("walls", .arr [rawZeroThicknessWall])]

/-- A payload with `doors: [{width: 30}]` and `windows: [{position: "nowhere"}]`. -/
def payloadNoPosition : JSVal :=
  payloadOf [("doors", .arr [.obj [("width", .ofRat 30)]]),
    ("windows", .arr [.obj [("position", .str "nowhere")]])]

/-- A payload with `furniture: [{type: "sofa"}, {position: {x: 1, y: 1},
dimensions: {x: 0, y: 0, width: -5, height: 10}}]`. -/
def payloadBadFurniture : JSVal :=
  payloadOf [("furniture", .arr [.obj [("type", .str "sofa")],
    .obj [("position", pointOf 1 1), ("dimensions", rectOf 0 0 (-5) 10)]])]

/-- A payload with `rooms: [{dimensions: {x: 0, y: 0, width: -5, height: 10}}]`. -/
def payloadNegativeWidthRoom : JSVal :=
  payloadOf [("rooms", .arr [.obj [("dimensions", rectOf 0 0 (-5) 10)]])]

/-- The raw room `{dimensions: {x: 0, y: 0, width: "1e400", height: 10}}`, whose
width parses to `Infinity`. -/
def rawOverflowRoom : JSVal :=
  .obj [("dimensions", .obj [("x", .ofRat 0), ("y", .ofRat 0), ("width", .str "1e400"),
    ("height", .ofRat 10)])]

/-- The raw room `{dimensions: {x: 0, y: 0, width: 10, height: "1e-400"}}`, whose
height parses to 0. -/
def rawUnderflowRoom : JSVal :=
  .obj [("dimensions", .obj [("x", .ofRat 0), ("y", .ofRat 0), ("width", .ofRat 10),
    ("height", .str "1e-400")])]

/-- A payload with `walls: [{start: {x: 3, y: 4}, end: {x: 3, y: 4}},
{start: {x: 0, y: 0}, end: {x: 10, y: 0}}]`. -/
def payloadEqualEnds : JSVal :=
  payloadOf [("walls", .arr [.obj [("start", pointOf 3 4), ("end", pointOf 3 4)],
    .obj [("start", pointOf 0 0), ("end", pointOf 10 0)]])]

/-- A payload with
`walls: [{start: {x: 0, y: 0}, end: {x: 10, y: 0}, thickness: "thick"}]`,
`doors: [{position: {x: 5, y: 5}, width: "wide"}]` and
`windows: [{position: {x: 1, y: 1}, width: {}, height: "tall"}]`. -/
def payloadTextThickness : JSVal :=
  payloadOf [("walls", .arr [.obj [("start", pointOf 0 0), ("end", pointOf 10 0),
      ("thickness", .str "thick")]]),
    ("doors", .arr [.obj [("position", pointOf 5 5), ("width", .str "wide")]]),
    ("windows", .arr [.obj [("position", pointOf 1 1), ("width", .obj []),
      ("height", .str "tall")]])]

/-- The raw door `{position: {x: 5, y: 5}, width: 2}`. -/
def rawNarrowDoor : JSVal := .obj [("position", pointOf 5 5), ("width", .ofRat 2)]

/-- A payload with `doors: [{position: {x: 5, y: 5}, width: 2}]`. -/
def payloadNarrowDoor : JSVal := payloadOf [("doors", .arr [rawNarrowDoor])]

/-! ### The bounds, as the specification words them -/

/-- The four corners of the rectangle of a room (none when it has no
dimensions). -/
def roomCorners (room : Room) : List Point :=
  match room.dimensions with
  | some d =>
    [{ x := d.x, y := d.y }, { x := d.x.add d.width, y := d.y },
     { x := d.x, y := d.y.add d.height }, { x := d.x.add d.width, y := d.y.add d.height }]
  | none => []

/-- The start and the end of a wall. -/
def wallEndpoints (wall : Wall) : List Point :=
  wall.start.toList ++ wall.end_.toList

/-- All room corners and wall endpoints of a model. -/
def cornerPoints (rooms : List Room) (walls : List Wall) : List Point :=
  rooms.flatMap roomCorners ++ walls.flatMap wallEndpoints

/-- The minimum of a list of numbers (`Infinity` for the empty list). -/
def minimumOf (xs : List JSNum) : JSNum := xs.foldl JSNum.min .posInf

/-- The maximum of a list of numbers (`-Infinity` for the empty list). -/
def maximumOf (xs : List JSNum) : JSNum := xs.foldl JSNum.max .negInf

/-- The reference definition of the bounds of a model: the default
`{minX: 0, minY: 0, width: 100, height: 100}` when there is no room and no wall;
otherwise `minX` and `minY` are the componentwise minima over all room corners
and wall endpoints, and with `maxX`, `maxY` the componentwise maxima,
`width = max(maxX - minX, 10)` and `height = max(maxY - minY, 10)`. -/
def referenceBounds (rooms : List Room) (walls : List Wall) : Bounds :=
  if rooms.isEmpty && walls.isEmpty then
    { minX := .fin 0, minY := .fin 0, width := .fin 100, height := .fin 100 }
  else
    { minX := minimumOf ((cornerPoints rooms walls).map (fun p => p.x))
      minY := minimumOf ((cornerPoints rooms walls).map (fun p => p.y))
      width := JSNum.max
        ((maximumOf ((cornerPoints rooms walls).map (fun p => p.x))).sub
          (minimumOf ((cornerPoints rooms walls).map (fun p => p.x)))) (.fin 10)
      height := JSNum.max
        ((maximumOf ((cornerPoints rooms walls).map (fun p => p.y))).sub
          (minimumOf ((cornerPoints rooms walls).map (fun p => p.y)))) (.fin 10) }

/-- A room whose rectangle is finite with positive width and height. -/
def Room.wellFormed (room : Room) : Prop :=
  ∃ x y w h : ℚ,
    room.dimensions = some { x := .fin x, y := .fin y, width := .fin w, height := .fin h } ∧
    0 < w ∧ 0 < h

/-- A wall whose start and end are finite points. -/
def Wall.wellFormed (wall : Wall) : Prop :=
  ∃ sx sy ex ey : ℚ, wall.start = some { x := .fin sx, y := .fin sy } ∧
    wall.end_ = some { x := .fin ex, y := .fin ey }

/-- The local variables of `calculateOptimalBounds` are the initial ones, or an
element was seen and the two minima are finite. -/
def BoundsAcc.shaped (acc : BoundsAcc) : Prop :=
  acc = boundsInit ∨
    (acc.hasValidElements = true ∧ ∃ mx my : ℚ, acc.minX = .fin mx ∧ acc.minY = .fin my)

/-- The raw room `{name: "Kitchen", dimensions: {x: 0, y: 0, width: 10, height: 10}}`. -/
def rawKitchenRoom : JSVal :=
  .obj [("name", .str "Kitchen"), ("dimensions", rectOf 0 0 10 10)]

/-- A payload with the single room
`{name: "Kitchen", dimensions: {x: 0, y: 0, width: 10, height: 10}}` and
`walls: []`. -/
def payloadKitchen : JSVal := payloadOf [("rooms", .arr [rawKitchenRoom]), ("walls", .arr [])]

/-! ### Concrete inputs of the renderer -/

/-- A runtime for the concrete evaluations: the renderer calls `Math.cos` and
`Math.sin` at `Math.PI * 1.25` only, where they return -0.7071067811865477 and
-0.7071067811865475. -/
def mathSample : MathFns :=
  { cos := fun _ => roundDouble (-7071067811865477 / 10000000000000000)
    sin := fun _ => roundDouble (-7071067811865475 / 10000000000000000) }

/-- A payload with the rooms
`{name: "Kitchen", type: "kitchen", dimensions: {x: 0, y: 0, width: 10, height: 10}}` and
`{name: 101, type: "bedroom", dimensions: {x: 10, y: 0, width: 10, height: 10}}`. -/
def payloadNumericName : JSVal :=
  payloadOf [("rooms", .arr [
    .obj [("name", .str "Kitchen"), ("type", .str "kitchen"), ("dimensions", rectOf 0 0 10 10)],
    .obj [("name", .ofRat 101), ("type", .str "bedroom"), ("dimensions", rectOf 10 0 10 10)]])]

/-- A model whose bounds are `{0, 0, 0, 0}`, with one room. -/
def modelZeroBounds : FloorPlan :=
  { rooms := [{ id := .str "room_0", name := .str "Kitchen", type := .str "kitchen",
                dimensions := some { x := .fin 0, y := .fin 0, width := .fin 10,
                                     height := .fin 10 },
                color := .str "#f8f9fa", features := [] }]
    walls := [], doors := [], windows := [], furniture := []
    bounds := { minX := .fin 0, minY := .fin 0, width := .fin 0, height := .fin 0 }
    scale := .str "1:100", totalArea := .str "Custom Size" }

/-- A model without elements whose bounds are `{0, 0, 20, 10}`. -/
def modelWideBounds : FloorPlan :=
  { rooms := [], walls := [], doors := [], windows := [], furniture := []
    bounds := { minX := .fin 0, minY := .fin 0, width := .fin 20, height := .fin 10 }
    scale := .str "1:100", totalArea := .str "Custom Size" }

/-- A payload with three rooms of type "room" named "Main Hallway",
"Roof Terrace" and "Back Patio". -/
def payloadNamedRooms : JSVal :=
  payloadOf [("rooms", .arr [
    .obj [("name", .str "Main Hallway"), ("type", .str "room"),
      ("dimensions", rectOf 0 0 10 4)],
    .obj [("name", .str "Roof Terrace"), ("type", .str "room"),
      ("dimensions", rectOf 0 4 10 6)],
    .obj [("name", .str "Back Patio"), ("type", .str "room"),
      ("dimensions", rectOf 10 0 5 10)]])]

/-- A payload with a room of type "terrace garden" and a room of type "balcony"
named "pool balcony". -/
def payloadMixedRooms : JSVal :=
  payloadOf [("rooms", .arr [
    .obj [("name", .str "Green Corner"), ("type", .str "terrace garden"),
      ("dimensions", rectOf 0 0 10 10)],
    .obj [("name", .str "pool balcony"), ("type", .str "balcony"),
      ("dimensions", rectOf 20 0 10 10)]])]

/-- The value of a call that sets `fillStyle`. -/
def CanvasCall.fillStyleOf : CanvasCall → Option JSVal
  | .fillStyle v => some v
  | _ => none

/-- Whether a call is a call of `arc`. -/
def CanvasCall.isArc : CanvasCall → Bool
  | .arc _ _ _ _ _ => true
  | _ => false

/-- Whether a call is a call of `setLineDash`. -/
def CanvasCall.isSetLineDash : CanvasCall → Bool
  | .setLineDash _ => true
  | _ => false

/-- The model `processFloorPlanData` returns for `payloadNumericName`. -/
def modelNumericName : FloorPlan :=
  { rooms := [
      { id := .str "room_0", name := .str "Kitchen", type := .str "kitchen",
        dimensions := some { x := .fin 0, y := .fin 0, width := .fin 10, height := .fin 10 },
        color := .str "#f8f9fa", features := [] },
      { id := .str "room_1", name := .ofRat 101, type := .str "bedroom",
        dimensions := some { x := .fin 10, y := .fin 0, width := .fin 10, height := .fin 10 },
        color := .str "#e3f2fd", features := [] }]
    walls := [], doors := [], windows := [], furniture := []
    bounds := { minX := .fin 0, minY := .fin 0, width := .fin 20, height := .fin 10 }
    scale := .str "1:100", totalArea := .str "Custom Size" }

/-- The model `{rooms: [], walls: []}`. -/
def rawEmptyModel : JSVal := .obj [("rooms", .arr []), ("walls", .arr [])]

/-! ### Inputs and predicates for the renderer, the view, the packer and the second pass -/

/-- A payload with one room of type "Swimming Pool" named "Lap Pool". -/
def payloadPool : JSVal :=
  payloadOf [("rooms", .arr [
    .obj [("name", .str "Lap Pool"), ("type", .str "Swimming Pool"),
      ("dimensions", rectOf 0 0 20 10)]])]

/-- A payload with one element of every kind: a room, a wall, a door, a window
and a furniture item. -/
def payloadFull : JSVal :=
  payloadOf [
    ("rooms", .arr [.obj [("name", .str "Studio"), ("type", .str "bedroom"),
      ("dimensions", rectOf 0 0 20 10)]]),
    ("walls", .arr [.obj [("start", pointOf 0 0), ("end", pointOf 20 0)]]),
    ("doors", .arr [.obj [("position", pointOf 10 0), ("width", .ofRat 12)]]),
    ("windows", .arr [.obj [("position", pointOf 5 10)]]),
    ("furniture", .arr [.obj [("position", pointOf 2 2),
      ("dimensions", rectOf 0 0 4 2)]])]

/-- A payload with a room named "Master Suite" of type "bedroom" (8 by 20) and a
room named "Kitchen" of type "kitchen" (10 by 10). -/
def payloadLabels : JSVal :=
  payloadOf [("rooms", .arr [
    .obj [("name", .str "Master Suite"), ("type", .str "bedroom"),
      ("dimensions", rectOf 0 0 8 20)],
    .obj [("name", .str "Kitchen"), ("type", .str "kitchen"),
      ("dimensions", rectOf 8 0 10 10)]])]

/-- The object a point of the model is. -/
def Point.toJS (p : Point) : JSVal := .obj [("x", .num p.x), ("y", .num p.y)]

/-- The object a rectangle of the model is. -/
def Dimensions.toJS (d : Dimensions) : JSVal :=
  .obj [("x", .num d.x), ("y", .num d.y), ("width", .num d.width), ("height", .num d.height)]

/-- The value of an optional field of the model: `null` when it is absent. -/
def optionToJS {α : Type} (f : α → JSVal) : Option α → JSVal
  | none => .null
  | some a => f a

/-- The object a room of the model is. -/
def Room.toJS (r : Room) : JSVal :=
  .obj [("id", r.id), ("name", r.name), ("type", r.type),
    ("dimensions", optionToJS Dimensions.toJS r.dimensions), ("color", r.color),
    ("features", .arr r.features)]

/-- The object a wall of the model is. -/
def Wall.toJS (w : Wall) : JSVal :=
  .obj [("id", w.id), ("start", optionToJS Point.toJS w.start),
    ("end", optionToJS Point.toJS w.end_), ("thickness", .num w.thickness), ("type", w.type)]

/-- The object a door of the model is. -/
def Door.toJS (d : Door) : JSVal :=
  .obj [("id", d.id), ("position", optionToJS Point.toJS d.position), ("width", .num d.width),
    ("rotation", d.rotation), ("type", d.type), ("connects", .arr d.connects)]

/-- The object a window of the model is. -/
def Window.toJS (w : Window) : JSVal :=
  .obj [("id", w.id), ("position", optionToJS Point.toJS w.position), ("width", .num w.width),
    ("height", .num w.height), ("wallId", w.wallId)]

/-- The object a furniture item of the model is. -/
def Furniture.toJS (f : Furniture) : JSVal :=
  .obj [("id", f.id), ("type", f.type), ("position", optionToJS Point.toJS f.position),
    ("dimensions", optionToJS Dimensions.toJS f.dimensions), ("rotation", f.rotation),
    ("roomId", f.roomId), ("color", f.color)]

/-- The object the bounds of the model are. -/
def Bounds.toJS (b : Bounds) : JSVal :=
  .obj [("minX", .num b.minX), ("minY", .num b.minY), ("width", .num b.width),
    ("height", .num b.height)]

/-- The object `processFloorPlanData` returns, as a value: the typed model read
back as the JavaScript object it stands for. -/
def FloorPlan.toJS (m : FloorPlan) : JSVal :=
  .obj [("rooms", .arr (m.rooms.map Room.toJS)), ("walls", .arr (m.walls.map Wall.toJS)),
    ("doors", .arr (m.doors.map Door.toJS)), ("windows", .arr (m.windows.map Window.toJS)),
    ("furniture", .arr (m.furniture.map Furniture.toJS)), ("bounds", m.bounds.toJS),
    ("scale", m.scale), ("totalArea", m.totalArea)]

/-- The number of `save` calls not yet matched by a `restore` after a sequence
of calls that starts with `depth` pending ones; `none` when a `restore` is
issued while no `save` is pending. -/
def pendingSaves : List CanvasCall → Nat → Option Nat
  | [], depth => some depth
  | .save :: rest, depth => pendingSaves rest (depth + 1)
  | .restore :: _, 0 => none
  | .restore :: rest, depth + 1 => pendingSaves rest depth
  | _ :: rest, depth => pendingSaves rest depth

/-- A payload with the room "Kitchen" and a furniture item whose colour is the
object `{toString: 1}`. -/
def payloadOpaqueColor : JSVal :=
  payloadOf [("rooms", .arr [rawKitchenRoom]),
    ("furniture", .arr [.obj [("position", pointOf 2 2), ("dimensions", rectOf 0 0 4 2),
      ("color", .obj [("toString", .ofRat 1)])]])]

/-- A payload with a room named "Duct" of 10 by 0.5. -/
def payloadTinyRoom : JSVal :=
  payloadOf [("rooms", .arr [
    .obj [("name", .str "Duct"), ("type", .str "duct"), ("dimensions", rectOf 0 0 10 (1 / 2))]])]

/-- A payload with the rooms `(0, 0, 10, 10)` and `(10, 0, 5, 8)`. -/
def payloadTwoRooms : JSVal :=
  payloadOf [("rooms", .arr [
    .obj [("name", .str "Lounge"), ("dimensions", rectOf 0 0 10 10)],
    .obj [("name", .str "Study"), ("dimensions", rectOf 10 0 5 8)]])]

/-- The rational a finite number is (0 for `NaN` and the infinities). -/
def JSNum.toRat : JSNum → ℚ
  | .fin q => q
  | _ => 0

/-- A room moved to the position `(x, y)`: every other field, the width and the
height are kept. -/
def Room.placeAt (r : Room) (x y : ℚ) : Room :=
  { r with dimensions := r.dimensions.map (fun d => { d with x := .fin x, y := .fin y }) }

/-- A room moved to the position `(x, y)`, a pair of numbers: every other field,
the width and the height are kept. -/
def Room.moveTo (r : Room) (x y : JSNum) : Room :=
  { r with dimensions := r.dimensions.map (fun d => { d with x := x, y := y }) }

/-- Shelf packing with the sums computed in doubles: rooms are placed left to
right from the position `(x, y)` of a row whose tallest room so far has the
height `rowHeight`; the next room of the row starts at `x + (width + 2)`; a room
that is not the first of its row (`x > 0`) and for which `x + width` exceeds 30
starts a new row, at `x = 0` and `y + (rowHeight + 2)`. -/
def shelfPackDouble : JSNum → JSNum → JSNum → List Room → List Room
  | _, _, _, [] => []
  | x, y, rowHeight, r :: rest =>
    match r.dimensions with
    | none => shelfPackDouble x y rowHeight rest
    | some d =>
      if x.gt (.fin 0) && (x.add d.width).gt (.fin 30) then
        r.moveTo (.fin 0) (y.add (rowHeight.add (.fin 2))) ::
          shelfPackDouble ((JSNum.fin 0).add (d.width.add (.fin 2)))
            (y.add (rowHeight.add (.fin 2))) (JSNum.max (.fin 0) d.height) rest
      else
        r.moveTo x y ::
          shelfPackDouble (x.add (d.width.add (.fin 2))) y (JSNum.max rowHeight d.height) rest

/-- Whether every room with dimensions is at most `2 ^ 52` wide. -/
def widthsBounded (rooms : List Room) : Bool :=
  rooms.all (fun r => (r.dimensions.map (fun d => d.width.le (.fin (2 ^ 52)))).getD true)

/-- The heights of the rooms with dimensions, each with an allowance of 4 for the
gap and the rounding of a row, summed. -/
def heightBudget (rooms : List Room) : ℚ :=
  (rooms.map (fun r => (r.dimensions.map (fun d => d.height.toRat + 4)).getD 0)).sum

/-- The reference definition of shelf packing, as the specification words it:
rooms are placed left to right with a gap of 2, from the position `(x, y)` of a
row whose tallest room so far has the height `rowHeight`; a room that is not
the first of its row and would pass `x = 30` starts a new row, at `x = 0`, below
the tallest room of the row plus the gap 2. -/
def shelfPack : ℚ → ℚ → ℚ → List Room → List Room
  | _, _, _, [] => []
  | x, y, rowHeight, r :: rest =>
    match r.dimensions with
    | none => shelfPack x y rowHeight rest
    | some d =>
      if 0 < x ∧ 30 < x + d.width.toRat then
        r.placeAt 0 (y + rowHeight + 2) ::
          shelfPack (d.width.toRat + 2) (y + rowHeight + 2) d.height.toRat rest
      else
        r.placeAt x y ::
          shelfPack (x + d.width.toRat + 2) y (max rowHeight d.height.toRat) rest

/-- The sum of two numbers as real numbers: no rounding. -/
def JSNum.exactAdd : JSNum → JSNum → JSNum
  | .fin a, .fin b => .fin (a + b)
  | a, b => a.add b

/-- Whether no sum of the shelf packing rounds, from the position `(x, y)` of a
row of height `rowHeight`: the sums `x + width`, `width + 2` and
`x + (width + 2)` of a room that stays in its row, and for a room that starts a
new row also `rowHeight + 2` and `y + (rowHeight + 2)`, are doubles. -/
def packExact : ℚ → ℚ → ℚ → List Room → Bool
  | _, _, _, [] => true
  | x, y, rowHeight, r :: rest =>
    match r.dimensions with
    | none => packExact x y rowHeight rest
    | some d =>
      isDouble (x + d.width.toRat) && isDouble (d.width.toRat + 2) &&
      (if 0 < x ∧ 30 < x + d.width.toRat then
        isDouble (rowHeight + 2) && isDouble (y + (rowHeight + 2)) &&
          packExact (d.width.toRat + 2) (y + rowHeight + 2) d.height.toRat rest
      else
        isDouble (x + (d.width.toRat + 2)) &&
          packExact (x + d.width.toRat + 2) y (max rowHeight d.height.toRat) rest)

/-- Whether two rectangles overlap: their interiors meet.  The far edges are the
real sums `x + width` and `y + height`, not the rounded ones. -/
def Dimensions.overlaps (a b : Dimensions) : Bool :=
  a.x.lt (b.x.exactAdd b.width) && b.x.lt (a.x.exactAdd a.width) &&
  a.y.lt (b.y.exactAdd b.height) && b.y.lt (a.y.exactAdd a.height)

/-- Two rooms do not overlap: both have a rectangle, and the rectangles do not
overlap. -/
def Room.apartFrom (a b : Room) : Prop :=
  ∃ da db, a.dimensions = some da ∧ b.dimensions = some db ∧ da.overlaps db = false

/-- A payload with four rooms that all start at `(0, 0)`: 12 by 8, 12 by 10,
12 by 6 and 9 by 5. -/
def payloadOverlapping : JSVal :=
  payloadOf [("rooms", .arr [
    .obj [("name", .str "Hall"), ("dimensions", rectOf 0 0 12 8)],
    .obj [("name", .str "Lounge"), ("dimensions", rectOf 0 0 12 10)],
    .obj [("name", .str "Study"), ("dimensions", rectOf 0 0 12 6)],
    .obj [("name", .str "Store"), ("dimensions", rectOf 0 0 9 5)]])]

/-- A payload with three rooms 13.9, 6.8 and 5.3 wide and 10 high: with the gaps
of 2 the widths sum to 30. -/
def payloadRowOfThirty : JSVal :=
  payloadOf [("rooms", .arr [
    .obj [("name", .str "Hall"), ("dimensions", rectOfDecimal 0 0 (139 / 10) 10)],
    .obj [("name", .str "Lounge"), ("dimensions", rectOfDecimal 0 0 (68 / 10) 10)],
    .obj [("name", .str "Study"), ("dimensions", rectOfDecimal 0 0 (53 / 10) 10)]])]

/-- A payload with a room 40 wide and `1e17` high and two rooms 40 wide and 1
high. -/
def payloadTallRoom : JSVal :=
  payloadOf [("rooms", .arr [
    .obj [("name", .str "Tower"), ("dimensions", rectOf 0 0 40 100000000000000000)],
    .obj [("name", .str "Lounge"), ("dimensions", rectOf 0 0 40 1)],
    .obj [("name", .str "Study"), ("dimensions", rectOf 0 0 40 1)]])]

/-- The payload `{analysis: {floorPlan: m, projectInfo: {totalArea: m.totalArea}}}`
built from a model `m`. -/
def repayload (m : FloorPlan) : JSVal :=
  .obj [("analysis", .obj [("floorPlan", m.toJS),
    ("projectInfo", .obj [("totalArea", m.totalArea)])])]

/-- A model with one room and one door of width -4, as a caller can hand it to
the renderer directly. -/
def modelNegativeDoor : FloorPlan :=
  { rooms := [{ id := .str "room_0", name := .str "Kitchen", type := .str "kitchen",
                dimensions := some { x := .fin 0, y := .fin 0, width := .fin 10,
                                     height := .fin 10 },
                color := .str "#f8f9fa", features := [] }]
    walls := []
    doors := [{ id := .str "door_0", position := some { x := .fin 5, y := .fin 0 },
                width := .fin (-4), rotation := .ofRat 0, type := .str "interior",
                connects := [] }]
    windows := [], furniture := []
    bounds := { minX := .fin 0, minY := .fin 0, width := .fin 10, height := .fin 10 }
    scale := .str "1:100", totalArea := .str "Custom Size" }

/-- A room that the pass leaves as it is: its `id`, `name`, `type` and `color`
are truthy and its rectangle is finite with positive width and height. -/
def Room.stable (r : Room) : Prop :=
  r.id.truthy = true ∧ r.name.truthy = true ∧ r.type.truthy = true ∧ r.color.truthy = true ∧
  r.wellFormed

/-- A wall that the pass leaves as it is. -/
def Wall.stable (w : Wall) : Prop :=
  w.id.truthy = true ∧ w.type.truthy = true ∧ w.wellFormed ∧
  JSNum.le (.fin 1) w.thickness = true

/-- A door that the pass leaves as it is. -/
def Door.stable (d : Door) : Prop :=
  d.id.truthy = true ∧ d.type.truthy = true ∧
  (∃ x y : ℚ, d.position = some { x := .fin x, y := .fin y }) ∧
  d.rotation.or (.ofRat 0) = d.rotation ∧ JSNum.le (.fin 10) d.width = true

/-- A window that the pass leaves as it is. -/
def Window.stable (w : Window) : Prop :=
  w.id.truthy = true ∧ (∃ x y : ℚ, w.position = some { x := .fin x, y := .fin y }) ∧
  w.wallId.or .null = w.wallId ∧ JSNum.le (.fin 10) w.width = true ∧
  JSNum.le (.fin 5) w.height = true

/-- A furniture item that the pass leaves as it is. -/
def Furniture.stable (f : Furniture) : Prop :=
  f.id.truthy = true ∧ f.type.truthy = true ∧ f.color.truthy = true ∧
  (∃ x y : ℚ, f.position = some { x := .fin x, y := .fin y }) ∧
  (∃ x y w h : ℚ, f.dimensions =
    some { x := .fin x, y := .fin y, width := .fin w, height := .fin h } ∧ 0 < w ∧ 0 < h) ∧
  f.rotation.or (.ofRat 0) = f.rotation ∧ f.roomId.or .null = f.roomId

/-- No clamp of the model gave `NaN`: the thickness of no wall, the width of no
door and the width and the height of no window is `NaN`. -/
def FloorPlan.clampsNumeric (m : FloorPlan) : Prop :=
  (∀ w ∈ m.walls, w.thickness ≠ .nan) ∧ (∀ d ∈ m.doors, d.width ≠ .nan) ∧
  (∀ w ∈ m.windows, w.width ≠ .nan ∧ w.height ≠ .nan)

/-- A sequence of calls that leaves the number of pending `save` calls as it
found it, whatever that number is. -/
def balancedCalls (cs : List CanvasCall) : Prop := ∀ d, pendingSaves cs d = some d

/-- Drawing code whose calls are balanced when it returns. -/
def Draw.balanced (a : Draw) : Prop := a.outcome = .returned → balancedCalls a.calls

/-- A payload with the rooms `(2.2, 0, 5, 20)` and `(12, 0, 0.4, 20)`. -/
def payloadRoundedBounds : JSVal :=
  payloadOf [("rooms", .arr [
    .obj [("name", .str "Hall"), ("dimensions", rectOfDecimal (22 / 10) 0 5 20)],
    .obj [("name", .str "Shaft"), ("dimensions", rectOfDecimal 12 0 (4 / 10) 20)]])]

/-- A payload with the single room `(0, 0, 20.1, 10)`. -/
def payloadWideRoom : JSVal :=
  payloadOf [("rooms", .arr [
    .obj [("name", .str "Hall"), ("dimensions", rectOfDecimal 0 0 (201 / 10) 10)]])]

/-- Whether no operation of the scale computation rounds on a surface and
bounds of the given extents: the differences `W - 100`, `H - 100` and the two
quotients are doubles. -/
def scaleExact (canvas : Size) (bw bh : ℚ) : Bool :=
  isDouble ((canvas.width : ℚ) - 100) && isDouble ((canvas.height : ℚ) - 100) &&
  isDouble (((canvas.width : ℚ) - 100) / bw) && isDouble (((canvas.height : ℚ) - 100) / bh)

/-- A payload with the single room `(0.1, 0, 17.6, 10)`. -/
def payloadOffsetRoom : JSVal :=
  payloadOf [("rooms", .arr [
    .obj [("name", .str "Hall"), ("dimensions", rectOfDecimal (1 / 10) 0 (176 / 10) 10)]])]

/-- Whether no operation of the offset computation rounds along one axis, for
the surface extent `size`, the lower bound `m`, the extent `b` of the bounds and
the scale `s`: the product `b * s`, the difference `size - b * s`, its half, the
product `m * s` and the final difference are doubles. -/
def offsetExact (size m b s : ℚ) : Bool :=
  isDouble (b * s) && isDouble (size - b * s) && isDouble ((size - b * s) / 2) &&
  isDouble (m * s) && isDouble ((size - b * s) / 2 - m * s)

/-- A payload with the single garden room `(1e17, 0, 10, 10)`. -/
def payloadFarGarden : JSVal :=
  payloadOf [("rooms", .arr [
    .obj [("name", .str "Garden"), ("type", .str "garden"),
      ("dimensions", rectOf 100000000000000000 0 10 10)]])]

/-- A payload with the single room `(0, 0, 0.8, 10)`. -/
def payloadNarrowRoom : JSVal :=
  payloadOf [("rooms", .arr [
    .obj [("name", .str "Closet"), ("dimensions", rectOfDecimal 0 0 (8 / 10) 10)]])]

/-- A payload with the single room `(1e308, 0, 1e308, 10)`. -/
def payloadHugeRoom : JSVal :=
  payloadOf [("rooms", .arr [
    .obj [("name", .str "Hall"),
      ("dimensions", rectOfDecimal ((10 ^ 308 : ℕ) : ℚ) 0 ((10 ^ 308 : ℕ) : ℚ) 10)]])]

/-! ## Auxiliary facts -/

/-! ### Rounding to double precision -/

theorem log2Upper_spec (fuel : Nat) : ∀ (n e : Nat), n < 2 ^ (e * 2 ^ fuel) →
    n < 2 ^ log2Upper fuel n e := by
  induction fuel with
  | zero => intro n e h; simpa [log2Upper] using h
  | succ f ih =>
    intro n e h
    simp only [log2Upper, Nat.shiftLeft_eq, one_mul]
    split_ifs with hlt
    · exact hlt
    · apply ih
      have : 2 * e * 2 ^ f = e * 2 ^ (f + 1) := by ring
      rw [this]; exact h

theorem log2Bisect_spec (fuel : Nat) : ∀ (n lo step : Nat), step ≤ fuel + 1 →
    2 ^ lo ≤ n → n < 2 ^ (lo + step) →
    2 ^ log2Bisect fuel n lo step ≤ n ∧ n < 2 ^ (log2Bisect fuel n lo step + 1) := by
  induction fuel with
  | zero =>
    intro n lo step hs h1 h2
    simp only [log2Bisect]
    refine ⟨h1, lt_of_lt_of_le h2 (Nat.pow_le_pow_right (by norm_num) (by omega))⟩
  | succ f ih =>
    intro n lo step hs h1 h2
    simp only [log2Bisect, Nat.shiftLeft_eq, one_mul]
    split_ifs with hle hge
    · exact ⟨h1, lt_of_lt_of_le h2 (Nat.pow_le_pow_right (by norm_num) (by omega))⟩
    · apply ih _ _ _ (by omega) hge
      have : lo + step / 2 + (step - step / 2) = lo + step := by omega
      rw [this]; exact h2
    · exact ih _ _ _ (by omega) h1 (not_le.mp hge)

theorem floorLog2_spec (n : Nat) (hn : 1 ≤ n) :
    2 ^ floorLog2 n ≤ n ∧ n < 2 ^ (floorLog2 n + 1) := by
  unfold floorLog2
  apply log2Bisect_spec _ _ _ _ (by omega) (by simpa using hn)
  rw [Nat.zero_add]
  apply log2Upper_spec
  rw [one_mul]
  exact lt_of_lt_of_le (Nat.lt_two_pow n) (Nat.pow_le_pow_right (by norm_num) (Nat.lt_two_pow n).le)

theorem floorLog2_eq_log (n : Nat) : floorLog2 n = Nat.log 2 n := by
  rcases Nat.eq_zero_or_pos n with h | h
  · subst h; simp [floorLog2, log2Upper, log2Bisect]
  · obtain ⟨h1, h2⟩ := floorLog2_spec n h
    symm
    exact (Nat.log_eq_iff (Or.inr ⟨by norm_num, by omega⟩)).mpr ⟨h1, h2⟩



theorem roundHalfEven_ge (a m : Nat) : a / m ≤ roundHalfEven a m := by
  unfold roundHalfEven; split_ifs <;> omega

theorem roundHalfEven_le (a m : Nat) : roundHalfEven a m ≤ a / m + 1 := by
  unfold roundHalfEven; split_ifs <;> omega

theorem roundHalfEven_of_dvd (a m : Nat) (hm : 0 < m) (h : m ∣ a) :
    roundHalfEven a m = a / m := by
  unfold roundHalfEven
  rw [Nat.mod_eq_zero_of_dvd h, if_pos (by omega)]

theorem roundHalfEven_scale (c a m : Nat) (hc : 0 < c) :
    roundHalfEven (c * a) (c * m) = roundHalfEven a m := by
  unfold roundHalfEven
  rw [Nat.mul_div_mul_left _ _ hc, Nat.mul_mod_mul_left]
  have e1 : (2 * (c * (a % m)) < c * m) ↔ (2 * (a % m) < m) := by
    rw [show 2 * (c * (a % m)) = c * (2 * (a % m)) by ring]
    exact Nat.mul_lt_mul_left hc
  have e2 : (c * m < 2 * (c * (a % m))) ↔ (m < 2 * (a % m)) := by
    rw [show 2 * (c * (a % m)) = c * (2 * (a % m)) by ring]
    exact Nat.mul_lt_mul_left hc
  simp only [e1, e2]

theorem roundHalfEven_mono (a b m : Nat) (h : a ≤ b) :
    roundHalfEven a m ≤ roundHalfEven b m := by
  have hq : a / m ≤ b / m := Nat.div_le_div_right h
  rcases Nat.lt_or_ge (a / m) (b / m) with hlt | hge
  · exact le_trans (roundHalfEven_le a m) (le_trans hlt (roundHalfEven_ge b m))
  · have heq : a / m = b / m := le_antisymm hq hge
    have hr : a % m ≤ b % m := by
      have ha := Nat.div_add_mod a m
      have hb := Nat.div_add_mod b m
      rw [heq] at ha
      omega
    unfold roundHalfEven
    rw [heq]
    split_ifs <;> omega



theorem gridExponent_eq (n d : Nat) :
    gridExponent n d = Nat.log 2 (n * 2 ^ 1074 / d) - 52 := by
  simp only [gridExponent, floorLog2_eq_log, Nat.shiftLeft_eq]

theorem roundMagnitude_eq (n d : Nat) :
    roundMagnitude n d =
      roundHalfEven (n * 2 ^ 1074) (d * 2 ^ gridExponent n d) * 2 ^ gridExponent n d := by
  simp only [roundMagnitude, Nat.shiftLeft_eq]

theorem gridExponent_scale (c n d : Nat) (hc : 0 < c) :
    gridExponent (c * n) (c * d) = gridExponent n d := by
  rw [gridExponent_eq, gridExponent_eq, Nat.mul_assoc, Nat.mul_div_mul_left _ _ hc]

theorem roundMagnitude_scale (c n d : Nat) (hc : 0 < c) :
    roundMagnitude (c * n) (c * d) = roundMagnitude n d := by
  rw [roundMagnitude_eq, roundMagnitude_eq, gridExponent_scale c n d hc, Nat.mul_assoc,
    Nat.mul_assoc, roundHalfEven_scale _ _ _ hc]

/-- the scaled floor is below the next power of two -/
theorem lt_pow_log_succ (N : Nat) : N < 2 ^ (Nat.log 2 N + 1) :=
  Nat.lt_pow_succ_log_self (by norm_num) N

theorem roundMagnitude_le_pow (n d : Nat) (hd : 0 < d) :
    roundMagnitude n d ≤ 2 ^ (Nat.log 2 (n * 2 ^ 1074 / d) + 1) := by
  rw [roundMagnitude_eq]
  set N := n * 2 ^ 1074 / d with hN
  set G := gridExponent n d with hG
  have hGe : G = Nat.log 2 N - 52 := gridExponent_eq n d
  have hGL : G ≤ Nat.log 2 N := by omega
  have h1 : roundHalfEven (n * 2 ^ 1074) (d * 2 ^ G) ≤ N / 2 ^ G + 1 := by
    have := roundHalfEven_le (n * 2 ^ 1074) (d * 2 ^ G)
    rwa [← Nat.div_div_eq_div_mul] at this
  have h2 : N / 2 ^ G < 2 ^ (Nat.log 2 N + 1 - G) := by
    rw [Nat.div_lt_iff_lt_mul (by positivity), ← pow_add]
    have : Nat.log 2 N + 1 - G + G = Nat.log 2 N + 1 := by omega
    rw [this]; exact lt_pow_log_succ N
  calc roundHalfEven (n * 2 ^ 1074) (d * 2 ^ G) * 2 ^ G
      ≤ 2 ^ (Nat.log 2 N + 1 - G) * 2 ^ G := Nat.mul_le_mul_right _ (by omega)
    _ = 2 ^ (Nat.log 2 N + 1) := by rw [← pow_add]; congr 1; omega

theorem pow_log_le_roundMagnitude (n d : Nat) (hN : n * 2 ^ 1074 / d ≠ 0) :
    2 ^ Nat.log 2 (n * 2 ^ 1074 / d) ≤ roundMagnitude n d := by
  rw [roundMagnitude_eq]
  set N := n * 2 ^ 1074 / d with hNd
  set G := gridExponent n d with hG
  have hGe : G = Nat.log 2 N - 52 := gridExponent_eq n d
  have hGL : G ≤ Nat.log 2 N := by omega
  have h0 : 2 ^ Nat.log 2 N ≤ N := Nat.pow_log_le_self 2 hN
  have h1 : N / 2 ^ G ≤ roundHalfEven (n * 2 ^ 1074) (d * 2 ^ G) := by
    have := roundHalfEven_ge (n * 2 ^ 1074) (d * 2 ^ G)
    rwa [← Nat.div_div_eq_div_mul] at this
  have h2 : 2 ^ (Nat.log 2 N - G) ≤ N / 2 ^ G := by
    rw [Nat.le_div_iff_mul_le (by positivity), ← pow_add]
    have : Nat.log 2 N - G + G = Nat.log 2 N := by omega
    rw [this]; exact h0
  calc 2 ^ Nat.log 2 N = 2 ^ (Nat.log 2 N - G) * 2 ^ G := by
        rw [← pow_add]; congr 1; omega
    _ ≤ roundHalfEven (n * 2 ^ 1074) (d * 2 ^ G) * 2 ^ G :=
        Nat.mul_le_mul_right _ (le_trans h2 h1)

/-- rounding a magnitude is monotone -/
theorem roundMagnitude_mono (n1 d1 n2 d2 : Nat) (h1 : 0 < d1) (h2 : 0 < d2)
    (h : n1 * d2 ≤ n2 * d1) : roundMagnitude n1 d1 ≤ roundMagnitude n2 d2 := by
  have hN : n1 * 2 ^ 1074 / d1 ≤ n2 * 2 ^ 1074 / d2 := by
    rw [Nat.le_div_iff_mul_le h2]
    have hx : n1 * 2 ^ 1074 / d1 * d1 ≤ n1 * 2 ^ 1074 := Nat.div_mul_le_self _ _
    have : n1 * 2 ^ 1074 / d1 * d2 * d1 ≤ n2 * 2 ^ 1074 * d1 := by
      calc n1 * 2 ^ 1074 / d1 * d2 * d1 = (n1 * 2 ^ 1074 / d1 * d1) * d2 := by ring
        _ ≤ n1 * 2 ^ 1074 * d2 := Nat.mul_le_mul_right _ hx
        _ = n1 * d2 * 2 ^ 1074 := by ring
        _ ≤ n2 * d1 * 2 ^ 1074 := Nat.mul_le_mul_right _ h
        _ = n2 * 2 ^ 1074 * d1 := by ring
    exact Nat.le_of_mul_le_mul_right this h1
  have hL : Nat.log 2 (n1 * 2 ^ 1074 / d1) ≤ Nat.log 2 (n2 * 2 ^ 1074 / d2) :=
    Nat.log_mono_right hN
  have hG1 := gridExponent_eq n1 d1
  have hG2 := gridExponent_eq n2 d2
  rcases Nat.lt_or_ge (gridExponent n1 d1) (gridExponent n2 d2) with hlt | hge
  · -- different binades
    have hL2 : Nat.log 2 (n1 * 2 ^ 1074 / d1) + 1 ≤ Nat.log 2 (n2 * 2 ^ 1074 / d2) := by omega
    have hne : n2 * 2 ^ 1074 / d2 ≠ 0 := by
      intro h0; rw [h0] at hL2; simp at hL2
    calc roundMagnitude n1 d1 ≤ 2 ^ (Nat.log 2 (n1 * 2 ^ 1074 / d1) + 1) :=
          roundMagnitude_le_pow n1 d1 h1
      _ ≤ 2 ^ Nat.log 2 (n2 * 2 ^ 1074 / d2) := Nat.pow_le_pow_right (by norm_num) hL2
      _ ≤ roundMagnitude n2 d2 := pow_log_le_roundMagnitude n2 d2 hne
  · have hG : gridExponent n1 d1 = gridExponent n2 d2 := by omega
    rw [roundMagnitude_eq, roundMagnitude_eq, hG]
    apply Nat.mul_le_mul_right
    rw [← roundHalfEven_scale d2 _ _ h2, ← roundHalfEven_scale d1 (n2 * 2 ^ 1074) _ h1]
    have e : d2 * (d1 * 2 ^ gridExponent n2 d2) = d1 * (d2 * 2 ^ gridExponent n2 d2) := by ring
    rw [e]
    apply roundHalfEven_mono
    calc d2 * (n1 * 2 ^ 1074) = n1 * d2 * 2 ^ 1074 := by ring
      _ ≤ n2 * d1 * 2 ^ 1074 := Nat.mul_le_mul_right _ h
      _ = d1 * (n2 * 2 ^ 1074) := by ring

/-- a rounded magnitude is a fixed point of rounding -/
theorem roundMagnitude_idem (n d : Nat) (hd : 0 < d) :
    roundMagnitude (roundMagnitude n d) (2 ^ 1074) = roundMagnitude n d := by
  set K := roundMagnitude n d with hK
  have hKle := roundMagnitude_le_pow n d hd
  rw [← hK] at hKle
  have hKeq := roundMagnitude_eq n d
  rw [← hK] at hKeq
  set N := n * 2 ^ 1074 / d with hN
  set G := gridExponent n d with hG
  have hGe : G = Nat.log 2 N - 52 := gridExponent_eq n d
  rw [roundMagnitude_eq K (2 ^ 1074)]
  have hG' : gridExponent K (2 ^ 1074) = Nat.log 2 K - 52 := by
    rw [gridExponent_eq, Nat.mul_div_cancel _ (by positivity)]
  set G' := gridExponent K (2 ^ 1074) with hG'd
  have hdvd : 2 ^ G' ∣ K := by
    rcases Nat.lt_or_ge G G' with hlt | hge
    · -- K reaches the next binade: it is the power of two
      have hL' : G + 53 ≤ Nat.log 2 K := by omega
      have hKne : K ≠ 0 := by
        intro h0; rw [h0] at hL'; simp at hL'
      have hlow : 2 ^ Nat.log 2 K ≤ K := Nat.pow_log_le_self 2 hKne
      have hup : K ≤ 2 ^ (G + 53) :=
        le_trans hKle (Nat.pow_le_pow_right (by norm_num) (by omega))
      have h53 : 2 ^ (G + 53) ≤ 2 ^ Nat.log 2 K := Nat.pow_le_pow_right (by norm_num) hL'
      have hKp : K = 2 ^ (G + 53) := le_antisymm hup (le_trans h53 hlow)
      have hlog : Nat.log 2 K = G + 53 := by
        rw [hKp]; exact Nat.log_pow (by norm_num) _
      rw [hKp]
      exact pow_dvd_pow 2 (by omega)
    · rw [hKeq]
      exact Dvd.dvd.mul_left (pow_dvd_pow 2 hge) _
  have e : K * 2 ^ 1074 = 2 ^ 1074 * K := by ring
  rw [e, roundHalfEven_scale _ _ _ (by positivity),
    roundHalfEven_of_dvd _ _ (by positivity) hdvd, Nat.div_mul_cancel hdvd]




theorem abs_eq_natAbs_div (q : ℚ) : |q| = (q.num.natAbs : ℚ) / q.den := by
  conv_lhs => rw [← Rat.num_div_den q]
  rw [abs_div, Nat.cast_natAbs, Int.cast_abs]
  congr 1
  exact abs_of_pos (by exact_mod_cast q.den_pos)

theorem roundAbs_of_eq (n d : Nat) (hd : 0 < d) (q : ℚ) (h : |q| = (n : ℚ) / d) :
    roundMagnitude n d = roundAbs q := by
  have hq := abs_eq_natAbs_div q
  rw [h] at hq
  have hd' : (d : ℚ) ≠ 0 := by exact_mod_cast hd.ne'
  have hden : (q.den : ℚ) ≠ 0 := by exact_mod_cast q.den_pos.ne'
  rw [div_eq_div_iff hd' hden] at hq
  have hnat : n * q.den = q.num.natAbs * d := by exact_mod_cast hq
  unfold roundAbs
  rw [← roundMagnitude_scale q.den n d q.den_pos, ← roundMagnitude_scale d q.num.natAbs q.den hd]
  congr 1
  · rw [Nat.mul_comm, hnat, Nat.mul_comm]
  · exact Nat.mul_comm _ _

theorem roundAbs_mono (a b : ℚ) (h : |a| ≤ |b|) : roundAbs a ≤ roundAbs b := by
  unfold roundAbs
  apply roundMagnitude_mono _ _ _ _ a.den_pos b.den_pos
  rw [abs_eq_natAbs_div a, abs_eq_natAbs_div b,
    div_le_div_iff₀ (by exact_mod_cast a.den_pos) (by exact_mod_cast b.den_pos)] at h
  exact_mod_cast h

theorem roundAbs_neg (q : ℚ) : roundAbs (-q) = roundAbs q := by
  apply le_antisymm <;> apply roundAbs_mono <;> simp

theorem roundAbs_zero : roundAbs 0 = 0 := by
  unfold roundAbs
  rw [roundMagnitude_eq]
  simp [roundHalfEven]

theorem roundDouble_of_nonneg (q : ℚ) (h : 0 ≤ q) :
    roundDouble q =
      if 2 ^ 2098 ≤ roundAbs q then .posInf else .fin ((roundAbs q : ℚ) / 2 ^ 1074) := by
  unfold roundDouble roundAbs
  rw [Nat.shiftLeft_eq, Nat.shiftLeft_eq, one_mul, one_mul]
  simp only [h, if_true, Rat.mkRat_eq_div]
  push_cast
  rfl

theorem roundDouble_of_neg (q : ℚ) (h : q < 0) :
    roundDouble q =
      if 2 ^ 2098 ≤ roundAbs q then .negInf else .fin (-((roundAbs q : ℚ) / 2 ^ 1074)) := by
  unfold roundDouble roundAbs
  rw [Nat.shiftLeft_eq, Nat.shiftLeft_eq, one_mul, one_mul]
  simp only [not_le.mpr h, if_false, Rat.mkRat_eq_div]
  push_cast
  simp only [neg_div]

theorem roundDouble_zero : roundDouble 0 = .fin 0 := by
  rw [roundDouble_of_nonneg 0 le_rfl, roundAbs_zero]
  simp

theorem roundDouble_neg (q : ℚ) : roundDouble (-q) = (roundDouble q).neg := by
  rcases lt_trichotomy q 0 with h | h | h
  · rw [roundDouble_of_neg q h, roundDouble_of_nonneg (-q) (by linarith), roundAbs_neg]
    split_ifs <;> simp [JSNum.neg]
  · subst h; simp [roundDouble_zero, JSNum.neg]
  · rw [roundDouble_of_nonneg q h.le, roundDouble_of_neg (-q) (by linarith), roundAbs_neg]
    split_ifs <;> simp [JSNum.neg]

theorem roundDouble_ne_nan (q : ℚ) : roundDouble q ≠ .nan := by
  rcases lt_or_le q 0 with h | h
  · rw [roundDouble_of_neg q h]; split_ifs <;> simp
  · rw [roundDouble_of_nonneg q h]; split_ifs <;> simp

/-- rounding is monotone -/
theorem roundDouble_mono (a b : ℚ) (h : a ≤ b) :
    (roundDouble a).le (roundDouble b) = true := by
  rcases lt_or_le a 0 with ha | ha <;> rcases lt_or_le b 0 with hb | hb
  · have hm : roundAbs b ≤ roundAbs a := roundAbs_mono _ _ (by
      rw [abs_of_neg ha, abs_of_neg hb]; linarith)
    rw [roundDouble_of_neg a ha, roundDouble_of_neg b hb]
    split_ifs with h1 h2 h2
    · rfl
    · rfl
    · omega
    · simp only [JSNum.le, decide_eq_true_eq]
      have : (roundAbs b : ℚ) ≤ roundAbs a := by exact_mod_cast hm
      have hp : (0 : ℚ) < 2 ^ 1074 := pow_pos (by norm_num) _
      rw [neg_le_neg_iff]
      exact div_le_div_of_nonneg_right this hp.le
  · rw [roundDouble_of_neg a ha, roundDouble_of_nonneg b hb]
    split_ifs
    · rfl
    · rfl
    · rfl
    · simp only [JSNum.le, decide_eq_true_eq]
      have hp : (0 : ℚ) < 2 ^ 1074 := pow_pos (by norm_num) _
      exact le_trans (neg_nonpos.mpr (div_nonneg (Nat.cast_nonneg _) hp.le))
        (div_nonneg (Nat.cast_nonneg _) hp.le)
  · exfalso; linarith
  · have hm : roundAbs a ≤ roundAbs b := roundAbs_mono _ _ (by
      rw [abs_of_nonneg ha, abs_of_nonneg hb]; exact h)
    rw [roundDouble_of_nonneg a ha, roundDouble_of_nonneg b hb]
    split_ifs with h1 h2 h2
    · rfl
    · omega
    · rfl
    · simp only [JSNum.le, decide_eq_true_eq]
      have : (roundAbs a : ℚ) ≤ roundAbs b := by exact_mod_cast hm
      have hp : (0 : ℚ) < 2 ^ 1074 := pow_pos (by norm_num) _
      exact div_le_div_of_nonneg_right this hp.le

theorem roundAbs_div (n d : Nat) (hd : 0 < d) :
    roundAbs ((n : ℚ) / d) = roundMagnitude n d := by
  symm
  apply roundAbs_of_eq _ _ hd
  exact abs_of_nonneg (by positivity)

theorem cast_two_pow (k : Nat) : (((2 ^ k : Nat)) : ℚ) = (2 : ℚ) ^ k := by
  exact Nat.cast_pow 2 k

theorem roundAbs_roundAbs (q : ℚ) : roundAbs ((roundAbs q : ℚ) / 2 ^ 1074) = roundAbs q := by
  rw [← cast_two_pow, roundAbs_div _ _ (Nat.pow_pos (by norm_num))]
  exact roundMagnitude_idem _ _ q.den_pos

/-- the result of rounding is a double -/
theorem roundDouble_idem (q c : ℚ) (h : roundDouble q = .fin c) : roundDouble c = .fin c := by
  rcases lt_or_le q 0 with hq | hq
  · rw [roundDouble_of_neg q hq] at h
    split_ifs at h with hov
    injection h with hc
    rcases Nat.eq_zero_or_pos (roundAbs q) with h0 | hpos
    · rw [h0] at hc; simp at hc; rw [← hc]; exact roundDouble_zero
    · have hneg : c < 0 := by
        rw [← hc]
        have hp : (0 : ℚ) < 2 ^ 1074 := pow_pos (by norm_num) _
        exact neg_neg_of_pos (div_pos (by exact_mod_cast hpos) hp)
      rw [roundDouble_of_neg c hneg]
      have : roundAbs c = roundAbs q := by
        rw [← hc, roundAbs_neg]; exact roundAbs_roundAbs q
      rw [this, if_neg hov, hc]
  · rw [roundDouble_of_nonneg q hq] at h
    split_ifs at h with hov
    injection h with hc
    have hnn : 0 ≤ c := by
      rw [← hc]
      exact div_nonneg (Nat.cast_nonneg _) (pow_pos (by norm_num) _).le
    rw [roundDouble_of_nonneg c hnn]
    have : roundAbs c = roundAbs q := by
      rw [← hc]; exact roundAbs_roundAbs q
    rw [this, if_neg hov, hc]

theorem isDouble_iff (q : ℚ) : isDouble q = true ↔ roundDouble q = .fin q := by
  have hp : (0 : ℚ) < 2 ^ 1074 := pow_pos (by norm_num) _
  have hden : (0 : ℚ) < q.den := by exact_mod_cast q.den_pos
  have key : (roundAbs q * q.den = q.num.natAbs <<< 1074) ↔
      (roundAbs q : ℚ) / 2 ^ 1074 = |q| := by
    rw [abs_eq_natAbs_div q, div_eq_div_iff hp.ne' hden.ne', Nat.shiftLeft_eq]
    constructor
    · intro h
      have : ((roundAbs q * q.den : ℕ) : ℚ) = ((q.num.natAbs * 2 ^ 1074 : ℕ) : ℚ) := by rw [h]
      push_cast at this
      exact this
    · intro h
      have : ((roundAbs q * q.den : ℕ) : ℚ) = ((q.num.natAbs * 2 ^ 1074 : ℕ) : ℚ) := by
        push_cast
        exact h
      exact_mod_cast this
  unfold isDouble
  rw [Bool.and_eq_true, decide_eq_true_iff, decide_eq_true_iff, key, Nat.shiftLeft_eq, one_mul]
  rcases lt_or_le q 0 with hq | hq
  · rw [roundDouble_of_neg q hq, abs_of_neg hq]
    constructor
    · rintro ⟨h1, h2⟩
      rw [if_neg (not_le.mpr h1), h2, neg_neg]
    · intro h
      split_ifs at h with hov
      injection h with h
      exact ⟨not_le.mp hov, neg_eq_iff_eq_neg.mp h⟩
  · rw [roundDouble_of_nonneg q hq, abs_of_nonneg hq]
    constructor
    · rintro ⟨h1, h2⟩
      rw [if_neg (not_le.mpr h1), h2]
    · intro h
      split_ifs at h with hov
      injection h with h
      exact ⟨not_le.mp hov, h⟩

theorem isDouble_of_round (q c : ℚ) (h : roundDouble q = .fin c) : isDouble c = true :=
  (isDouble_iff c).mpr (roundDouble_idem q c h)

theorem isDouble_neg (q : ℚ) : isDouble (-q) = isDouble q := by
  rw [Bool.eq_iff_iff, isDouble_iff, isDouble_iff, roundDouble_neg]
  constructor
  · intro h
    cases hq : roundDouble q with
    | fin c => rw [hq] at h; simp only [JSNum.neg, JSNum.fin.injEq] at h; rw [neg_inj] at h; rw [h]
    | nan => rw [hq] at h; simp [JSNum.neg] at h
    | posInf => rw [hq] at h; simp [JSNum.neg] at h
    | negInf => rw [hq] at h; simp [JSNum.neg] at h
  · intro h; rw [h]; rfl

/-- rounding does not cross a double below -/
theorem le_roundDouble (d q : ℚ) (hd : isDouble d = true) (h : d ≤ q) :
    (JSNum.fin d).le (roundDouble q) = true := by
  have := roundDouble_mono d q h
  rwa [(isDouble_iff d).mp hd] at this

/-- rounding does not cross a double above -/
theorem roundDouble_le (d q : ℚ) (hd : isDouble d = true) (h : q ≤ d) :
    (roundDouble q).le (JSNum.fin d) = true := by
  have := roundDouble_mono q d h
  rwa [(isDouble_iff d).mp hd] at this

namespace JSNum

theorem arith_exact (a b r : ℚ) (h : isDouble a = true → isDouble b = true → isDouble r = true) :
    arith a b r = fin r := by
  unfold arith
  split_ifs with hab
  · rw [Bool.and_eq_true] at hab
    exact (isDouble_iff r).mp (h hab.1 hab.2)
  · rfl

theorem arith_cases (a b r : ℚ) :
    (isDouble a = true ∧ isDouble b = true ∧ arith a b r = roundDouble r) ∨
    ((isDouble a = false ∨ isDouble b = false) ∧ arith a b r = fin r) := by
  unfold arith
  cases ha : isDouble a <;> cases hb : isDouble b <;> simp

theorem arith_ne_nan (a b r : ℚ) : arith a b r ≠ nan := by
  unfold arith
  split_ifs
  · exact roundDouble_ne_nan r
  · simp

/-- an operation does not cross a double below its exact result -/
theorem le_arith (c a b r : ℚ) (hc : isDouble a = true → isDouble b = true → isDouble c = true)
    (h : c ≤ r) : (fin c).le (arith a b r) = true := by
  unfold arith
  split_ifs with hab
  · rw [Bool.and_eq_true] at hab
    exact le_roundDouble c r (hc hab.1 hab.2) h
  · simpa [le] using h

/-- an operation does not cross a double above its exact result -/
theorem arith_le (c a b r : ℚ) (hc : isDouble a = true → isDouble b = true → isDouble c = true)
    (h : r ≤ c) : (arith a b r).le (fin c) = true := by
  unfold arith
  split_ifs with hab
  · rw [Bool.and_eq_true] at hab
    exact roundDouble_le c r (hc hab.1 hab.2) h
  · simpa [le] using h

end JSNum

open JSVal

theorem getProp_of_truthy (v : JSVal) (k : String) (h : v.truthy = true) :
    v.getProp k = .ok (v.optChain k) := by
  cases v <;> simp_all [JSVal.truthy, JSVal.getProp, JSVal.optChain]

theorem truthy_of_optChain_truthy (v : JSVal) (k : String)
    (h : (v.optChain k).truthy = true) : v.truthy = true := by
  cases v <;> simp_all [JSVal.truthy, JSVal.optChain]

theorem mapIdxFrom_ok_length {β : Type} (f : JSVal → Nat → Except JSError β) :
    ∀ (xs : List JSVal) (i : Nat) (ys : List β),
      mapIdxFrom f i xs = .ok ys → ys.length = xs.length := by
  intro xs
  induction xs with
  | nil =>
    intro i ys h
    simp only [mapIdxFrom, Except.ok.injEq] at h
    subst h
    rfl
  | cons x rest ih =>
    intro i ys h
    simp only [mapIdxFrom, bind, Except.bind] at h
    cases hx : f x i with
    | error e => simp [hx] at h
    | ok y =>
      cases hr : mapIdxFrom f (i + 1) rest with
      | error e => simp [hx, hr] at h
      | ok ys' =>
        simp only [hx, hr, pure, Except.pure, Except.ok.injEq] at h
        subst h
        simp [ih (i + 1) ys' hr]

theorem mapIdxFrom_ok_forall₂ {β : Type} (f : JSVal → Nat → Except JSError β) :
    ∀ (xs : List JSVal) (i : Nat) (ys : List β),
      mapIdxFrom f i xs = .ok ys →
      List.Forall₂ (fun x y => ∃ j, f x j = .ok y) xs ys := by
  intro xs
  induction xs with
  | nil =>
    intro i ys h
    simp only [mapIdxFrom, Except.ok.injEq] at h
    subst h
    exact List.Forall₂.nil
  | cons x rest ih =>
    intro i ys h
    simp only [mapIdxFrom, bind, Except.bind] at h
    cases hx : f x i with
    | error e => simp [hx] at h
    | ok y =>
      cases hr : mapIdxFrom f (i + 1) rest with
      | error e => simp [hx, hr] at h
      | ok ys' =>
        simp only [hx, hr, pure, Except.pure, Except.ok.injEq] at h
        subst h
        exact List.Forall₂.cons ⟨i, hx⟩ (ih (i + 1) ys' hr)

theorem mapIdxFrom_ok_get {β : Type} (f : JSVal → Nat → Except JSError β) :
    ∀ (xs : List JSVal) (i : Nat) (ys : List β),
      mapIdxFrom f i xs = .ok ys →
      ∀ (j : Nat) (x : JSVal), xs.get? j = some x →
        ∃ y, ys.get? j = some y ∧ f x (i + j) = .ok y := by
  intro xs
  induction xs with
  | nil =>
    intro i ys _ j x hj
    simp at hj
  | cons x0 rest ih =>
    intro i ys h j x hj
    simp only [mapIdxFrom, bind, Except.bind] at h
    cases hx : f x0 i with
    | error e => simp [hx] at h
    | ok y =>
      cases hr : mapIdxFrom f (i + 1) rest with
      | error e => simp [hx, hr] at h
      | ok ys' =>
        simp only [hx, hr, pure, Except.pure, Except.ok.injEq] at h
        subst h
        cases j with
        | zero =>
          simp only [List.get?_cons_zero, Option.some.injEq] at hj
          subst hj
          exact ⟨y, by simp, by simpa using hx⟩
        | succ j' =>
          simp only [List.get?_cons_succ] at hj
          obtain ⟨y', hy', hf⟩ := ih (i + 1) ys' hr j' x hj
          refine ⟨y', by simpa using hy', ?_⟩
          have : i + (j' + 1) = i + 1 + j' := by omega
          rw [this]
          exact hf

/-- Where every callback returns, the indexed map returns. -/
theorem mapIdxFrom_ok_of_forall {β : Type} (f : JSVal → Nat → Except JSError β) :
    ∀ (xs : List JSVal) (i : Nat),
      (∀ x ∈ xs, ∀ j, ∃ y, f x j = .ok y) → ∃ ys, mapIdxFrom f i xs = .ok ys := by
  intro xs
  induction xs with
  | nil => intro i _; exact ⟨[], rfl⟩
  | cons x rest ih =>
    intro i h
    obtain ⟨y, hy⟩ := h x (List.mem_cons_self _ _) i
    obtain ⟨ys, hys⟩ := ih (i + 1) (fun x' hx' j => h x' (List.mem_cons_of_mem _ hx') j)
    exact ⟨y :: ys, by simp [mapIdxFrom, bind, Except.bind, hy, hys, pure, Except.pure]⟩

theorem section_read (a : JSVal) (h : (floorPlanSection a).truthy = true) :
    (a.getProp "analysis" >>= fun an => an.getProp "floorPlan") = .ok (floorPlanSection a) := by
  have h1 : (a.optChain "analysis").truthy = true := truthy_of_optChain_truthy _ _ h
  have h0 : a.truthy = true := truthy_of_optChain_truthy _ _ h1
  rw [getProp_of_truthy a _ h0]
  show (a.optChain "analysis").getProp "floorPlan" = _
  rw [getProp_of_truthy _ _ h1]
  rfl

theorem processFloorPlanData_of_section (a : JSVal) (h : (floorPlanSection a).truthy = true) :
    processFloorPlanData a =
      match processFloorPlanBody a (floorPlanSection a) with
      | .ok fp => .ok (some fp)
      | .error _ => .ok none := by
  have hs := section_read a h
  simp only [bind, Except.bind] at hs
  simp only [processFloorPlanData, h, Bool.not_true, Bool.false_eq_true, if_false, bind,
    Except.bind]
  cases ha : a.getProp "analysis" with
  | error e => simp [ha] at hs
  | ok an =>
    simp only [ha] at hs
    simp only [hs]
    cases processFloorPlanBody a (floorPlanSection a) <;> rfl

theorem processFloorPlanBody_eq (a : JSVal) (h : (floorPlanSection a).truthy = true) :
    processFloorPlanBody a (floorPlanSection a) =
      (do
        let rooms ← processRooms (sectionField a "rooms")
        let walls ← processWalls (sectionField a "walls")
        let doors ← processDoors (sectionField a "doors")
        let windows ← processWindows (sectionField a "windows")
        let furniture ← processFurniture (sectionField a "furniture")
        pure {
          rooms := rooms, walls := walls, doors := doors, windows := windows,
          furniture := furniture,
          bounds := calculateOptimalBounds rooms walls,
          scale := ((floorPlanSection a).optChain "scale").or (.str "1:100"),
          totalArea := (((a.optChain "analysis").optChain "projectInfo").optChain
            "totalArea").or (.str "Custom Size") }) := by
  have h1 : (a.optChain "analysis").truthy = true := truthy_of_optChain_truthy _ _ h
  have h0 : a.truthy = true := truthy_of_optChain_truthy _ _ h1
  simp only [processFloorPlanBody, getProp_of_truthy _ _ h, getProp_of_truthy _ _ h0,
    getProp_of_truthy _ _ h1, bind, Except.bind, sectionField, pure, Except.pure]

/-- What a returned model is made of. -/
theorem processFloorPlanData_some_inv (a : JSVal) (fp : FloorPlan)
    (h : processFloorPlanData a = .ok (some fp)) :
    (floorPlanSection a).truthy = true ∧
    processRooms (sectionField a "rooms") = .ok fp.rooms ∧
    processWalls (sectionField a "walls") = .ok fp.walls ∧
    processDoors (sectionField a "doors") = .ok fp.doors ∧
    processWindows (sectionField a "windows") = .ok fp.windows ∧
    processFurniture (sectionField a "furniture") = .ok fp.furniture ∧
    fp.bounds = calculateOptimalBounds fp.rooms fp.walls := by
  have hsec : (floorPlanSection a).truthy = true := by
    by_contra hc
    simp [processFloorPlanData, hc, pure, Except.pure] at h
  rw [processFloorPlanData_of_section a hsec, processFloorPlanBody_eq a hsec] at h
  refine ⟨hsec, ?_⟩
  simp only [bind, Except.bind, pure, Except.pure] at h
  cases hr : processRooms (sectionField a "rooms") with
  | error e => simp [hr] at h
  | ok rs =>
  cases hw : processWalls (sectionField a "walls") with
  | error e => simp [hr, hw] at h
  | ok ws =>
  cases hd : processDoors (sectionField a "doors") with
  | error e => simp [hr, hw, hd] at h
  | ok ds =>
  cases hwi : processWindows (sectionField a "windows") with
  | error e => simp [hr, hw, hd, hwi] at h
  | ok wis =>
  cases hf : processFurniture (sectionField a "furniture") with
  | error e => simp [hr, hw, hd, hwi, hf] at h
  | ok fs =>
    simp only [hr, hw, hd, hwi, hf, Except.ok.injEq, Option.some.injEq] at h
    subst h
    exact ⟨rfl, rfl, rfl, rfl, rfl, rfl⟩

/-- Where the five passes return, the processor returns a model. -/
theorem processFloorPlanData_some_of_ok (a : JSVal)
    (hsec : (floorPlanSection a).truthy = true)
    {rs : List Room} {ws : List Wall} {ds : List Door} {wis : List Window}
    {fs : List Furniture}
    (hr : processRooms (sectionField a "rooms") = .ok rs)
    (hw : processWalls (sectionField a "walls") = .ok ws)
    (hd : processDoors (sectionField a "doors") = .ok ds)
    (hwi : processWindows (sectionField a "windows") = .ok wis)
    (hf : processFurniture (sectionField a "furniture") = .ok fs) :
    ∃ fp, processFloorPlanData a = .ok (some fp) ∧ fp.rooms = rs ∧ fp.walls = ws ∧
      fp.doors = ds ∧ fp.windows = wis ∧ fp.furniture = fs := by
  rw [processFloorPlanData_of_section a hsec, processFloorPlanBody_eq a hsec]
  simp only [bind, Except.bind, pure, Except.pure, hr, hw, hd, hwi, hf]
  exact ⟨_, rfl, rfl, rfl, rfl, rfl, rfl⟩

theorem parseFloat_ok {v : JSVal} {n : JSNum} (h : v.parseFloat = .ok n) :
    n = v.parseFloatOf := by
  unfold JSVal.parseFloat at h
  split at h
  · cases h
  · cases h; rfl

theorem toNumber_ok {v : JSVal} {n : JSNum} (h : v.toNumber = .ok n) :
    n = v.toNumberOf := by
  unfold JSVal.toNumber at h
  split at h
  · cases h
  · cases h; rfl

theorem isFinite_iff (n : JSNum) : n.isFinite = true ↔ ∃ q, n = .fin q := by
  cases n <;> simp [JSNum.isFinite]

/-- What `validateDimensions` accepts: an object or array whose four fields
read as finite numbers, the width and the height positive; the result holds
those four numbers. -/
theorem validateDimensions_some {dims : JSVal} {d : Dimensions}
    (h : validateDimensions dims = .ok (some d)) :
    dims.truthy = true ∧ dims.typeofObject = true ∧
    d.x = (dims.optChain "x").parseFloatOf ∧
    d.y = (dims.optChain "y").parseFloatOf ∧
    d.width = (dims.optChain "width").parseFloatOf ∧
    d.height = (dims.optChain "height").parseFloatOf ∧
    ∃ x y w h : ℚ, d = ⟨.fin x, .fin y, .fin w, .fin h⟩ ∧ 0 < w ∧ 0 < h := by
  unfold validateDimensions at h
  split at h
  · cases h
  · rename_i hg
    simp only [Bool.or_eq_true, Bool.not_eq_true', not_or, Bool.not_eq_false] at hg
    obtain ⟨ht, ho⟩ := hg
    simp only [getProp_of_truthy _ _ ht, bind, Except.bind] at h
    cases hx : (dims.optChain "x").parseFloat with
    | error e => simp [hx] at h
    | ok x =>
    cases hy : (dims.optChain "y").parseFloat with
    | error e => simp [hx, hy] at h
    | ok y =>
    cases hw : (dims.optChain "width").parseFloat with
    | error e => simp [hx, hy, hw] at h
    | ok w =>
    cases hh : (dims.optChain "height").parseFloat with
    | error e => simp [hx, hy, hw, hh] at h
    | ok hgt =>
      simp only [hx, hy, hw, hh] at h
      split at h
      · cases h
      · rename_i hfin
        split at h
        · cases h
        · rename_i hpos
          simp only [pure, Except.pure, Except.ok.injEq, Option.some.injEq] at h
          subst h
          simp only [Bool.or_eq_true, Bool.not_eq_true', not_or, Bool.not_eq_false] at hfin hpos
          obtain ⟨⟨⟨fx, fy⟩, fw⟩, fh⟩ := hfin
          obtain ⟨qx, rfl⟩ := (isFinite_iff x).1 fx
          obtain ⟨qy, rfl⟩ := (isFinite_iff y).1 fy
          obtain ⟨qw, rfl⟩ := (isFinite_iff w).1 fw
          obtain ⟨qh, rfl⟩ := (isFinite_iff hgt).1 fh
          refine ⟨ht, ho, parseFloat_ok hx, parseFloat_ok hy, parseFloat_ok hw,
            parseFloat_ok hh, qx, qy, qw, qh, rfl, ?_, ?_⟩
          · simpa [JSNum.le] using hpos.1
          · simpa [JSNum.le] using hpos.2

/-- What `validatePoint` accepts: an object or array whose `x` and `y` read as
finite numbers; the result holds those two numbers. -/
theorem validatePoint_some {point : JSVal} {p : Point}
    (h : validatePoint point = .ok (some p)) :
    point.truthy = true ∧ point.typeofObject = true ∧
    p.x = (point.optChain "x").parseFloatOf ∧
    p.y = (point.optChain "y").parseFloatOf ∧
    ∃ x y : ℚ, p = ⟨.fin x, .fin y⟩ := by
  unfold validatePoint at h
  split at h
  · cases h
  · rename_i hg
    simp only [Bool.or_eq_true, Bool.not_eq_true', not_or, Bool.not_eq_false] at hg
    obtain ⟨ht, ho⟩ := hg
    simp only [getProp_of_truthy _ _ ht, bind, Except.bind] at h
    cases hx : (point.optChain "x").parseFloat with
    | error e => simp [hx] at h
    | ok x =>
    cases hy : (point.optChain "y").parseFloat with
    | error e => simp [hx, hy] at h
    | ok y =>
      simp only [hx, hy] at h
      split at h
      · cases h
      · rename_i hfin
        simp only [pure, Except.pure, Except.ok.injEq, Option.some.injEq] at h
        subst h
        simp only [Bool.or_eq_true, Bool.not_eq_true', not_or, Bool.not_eq_false] at hfin
        obtain ⟨fx, fy⟩ := hfin
        obtain ⟨qx, rfl⟩ := (isFinite_iff x).1 fx
        obtain ⟨qy, rfl⟩ := (isFinite_iff y).1 fy
        exact ⟨ht, ho, parseFloat_ok hx, parseFloat_ok hy, qx, qy, rfl⟩

theorem hasOwnToString_lookup (k : String) :
    ∀ fields : List (String × JSVal), hasOwnToStringFields fields = false →
      hasOwnToString (lookup k fields) = false := by
  intro fields
  induction fields with
  | nil => intro _; simp [lookup, hasOwnToString]
  | cons p rest ih =>
    obtain ⟨k', v⟩ := p
    intro h
    simp only [hasOwnToStringFields, Bool.or_eq_false_iff] at h
    simp only [lookup]
    split
    · exact h.1
    · exact ih h.2

theorem hasOwnToString_optChain (v : JSVal) (k : String) (h : v.hasOwnToString = false) :
    (v.optChain k).hasOwnToString = false := by
  cases v with
  | obj fields =>
    simp only [hasOwnToString, Bool.or_eq_false_iff] at h
    exact hasOwnToString_lookup k fields h.2
  | _ => simp [optChain, hasOwnToString]

theorem hasOwnToString_elem :
    ∀ (elems : List JSVal), hasOwnToStringElems elems = false →
      ∀ v ∈ elems, hasOwnToString v = false := by
  intro elems
  induction elems with
  | nil => intro _ v hv; simp at hv
  | cons x rest ih =>
    intro h v hv
    simp only [hasOwnToStringElems, Bool.or_eq_false_iff] at h
    rcases List.mem_cons.1 hv with rfl | hv'
    · exact h.1
    · exact ih h.2 v hv'

mutual
theorem throwsOnConvert_of_plain :
    ∀ v : JSVal, hasOwnToString v = false → throwsOnConvert v = false
  | .obj fields, h => by
    simp only [hasOwnToString, Bool.or_eq_false_iff] at h
    simp [throwsOnConvert, h.1]
  | .arr elems, h => by
    simp only [hasOwnToString] at h
    simp only [throwsOnConvert]
    exact throwsOnConvertAny_of_plain elems h
  | .undefined, _ => rfl
  | .null, _ => rfl
  | .bool _, _ => rfl
  | .num _, _ => rfl
  | .str _, _ => rfl
theorem throwsOnConvertAny_of_plain :
    ∀ elems : List JSVal, hasOwnToStringElems elems = false → throwsOnConvertAny elems = false
  | [], _ => rfl
  | v :: rest, h => by
    simp only [hasOwnToStringElems, Bool.or_eq_false_iff] at h
    simp only [throwsOnConvertAny, Bool.or_eq_false_iff]
    exact ⟨throwsOnConvert_of_plain v h.1, throwsOnConvertAny_of_plain rest h.2⟩
end

theorem getProp_of_ne (v : JSVal) (k : String) (h1 : v ≠ .null) (h2 : v ≠ .undefined) :
    v.getProp k = .ok (v.optChain k) := by
  cases v <;> simp_all [JSVal.getProp, JSVal.optChain]

theorem getProp_ok {v w : JSVal} {k : String} (h : v.getProp k = .ok w) :
    w = v.optChain k := by
  cases v <;> simp_all [JSVal.getProp, JSVal.optChain]

theorem parseFloat_of_plain (v : JSVal) (h : v.hasOwnToString = false) :
    v.parseFloat = .ok v.parseFloatOf := by
  simp [JSVal.parseFloat, throwsOnConvert_of_plain v h]

theorem toNumber_of_plain (v : JSVal) (h : v.hasOwnToString = false) :
    v.toNumber = .ok v.toNumberOf := by
  simp [JSVal.toNumber, throwsOnConvert_of_plain v h]

theorem hasOwnToString_or (v w : JSVal) (hv : v.hasOwnToString = false)
    (hw : w.hasOwnToString = false) : (v.or w).hasOwnToString = false := by
  unfold JSVal.or
  split <;> assumption

theorem validateDimensions_of_plain (v : JSVal) (h : v.hasOwnToString = false) :
    ∃ r, validateDimensions v = .ok r := by
  unfold validateDimensions
  split
  · exact ⟨none, rfl⟩
  · rename_i hg
    simp only [Bool.or_eq_true, Bool.not_eq_true', not_or, Bool.not_eq_false] at hg
    simp only [getProp_of_truthy _ _ hg.1, bind, Except.bind,
      parseFloat_of_plain _ (hasOwnToString_optChain v _ h)]
    split
    · exact ⟨none, rfl⟩
    · split
      · exact ⟨none, rfl⟩
      · exact ⟨_, rfl⟩

theorem validatePoint_of_plain (v : JSVal) (h : v.hasOwnToString = false) :
    ∃ r, validatePoint v = .ok r := by
  unfold validatePoint
  split
  · exact ⟨none, rfl⟩
  · rename_i hg
    simp only [Bool.or_eq_true, Bool.not_eq_true', not_or, Bool.not_eq_false] at hg
    simp only [getProp_of_truthy _ _ hg.1, bind, Except.bind,
      parseFloat_of_plain _ (hasOwnToString_optChain v _ h)]
    split
    · exact ⟨none, rfl⟩
    · exact ⟨_, rfl⟩

theorem mathMax_of_plain (c d : ℚ) (v : JSVal) (h : v.hasOwnToString = false) :
    mathMax (.ofRat c) (v.or (.ofRat d)) =
      .ok (JSNum.max (.fin c) (v.or (.ofRat d)).toNumberOf) := by
  have hd : (JSVal.ofRat d).hasOwnToString = false := rfl
  simp only [mathMax, bind, Except.bind, toNumber_of_plain _ (hasOwnToString_or v _ h hd)]
  rfl

theorem processRoom_of_plain (room : JSVal) (i : Nat) (h1 : room ≠ .null)
    (h2 : room ≠ .undefined) (h : room.hasOwnToString = false) :
    ∃ r, processRoom room i = .ok r := by
  obtain ⟨d, hd⟩ := validateDimensions_of_plain _ (hasOwnToString_optChain room "dimensions" h)
  simp only [processRoom, getProp_of_ne room _ h1 h2, bind, Except.bind, hd, pure, Except.pure]
  exact ⟨_, rfl⟩

theorem processWall_of_plain (wall : JSVal) (i : Nat) (h1 : wall ≠ .null)
    (h2 : wall ≠ .undefined) (h : wall.hasOwnToString = false) :
    ∃ r, processWall wall i = .ok r := by
  obtain ⟨s, hs⟩ := validatePoint_of_plain _ (hasOwnToString_optChain wall "start" h)
  obtain ⟨e, he⟩ := validatePoint_of_plain _ (hasOwnToString_optChain wall "end" h)
  simp only [processWall, getProp_of_ne wall _ h1 h2, bind, Except.bind, hs, he,
    mathMax_of_plain _ _ _ (hasOwnToString_optChain wall "thickness" h), pure, Except.pure]
  exact ⟨_, rfl⟩

theorem processDoor_of_plain (door : JSVal) (i : Nat) (h1 : door ≠ .null)
    (h2 : door ≠ .undefined) (h : door.hasOwnToString = false) :
    ∃ r, processDoor door i = .ok r := by
  obtain ⟨s, hs⟩ := validatePoint_of_plain _ (hasOwnToString_optChain door "position" h)
  simp only [processDoor, getProp_of_ne door _ h1 h2, bind, Except.bind, hs,
    mathMax_of_plain _ _ _ (hasOwnToString_optChain door "width" h), pure, Except.pure]
  exact ⟨_, rfl⟩

theorem processWindow_of_plain (window : JSVal) (i : Nat) (h1 : window ≠ .null)
    (h2 : window ≠ .undefined) (h : window.hasOwnToString = false) :
    ∃ r, processWindow window i = .ok r := by
  obtain ⟨s, hs⟩ := validatePoint_of_plain _ (hasOwnToString_optChain window "position" h)
  simp only [processWindow, getProp_of_ne window _ h1 h2, bind, Except.bind, hs,
    mathMax_of_plain _ _ _ (hasOwnToString_optChain window "width" h),
    mathMax_of_plain _ _ _ (hasOwnToString_optChain window "height" h), pure, Except.pure]
  exact ⟨_, rfl⟩

theorem processFurnitureItem_of_plain (item : JSVal) (i : Nat) (h1 : item ≠ .null)
    (h2 : item ≠ .undefined) (h : item.hasOwnToString = false) :
    ∃ r, processFurnitureItem item i = .ok r := by
  obtain ⟨s, hs⟩ := validatePoint_of_plain _ (hasOwnToString_optChain item "position" h)
  obtain ⟨d, hd⟩ := validateDimensions_of_plain _ (hasOwnToString_optChain item "dimensions" h)
  simp only [processFurnitureItem, getProp_of_ne item _ h1 h2, bind, Except.bind, hs, hd,
    pure, Except.pure]
  exact ⟨_, rfl⟩

/-- An array pass returns as soon as its callback returns on every entry. -/
theorem pass_ok_of_forall {β : Type} (f : JSVal → Nat → Except JSError β) (p : β → Bool)
    (v : JSVal) (h : ∀ x ∈ (v.asArray).getD [], ∀ j, ∃ y, f x j = .ok y) :
    ∃ out, (match v.asArray with
      | none => (pure [] : Except JSError (List β))
      | some elems => do
        let mapped ← mapIdxFrom f 0 elems
        pure (mapped.filter p)) = .ok out := by
  cases hv : v.asArray with
  | none => exact ⟨[], rfl⟩
  | some elems =>
    simp only [hv, Option.getD_some] at h
    obtain ⟨ys, hys⟩ := mapIdxFrom_ok_of_forall f elems 0 h
    exact ⟨ys.filter p, by simp [bind, Except.bind, hys, pure, Except.pure]⟩

theorem sectionEntries_plain (a : JSVal) (k : String) (h : a.hasOwnToString = false) :
    ∀ x ∈ sectionEntries a k, x.hasOwnToString = false := by
  have h1 : (sectionField a k).hasOwnToString = false := by
    unfold sectionField floorPlanSection
    apply hasOwnToString_or
    · exact hasOwnToString_optChain _ _
        (hasOwnToString_optChain _ _ (hasOwnToString_optChain _ _ h))
    · rfl
  intro x hx
  unfold sectionEntries at hx
  cases hv : sectionField a k with
  | arr elems =>
    rw [hv] at h1 hx
    simp only [JSVal.asArray, Option.getD_some] at hx
    simp only [JSVal.hasOwnToString] at h1
    exact hasOwnToString_elem elems h1 x hx
  | _ => rw [hv] at hx; simp [JSVal.asArray] at hx

theorem isNullish_false {v : JSVal} (h : (!v.isNullish) = true) : v ≠ .null ∧ v ≠ .undefined := by
  cases v <;> simp_all [JSVal.isNullish]

theorem noNullishEntries_mem {a : JSVal} (h : noNullishEntries a = true) (k : String)
    (hk : k ∈ ["rooms", "walls", "doors", "windows", "furniture"]) :
    ∀ x ∈ sectionEntries a k, x ≠ .null ∧ x ≠ .undefined := by
  intro x hx
  simp only [noNullishEntries, List.all_eq_true] at h
  exact isNullish_false (h k hk x hx)

theorem forall₂_filter_map {α β γ : Type} {R : α → β → Prop} (p : β → Bool) (g : β → γ)
    (q : α → Option γ)
    (hpt : ∀ x y, R x y → (if p y = true then some (g y) else none) = q x) :
    ∀ xs ys, List.Forall₂ R xs ys → (ys.filter p).map g = xs.filterMap q := by
  intro xs ys h
  induction h with
  | nil => rfl
  | @cons x y xs' ys' hxy _ ih =>
    have hq := hpt x y hxy
    by_cases hp : p y = true
    · simp only [hp, if_true] at hq
      simp [List.filter_cons, hp, List.filterMap_cons, ← hq, ih]
    · simp only [hp, if_false] at hq
      simp [List.filter_cons, hp, List.filterMap_cons, ← hq, ih]

theorem processRoom_dimensions {room : JSVal} {i : Nat} {r : Room}
    (h : processRoom room i = .ok r) : rawRoomDimensions room = r.dimensions := by
  simp only [processRoom, bind, Except.bind, pure, Except.pure] at h
  cases h1 : room.getProp "id" with
  | error e => simp [h1] at h
  | ok v1 =>
  have hne : room.getProp "dimensions" = .ok (room.optChain "dimensions") := by
    cases room <;> simp_all [JSVal.getProp, JSVal.optChain]
  have hn : ∀ k, room.getProp k = .ok (room.optChain k) := by
    intro k
    cases room <;> simp_all [JSVal.getProp, JSVal.optChain]
  simp only [hn] at h
  cases hd : validateDimensions (room.optChain "dimensions") with
  | error e => simp [hd] at h
  | ok d =>
    simp only [hd, Except.ok.injEq] at h
    subst h
    unfold rawRoomDimensions
    rw [hd]
    cases d <;> rfl

/-- The rooms a pass returns hold, in order, the rectangles `validateDimensions`
accepted; a raw room whose rectangle is rejected leaves no room behind. -/
theorem processRooms_dimensions {v : JSVal} {out : List Room} (h : processRooms v = .ok out) :
    out.map (fun r => r.dimensions) =
      (((v.asArray).getD []).filterMap rawRoomDimensions).map some := by
  unfold processRooms at h
  cases hv : v.asArray with
  | none =>
    simp only [hv, pure, Except.pure, Except.ok.injEq] at h
    subst h
    rfl
  | some elems =>
    simp only [hv, bind, Except.bind] at h
    cases hm : mapIdxFrom processRoom 0 elems with
    | error e => simp [hm] at h
    | ok mapped =>
      simp only [hm, pure, Except.pure, Except.ok.injEq] at h
      subst h
      have hf := mapIdxFrom_ok_forall₂ processRoom elems 0 mapped hm
      rw [Option.getD_some, List.map_filterMap]
      refine forall₂_filter_map (fun room => room.dimensions.isSome) (fun r => r.dimensions)
        _ ?_ elems mapped hf
      rintro x y ⟨j, hj⟩
      rw [processRoom_dimensions hj]
      cases hd : y.dimensions <;> simp [hd]

theorem getProp_all_of_ok {v w : JSVal} {k : String} (h : v.getProp k = .ok w) :
    ∀ k', v.getProp k' = .ok (v.optChain k') := by
  intro k'
  cases v <;> simp_all [JSVal.getProp, JSVal.optChain]

theorem pointOr_fin (v : JSVal) (x0 y0 : ℚ) :
    ∃ x y : ℚ, pointOr v { x := .fin x0, y := .fin y0 } = { x := .fin x, y := .fin y } := by
  unfold pointOr
  split
  · rename_i p hp
    obtain ⟨_, _, _, _, x, y, hxy⟩ := validatePoint_some hp
    exact ⟨x, y, hxy⟩
  · exact ⟨x0, y0, rfl⟩

theorem orElse_eq_pointOr {v : JSVal} {r : Option Point} (h : validatePoint v = .ok r)
    (fallback : Point) :
    r.orElse (fun _ => some fallback) = some (pointOr v fallback) := by
  unfold pointOr
  rw [h]
  cases r <;> rfl

theorem processWall_ends {wall : JSVal} {i : Nat} {w : Wall} (h : processWall wall i = .ok w) :
    w.start = some (rawWallEnds wall).1 ∧ w.end_ = some (rawWallEnds wall).2 := by
  simp only [processWall, bind, Except.bind, pure, Except.pure] at h
  cases h1 : wall.getProp "id" with
  | error e => simp [h1] at h
  | ok v1 =>
  simp only [getProp_all_of_ok h1] at h
  cases hs : validatePoint (wall.optChain "start") with
  | error e => simp [hs] at h
  | ok s =>
  cases he : validatePoint (wall.optChain "end") with
  | error e => simp [hs, he] at h
  | ok e =>
  cases ht : mathMax (.ofRat 1) ((wall.optChain "thickness").or (.ofRat 4)) with
  | error e => simp [hs, he, ht] at h
  | ok t =>
    simp only [hs, he, ht, Except.ok.injEq] at h
    subst h
    exact ⟨orElse_eq_pointOr hs _, orElse_eq_pointOr he _⟩

theorem wallKept_iff {w : Wall} {sx sy ex ey : ℚ}
    (hs : w.start = some { x := .fin sx, y := .fin sy })
    (he : w.end_ = some { x := .fin ex, y := .fin ey }) :
    wallKept w = true ↔
      ({ x := .fin sx, y := .fin sy } : Point) ≠ { x := .fin ex, y := .fin ey } := by
  unfold wallKept
  rw [hs, he]
  simp only [JSNum.strictEq, Bool.or_eq_true, Bool.not_eq_true', decide_eq_false_iff_not, ne_eq,
    Point.mk.injEq, JSNum.fin.injEq, not_and]
  constructor
  · rintro (h | h) h1 h2
    · exact h (by rw [h1])
    · exact h (by rw [h2])
  · intro h
    by_cases hx : sx = ex
    · right
      intro hy
      exact h hx hy
    · left
      intro hx'
      exact hx hx'

theorem wallKept_eq {wall : JSVal} {i : Nat} {w : Wall} (h : processWall wall i = .ok w) :
    wallKept w = decide ((rawWallEnds wall).1 ≠ (rawWallEnds wall).2) := by
  obtain ⟨hs, he⟩ := processWall_ends h
  obtain ⟨sx, sy, hsp⟩ := pointOr_fin (wall.optChain "start") 0 0
  obtain ⟨ex, ey, hep⟩ := pointOr_fin (wall.optChain "end") 100 0
  have h1 : (rawWallEnds wall).1 = { x := .fin sx, y := .fin sy } := hsp
  have h2 : (rawWallEnds wall).2 = { x := .fin ex, y := .fin ey } := hep
  rw [h1] at hs
  rw [h2] at he
  rw [h1, h2]
  by_cases hk : wallKept w = true
  · rw [hk]
    exact (decide_eq_true ((wallKept_iff hs he).1 hk)).symm
  · have hk' : wallKept w = false := by simpa using hk
    rw [hk']
    exact (decide_eq_false (fun hne => hk ((wallKept_iff hs he).2 hne))).symm

theorem processWalls_inv {v : JSVal} {out : List Wall} (h : processWalls v = .ok out) :
    ∃ mapped, mapIdxFrom processWall 0 ((v.asArray).getD []) = .ok mapped ∧
      out = mapped.filter wallKept := by
  unfold processWalls at h
  cases hv : v.asArray with
  | none =>
    simp only [hv, pure, Except.pure, Except.ok.injEq] at h
    subst h
    exact ⟨[], rfl, rfl⟩
  | some elems =>
    simp only [hv, bind, Except.bind] at h
    cases hm : mapIdxFrom processWall 0 elems with
    | error e => simp [hm] at h
    | ok mapped =>
      simp only [hm, pure, Except.pure, Except.ok.injEq] at h
      exact ⟨mapped, hm, h.symm⟩

/-- The walls a pass returns hold, in order, the parsed end points of the raw
walls whose parsed start differs from the parsed end. -/
theorem processWalls_ends {v : JSVal} {out : List Wall} (h : processWalls v = .ok out) :
    out.map (fun w => (w.start, w.end_)) =
      (((v.asArray).getD []).filterMap rawWallKeptEnds).map
        (fun p => (some p.1, some p.2)) := by
  obtain ⟨mapped, hm, rfl⟩ := processWalls_inv h
  have hf := mapIdxFrom_ok_forall₂ processWall _ 0 mapped hm
  rw [List.map_filterMap]
  refine forall₂_filter_map wallKept (fun w => (w.start, w.end_)) _ ?_ _ mapped hf
  rintro x y ⟨j, hj⟩
  obtain ⟨hs, he⟩ := processWall_ends hj
  by_cases heq : (rawWallEnds x).1 = (rawWallEnds x).2
  · simp [wallKept_eq hj, rawWallKeptEnds, heq]
  · simp [wallKept_eq hj, rawWallKeptEnds, heq, hs, he]


theorem mapIdxFrom_ok_mem {β : Type} (f : JSVal → Nat → Except JSError β) :
    ∀ (xs : List JSVal) (i : Nat) (ys : List β),
      mapIdxFrom f i xs = .ok ys → ∀ y ∈ ys, ∃ x ∈ xs, ∃ j, f x j = .ok y := by
  intro xs i ys h
  have hf := mapIdxFrom_ok_forall₂ f xs i ys h
  clear h
  induction hf with
  | nil => intro y hy; simp at hy
  | @cons x y xs' ys' hxy _ ih =>
    intro y' hy'
    rcases List.mem_cons.1 hy' with rfl | hy''
    · exact ⟨x, List.mem_cons_self _ _, hxy⟩
    · obtain ⟨x', hx', hj⟩ := ih y' hy''
      exact ⟨x', List.mem_cons_of_mem _ hx', hj⟩

theorem processDoor_position_isSome {door : JSVal} {i : Nat} {d : Door}
    (h : processDoor door i = .ok d) : d.position.isSome = true := by
  simp only [processDoor, bind, Except.bind, pure, Except.pure] at h
  cases h1 : door.getProp "id" with
  | error e => simp [h1] at h
  | ok v1 =>
  simp only [getProp_all_of_ok h1] at h
  cases hs : validatePoint (door.optChain "position") with
  | error e => simp [hs] at h
  | ok s =>
  cases ht : mathMax (.ofRat 10) ((door.optChain "width").or (.ofRat 30)) with
  | error e => simp [hs, ht] at h
  | ok t =>
    simp only [hs, ht, Except.ok.injEq] at h
    subst h
    cases s <;> rfl

/-- The filter of `processDoors` removes nothing: the doors it returns are the
mapped entries, one per raw entry and in the same place. -/
theorem processDoors_inv {v : JSVal} {out : List Door} (h : processDoors v = .ok out) :
    mapIdxFrom processDoor 0 ((v.asArray).getD []) = .ok out := by
  unfold processDoors at h
  cases hv : v.asArray with
  | none =>
    simp only [hv, pure, Except.pure, Except.ok.injEq] at h
    subst h
    rfl
  | some elems =>
    simp only [hv, bind, Except.bind] at h
    cases hm : mapIdxFrom processDoor 0 elems with
    | error e => simp [hm] at h
    | ok mapped =>
      simp only [hm, pure, Except.pure, Except.ok.injEq] at h
      have hall : ∀ d ∈ mapped, d.position.isSome = true := by
        intro d hd
        obtain ⟨x, _, j, hj⟩ := mapIdxFrom_ok_mem processDoor elems 0 mapped hm d hd
        exact processDoor_position_isSome hj
      rw [List.filter_eq_self.2 hall] at h
      rw [Option.getD_some, ← h]
      exact hm

theorem validatePoint_of_fields (fields : List (String × JSVal)) (px py : ℚ)
    (hx : lookup "x" fields = .ofRat px) (hy : lookup "y" fields = .ofRat py) :
    validatePoint (.obj fields) = .ok (some { x := .fin px, y := .fin py }) := by
  simp [validatePoint, JSVal.truthy, JSVal.typeofObject, JSVal.getProp, hx, hy, bind,
    Except.bind, JSVal.parseFloat, JSVal.ofRat, throwsOnConvert, parseFloatOf, JSNum.isFinite,
    pure, Except.pure]

theorem ne_nullish_of_optChain {v : JSVal} {k : String} {q : ℚ}
    (h : v.optChain k = .ofRat q) : v ≠ .null ∧ v ≠ .undefined := by
  cases v <;> simp_all [JSVal.optChain, JSVal.ofRat]

theorem mathMax_floor (c d w : ℚ) (h0 : w ≠ 0) (hc : w ≤ c) :
    mathMax (.ofRat c) ((JSVal.ofRat w).or (.ofRat d)) = .ok (.fin c) := by
  have hle : ¬ c ≤ w ∨ c = w := by
    by_cases h : c ≤ w
    · exact Or.inr (le_antisymm h hc)
    · exact Or.inl h
  rcases hle with hle | hle
  · simp [mathMax, JSVal.or, JSVal.ofRat, JSVal.truthy, h0, JSVal.toNumber, throwsOnConvert,
      toNumberOf, bind, Except.bind, JSNum.max, JSNum.le, hle, pure, Except.pure]
  · simp [mathMax, JSVal.or, JSVal.ofRat, JSVal.truthy, h0, JSVal.toNumber, throwsOnConvert,
      toNumberOf, bind, Except.bind, JSNum.max, JSNum.le, hle, pure, Except.pure]

theorem mathMax_default (c d : ℚ) :
    mathMax (.ofRat c) ((JSVal.ofRat 0).or (.ofRat d)) = .ok (JSNum.max (.fin c) (.fin d)) := by
  simp [mathMax, JSVal.or, JSVal.ofRat, JSVal.truthy, JSVal.toNumber, throwsOnConvert,
    toNumberOf, bind, Except.bind, pure, Except.pure]


theorem mapIdxFrom_ok_image {β : Type} (f : JSVal → Nat → Except JSError β) :
    ∀ (xs : List JSVal) (i : Nat) (ys : List β),
      mapIdxFrom f i xs = .ok ys → ∀ x ∈ xs, ∃ y ∈ ys, ∃ j, f x j = .ok y := by
  intro xs i ys h
  have hf := mapIdxFrom_ok_forall₂ f xs i ys h
  clear h
  induction hf with
  | nil => intro x hx; simp at hx
  | @cons x y xs' ys' hxy _ ih =>
    intro x' hx'
    rcases List.mem_cons.1 hx' with rfl | hx''
    · exact ⟨y, List.mem_cons_self _ _, hxy⟩
    · obtain ⟨y', hy', hj⟩ := ih x' hx''
      exact ⟨y', List.mem_cons_of_mem _ hy', hj⟩

/-- A raw wall with valid, distinct end points and thickness 0 is processed,
at any index, into a wall the filter keeps, of thickness 4. -/
theorem processWall_zero_thickness (wall : JSVal) (s e : Point)
    (hs : validatePoint (wall.optChain "start") = .ok (some s))
    (he : validatePoint (wall.optChain "end") = .ok (some e))
    (hne : s ≠ e)
    (hth : wall.optChain "thickness" = .ofRat 0) (i : Nat) :
    ∃ w, processWall wall i = .ok w ∧ wallKept w = true ∧ w.thickness = .fin 4 ∧
      w.start = some s ∧ w.end_ = some e := by
  obtain ⟨h1, h2⟩ := ne_nullish_of_optChain hth
  obtain ⟨_, _, _, _, sx, sy, rfl⟩ := validatePoint_some hs
  obtain ⟨_, _, _, _, ex, ey, rfl⟩ := validatePoint_some he
  have hmax : JSNum.max (.fin 1) (.fin 4) = .fin 4 := by decide
  simp only [processWall, getProp_of_ne wall _ h1 h2, bind, Except.bind, hs, he, hth,
    mathMax_default, hmax, pure, Except.pure]
  exact ⟨_, rfl, (wallKept_iff rfl rfl).2 hne, rfl, rfl, rfl⟩

/-- A raw door whose position is an object with numeric `x` and `y` and whose
width is a number in `(0, 10)` is processed, at any index, into a door of width
10 at that position. -/
theorem processDoor_narrow (door : JSVal) (fields : List (String × JSVal)) (px py w : ℚ)
    (hpos : door.optChain "position" = .obj fields)
    (hx : lookup "x" fields = .ofRat px) (hy : lookup "y" fields = .ofRat py)
    (hw : door.optChain "width" = .ofRat w) (h0 : 0 < w) (h10 : w < 10) (i : Nat) :
    ∃ d, processDoor door i = .ok d ∧ d.width = .fin 10 ∧
      d.position = some { x := .fin px, y := .fin py } := by
  obtain ⟨h1, h2⟩ := ne_nullish_of_optChain hw
  simp only [processDoor, getProp_of_ne door _ h1 h2, bind, Except.bind, hpos, hw,
    validatePoint_of_fields fields px py hx hy, mathMax_floor 10 30 w (ne_of_gt h0)
      (le_of_lt h10), pure, Except.pure]
  exact ⟨_, rfl, rfl, rfl⟩

/-! ### Numeric strings round to doubles -/

/-- A decimal string beyond the largest double parses to `Infinity`. -/
theorem parseFloat_overflow : parseFloatStr "1e400" = .posInf := by decide!

/-- A decimal string below the smallest subnormal parses to 0. -/
theorem parseFloat_underflow : parseFloatStr "1e-400" = .fin 0 := by decide!

/-- The string "2.2" parses to the double nearest to 2.2. -/
theorem parseFloat_decimal :
    parseFloatStr "2.2" = .fin (2476979795053773 / 1125899906842624) := by decide!

/-- The numeric string for `2 ^ 53 + 1` converts to `2 ^ 53`. -/
theorem stringToNumber_rounds :
    stringToNumber "9007199254740993" = .fin 9007199254740992 := by decide!

/-- The sum `0.1 + 0.2` is 0.30000000000000004, the double above the double
nearest to 0.3; the largest double plus itself is `Infinity`; the smallest
positive double halved is 0. -/
theorem add_rounds :
    (roundDouble (1 / 10)).add (roundDouble (2 / 10)) =
      .fin (5404319552844596 / 18014398509481984) ∧
    roundDouble (3 / 10) = .fin (5404319552844595 / 18014398509481984) ∧
    (roundDouble (17976931348623157 * 10 ^ 292)).add
      (roundDouble (17976931348623157 * 10 ^ 292)) = .posInf ∧
    (roundDouble (5 / 10 ^ 324)).div (.fin 2) = .fin 0 := by
  decide!

/-! ### The order of the numbers -/

theorem JSNum.le_self (a : JSNum) (h : a ≠ .nan) : a.le a = true := by
  cases a <;> simp_all [JSNum.le]

theorem JSNum.ne_nan_of_le {a b : JSNum} (h : a.le b = true) : a ≠ .nan ∧ b ≠ .nan := by
  cases a <;> cases b <;> simp_all [JSNum.le]

theorem JSNum.le_chain {a b c : JSNum} (h1 : a.le b = true) (h2 : b.le c = true) :
    a.le c = true := by
  cases a <;> cases b <;> cases c <;> simp_all [JSNum.le]
  exact le_trans h1 h2

theorem JSNum.le_either (a b : JSNum) (ha : a ≠ .nan) (hb : b ≠ .nan) :
    a.le b = true ∨ b.le a = true := by
  cases a <;> cases b <;> simp_all [JSNum.le]
  exact le_total _ _

theorem JSNum.min_ne_nan (a b : JSNum) (ha : a ≠ .nan) (hb : b ≠ .nan) : a.min b ≠ .nan := by
  cases a <;> cases b <;> simp_all [JSNum.min] <;> split_ifs <;> simp

theorem JSNum.max_ne_nan (a b : JSNum) (ha : a ≠ .nan) (hb : b ≠ .nan) : a.max b ≠ .nan := by
  cases a <;> cases b <;> simp_all [JSNum.max] <;> split_ifs <;> simp

theorem JSNum.min_le_left (a b : JSNum) (ha : a ≠ .nan) (hb : b ≠ .nan) :
    (a.min b).le a = true := by
  cases a <;> cases b <;> simp_all [JSNum.min, JSNum.le]
  split_ifs with h <;> simp_all [JSNum.le]
  exact le_of_lt h

theorem JSNum.min_le_right (a b : JSNum) (ha : a ≠ .nan) (hb : b ≠ .nan) :
    (a.min b).le b = true := by
  cases a <;> cases b <;> simp_all [JSNum.min, JSNum.le]
  split_ifs with h <;> simp_all [JSNum.le]

theorem JSNum.le_max_left (a b : JSNum) (ha : a ≠ .nan) (hb : b ≠ .nan) :
    a.le (a.max b) = true := by
  cases a <;> cases b <;> simp_all [JSNum.max, JSNum.le]
  split_ifs with h <;> simp_all [JSNum.le]

theorem JSNum.le_max_right (a b : JSNum) (ha : a ≠ .nan) (hb : b ≠ .nan) :
    b.le (a.max b) = true := by
  cases a <;> cases b <;> simp_all [JSNum.max, JSNum.le]
  split_ifs with h <;> simp_all [JSNum.le]
  exact le_of_lt h

/-- `Math.min` returns its first argument when it is below the second. -/
theorem JSNum.min_eq_left {a b : JSNum} (h : a.le b = true) : a.min b = a := by
  cases a <;> cases b <;> simp_all [JSNum.min, JSNum.le]

/-- `Math.max` returns its second argument when the first is below it. -/
theorem JSNum.max_eq_right {a b : JSNum} (h : a.le b = true) : a.max b = b := by
  cases a <;> cases b <;> simp_all [JSNum.max, JSNum.le]

theorem JSNum.min_eq_right {a b : JSNum} (h : b.le a = true) : a.min b = b := by
  cases a <;> cases b <;> simp_all [JSNum.min, JSNum.le]
  intro h'; exact le_antisymm h' h

theorem JSNum.max_eq_left {a b : JSNum} (h : b.le a = true) : a.max b = a := by
  cases a <;> cases b <;> simp_all [JSNum.max, JSNum.le]
  intro h'; exact le_antisymm h h'

theorem JSNum.min_absorb (a p q : JSNum) (hpq : p.le q = true) :
    (a.min p).min q = a.min p := by
  rcases eq_or_ne a .nan with rfl | ha
  · cases p <;> cases q <;> simp_all [JSNum.min, JSNum.le]
  · obtain ⟨hp, hq⟩ := JSNum.ne_nan_of_le hpq
    exact JSNum.min_eq_left (JSNum.le_chain (JSNum.min_le_right a p ha hp) hpq)

theorem JSNum.max_absorb (a p q : JSNum) (hqp : q.le p = true) :
    (a.max p).max q = a.max p := by
  rcases eq_or_ne a .nan with rfl | ha
  · cases p <;> cases q <;> simp_all [JSNum.max, JSNum.le]
  · obtain ⟨hq, hp⟩ := JSNum.ne_nan_of_le hqp
    exact JSNum.max_eq_left (JSNum.le_chain hqp (JSNum.le_max_right a p ha hp))

theorem JSNum.max_replace (a p q : JSNum) (hpq : p.le q = true) :
    (a.max p).max q = a.max q := by
  rcases eq_or_ne a .nan with rfl | ha
  · cases p <;> cases q <;> simp_all [JSNum.max, JSNum.le]
  · obtain ⟨hp, hq⟩ := JSNum.ne_nan_of_le hpq
    rcases JSNum.le_either a p ha hp with h | h
    · rw [JSNum.max_eq_right h, JSNum.max_eq_right hpq, JSNum.max_eq_right (JSNum.le_chain h hpq)]
    · rw [JSNum.max_eq_left h]

theorem JSNum.add_fin_ne_nan (a b : ℚ) : (JSNum.fin a).add (.fin b) ≠ .nan :=
  JSNum.arith_ne_nan a b (a + b)

/-- A sum is not below its first term when the second is not negative. -/
theorem JSNum.le_add_of_nonneg (x w : ℚ) (hw : 0 ≤ w) :
    (JSNum.fin x).le ((JSNum.fin x).add (.fin w)) = true :=
  JSNum.le_arith x x w (x + w) (fun h _ => h) (by linarith)

/-! ### The bounds -/

theorem min_fin (a b : ℚ) : JSNum.min (.fin a) (.fin b) = .fin (min a b) := by
  simp only [JSNum.min, JSNum.le, min_def]
  split_ifs <;> simp_all

theorem max_fin (a b : ℚ) : JSNum.max (.fin a) (.fin b) = .fin (max a b) := by
  simp only [JSNum.max, JSNum.le, max_def]
  split_ifs <;> simp_all

theorem min_posInf_fin (b : ℚ) : JSNum.min .posInf (.fin b) = .fin b := rfl

theorem max_negInf_fin (b : ℚ) : JSNum.max .negInf (.fin b) = .fin b := rfl

theorem boundsInit_shaped : boundsInit.shaped := Or.inl rfl

theorem boundsAddRoom_shaped {acc : BoundsAcc} (hacc : acc.shaped) {room : Room}
    (hr : room.wellFormed) : (boundsAddRoom acc room).shaped := by
  obtain ⟨x, y, w, h, hd, _, _⟩ := hr
  right
  rcases hacc with rfl | ⟨_, mx, my, hx, hy⟩
  · exact ⟨by simp [boundsAddRoom, hd], x, y, by simp [boundsAddRoom, hd, boundsInit, JSNum.min, JSNum.le],
      by simp [boundsAddRoom, hd, boundsInit, JSNum.min, JSNum.le]⟩
  · exact ⟨by simp [boundsAddRoom, hd], min mx x, min my y,
      by simp [boundsAddRoom, hd, hx, min_fin], by simp [boundsAddRoom, hd, hy, min_fin]⟩

theorem boundsAddWall_shaped {acc : BoundsAcc} (hacc : acc.shaped) {wall : Wall}
    (hw : wall.wellFormed) : (boundsAddWall acc wall).shaped := by
  obtain ⟨sx, sy, ex, ey, hs, he⟩ := hw
  right
  rcases hacc with rfl | ⟨_, mx, my, hx, hy⟩
  · exact ⟨by simp [boundsAddWall, hs, he], min sx ex, min sy ey,
      by simp [boundsAddWall, hs, he, boundsInit, min_posInf_fin, min_fin],
      by simp [boundsAddWall, hs, he, boundsInit, min_posInf_fin, min_fin]⟩
  · exact ⟨by simp [boundsAddWall, hs, he], min (min mx sx) ex, min (min my sy) ey,
      by simp [boundsAddWall, hs, he, hx, min_fin], by simp [boundsAddWall, hs, he, hy, min_fin]⟩

theorem foldl_rooms_shaped :
    ∀ (rooms : List Room) (acc : BoundsAcc),
      (∀ r ∈ rooms, r.wellFormed) → acc.shaped → (rooms.foldl boundsAddRoom acc).shaped := by
  intro rooms
  induction rooms with
  | nil => intro acc _ h; exact h
  | cons r rs ih =>
    intro acc hall hacc
    exact ih _ (fun r' hr' => hall r' (List.mem_cons_of_mem _ hr'))
      (boundsAddRoom_shaped hacc (hall r (List.mem_cons_self _ _)))

theorem foldl_walls_shaped :
    ∀ (walls : List Wall) (acc : BoundsAcc),
      (∀ w ∈ walls, w.wellFormed) → acc.shaped → (walls.foldl boundsAddWall acc).shaped := by
  intro walls
  induction walls with
  | nil => intro acc _ h; exact h
  | cons w ws ih =>
    intro acc hall hacc
    exact ih _ (fun w' hw' => hall w' (List.mem_cons_of_mem _ hw'))
      (boundsAddWall_shaped hacc (hall w (List.mem_cons_self _ _)))

/-- Once an element was seen the local variables are not the initial ones. -/
theorem foldl_rooms_seen :
    ∀ (rooms : List Room) (acc : BoundsAcc), (∀ r ∈ rooms, r.wellFormed) →
      acc.hasValidElements = true → (rooms.foldl boundsAddRoom acc).hasValidElements = true := by
  intro rooms
  induction rooms with
  | nil => intro acc _ h; exact h
  | cons r rs ih =>
    intro acc hall hacc
    obtain ⟨x, y, w, h, hd, _, _⟩ := hall r (List.mem_cons_self _ _)
    exact ih _ (fun r' hr' => hall r' (List.mem_cons_of_mem _ hr')) (by simp [boundsAddRoom, hd])

theorem foldl_walls_seen :
    ∀ (walls : List Wall) (acc : BoundsAcc), (∀ w ∈ walls, w.wellFormed) →
      acc.hasValidElements = true → (walls.foldl boundsAddWall acc).hasValidElements = true := by
  intro walls
  induction walls with
  | nil => intro acc _ h; exact h
  | cons w ws ih =>
    intro acc hall hacc
    obtain ⟨sx, sy, ex, ey, hs, he⟩ := hall w (List.mem_cons_self _ _)
    exact ih _ (fun w' hw' => hall w' (List.mem_cons_of_mem _ hw')) (by simp [boundsAddWall, hs, he])

/-- With a room or a wall, an element was seen and the two minima are finite. -/
theorem fold_seen {rooms : List Room} {walls : List Wall}
    (hr : ∀ r ∈ rooms, r.wellFormed) (hw : ∀ w ∈ walls, w.wellFormed)
    (hne : ¬ (rooms.isEmpty && walls.isEmpty) = true) :
    (walls.foldl boundsAddWall (rooms.foldl boundsAddRoom boundsInit)).hasValidElements = true ∧
    ∃ mx my : ℚ,
      (walls.foldl boundsAddWall (rooms.foldl boundsAddRoom boundsInit)).minX = .fin mx ∧
      (walls.foldl boundsAddWall (rooms.foldl boundsAddRoom boundsInit)).minY = .fin my := by
  have hsh := foldl_walls_shaped walls _ hw (foldl_rooms_shaped rooms boundsInit hr boundsInit_shaped)
  have hseen : (walls.foldl boundsAddWall (rooms.foldl boundsAddRoom boundsInit)).hasValidElements
      = true := by
    cases rooms with
    | cons r rs =>
      apply foldl_walls_seen walls _ hw
      obtain ⟨x, y, w, h, hd, _, _⟩ := hr r (List.mem_cons_self _ _)
      exact foldl_rooms_seen rs _ (fun r' hr' => hr r' (List.mem_cons_of_mem _ hr'))
        (by simp [boundsAddRoom, hd])
    | nil =>
      cases walls with
      | nil => simp at hne
      | cons w ws =>
        obtain ⟨sx, sy, ex, ey, hs, he⟩ := hw w (List.mem_cons_self _ _)
        exact foldl_walls_seen ws _ (fun w' hw' => hw w' (List.mem_cons_of_mem _ hw'))
          (by simp [boundsAddWall, hs, he])
  rcases hsh with hinit | ⟨_, h2⟩
  · rw [hinit] at hseen; cases hseen
  · exact ⟨hseen, h2⟩

theorem model_rooms_wellFormed {a : JSVal} {fp : FloorPlan}
    (h : processFloorPlanData a = .ok (some fp)) : ∀ r ∈ fp.rooms, r.wellFormed := by
  obtain ⟨_, hr, _⟩ := processFloorPlanData_some_inv a fp h
  have hmap := processRooms_dimensions hr
  intro r hr'
  have hmem : r.dimensions ∈ fp.rooms.map (fun r => r.dimensions) :=
    List.mem_map.2 ⟨r, hr', rfl⟩
  rw [hmap] at hmem
  obtain ⟨d, hd, hdr⟩ := List.mem_map.1 hmem
  obtain ⟨room, _, hroom⟩ := List.mem_filterMap.1 hd
  unfold rawRoomDimensions at hroom
  split at hroom
  · rename_i d' hv
    cases hroom
    obtain ⟨_, _, _, _, _, _, x, y, w, ht, hxy, hw, hh⟩ := validateDimensions_some hv
    exact ⟨x, y, w, ht, by rw [← hdr, hxy], hw, hh⟩
  · cases hroom

theorem model_walls_wellFormed {a : JSVal} {fp : FloorPlan}
    (h : processFloorPlanData a = .ok (some fp)) : ∀ w ∈ fp.walls, w.wellFormed := by
  obtain ⟨_, _, hw, _⟩ := processFloorPlanData_some_inv a fp h
  obtain ⟨mapped, hm, hout⟩ := processWalls_inv hw
  intro w hw'
  rw [hout] at hw'
  obtain ⟨x, _, j, hj⟩ := mapIdxFrom_ok_mem processWall _ 0 mapped hm w (List.mem_filter.1 hw').1
  obtain ⟨hs, he⟩ := processWall_ends hj
  obtain ⟨sx, sy, hsp⟩ := pointOr_fin (x.optChain "start") 0 0
  obtain ⟨ex, ey, hep⟩ := pointOr_fin (x.optChain "end") 100 0
  exact ⟨sx, sy, ex, ey, by rw [hs]; exact congrArg some hsp, by rw [he]; exact congrArg some hep⟩

/-- The extremes `calculateOptimalBounds` accumulates over the walls are the
folds of `Math.min` and `Math.max` over the wall endpoints. -/
theorem foldl_walls_eq :
    ∀ (walls : List Wall) (acc : BoundsAcc), (∀ w ∈ walls, w.wellFormed) →
      (walls.foldl boundsAddWall acc).minX =
        ((walls.flatMap wallEndpoints).map (fun p => p.x)).foldl JSNum.min acc.minX ∧
      (walls.foldl boundsAddWall acc).minY =
        ((walls.flatMap wallEndpoints).map (fun p => p.y)).foldl JSNum.min acc.minY ∧
      (walls.foldl boundsAddWall acc).maxX =
        ((walls.flatMap wallEndpoints).map (fun p => p.x)).foldl JSNum.max acc.maxX ∧
      (walls.foldl boundsAddWall acc).maxY =
        ((walls.flatMap wallEndpoints).map (fun p => p.y)).foldl JSNum.max acc.maxY := by
  intro walls
  induction walls with
  | nil => intro acc _; exact ⟨rfl, rfl, rfl, rfl⟩
  | cons w ws ih =>
    intro acc hall
    obtain ⟨sx, sy, ex, ey, hs, he⟩ := hall w (List.mem_cons_self _ _)
    obtain ⟨h1, h2, h3, h4⟩ := ih (boundsAddWall acc w)
      (fun w' hw' => hall w' (List.mem_cons_of_mem _ hw'))
    simp only [List.foldl_cons, List.flatMap_cons, List.map_append, List.foldl_append, h1, h2,
      h3, h4]
    simp [boundsAddWall, wallEndpoints, hs, he]

/-- The extremes `calculateOptimalBounds` accumulates over the rooms are the
folds of `Math.min` and `Math.max` over the room corners. -/
theorem foldl_rooms_eq :
    ∀ (rooms : List Room) (acc : BoundsAcc), (∀ r ∈ rooms, r.wellFormed) →
      (rooms.foldl boundsAddRoom acc).minX =
        ((rooms.flatMap roomCorners).map (fun p => p.x)).foldl JSNum.min acc.minX ∧
      (rooms.foldl boundsAddRoom acc).minY =
        ((rooms.flatMap roomCorners).map (fun p => p.y)).foldl JSNum.min acc.minY ∧
      (rooms.foldl boundsAddRoom acc).maxX =
        ((rooms.flatMap roomCorners).map (fun p => p.x)).foldl JSNum.max acc.maxX ∧
      (rooms.foldl boundsAddRoom acc).maxY =
        ((rooms.flatMap roomCorners).map (fun p => p.y)).foldl JSNum.max acc.maxY := by
  intro rooms
  induction rooms with
  | nil => intro acc _; exact ⟨rfl, rfl, rfl, rfl⟩
  | cons r rs ih =>
    intro acc hall
    obtain ⟨x, y, w, h, hd, hw, hh⟩ := hall r (List.mem_cons_self _ _)
    obtain ⟨h1, h2, h3, h4⟩ := ih (boundsAddRoom acc r)
      (fun r' hr' => hall r' (List.mem_cons_of_mem _ hr'))
    have hxw := JSNum.le_add_of_nonneg x w hw.le
    have hyh := JSNum.le_add_of_nonneg y h hh.le
    have hx : (JSNum.fin x).le (.fin x) = true := JSNum.le_self _ (by simp)
    have hy : (JSNum.fin y).le (.fin y) = true := JSNum.le_self _ (by simp)
    have hxx := JSNum.le_self _ (JSNum.add_fin_ne_nan x w)
    have hyy := JSNum.le_self _ (JSNum.add_fin_ne_nan y h)
    simp only [List.foldl_cons, List.flatMap_cons, List.map_append, List.foldl_append, h1, h2,
      h3, h4]
    simp only [boundsAddRoom, roomCorners, hd, List.map_cons, List.map_nil,
      List.foldl_cons, List.foldl_nil]
    simp only [JSNum.min_absorb _ _ _ hxw, JSNum.min_absorb _ _ _ hx, JSNum.min_absorb _ _ _ hy,
      JSNum.min_absorb _ _ _ hyh, JSNum.max_replace _ _ _ hxw, JSNum.max_absorb _ _ _ hxw,
      JSNum.max_absorb _ _ _ hxx, JSNum.max_absorb _ _ _ hy, JSNum.max_replace _ _ _ hyh,
      JSNum.max_absorb _ _ _ hyy, and_self]

/-- On a well-formed model `calculateOptimalBounds` computes the reference
bounds. -/
theorem calculateOptimalBounds_eq_reference {rooms : List Room} {walls : List Wall}
    (hr : ∀ r ∈ rooms, r.wellFormed) (hw : ∀ w ∈ walls, w.wellFormed) :
    calculateOptimalBounds rooms walls = referenceBounds rooms walls := by
  by_cases hemp : (rooms.isEmpty && walls.isEmpty) = true
  · simp only [Bool.and_eq_true, List.isEmpty_iff] at hemp
    obtain ⟨rfl, rfl⟩ := hemp
    rfl
  · obtain ⟨hseen, mx, my, hmx, hmy⟩ := fold_seen hr hw hemp
    obtain ⟨r1, r2, r3, r4⟩ := foldl_rooms_eq rooms boundsInit hr
    obtain ⟨w1, w2, w3, w4⟩ := foldl_walls_eq walls (rooms.foldl boundsAddRoom boundsInit) hw
    have e1 : minimumOf ((cornerPoints rooms walls).map (fun p => p.x)) =
        (walls.foldl boundsAddWall (rooms.foldl boundsAddRoom boundsInit)).minX := by
      simp only [minimumOf, cornerPoints, List.map_append, List.foldl_append]
      rw [show JSNum.posInf = boundsInit.minX from rfl, ← r1, ← w1]
    have e2 : minimumOf ((cornerPoints rooms walls).map (fun p => p.y)) =
        (walls.foldl boundsAddWall (rooms.foldl boundsAddRoom boundsInit)).minY := by
      simp only [minimumOf, cornerPoints, List.map_append, List.foldl_append]
      rw [show JSNum.posInf = boundsInit.minY from rfl, ← r2, ← w2]
    have e3 : maximumOf ((cornerPoints rooms walls).map (fun p => p.x)) =
        (walls.foldl boundsAddWall (rooms.foldl boundsAddRoom boundsInit)).maxX := by
      simp only [maximumOf, cornerPoints, List.map_append, List.foldl_append]
      rw [show JSNum.negInf = boundsInit.maxX from rfl, ← r3, ← w3]
    have e4 : maximumOf ((cornerPoints rooms walls).map (fun p => p.y)) =
        (walls.foldl boundsAddWall (rooms.foldl boundsAddRoom boundsInit)).maxY := by
      simp only [maximumOf, cornerPoints, List.map_append, List.foldl_append]
      rw [show JSNum.negInf = boundsInit.maxY from rfl, ← r4, ← w4]
    simp only [referenceBounds, hemp, e1, e2, e3, e4, calculateOptimalBounds, hseen, hmx,
      JSNum.strictEq]
    simp

/-- A fold of `Math.min` is below its initial value and below every element. -/
theorem foldl_min_le : ∀ (xs : List JSNum) (a : JSNum), a ≠ .nan → (∀ x ∈ xs, x ≠ .nan) →
    xs.foldl JSNum.min a ≠ .nan ∧ (xs.foldl JSNum.min a).le a = true ∧
    ∀ x ∈ xs, (xs.foldl JSNum.min a).le x = true := by
  intro xs
  induction xs with
  | nil => intro a ha _; exact ⟨ha, JSNum.le_self a ha, by simp⟩
  | cons y ys ih =>
    intro a ha hall
    have hy : y ≠ .nan := hall y (List.mem_cons_self _ _)
    obtain ⟨h1, h2, h3⟩ := ih (a.min y) (JSNum.min_ne_nan a y ha hy)
      (fun x hx => hall x (List.mem_cons_of_mem _ hx))
    refine ⟨h1, JSNum.le_chain h2 (JSNum.min_le_left a y ha hy), ?_⟩
    intro x hx
    rcases List.mem_cons.1 hx with rfl | hx'
    · exact JSNum.le_chain h2 (JSNum.min_le_right a x ha hy)
    · exact h3 x hx'

/-- A fold of `Math.max` is above its initial value and above every element. -/
theorem foldl_max_ge : ∀ (xs : List JSNum) (a : JSNum), a ≠ .nan → (∀ x ∈ xs, x ≠ .nan) →
    xs.foldl JSNum.max a ≠ .nan ∧ a.le (xs.foldl JSNum.max a) = true ∧
    ∀ x ∈ xs, x.le (xs.foldl JSNum.max a) = true := by
  intro xs
  induction xs with
  | nil => intro a ha _; exact ⟨ha, JSNum.le_self a ha, by simp⟩
  | cons y ys ih =>
    intro a ha hall
    have hy : y ≠ .nan := hall y (List.mem_cons_self _ _)
    obtain ⟨h1, h2, h3⟩ := ih (a.max y) (JSNum.max_ne_nan a y ha hy)
      (fun x hx => hall x (List.mem_cons_of_mem _ hx))
    refine ⟨h1, JSNum.le_chain (JSNum.le_max_left a y ha hy) h2, ?_⟩
    intro x hx
    rcases List.mem_cons.1 hx with rfl | hx'
    · exact JSNum.le_chain (JSNum.le_max_right a x ha hy) h2
    · exact h3 x hx'

theorem minimumOf_le (xs : List JSNum) (hall : ∀ x ∈ xs, x ≠ .nan) :
    ∀ x ∈ xs, (minimumOf xs).le x = true :=
  (foldl_min_le xs .posInf (by simp) hall).2.2

theorem le_maximumOf (xs : List JSNum) (hall : ∀ x ∈ xs, x ≠ .nan) :
    ∀ x ∈ xs, x.le (maximumOf xs) = true :=
  (foldl_max_ge xs .negInf (by simp) hall).2.2

/-- No coordinate of a corner of a well-formed room or of an end of a well-formed
wall is `NaN`. -/
theorem cornerPoints_ne_nan {rooms : List Room} {walls : List Wall}
    (hr : ∀ r ∈ rooms, r.wellFormed) (hw : ∀ w ∈ walls, w.wellFormed) :
    ∀ p ∈ cornerPoints rooms walls, p.x ≠ .nan ∧ p.y ≠ .nan := by
  intro p hp
  simp only [cornerPoints, List.mem_append, List.mem_flatMap] at hp
  rcases hp with ⟨r, hmem, hpr⟩ | ⟨w, hmem, hpw⟩
  · obtain ⟨x, y, w, h, hd, _, _⟩ := hr r hmem
    have hx := JSNum.add_fin_ne_nan x w
    have hy := JSNum.add_fin_ne_nan y h
    simp only [roomCorners, hd, List.mem_cons, List.mem_singleton, List.mem_nil_iff,
      or_false] at hpr
    rcases hpr with rfl | rfl | rfl | rfl <;> simp [hx, hy]
  · obtain ⟨sx, sy, ex, ey, hs, he⟩ := hw w hmem
    simp only [wallEndpoints, hs, he, Option.toList, List.mem_append, List.mem_singleton] at hpw
    rcases hpw with rfl | rfl <;> simp

/-- Every room corner and wall endpoint of a well-formed model lies between the
componentwise minima and maxima over all of them. -/
theorem cornerPoints_in_extremes {rooms : List Room} {walls : List Wall}
    (hr : ∀ r ∈ rooms, r.wellFormed) (hw : ∀ w ∈ walls, w.wellFormed) :
    ∀ p ∈ cornerPoints rooms walls,
      (minimumOf ((cornerPoints rooms walls).map (fun p => p.x))).le p.x = true ∧
      p.x.le (maximumOf ((cornerPoints rooms walls).map (fun p => p.x))) = true ∧
      (minimumOf ((cornerPoints rooms walls).map (fun p => p.y))).le p.y = true ∧
      p.y.le (maximumOf ((cornerPoints rooms walls).map (fun p => p.y))) = true := by
  intro p hp
  have hnn := cornerPoints_ne_nan hr hw
  have hxs : ∀ x ∈ (cornerPoints rooms walls).map (fun p => p.x), x ≠ .nan := by
    intro x hx
    obtain ⟨q, hq, rfl⟩ := List.mem_map.1 hx
    exact (hnn q hq).1
  have hys : ∀ y ∈ (cornerPoints rooms walls).map (fun p => p.y), y ≠ .nan := by
    intro y hy
    obtain ⟨q, hq, rfl⟩ := List.mem_map.1 hy
    exact (hnn q hq).2
  exact ⟨minimumOf_le _ hxs _ (List.mem_map.2 ⟨p, hp, rfl⟩),
    le_maximumOf _ hxs _ (List.mem_map.2 ⟨p, hp, rfl⟩),
    minimumOf_le _ hys _ (List.mem_map.2 ⟨p, hp, rfl⟩),
    le_maximumOf _ hys _ (List.mem_map.2 ⟨p, hp, rfl⟩)⟩

/-! ### Colours and validation -/

theorem getDefaultRoomColor_palette (i : Nat) :
    ∃ c, roomColors.get? (i % 10) = some c ∧ getDefaultRoomColor i = .str c := by
  have hlt : i % 10 < roomColors.length := Nat.mod_lt _ (by decide)
  refine ⟨roomColors.get ⟨i % 10, hlt⟩, List.get?_eq_get hlt, ?_⟩
  show (match roomColors.get? (i % 10) with
    | some c => JSVal.str c
    | none => JSVal.undefined) = _
  rw [List.get?_eq_get hlt]

/-- A raw room whose dimensions are accepted is processed, at any index, into a
room with those dimensions and with the colour `room.color ||
getDefaultRoomColor(index)`. -/
theorem processRoom_of_valid {room : JSVal} {d : Dimensions}
    (hd : rawRoomDimensions room = some d) (i : Nat) :
    ∃ r, processRoom room i = .ok r ∧ r.dimensions = some d ∧
      r.color = (room.optChain "color").or (getDefaultRoomColor i) := by
  unfold rawRoomDimensions at hd
  split at hd
  · rename_i d' hv
    cases hd
    obtain ⟨ht, _⟩ := validateDimensions_some hv
    have hne : room ≠ .null ∧ room ≠ .undefined := by
      cases room <;> simp_all [JSVal.optChain, JSVal.truthy]
    simp only [processRoom, getProp_of_ne room _ hne.1 hne.2, bind, Except.bind, hv, pure,
      Except.pure]
    exact ⟨_, rfl, rfl, rfl⟩
  · cases hd

theorem processRooms_inv {v : JSVal} {out : List Room} (h : processRooms v = .ok out) :
    ∃ mapped, mapIdxFrom processRoom 0 ((v.asArray).getD []) = .ok mapped ∧
      out = mapped.filter (fun room => room.dimensions.isSome) := by
  unfold processRooms at h
  cases hv : v.asArray with
  | none =>
    simp only [hv, pure, Except.pure, Except.ok.injEq] at h
    subst h
    exact ⟨[], rfl, rfl⟩
  | some elems =>
    simp only [hv, bind, Except.bind] at h
    cases hm : mapIdxFrom processRoom 0 elems with
    | error e => simp [hm] at h
    | ok mapped =>
      simp only [hm, pure, Except.pure, Except.ok.injEq] at h
      exact ⟨mapped, hm, h.symm⟩


theorem andLengthPositive_arr (xs : List JSVal) :
    (JSVal.arr xs).andLengthPositive = .ok (.bool (!xs.isEmpty)) := by
  cases xs with
  | nil =>
    simp [JSVal.andLengthPositive, JSVal.truthy, JSVal.getLength, JSVal.greaterThanZero,
      JSVal.toNumber, throwsOnConvert, toNumberOf, JSVal.ofRat, bind, Except.bind, pure,
      Except.pure, JSNum.gt, JSNum.lt]
  | cons x rest =>
    have hpos : (0 : ℚ) < (rest.length : ℚ) + 1 := by positivity
    simp only [JSVal.andLengthPositive, JSVal.truthy, JSVal.getLength, JSVal.greaterThanZero,
      JSVal.toNumber, throwsOnConvert, toNumberOf, JSVal.ofRat, bind, Except.bind, pure,
      Except.pure, JSNum.gt, JSNum.lt]
    simp [hpos]

/-- What `validateFloorPlan` returns on an object or an array. -/
theorem validateFloorPlan_of_object {floorPlan : JSVal} {r : Validation}
    (hobj : (!floorPlan.truthy || !floorPlan.typeofObject) = false)
    (h : validateFloorPlan floorPlan = .ok r) :
    (floorPlan.optChain "rooms").andLengthPositive = .ok r.hasRooms ∧
    (floorPlan.optChain "walls").andLengthPositive = .ok r.hasWalls ∧
    r.valid = (r.errors.length == 0) ∧
    (r.errors = [] ↔ ((floorPlan.optChain "rooms").asArray.isSome = true ∧
      (floorPlan.optChain "walls").asArray.isSome = true ∧
      (r.hasRooms.truthy = true ∨ r.hasWalls.truthy = true))) := by
  have ht : floorPlan.truthy = true := by
    cases hf : floorPlan.truthy <;> simp_all
  simp only [validateFloorPlan, hobj, Bool.false_eq_true, if_false, getProp_of_truthy _ _ ht,
    bind, Except.bind, pure, Except.pure] at h
  cases hR : (floorPlan.optChain "rooms").andLengthPositive with
  | error e => simp [hR] at h
  | ok hasRooms =>
  cases hW : (floorPlan.optChain "walls").andLengthPositive with
  | error e => simp [hR, hW] at h
  | ok hasWalls =>
    simp only [hR, hW, Except.ok.injEq] at h
    subst h
    refine ⟨rfl, rfl, rfl, ?_⟩
    cases h1 : (floorPlan.optChain "rooms").asArray.isNone <;>
    cases h2 : (floorPlan.optChain "walls").asArray.isNone <;>
    cases h3 : hasRooms.truthy <;> cases h4 : hasWalls.truthy <;>
    simp_all [Option.isNone_iff_eq_none, Option.isSome_iff_exists]


theorem andLengthPositive_of_plain (v : JSVal) (h : v.hasOwnToString = false) :
    ∃ r, v.andLengthPositive = .ok r := by
  unfold JSVal.andLengthPositive
  split
  · exact ⟨v, rfl⟩
  · rename_i ht
    have hlen : ∃ len, v.getLength = .ok len ∧ len.hasOwnToString = false := by
      cases v with
      | undefined => simp [JSVal.truthy] at ht
      | null => simp [JSVal.truthy] at ht
      | bool b => exact ⟨_, rfl, rfl⟩
      | num n => exact ⟨_, rfl, rfl⟩
      | str s => exact ⟨_, rfl, rfl⟩
      | arr xs => exact ⟨_, rfl, rfl⟩
      | obj fields =>
        simp only [hasOwnToString, Bool.or_eq_false_iff] at h
        exact ⟨_, rfl, hasOwnToString_lookup "length" fields h.2⟩
    obtain ⟨len, hl, hp⟩ := hlen
    simp only [hl, bind, Except.bind, JSVal.greaterThanZero, toNumber_of_plain len hp, pure,
      Except.pure]
    exact ⟨_, rfl⟩

theorem object_of_optChain_arr {v : JSVal} {k : String} {xs : List JSVal}
    (h : v.optChain k = .arr xs) : (!v.truthy || !v.typeofObject) = false := by
  cases v <;> simp_all [JSVal.optChain, JSVal.truthy, JSVal.typeofObject]


/-! ### The renderer -/

/-- A sum that is a double is computed exactly. -/
theorem add_exact (a b : ℚ)
    (h : isDouble a = true → isDouble b = true → isDouble (a + b) = true) :
    (JSNum.fin a).add (.fin b) = .fin (a + b) :=
  JSNum.arith_exact a b _ h

/-- A difference that is a double is computed exactly. -/
theorem sub_exact (a b : ℚ)
    (h : isDouble a = true → isDouble b = true → isDouble (a - b) = true) :
    (JSNum.fin a).sub (.fin b) = .fin (a - b) := by
  show JSNum.arith a (-b) (a + -b) = _
  rw [← sub_eq_add_neg]
  exact JSNum.arith_exact a (-b) _ (fun ha hb => h ha (by rwa [isDouble_neg] at hb))

/-- A product that is a double is computed exactly. -/
theorem mul_exact (a b : ℚ)
    (h : isDouble a = true → isDouble b = true → isDouble (a * b) = true) :
    (JSNum.fin a).mul (.fin b) = .fin (a * b) :=
  JSNum.arith_exact a b _ h

/-- A quotient that is a double is computed exactly. -/
theorem div_exact (a b : ℚ) (hb : b ≠ 0)
    (h : isDouble a = true → isDouble b = true → isDouble (a / b) = true) :
    (JSNum.fin a).div (.fin b) = .fin (a / b) := by
  simp only [JSNum.div, hb, if_false]
  exact JSNum.arith_exact a b _ h

theorem sub_fin_eq (a b : ℚ) : (JSNum.fin a).sub (.fin b) = JSNum.arith a (-b) (a - b) := by
  show JSNum.arith a (-b) (a + -b) = _
  rw [← sub_eq_add_neg]

theorem div_fin_eq (a b : ℚ) (hb : b ≠ 0) :
    (JSNum.fin a).div (.fin b) = JSNum.arith a b (a / b) := by
  simp only [JSNum.div, hb, if_false]

/-- The padding on both sides, `50 * 2`, is 100. -/
theorem padding_twice : (JSNum.fin 50).mul (.fin 2) = .fin 100 := by decide!

theorem renderEffect_returned {m : MathFns} {fp : FloorPlan} {cv dims : Size}
    (h : (renderTry m fp (renderScale fp.bounds dims)).outcome = .returned) :
    renderEffect m (some fp) (some cv) dims =
      { calls := renderPrelude fp cv dims ++
          (renderTry m fp (renderScale fp.bounds dims)).calls ++ [.restore]
        outcome := .returned } := by
  unfold renderEffect
  simp only
  rw [h]

theorem renderEffect_threw {m : MathFns} {fp : FloorPlan} {cv dims : Size} {e : RenderError}
    (h : (renderTry m fp (renderScale fp.bounds dims)).outcome = .threw e) :
    renderEffect m (some fp) (some cv) dims =
      { calls := renderPrelude fp cv dims ++
          (renderTry m fp (renderScale fp.bounds dims)).calls ++ renderDiagnostic e dims
        outcome := .returned } := by
  unfold renderEffect
  simp only
  rw [h]

theorem renderEffect_hangs {m : MathFns} {fp : FloorPlan} {cv dims : Size}
    (h : (renderTry m fp (renderScale fp.bounds dims)).outcome = .hangs) :
    renderEffect m (some fp) (some cv) dims =
      { calls := renderPrelude fp cv dims ++
          (renderTry m fp (renderScale fp.bounds dims)).calls
        outcome := .hangs } := by
  unfold renderEffect
  simp only
  rw [h]

/-- Every render pass on a model and a canvas starts with the six calls of the
prelude. -/
theorem renderEffect_prelude (m : MathFns) (fp : FloorPlan) (cv dims : Size) :
    ∃ rest, (renderEffect m (some fp) (some cv) dims).calls =
      renderPrelude fp cv dims ++ rest := by
  cases h : (renderTry m fp (renderScale fp.bounds dims)).outcome with
  | returned => exact ⟨_, by rw [renderEffect_returned h, List.append_assoc]⟩
  | threw e => exact ⟨_, by rw [renderEffect_threw h, List.append_assoc]⟩
  | hangs => exact ⟨_, by rw [renderEffect_hangs h]⟩

theorem renderTry_invalid {m : MathFns} {fp : FloorPlan} {scale : JSNum}
    (h : scale.isFinite = false ∨ scale.le (.fin 0) = true) :
    renderTry m fp scale = Draw.throw (.invalidScale scale) := by
  unfold renderTry
  rcases h with h | h <;> simp [h]

theorem renderTry_valid {m : MathFns} {fp : FloorPlan} {scale : JSNum}
    (h : ¬ (scale.isFinite = false ∨ scale.le (.fin 0) = true)) :
    renderTry m fp scale = renderStages m fp := by
  unfold renderTry
  have h1 : scale.isFinite = true := by
    cases hf : scale.isFinite <;> simp_all
  have h2 : scale.le (.fin 0) = false := by
    cases hf : scale.le (.fin 0) <;> simp_all
  simp [h1, h2]

/-- A quotient by zero is not finite. -/
theorem div_zero_not_finite (a : JSNum) : (a.div (.fin 0)).isFinite = false := by
  cases a with
  | nan => rfl
  | posInf => rfl
  | negInf => rfl
  | fin q =>
    simp only [JSNum.div, if_true]
    split_ifs <;> rfl

theorem min_not_finite (a b : JSNum) (ha : a.isFinite = false) (hb : b.isFinite = false) :
    (a.min b).isFinite = false := by
  cases a <;> cases b <;> simp_all [JSNum.min, JSNum.isFinite, JSNum.le]

/-- With the bounds `{0, 0, 0, 0}` the scale is not finite, whatever the size of
the surface. -/
theorem renderScale_zero_bounds (dims : Size) :
    (renderScale { minX := .fin 0, minY := .fin 0, width := .fin 0, height := .fin 0 }
      dims).isFinite = false :=
  min_not_finite _ _ (div_zero_not_finite _) (div_zero_not_finite _)

theorem forEach_nil {α : Type} (body : α → Draw) : Draw.forEach [] body = Draw.emit [] := rfl

theorem forEach_cons {α : Type} (x : α) (xs : List α) (body : α → Draw) :
    Draw.forEach (x :: xs) body = (body x).seq (Draw.forEach xs body) := rfl

theorem seq_of_returned {a b : Draw} (h : a.outcome = .returned) :
    a.seq b = { calls := a.calls ++ b.calls, outcome := b.outcome } := by
  simp only [Draw.seq, h]

theorem seq_of_threw {a b : Draw} {e : RenderError} (h : a.outcome = .threw e) :
    a.seq b = a := by
  simp only [Draw.seq, h]

/-- A `forEach` whose body returns on the first elements and throws on the next
issues the calls of those elements and throws; the elements after it are not
visited. -/
theorem forEach_threw {α : Type} (body : α → Draw) (x : α) (post : List α) (e : RenderError)
    (hx : (body x).outcome = .threw e) :
    ∀ pre : List α, (∀ y ∈ pre, (body y).outcome = .returned) →
      Draw.forEach (pre ++ x :: post) body =
        { calls := pre.flatMap (fun y => (body y).calls) ++ (body x).calls,
          outcome := .threw e } := by
  intro pre
  induction pre with
  | nil =>
    intro _
    rw [List.nil_append, forEach_cons, seq_of_threw hx]
    simp [← hx]
  | cons y ys ih =>
    intro hall
    rw [List.cons_append, forEach_cons, seq_of_returned (hall y (List.mem_cons_self _ _)),
      ih (fun z hz => hall z (List.mem_cons_of_mem _ hz))]
    simp [List.flatMap_cons]


theorem seq_emit_emit (a b : List CanvasCall) :
    (Draw.emit a).seq (Draw.emit b) = Draw.emit (a ++ b) := rfl

theorem seq_emit (a : List CanvasCall) (d : Draw) :
    (Draw.emit a).seq d = { calls := a ++ d.calls, outcome := d.outcome } := rfl

theorem arcOf_nonneg (x y r s e : JSNum) (q : ℚ) (hr : r = .fin q) (hq : 0 ≤ q) :
    arcOf x y r s e = Draw.emit [.arc x y r s e] := by
  subst hr
  unfold arcOf
  have : (JSNum.fin q).lt (.fin 0) = false := by
    simp [JSNum.lt, not_lt.mpr hq]
  simp [this]

theorem seq_returned_inv {a b : Draw} (h : (a.seq b).outcome = .returned) :
    a.outcome = .returned ∧ b.outcome = .returned ∧ (a.seq b).calls = a.calls ++ b.calls := by
  unfold Draw.seq at h ⊢
  cases ha : a.outcome with
  | returned => rw [ha] at h; simp only at h ⊢; exact ⟨trivial, h, trivial⟩
  | threw e => rw [ha] at h; simp only at h; rw [ha] at h; cases h
  | hangs => rw [ha] at h; simp only at h; rw [ha] at h; cases h

/-- The font size of a label: it is finite, between 0.8 and 1.5, at most the
smaller side exactly when that side is at least 0.8, the floor 0.8 below that,
and the computed eighth of the smaller side when that lies between 0.8 and
1.5. -/
theorem labelFontSize_spec (w h : ℚ) :
    ∃ f : ℚ, labelFontSize (.fin w) (.fin h) = .fin f ∧ 8 / 10 ≤ f ∧ f ≤ 3 / 2 ∧
      (f ≤ min w h ↔ 8 / 10 ≤ min w h) ∧
      (min w h < 8 / 10 → f = 8 / 10) ∧
      (∀ g : ℚ, (JSNum.fin (min w h)).div (.fin 8) = .fin g → 8 / 10 ≤ g → g ≤ 3 / 2 →
        f = g) := by
  have h8 : (8 : ℚ) ≠ 0 := by norm_num
  have hq : (JSNum.min (.fin w) (.fin h)).div (.fin 8) =
      JSNum.arith (min w h) 8 (min w h / 8) := by
    rw [min_fin, div_fin_eq _ _ h8]
  have hup : 0 ≤ min w h →
      (JSNum.arith (min w h) 8 (min w h / 8)).le (.fin (min w h)) = true := fun h0 =>
    JSNum.arith_le (min w h) _ _ _ (fun hm _ => hm) (by linarith)
  have hlow : min w h ≤ 1 →
      (JSNum.arith (min w h) 8 (min w h / 8)).le (.fin (1 / 8)) = true := fun h1 =>
    JSNum.arith_le (1 / 8) _ _ _ (fun _ _ => by decide!) (by linarith)
  unfold labelFontSize
  rw [hq]
  rw [min_fin, div_fin_eq _ _ h8] at *
  cases hc : JSNum.arith (min w h) 8 (min w h / 8) with
  | nan => exact absurd hc (JSNum.arith_ne_nan _ _ _)
  | posInf =>
    rw [hc] at hup hlow
    refine ⟨3 / 2, by decide!, by norm_num, le_refl _, ?_, ?_, ?_⟩
    · constructor
      · intro hf; linarith
      · intro hm
        have := hup (by linarith)
        simp [JSNum.le] at this
    · intro hm
      have := hlow (by linarith)
      simp [JSNum.le] at this
    · intro g hg; cases hg
  | negInf =>
    refine ⟨8 / 10, by decide!, le_refl _, by norm_num, ?_, ?_, ?_⟩
    · exact ⟨fun hf => hf, fun hm => hm⟩
    · intro _; rfl
    · intro g hg; cases hg
  | fin g =>
    rw [hc] at hup hlow
    refine ⟨max (8 / 10) (min (3 / 2) g), by rw [min_fin, max_fin], le_max_left _ _,
      max_le (by norm_num) (min_le_left _ _), ?_, ?_, ?_⟩
    · constructor
      · intro hf; exact le_trans (le_max_left _ _) hf
      · intro hm
        have := hup (by linarith)
        simp only [JSNum.le, decide_eq_true_eq] at this
        exact max_le hm (le_trans (min_le_right _ _) this)
    · intro hm
      have := hlow (by linarith)
      simp only [JSNum.le, decide_eq_true_eq] at this
      apply max_eq_left
      apply le_trans (min_le_right _ _)
      linarith
    · intro g' hg h1 h2
      injection hg with hg
      subst hg
      rw [min_eq_right h2, max_eq_right h1]

theorem truthy_str {n : String} (h : n ≠ "") : (JSVal.str n).truthy = true := by
  simp [JSVal.truthy, h]

theorem typeTagShown_str (t n : String) :
    typeTagShown (.str t) (.str n) =
      .ok (decide (t ≠ "" ∧ t.toList ≠ toLowerCase n)) := by
  unfold typeTagShown
  by_cases ht : t = ""
  · simp [JSVal.truthy, ht]
  · simp only [JSVal.truthy, ne_eq, ht, not_false_eq_true, decide_True, Bool.not_true,
      Bool.false_eq_true, if_false, true_and, decide_not]
    have hb : (t.toList == toLowerCase n) = decide (t.toList = toLowerCase n) := by
      rw [Bool.eq_iff_iff]
      simp
    rw [hb]

theorem lengthPositive_arr (xs : List JSVal) :
    ((JSVal.arr xs).optLength >>= JSVal.greaterThanZero) = .ok (!xs.isEmpty) := by
  cases xs with
  | nil => simp [JSVal.optLength, JSVal.getLength, JSVal.greaterThanZero, JSVal.toNumber,
      JSVal.throwsOnConvert, JSVal.toNumberOf, JSVal.ofRat, JSNum.gt, JSNum.lt, bind,
      Except.bind, pure, Except.pure]
  | cons x xs =>
    have : (0 : ℚ) < ((xs.length : ℚ) + 1) := by positivity
    simp [JSVal.optLength, JSVal.getLength, JSVal.greaterThanZero, JSVal.toNumber,
      JSVal.throwsOnConvert, JSVal.toNumberOf, JSVal.ofRat, JSNum.gt, JSNum.lt, bind,
      Except.bind, pure, Except.pure, this]

theorem lengthPositive_nullish {v : JSVal} (h : v.isNullish = true) :
    (v.optLength >>= JSVal.greaterThanZero) = .ok false := by
  cases v <;> simp [JSVal.isNullish] at h <;>
    simp [JSVal.optLength, JSVal.greaterThanZero, JSVal.toNumber, JSVal.throwsOnConvert,
      JSVal.toNumberOf, JSNum.gt, JSNum.lt, bind, Except.bind, pure, Except.pure]

theorem viewGuard_of_truthy {floorPlan : JSVal} (ht : floorPlan.truthy = true) {a b : Bool}
    (ha : ((floorPlan.optChain "rooms").optLength >>= JSVal.greaterThanZero) = .ok a)
    (hb : ((floorPlan.optChain "walls").optLength >>= JSVal.greaterThanZero) = .ok b) :
    viewGuard floorPlan = .ok (if !a && !b then .incompleteData else .canvas) := by
  unfold viewGuard
  simp only [ht, Bool.not_true, Bool.false_eq_true, if_false, getProp_of_truthy _ _ ht]
  simp only [bind, Except.bind, pure, Except.pure] at ha hb ⊢
  cases h1 : (floorPlan.optChain "rooms").optLength with
  | error e => simp [h1] at ha
  | ok l1 =>
    rw [h1] at ha; simp only at ha
    cases h2 : (floorPlan.optChain "walls").optLength with
    | error e => simp [h2] at hb
    | ok l2 =>
      rw [h2] at hb; simp only at hb
      simp only [ha, hb]
      cases a <;> cases b <;> rfl

theorem lengthPositive_entries {v : JSVal} {xs : List JSVal}
    (h : v = .arr xs ∨ (v.isNullish = true ∧ xs = [])) :
    (v.optLength >>= JSVal.greaterThanZero) = .ok (!xs.isEmpty) := by
  rcases h with h | ⟨h, rfl⟩
  · rw [h]; exact lengthPositive_arr xs
  · exact lengthPositive_nullish h

theorem foldl_outline_eq_bounds :
    ∀ (rooms : List Room) (acc : OutlineAcc) (b : BoundsAcc),
      acc.minX = b.minX → acc.minY = b.minY → acc.maxX = b.maxX → acc.maxY = b.maxY →
      (rooms.foldl outlineAddRoom acc).minX = (rooms.foldl boundsAddRoom b).minX ∧
      (rooms.foldl outlineAddRoom acc).minY = (rooms.foldl boundsAddRoom b).minY ∧
      (rooms.foldl outlineAddRoom acc).maxX = (rooms.foldl boundsAddRoom b).maxX ∧
      (rooms.foldl outlineAddRoom acc).maxY = (rooms.foldl boundsAddRoom b).maxY := by
  intro rooms
  induction rooms with
  | nil => intro acc b h1 h2 h3 h4; exact ⟨h1, h2, h3, h4⟩
  | cons r rs ih =>
    intro acc b h1 h2 h3 h4
    simp only [List.foldl_cons]
    apply ih
    all_goals
      unfold outlineAddRoom boundsAddRoom
      cases r.dimensions <;> simp [h1, h2, h3, h4]

theorem foldl_outline_none :
    ∀ (rooms : List Room) (acc : OutlineAcc), (∀ r ∈ rooms, r.dimensions = none) →
      rooms.foldl outlineAddRoom acc = acc := by
  intro rooms
  induction rooms with
  | nil => intro acc _; rfl
  | cons r rs ih =>
    intro acc h
    have hr : r.dimensions = none := h r (List.mem_cons_self _ _)
    simp only [List.foldl_cons]
    rw [show outlineAddRoom acc r = acc by unfold outlineAddRoom; rw [hr]]
    exact ih acc (fun r' hr' => h r' (List.mem_cons_of_mem _ hr'))

/-- A coordinate inside `[m, m + b]` is mapped by `p -> offset + s * p`, with
the centring offset, into `[50, size - 50]` when the scaled extent `b * s` is at
most `size - 100`. -/
theorem centred_in_padding {size m b s p : ℚ} (hs : 0 < s) (hfit : b * s ≤ size - 100)
    (h1 : m ≤ p) (h2 : p ≤ m + b) :
    50 ≤ ((size - b * s) / 2 - m * s) + s * p ∧
    ((size - b * s) / 2 - m * s) + s * p ≤ size - 50 := by
  have e1 : 0 ≤ s * (p - m) := mul_nonneg (le_of_lt hs) (by linarith)
  have e2 : s * (p - m) ≤ s * b := mul_le_mul_of_nonneg_left (by linarith) (le_of_lt hs)
  constructor
  · nlinarith
  · nlinarith

theorem or_of_truthy {a : JSVal} (b : JSVal) (h : a.truthy = true) : a.or b = a := by
  simp [JSVal.or, h]

theorem or_truthy (a : JSVal) {b : JSVal} (h : b.truthy = true) : (a.or b).truthy = true := by
  unfold JSVal.or
  cases ha : a.truthy <;> simp [ha, h]

theorem or_or (a b : JSVal) : (a.or b).or b = a.or b := by
  unfold JSVal.or
  cases ha : a.truthy <;> simp [ha]

theorem truthy_str_append (p s : String) (hp : p ≠ "") : (JSVal.str (p ++ s)).truthy = true := by
  apply truthy_str
  intro h
  apply hp
  have hd := congrArg String.data h
  simp only [String.data_append] at hd
  exact String.ext (List.append_eq_nil.mp hd).1

theorem getDefaultRoomColor_truthy (i : Nat) : (getDefaultRoomColor i).truthy = true := by
  obtain ⟨c, hc, he⟩ := getDefaultRoomColor_palette i
  rw [he]
  apply truthy_str
  have hmem : c ∈ roomColors := List.get?_mem hc
  have hall : ∀ c ∈ roomColors, c ≠ "" := by decide
  exact hall c hmem

theorem validateDimensions_toJS (x y w h : ℚ) (hw : 0 < w) (hh : 0 < h) :
    validateDimensions (Dimensions.toJS ⟨.fin x, .fin y, .fin w, .fin h⟩) =
      .ok (some ⟨.fin x, .fin y, .fin w, .fin h⟩) := by
  simp [validateDimensions, Dimensions.toJS, JSVal.truthy, JSVal.typeofObject, JSVal.getProp,
    JSVal.lookup, JSVal.parseFloat, JSVal.throwsOnConvert, JSVal.parseFloatOf, JSNum.isFinite,
    JSNum.le, bind, Except.bind, pure, Except.pure, not_le.mpr hw, not_le.mpr hh]

theorem validatePoint_toJS (x y : ℚ) :
    validatePoint (Point.toJS ⟨.fin x, .fin y⟩) = .ok (some ⟨.fin x, .fin y⟩) := by
  simp [validatePoint, Point.toJS, JSVal.truthy, JSVal.typeofObject, JSVal.getProp,
    JSVal.lookup, JSVal.parseFloat, JSVal.throwsOnConvert, JSVal.parseFloatOf, JSNum.isFinite,
    bind, Except.bind, pure, Except.pure]

/-- What `Math.max(c, v)` returns is `NaN` or at least `c`. -/
theorem mathMax_nan_or_floor {c : ℚ} {v : JSVal} {t : JSNum}
    (h : mathMax (.ofRat c) v = .ok t) : t = .nan ∨ JSNum.le (.fin c) t = true := by
  simp only [mathMax, JSVal.toNumber, JSVal.ofRat, JSVal.throwsOnConvert, Bool.false_eq_true,
    if_false, bind, Except.bind, JSVal.toNumberOf, pure, Except.pure] at h
  split at h
  · cases h
  · rename_i y hy
    simp only [Except.ok.injEq] at h
    subst h
    cases y with
    | nan => left; rfl
    | negInf => right; simp [JSNum.max, JSNum.le]
    | posInf => right; simp [JSNum.max, JSNum.le]
    | fin q =>
      right
      by_cases hq : c ≤ q <;> simp [JSNum.max, JSNum.le, hq]

/-- A number at least `c > 0` passes the clamp `Math.max(c, t || d)` unchanged. -/
theorem mathMax_fixed {c : ℚ} (hc : 0 < c) {t : JSNum} (d : ℚ)
    (h : JSNum.le (.fin c) t = true) :
    mathMax (.ofRat c) ((JSVal.num t).or (.ofRat d)) = .ok t := by
  cases t with
  | nan => simp [JSNum.le] at h
  | negInf => simp [JSNum.le] at h
  | posInf =>
    simp [mathMax, JSVal.or, JSVal.ofRat, JSVal.truthy, JSVal.toNumber, throwsOnConvert,
      toNumberOf, bind, Except.bind, JSNum.max, JSNum.le, pure, Except.pure]
  | fin q =>
    have hq : c ≤ q := by simpa [JSNum.le] using h
    have hq0 : q ≠ 0 := by
      intro h0; rw [h0] at hq; exact absurd hc (not_lt.mpr hq)
    simp [mathMax, JSVal.or, JSVal.ofRat, JSVal.truthy, hq0, JSVal.toNumber, throwsOnConvert,
      toNumberOf, bind, Except.bind, JSNum.max, JSNum.le, hq, pure, Except.pure]

theorem mapIdxFrom_toJS {β : Type} (f : JSVal → Nat → Except JSError β) (toJS : β → JSVal) :
    ∀ (ys : List β) (i : Nat), (∀ y ∈ ys, ∀ j, f (toJS y) j = .ok y) →
      mapIdxFrom f i (ys.map toJS) = .ok ys := by
  intro ys
  induction ys with
  | nil => intro i _; rfl
  | cons y rest ih =>
    intro i h
    simp [mapIdxFrom, bind, Except.bind, h y (List.mem_cons_self _ _) i,
      ih (i + 1) (fun y' hy' j => h y' (List.mem_cons_of_mem _ hy') j), pure, Except.pure]

theorem processRoom_stable {room : JSVal} {i : Nat} {r : Room}
    (h : processRoom room i = .ok r) (hd : r.dimensions.isSome = true) : r.stable := by
  simp only [processRoom, bind, Except.bind, pure, Except.pure] at h
  cases h1 : room.getProp "id" with
  | error e => simp [h1] at h
  | ok v1 =>
  simp only [getProp_all_of_ok h1] at h
  cases hv : validateDimensions (room.optChain "dimensions") with
  | error e => simp [hv] at h
  | ok d =>
    simp only [hv, Except.ok.injEq] at h
    subst h
    refine ⟨or_truthy _ (truthy_str_append _ _ (by decide)),
      or_truthy _ (truthy_str_append _ _ (by decide)), or_truthy _ rfl,
      or_truthy _ (getDefaultRoomColor_truthy i), ?_⟩
    cases d with
    | none => simp at hd
    | some d =>
      obtain ⟨_, _, _, _, _, _, x, y, w, ht, hde, hw, hh⟩ := validateDimensions_some hv
      exact ⟨x, y, w, ht, by rw [hde], hw, hh⟩

theorem processRoom_toJS {r : Room} (hr : r.stable) (j : Nat) :
    processRoom r.toJS j = .ok r := by
  obtain ⟨h1, h2, h3, h4, x, y, w, h, hd, hw, hh⟩ := hr
  cases r with
  | mk id name type dimensions color features =>
    simp only at h1 h2 h3 h4 hd
    subst hd
    simp only [processRoom, Room.toJS, optionToJS, JSVal.getProp, JSVal.lookup, bind, Except.bind,
      pure, Except.pure, or_of_truthy _ h1,
      or_of_truthy _ h2, or_of_truthy _ h3, or_of_truthy _ h4, JSVal.asArray]
    simp [validateDimensions_toJS x y w h hw hh, or_of_truthy _ h1, or_of_truthy _ h2,
      or_of_truthy _ h3, or_of_truthy _ h4]

theorem orElse_point_fin {v : JSVal} {r : Option Point} (h : validatePoint v = .ok r)
    (x0 y0 : ℚ) :
    ∃ x y : ℚ, r.orElse (fun _ => some { x := .fin x0, y := .fin y0 }) =
      some { x := .fin x, y := .fin y } := by
  obtain ⟨x, y, hp⟩ := pointOr_fin v x0 y0
  exact ⟨x, y, by rw [orElse_eq_pointOr h, hp]⟩

theorem processWall_stable {wall : JSVal} {i : Nat} {w : Wall}
    (h : processWall wall i = .ok w) (hn : w.thickness ≠ .nan) : w.stable := by
  simp only [processWall, bind, Except.bind, pure, Except.pure] at h
  cases h1 : wall.getProp "id" with
  | error e => simp [h1] at h
  | ok v1 =>
  simp only [getProp_all_of_ok h1] at h
  cases hs : validatePoint (wall.optChain "start") with
  | error e => simp [hs] at h
  | ok s =>
  cases he : validatePoint (wall.optChain "end") with
  | error e => simp [hs, he] at h
  | ok e =>
  cases ht : mathMax (.ofRat 1) ((wall.optChain "thickness").or (.ofRat 4)) with
  | error e => simp [hs, he, ht] at h
  | ok t =>
    simp only [hs, he, ht, Except.ok.injEq] at h
    subst h
    obtain ⟨sx, sy, hsp⟩ := orElse_point_fin hs 0 0
    obtain ⟨ex, ey, hep⟩ := orElse_point_fin he 100 0
    refine ⟨or_truthy _ (truthy_str_append _ _ (by decide)), or_truthy _ rfl,
      ⟨sx, sy, ex, ey, hsp, hep⟩, ?_⟩
    rcases mathMax_nan_or_floor ht with hnan | hle
    · exact absurd hnan hn
    · exact hle

theorem processWall_toJS {w : Wall} (hw : w.stable) (j : Nat) :
    processWall w.toJS j = .ok w := by
  obtain ⟨h1, h2, ⟨sx, sy, ex, ey, hs, he⟩, ht⟩ := hw
  cases w with
  | mk id start end_ thickness type =>
    simp only at h1 h2 hs he ht
    subst hs he
    simp only [processWall, Wall.toJS, optionToJS, JSVal.getProp, JSVal.lookup, bind, Except.bind,
      pure, Except.pure]
    simp [validatePoint_toJS, mathMax_fixed (by norm_num : (0 : ℚ) < 1) 4 ht,
      or_of_truthy _ h1, or_of_truthy _ h2, Option.orElse]

theorem processDoor_stable {door : JSVal} {i : Nat} {d : Door}
    (h : processDoor door i = .ok d) (hn : d.width ≠ .nan) : d.stable := by
  simp only [processDoor, bind, Except.bind, pure, Except.pure] at h
  cases h1 : door.getProp "id" with
  | error e => simp [h1] at h
  | ok v1 =>
  simp only [getProp_all_of_ok h1] at h
  cases hs : validatePoint (door.optChain "position") with
  | error e => simp [hs] at h
  | ok s =>
  cases ht : mathMax (.ofRat 10) ((door.optChain "width").or (.ofRat 30)) with
  | error e => simp [hs, ht] at h
  | ok t =>
    simp only [hs, ht, Except.ok.injEq] at h
    subst h
    refine ⟨or_truthy _ (truthy_str_append _ _ (by decide)), or_truthy _ rfl,
      orElse_point_fin hs 0 0, or_or _ _, ?_⟩
    rcases mathMax_nan_or_floor ht with hnan | hle
    · exact absurd hnan hn
    · exact hle

theorem processDoor_toJS {d : Door} (hd : d.stable) (j : Nat) :
    processDoor d.toJS j = .ok d := by
  obtain ⟨h1, h2, ⟨x, y, hp⟩, hr, ht⟩ := hd
  cases d with
  | mk id position width rotation type connects =>
    simp only at h1 h2 hp hr ht
    subst hp
    simp only [processDoor, Door.toJS, optionToJS, JSVal.getProp, JSVal.lookup, bind, Except.bind,
      pure, Except.pure]
    simp [validatePoint_toJS, mathMax_fixed (by norm_num : (0 : ℚ) < 10) 30 ht,
      or_of_truthy _ h1, or_of_truthy _ h2, Option.orElse, hr, JSVal.asArray]

theorem processWindow_stable {window : JSVal} {i : Nat} {w : Window}
    (h : processWindow window i = .ok w) (hn : w.width ≠ .nan) (hn' : w.height ≠ .nan) :
    w.stable := by
  simp only [processWindow, bind, Except.bind, pure, Except.pure] at h
  cases h1 : window.getProp "id" with
  | error e => simp [h1] at h
  | ok v1 =>
  simp only [getProp_all_of_ok h1] at h
  cases hs : validatePoint (window.optChain "position") with
  | error e => simp [hs] at h
  | ok s =>
  cases ht : mathMax (.ofRat 10) ((window.optChain "width").or (.ofRat 40)) with
  | error e => simp [hs, ht] at h
  | ok t =>
  cases hu : mathMax (.ofRat 5) ((window.optChain "height").or (.ofRat 20)) with
  | error e => simp [hs, ht, hu] at h
  | ok u =>
    simp only [hs, ht, hu, Except.ok.injEq] at h
    subst h
    refine ⟨or_truthy _ (truthy_str_append _ _ (by decide)), orElse_point_fin hs 0 0,
      or_or _ _, ?_, ?_⟩
    · rcases mathMax_nan_or_floor ht with hnan | hle
      · exact absurd hnan hn
      · exact hle
    · rcases mathMax_nan_or_floor hu with hnan | hle
      · exact absurd hnan hn'
      · exact hle

theorem processWindow_toJS {w : Window} (hw : w.stable) (j : Nat) :
    processWindow w.toJS j = .ok w := by
  obtain ⟨h1, ⟨x, y, hp⟩, hr, ht, hu⟩ := hw
  cases w with
  | mk id position width height wallId =>
    simp only at h1 hp hr ht hu
    subst hp
    simp only [processWindow, Window.toJS, optionToJS, JSVal.getProp, JSVal.lookup, bind,
      Except.bind, pure, Except.pure]
    simp [validatePoint_toJS, mathMax_fixed (by norm_num : (0 : ℚ) < 10) 40 ht,
      mathMax_fixed (by norm_num : (0 : ℚ) < 5) 20 hu, or_of_truthy _ h1, Option.orElse, hr]

theorem processFurnitureItem_stable {item : JSVal} {i : Nat} {f : Furniture}
    (h : processFurnitureItem item i = .ok f) : f.stable := by
  simp only [processFurnitureItem, bind, Except.bind, pure, Except.pure] at h
  cases h1 : item.getProp "id" with
  | error e => simp [h1] at h
  | ok v1 =>
  simp only [getProp_all_of_ok h1] at h
  cases hs : validatePoint (item.optChain "position") with
  | error e => simp [hs] at h
  | ok s =>
  cases hv : validateDimensions (item.optChain "dimensions") with
  | error e => simp [hs, hv] at h
  | ok d =>
    simp only [hs, hv, Except.ok.injEq] at h
    subst h
    refine ⟨or_truthy _ (truthy_str_append _ _ (by decide)), or_truthy _ rfl, or_truthy _ rfl,
      orElse_point_fin hs 0 0, ?_, or_or _ _, or_or _ _⟩
    cases d with
    | none => exact ⟨0, 0, 10, 10, rfl, by norm_num, by norm_num⟩
    | some d =>
      obtain ⟨_, _, _, _, _, _, x, y, w, ht, hde, hw, hh⟩ := validateDimensions_some hv
      exact ⟨x, y, w, ht, by rw [hde]; rfl, hw, hh⟩

theorem processFurnitureItem_toJS {f : Furniture} (hf : f.stable) (j : Nat) :
    processFurnitureItem f.toJS j = .ok f := by
  obtain ⟨h1, h2, h3, ⟨px, py, hp⟩, ⟨x, y, w, h, hd, hw, hh⟩, hr, hm⟩ := hf
  cases f with
  | mk id type position dimensions rotation roomId color =>
    simp only at h1 h2 h3 hp hd hr hm
    subst hp hd
    simp only [processFurnitureItem, Furniture.toJS, optionToJS, JSVal.getProp, JSVal.lookup,
      bind, Except.bind, pure, Except.pure]
    simp [validatePoint_toJS, validateDimensions_toJS x y w h hw hh, or_of_truthy _ h1,
      or_of_truthy _ h2, or_of_truthy _ h3, Option.orElse, hr, hm]

theorem processWindows_inv {v : JSVal} {out : List Window} (h : processWindows v = .ok out) :
    ∃ mapped, mapIdxFrom processWindow 0 ((v.asArray).getD []) = .ok mapped ∧
      out = mapped.filter (fun window => window.position.isSome) := by
  unfold processWindows at h
  cases hv : v.asArray with
  | none =>
    simp only [hv, pure, Except.pure, Except.ok.injEq] at h
    subst h
    exact ⟨[], rfl, rfl⟩
  | some elems =>
    simp only [hv, bind, Except.bind] at h
    cases hm : mapIdxFrom processWindow 0 elems with
    | error e => simp [hm] at h
    | ok mapped =>
      simp only [hm, pure, Except.pure, Except.ok.injEq] at h
      exact ⟨mapped, by simpa using hm, h.symm⟩

theorem processFurniture_inv {v : JSVal} {out : List Furniture}
    (h : processFurniture v = .ok out) :
    ∃ mapped, mapIdxFrom processFurnitureItem 0 ((v.asArray).getD []) = .ok mapped ∧
      out = mapped.filter (fun item => item.position.isSome && item.dimensions.isSome) := by
  unfold processFurniture at h
  cases hv : v.asArray with
  | none =>
    simp only [hv, pure, Except.pure, Except.ok.injEq] at h
    subst h
    exact ⟨[], rfl, rfl⟩
  | some elems =>
    simp only [hv, bind, Except.bind] at h
    cases hm : mapIdxFrom processFurnitureItem 0 elems with
    | error e => simp [hm] at h
    | ok mapped =>
      simp only [hm, pure, Except.pure, Except.ok.injEq] at h
      exact ⟨mapped, by simpa using hm, h.symm⟩

theorem filter_eq_self_of_all {α : Type} (p : α → Bool) (xs : List α)
    (h : ∀ x ∈ xs, p x = true) : xs.filter p = xs :=
  List.filter_eq_self.mpr h

theorem processRooms_toJS {rs : List Room} (h : ∀ r ∈ rs, r.stable) :
    processRooms (.arr (rs.map Room.toJS)) = .ok rs := by
  simp only [processRooms, JSVal.asArray, bind, Except.bind,
    mapIdxFrom_toJS processRoom Room.toJS rs 0 (fun r hr j => processRoom_toJS (h r hr) j),
    pure, Except.pure]
  rw [filter_eq_self_of_all]
  intro r hr
  obtain ⟨_, _, _, _, x, y, w, ht, hd, _, _⟩ := h r hr
  rw [hd]; rfl

theorem processWalls_toJS {ws : List Wall} (h : ∀ w ∈ ws, w.stable)
    (hk : ∀ w ∈ ws, wallKept w = true) :
    processWalls (.arr (ws.map Wall.toJS)) = .ok ws := by
  simp only [processWalls, JSVal.asArray, bind, Except.bind,
    mapIdxFrom_toJS processWall Wall.toJS ws 0 (fun w hw j => processWall_toJS (h w hw) j),
    pure, Except.pure]
  rw [filter_eq_self_of_all _ _ hk]

theorem processDoors_toJS {ds : List Door} (h : ∀ d ∈ ds, d.stable) :
    processDoors (.arr (ds.map Door.toJS)) = .ok ds := by
  simp only [processDoors, JSVal.asArray, bind, Except.bind,
    mapIdxFrom_toJS processDoor Door.toJS ds 0 (fun d hd j => processDoor_toJS (h d hd) j),
    pure, Except.pure]
  rw [filter_eq_self_of_all]
  intro d hd
  obtain ⟨_, _, ⟨x, y, hp⟩, _, _⟩ := h d hd
  rw [hp]; rfl

theorem processWindows_toJS {ws : List Window} (h : ∀ w ∈ ws, w.stable) :
    processWindows (.arr (ws.map Window.toJS)) = .ok ws := by
  simp only [processWindows, JSVal.asArray, bind, Except.bind,
    mapIdxFrom_toJS processWindow Window.toJS ws 0
      (fun w hw j => processWindow_toJS (h w hw) j),
    pure, Except.pure]
  rw [filter_eq_self_of_all]
  intro w hw
  obtain ⟨_, ⟨x, y, hp⟩, _, _, _⟩ := h w hw
  rw [hp]; rfl

theorem processFurniture_toJS {fs : List Furniture} (h : ∀ f ∈ fs, f.stable) :
    processFurniture (.arr (fs.map Furniture.toJS)) = .ok fs := by
  simp only [processFurniture, JSVal.asArray, bind, Except.bind,
    mapIdxFrom_toJS processFurnitureItem Furniture.toJS fs 0
      (fun f hf j => processFurnitureItem_toJS (h f hf) j),
    pure, Except.pure]
  rw [filter_eq_self_of_all]
  intro f hf
  obtain ⟨_, _, _, ⟨x, y, hp⟩, ⟨x', y', w, ht, hd, _, _⟩, _, _⟩ := h f hf
  rw [hp, hd]; rfl

/-- The `scale` and the `totalArea` of a model are truthy. -/
theorem model_scale_truthy {a : JSVal} {fp : FloorPlan}
    (h : processFloorPlanData a = .ok (some fp)) :
    fp.scale.truthy = true ∧ fp.totalArea.truthy = true := by
  have hsec : (floorPlanSection a).truthy = true := by
    by_contra hc
    simp [processFloorPlanData, hc, pure, Except.pure] at h
  rw [processFloorPlanData_of_section a hsec, processFloorPlanBody_eq a hsec] at h
  simp only [bind, Except.bind, pure, Except.pure] at h
  cases hr : processRooms (sectionField a "rooms") with
  | error e => simp [hr] at h
  | ok rs =>
  cases hw : processWalls (sectionField a "walls") with
  | error e => simp [hr, hw] at h
  | ok ws =>
  cases hd : processDoors (sectionField a "doors") with
  | error e => simp [hr, hw, hd] at h
  | ok ds =>
  cases hwi : processWindows (sectionField a "windows") with
  | error e => simp [hr, hw, hd, hwi] at h
  | ok wis =>
  cases hf : processFurniture (sectionField a "furniture") with
  | error e => simp [hr, hw, hd, hwi, hf] at h
  | ok fs =>
    simp only [hr, hw, hd, hwi, hf, Except.ok.injEq, Option.some.injEq] at h
    subst h
    exact ⟨or_truthy _ rfl, or_truthy _ rfl⟩

/-- Normalizing a model again returns the model, provided no clamp of the first
pass gave `NaN`. -/
theorem renormalization_fixed {x : JSVal} {m : FloorPlan}
    (h : processFloorPlanData x = .ok (some m)) (hn : m.clampsNumeric) :
    processFloorPlanData (repayload m) = .ok (some m) := by
  obtain ⟨_, hr, hw, hd, hwi, hf, hb⟩ := processFloorPlanData_some_inv x m h
  obtain ⟨hsc, hta⟩ := model_scale_truthy h
  obtain ⟨hnw, hnd, hnwi⟩ := hn
  have sr : ∀ r ∈ m.rooms, r.stable := by
    obtain ⟨mapped, hm, hout⟩ := processRooms_inv hr
    intro r hmem
    rw [hout] at hmem
    obtain ⟨hmem', hdim⟩ := List.mem_filter.1 hmem
    obtain ⟨raw, _, j, hj⟩ := mapIdxFrom_ok_mem processRoom _ 0 mapped hm r hmem'
    exact processRoom_stable hj hdim
  have sw : ∀ w ∈ m.walls, w.stable ∧ wallKept w = true := by
    obtain ⟨mapped, hm, hout⟩ := processWalls_inv hw
    intro w hmem
    have hnan := hnw w hmem
    rw [hout] at hmem
    obtain ⟨hmem', hk⟩ := List.mem_filter.1 hmem
    obtain ⟨raw, _, j, hj⟩ := mapIdxFrom_ok_mem processWall _ 0 mapped hm w hmem'
    exact ⟨processWall_stable hj hnan, hk⟩
  have sd : ∀ d ∈ m.doors, d.stable := by
    have hm := processDoors_inv hd
    intro d hmem
    obtain ⟨raw, _, j, hj⟩ := mapIdxFrom_ok_mem processDoor _ 0 m.doors hm d hmem
    exact processDoor_stable hj (hnd d hmem)
  have swi : ∀ w ∈ m.windows, w.stable := by
    obtain ⟨mapped, hm, hout⟩ := processWindows_inv hwi
    intro w hmem
    have hnan := hnwi w hmem
    rw [hout] at hmem
    obtain ⟨hmem', _⟩ := List.mem_filter.1 hmem
    obtain ⟨raw, _, j, hj⟩ := mapIdxFrom_ok_mem processWindow _ 0 mapped hm w hmem'
    exact processWindow_stable hj hnan.1 hnan.2
  have sf : ∀ f ∈ m.furniture, f.stable := by
    obtain ⟨mapped, hm, hout⟩ := processFurniture_inv hf
    intro f hmem
    rw [hout] at hmem
    obtain ⟨hmem', _⟩ := List.mem_filter.1 hmem
    obtain ⟨raw, _, j, hj⟩ := mapIdxFrom_ok_mem processFurnitureItem _ 0 mapped hm f hmem'
    exact processFurnitureItem_stable hj
  have hsec : (floorPlanSection (repayload m)).truthy = true := rfl
  have e1 : sectionField (repayload m) "rooms" = .arr (m.rooms.map Room.toJS) := rfl
  have e2 : sectionField (repayload m) "walls" = .arr (m.walls.map Wall.toJS) := rfl
  have e3 : sectionField (repayload m) "doors" = .arr (m.doors.map Door.toJS) := rfl
  have e4 : sectionField (repayload m) "windows" = .arr (m.windows.map Window.toJS) := rfl
  have e5 : sectionField (repayload m) "furniture" = .arr (m.furniture.map Furniture.toJS) :=
    rfl
  have e6 : (floorPlanSection (repayload m)).optChain "scale" = m.scale := rfl
  have e7 : (((repayload m).optChain "analysis").optChain "projectInfo").optChain "totalArea" =
      m.totalArea := rfl
  rw [processFloorPlanData_of_section _ hsec, processFloorPlanBody_eq _ hsec]
  simp only [e1, e2, e3, e4, e5, e6, e7, processRooms_toJS sr,
    processWalls_toJS (fun w hw => (sw w hw).1) (fun w hw => (sw w hw).2),
    processDoors_toJS sd, processWindows_toJS swi, processFurniture_toJS sf, bind, Except.bind,
    pure, Except.pure, or_of_truthy _ hsc, or_of_truthy _ hta, ← hb]

theorem pendingSaves_append (a b : List CanvasCall) :
    ∀ d, pendingSaves (a ++ b) d = (pendingSaves a d).bind (pendingSaves b) := by
  induction a with
  | nil => intro d; rfl
  | cons c rest ih =>
    intro d
    cases c <;> try (simp only [List.cons_append, pendingSaves]; exact ih _)
    case restore =>
      cases d with
      | zero => rfl
      | succ d => simp only [List.cons_append, pendingSaves]; exact ih _

theorem balancedCalls_append {a b : List CanvasCall} (ha : balancedCalls a)
    (hb : balancedCalls b) : balancedCalls (a ++ b) := by
  intro d
  rw [pendingSaves_append, ha d]
  exact hb d

theorem balanced_seq {a b : Draw} (ha : a.balanced) (hb : b.balanced) : (a.seq b).balanced := by
  intro h
  obtain ⟨h1, h2, hc⟩ := seq_returned_inv h
  rw [hc]
  exact balancedCalls_append (ha h1) (hb h2)

theorem balanced_emit {cs : List CanvasCall} (h : balancedCalls cs) : (Draw.emit cs).balanced :=
  fun _ => h

theorem balanced_throw (e : RenderError) : (Draw.throw e).balanced := by
  intro h; cases h

theorem balanced_hang : Draw.hang.balanced := by
  intro h; cases h

theorem balanced_forEach {α : Type} (xs : List α) (body : α → Draw)
    (h : ∀ x ∈ xs, (body x).balanced) : (Draw.forEach xs body).balanced := by
  induction xs with
  | nil => exact balanced_emit (fun _ => rfl)
  | cons x rest ih =>
    rw [forEach_cons]
    exact balanced_seq (h x (List.mem_cons_self _ _))
      (ih (fun y hy => h y (List.mem_cons_of_mem _ hy)))

theorem balanced_forLoop (start bound step : JSNum) (body : JSNum → Draw)
    (h : ∀ v, (body v).balanced) : (forLoop start bound step body).balanced := by
  unfold forLoop
  cases forRange start bound step with
  | some vs => exact balanced_forEach vs body (fun v _ => h v)
  | none => exact balanced_seq (h start) balanced_hang

theorem balanced_arcOf (x y r s e : JSNum) : (arcOf x y r s e).balanced := by
  unfold arcOf
  split
  · exact balanced_throw _
  · exact balanced_emit (fun _ => rfl)

theorem balanced_setFillStyle (v : JSVal) : (setFillStyle v).balanced := by
  unfold setFillStyle
  split
  · exact balanced_throw _
  · exact balanced_emit (fun _ => rfl)

theorem balanced_fillTextOf (v : JSVal) (x y : JSNum) : (fillTextOf v x y).balanced := by
  unfold fillTextOf
  split
  · exact balanced_throw _
  · exact balanced_emit (fun _ => rfl)

theorem balanced_drawRoom (room : Room) : (drawRoom room).balanced := by
  unfold drawRoom
  cases room.dimensions with
  | none => exact balanced_emit (fun _ => rfl)
  | some d =>
    simp only
    cases lowerOrEmpty room.type with
    | error e => exact balanced_throw e
    | ok roomType =>
      simp only
      cases lowerOrEmpty room.name with
      | error e => exact balanced_throw e
      | ok roomName =>
        simp only
        refine balanced_seq (balanced_setFillStyle _) (balanced_seq (balanced_emit (fun _ => rfl))
          (balanced_seq ?_ (balanced_seq (balanced_emit (fun _ => rfl)) ?_)))
        · unfold roomPattern
          split
          · exact balanced_emit (fun _ => rfl)
          · split
            · refine balanced_seq (balanced_emit (fun _ => rfl)) (balanced_forEach _ _ ?_)
              intro i _
              exact balanced_seq (balanced_emit (fun _ => rfl))
                (balanced_seq (balanced_arcOf _ _ _ _ _) (balanced_emit (fun _ => rfl)))
            · split
              · refine balanced_seq (balanced_emit (fun _ => rfl)) (balanced_forLoop _ _ _ _ ?_)
                intro px
                refine balanced_forLoop _ _ _ _ ?_
                intro py
                exact balanced_seq (balanced_emit (fun _ => rfl))
                  (balanced_seq (balanced_arcOf _ _ _ _ _) (balanced_emit (fun _ => rfl)))
              · exact balanced_emit (fun _ => rfl)
        · split
          · exact balanced_emit (fun _ => rfl)
          · exact balanced_emit (fun _ => rfl)

theorem balanced_drawWall (wall : Wall) : (drawWall wall).balanced := by
  unfold drawWall
  split
  · exact balanced_emit (fun _ => rfl)
  · exact balanced_emit (fun _ => rfl)

theorem balanced_drawHouseOutline (rooms : List Room) : (drawHouseOutline rooms).balanced := by
  unfold drawHouseOutline
  split
  · exact balanced_emit (fun _ => rfl)
  · simp only
    split
    · exact balanced_emit (fun _ => rfl)
    · exact balanced_emit (fun _ => rfl)

theorem balanced_drawDoor (m : MathFns) (door : Door) : (drawDoor m door).balanced := by
  unfold drawDoor
  cases door.position with
  | none => exact balanced_emit (fun _ => rfl)
  | some p =>
    simp only
    cases toRadians door.rotation with
    | error e => exact balanced_throw e
    | ok rotation =>
      simp only
      intro h
      obtain ⟨_, h2, hc⟩ := seq_returned_inv h
      obtain ⟨h3, _, hc2⟩ := seq_returned_inv h2
      rw [hc, hc2]
      unfold arcOf at h3 ⊢
      split at h3
      · cases h3
      · rename_i hcond
        simp only [hcond, if_false]
        intro d
        rfl

theorem balanced_drawWindow (window : Window) : (drawWindow window).balanced := by
  unfold drawWindow
  split
  · exact balanced_emit (fun _ => rfl)
  · exact balanced_emit (fun _ => rfl)

theorem balanced_drawFurnitureItem (item : Furniture) : (drawFurnitureItem item).balanced := by
  unfold drawFurnitureItem
  split
  · rename_i p d _ _
    cases toRadians item.rotation with
    | error e => exact balanced_throw e
    | ok rotation =>
      simp only
      intro h
      obtain ⟨_, h2, hc⟩ := seq_returned_inv h
      obtain ⟨h3, _, hc2⟩ := seq_returned_inv h2
      rw [hc, hc2]
      unfold setFillStyle at h3 ⊢
      split at h3
      · cases h3
      · rename_i hcond
        simp only [hcond, if_false]
        intro d
        rfl
  · exact balanced_emit (fun _ => rfl)

theorem balanced_drawRoomLabel (room : Room) : (drawRoomLabel room).balanced := by
  unfold drawRoomLabel
  cases room.dimensions with
  | none => exact balanced_emit (fun _ => rfl)
  | some d =>
    simp only
    split
    · exact balanced_emit (fun _ => rfl)
    · refine balanced_seq (balanced_emit (fun _ => rfl))
        (balanced_seq (balanced_fillTextOf _ _ _) ?_)
      split
      · exact balanced_throw _
      · exact balanced_emit (fun _ => rfl)
      · exact balanced_seq (balanced_emit (fun _ => rfl))
          (balanced_seq (balanced_fillTextOf _ _ _) (balanced_emit (fun _ => rfl)))

/-- The seven stages leave the number of pending `save` calls as they found it
when they return. -/
theorem balanced_renderStages (m : MathFns) (fp : FloorPlan) : (renderStages m fp).balanced := by
  unfold renderStages drawRooms drawWalls drawDoors drawWindows drawFurniture drawRoomLabels
  exact balanced_seq (balanced_forEach _ _ (fun r _ => balanced_drawRoom r))
    (balanced_seq (balanced_seq (balanced_emit (fun _ => rfl))
        (balanced_forEach _ _ (fun w _ => balanced_drawWall w)))
      (balanced_seq (balanced_drawHouseOutline _)
        (balanced_seq (balanced_forEach _ _ (fun d _ => balanced_drawDoor m d))
          (balanced_seq (balanced_seq (balanced_emit (fun _ => rfl))
              (balanced_forEach _ _ (fun w _ => balanced_drawWindow w)))
            (balanced_seq (balanced_forEach _ _ (fun f _ => balanced_drawFurnitureItem f))
              (balanced_seq (balanced_emit (fun _ => rfl))
                (balanced_forEach _ _ (fun r _ => balanced_drawRoomLabel r))))))))

/-- On the scene path, and on the diagnostic path of an invalid scale, one
render pass leaves no `save` pending. -/
theorem render_balanced_scene (m : MathFns) (fp : FloorPlan) (cv dims : Size) :
    ((renderTry m fp (renderScale fp.bounds dims)).outcome = .returned →
      pendingSaves (renderEffect m (some fp) (some cv) dims).calls 0 = some 0) ∧
    (((renderScale fp.bounds dims).isFinite = false ∨
        (renderScale fp.bounds dims).le (.fin 0) = true) →
      pendingSaves (renderEffect m (some fp) (some cv) dims).calls 0 = some 0) := by
  constructor
  · intro h
    rw [renderEffect_returned h]
    have hb : balancedCalls (renderTry m fp (renderScale fp.bounds dims)).calls := by
      unfold renderTry at h ⊢
      split at h
      · cases h
      · rename_i hc
        rw [if_neg hc]
        exact balanced_renderStages m fp h
    have hp : pendingSaves (renderPrelude fp cv dims) 0 = some 1 := rfl
    rw [List.append_assoc, pendingSaves_append, hp]
    rw [Option.some_bind, pendingSaves_append, hb 1]
    rfl
  · intro h
    have ht := @renderTry_invalid m fp _ h
    have ho : (renderTry m fp (renderScale fp.bounds dims)).outcome =
        .threw (.invalidScale (renderScale fp.bounds dims)) := by rw [ht]; rfl
    rw [renderEffect_threw ho, ht]
    rfl

/-- The bounds of a model with a room or a wall, by the reference definition. -/
theorem referenceBounds_of_nonempty {rooms : List Room} {walls : List Wall}
    (hne : rooms ≠ [] ∨ walls ≠ []) :
    referenceBounds rooms walls =
      { minX := minimumOf ((cornerPoints rooms walls).map (fun p => p.x))
        minY := minimumOf ((cornerPoints rooms walls).map (fun p => p.y))
        width := JSNum.max
          ((maximumOf ((cornerPoints rooms walls).map (fun p => p.x))).sub
            (minimumOf ((cornerPoints rooms walls).map (fun p => p.x)))) (.fin 10)
        height := JSNum.max
          ((maximumOf ((cornerPoints rooms walls).map (fun p => p.y))).sub
            (minimumOf ((cornerPoints rooms walls).map (fun p => p.y)))) (.fin 10) } := by
  have : (rooms.isEmpty && walls.isEmpty) = false := by
    cases rooms <;> cases walls <;> simp_all
  simp only [referenceBounds, this, Bool.false_eq_true, if_false]

/-- Where the extent `max - min` and the sum `min + width` are doubles, the far
edge `min + width` of the bounds is not below the maximum. -/
theorem far_edge_exact (mn mx : ℚ) (he : isDouble (mx - mn) = true)
    (hs : isDouble (mn + max (mx - mn) 10) = true) :
    (JSNum.fin mn).add (JSNum.max ((JSNum.fin mx).sub (.fin mn)) (.fin 10)) =
      .fin (mn + max (mx - mn) 10) ∧
    mx ≤ mn + max (mx - mn) 10 := by
  rw [sub_exact _ _ (fun _ _ => he), max_fin, add_exact _ _ (fun _ _ => hs)]
  refine ⟨rfl, ?_⟩
  have := le_max_left (mx - mn) 10
  linarith

/-- A double is below `2 ^ 1024` in magnitude. -/
theorem isDouble_abs_lt (q : ℚ) (h : isDouble q = true) : |q| < 2 ^ 1024 := by
  have hp : (0 : ℚ) < 2 ^ 1074 := pow_pos (by norm_num) _
  have key : ∀ K : Nat, ¬ 2 ^ 2098 ≤ K → (K : ℚ) / 2 ^ 1074 < 2 ^ 1024 := by
    intro K hK
    rw [div_lt_iff₀ hp, ← pow_add]
    exact_mod_cast not_le.mp hK
  have hr := (isDouble_iff q).mp h
  rcases lt_or_le q 0 with hq | hq
  · rw [roundDouble_of_neg q hq] at hr
    by_cases hov : 2 ^ 2098 ≤ roundAbs q
    · rw [if_pos hov] at hr; cases hr
    · rw [if_neg hov] at hr
      have hr := JSNum.fin.inj hr
      rw [abs_of_neg hq, ← hr, neg_neg]
      exact key _ hov
  · rw [roundDouble_of_nonneg q hq] at hr
    by_cases hov : 2 ^ 2098 ≤ roundAbs q
    · rw [if_pos hov] at hr; cases hr
    · rw [if_neg hov] at hr
      have hr := JSNum.fin.inj hr
      rw [abs_of_nonneg hq]
      conv_lhs => rw [← hr]
      exact key _ hov

/-- The smallest positive double. -/
theorem isDouble_tiny : isDouble (1 / 2 ^ 1074) = true := by decide!

theorem isDouble_one : isDouble 1 = true := by decide!

theorem lt_of_pos_le {d : ℚ} {a : JSNum} (hd : 0 < d) (h : (JSNum.fin d).le a = true) :
    (JSNum.fin 0).lt a = true := by
  cases a <;> simp_all [JSNum.le, JSNum.lt]
  linarith

/-- The padded extent `size - 100` of a surface more than 100 wide is at least
1, rounded or not. -/
theorem padded_extent_ge_one (size : Nat) (h : 100 < size) :
    (JSNum.fin 1).le ((JSNum.fin size).sub (.fin 100)) = true := by
  rw [sub_fin_eq]
  apply JSNum.le_arith 1 _ _ _ (fun _ _ => isDouble_one)
  have : (101 : ℚ) ≤ (size : ℚ) := by exact_mod_cast h
  linarith

/-- A quotient of a number that is at least 1 by a positive finite number is
positive: it does not underflow to zero. -/
theorem quotient_pos (a : JSNum) (b : ℚ) (ha : (JSNum.fin 1).le a = true) (hb : 0 < b) :
    (JSNum.fin 0).lt (a.div (.fin b)) = true := by
  cases a with
  | nan => simp [JSNum.le] at ha
  | negInf => simp [JSNum.le] at ha
  | posInf => simp [JSNum.div, hb.le, JSNum.lt]
  | fin a' =>
    simp only [JSNum.le, decide_eq_true_eq] at ha
    rw [div_fin_eq _ _ hb.ne']
    have hq : 0 < a' / b := div_pos (by linarith) hb
    rcases JSNum.arith_cases a' b (a' / b) with ⟨_, hdb, he⟩ | ⟨_, he⟩
    · rw [he]
      apply lt_of_pos_le (d := 1 / 2 ^ 1074) (by positivity)
      apply le_roundDouble _ _ isDouble_tiny
      have hb' : b < 2 ^ 1024 := lt_of_le_of_lt (le_abs_self b) (isDouble_abs_lt b hdb)
      rw [div_le_div_iff₀ (by positivity) hb, one_mul]
      calc b ≤ 2 ^ 1024 := hb'.le
        _ ≤ 2 ^ 1074 := pow_le_pow_right₀ (by norm_num) (by norm_num)
        _ ≤ a' * 2 ^ 1074 := le_mul_of_one_le_left (by positivity) ha
    · rw [he]
      simpa [JSNum.lt] using hq

theorem min_pos (a b : JSNum) (ha : (JSNum.fin 0).lt a = true) (hb : (JSNum.fin 0).lt b = true) :
    (JSNum.fin 0).lt (a.min b) = true := by
  cases a <;> cases b <;> simp_all [JSNum.min, JSNum.lt, JSNum.le]
  split_ifs <;> simp_all [JSNum.lt]

/-- The scale of the renderer in terms of the padded extents. -/
theorem renderScale_eq (bounds : Bounds) (canvas : Size) :
    renderScale bounds canvas =
      JSNum.min (((JSNum.fin canvas.width).sub (.fin 100)).div bounds.width)
        (((JSNum.fin canvas.height).sub (.fin 100)).div bounds.height) := by
  unfold renderScale
  rw [padding_twice]

/-- For positive finite bounds on a surface more than 100 wide and high the
scale is positive. -/
theorem renderScale_pos (bounds : Bounds) (canvas : Size) (bw bh : ℚ)
    (hw : bounds.width = .fin bw) (hh : bounds.height = .fin bh)
    (hbw : 0 < bw) (hbh : 0 < bh)
    (hW : 100 < canvas.width) (hH : 100 < canvas.height) :
    (JSNum.fin 0).lt (renderScale bounds canvas) = true := by
  rw [renderScale_eq, hw, hh]
  exact min_pos _ _ (quotient_pos _ _ (padded_extent_ge_one _ hW) hbw)
    (quotient_pos _ _ (padded_extent_ge_one _ hH) hbh)

theorem renderScale_exact (bounds : Bounds) (canvas : Size) (bw bh : ℚ)
    (hw : bounds.width = .fin bw) (hh : bounds.height = .fin bh) (hbw : bw ≠ 0) (hbh : bh ≠ 0)
    (he : scaleExact canvas bw bh = true) :
    renderScale bounds canvas =
      .fin (min (((canvas.width : ℚ) - 100) / bw) (((canvas.height : ℚ) - 100) / bh)) := by
  simp only [scaleExact, Bool.and_eq_true] at he
  obtain ⟨⟨⟨h1, h2⟩, h3⟩, h4⟩ := he
  rw [renderScale_eq, hw, hh, sub_exact _ _ (fun _ _ => h1), sub_exact _ _ (fun _ _ => h2),
    div_exact _ _ hbw (fun _ _ => h3), div_exact _ _ hbh (fun _ _ => h4), min_fin]

/-- The offset along one axis when no operation rounds. -/
theorem offset_exact {size m b s : ℚ} (h : offsetExact size m b s = true) :
    (((JSNum.fin size).sub ((JSNum.fin b).mul (.fin s))).div (.fin 2)).sub
      ((JSNum.fin m).mul (.fin s)) = .fin ((size - b * s) / 2 - m * s) := by
  simp only [offsetExact, Bool.and_eq_true] at h
  obtain ⟨⟨⟨⟨h1, h2⟩, h3⟩, h4⟩, h5⟩ := h
  rw [mul_exact _ _ (fun _ _ => h1), sub_exact _ _ (fun _ _ => h2),
    div_exact _ _ (by norm_num) (fun _ _ => h3), mul_exact _ _ (fun _ _ => h4),
    sub_exact _ _ (fun _ _ => h5)]

/-- A product of two numbers neither of which is negative is not negative. -/
theorem mul_not_negative (a b : JSNum) (ha : a.lt (.fin 0) = false)
    (hb : b.lt (.fin 0) = false) : (a.mul b).lt (.fin 0) = false := by
  cases a with
  | nan => cases b <;> rfl
  | negInf => simp [JSNum.lt] at ha
  | posInf =>
    cases b with
    | nan => rfl
    | negInf => simp [JSNum.lt] at hb
    | posInf => rfl
    | fin b =>
      simp only [JSNum.lt, decide_eq_false_iff_not, not_lt] at hb
      simp only [JSNum.mul]
      split_ifs <;> first | rfl | (exfalso; rcases lt_or_eq_of_le hb with h | h <;> simp_all)
  | fin a =>
    simp only [JSNum.lt, decide_eq_false_iff_not, not_lt] at ha
    cases b with
    | nan => rfl
    | negInf => simp [JSNum.lt] at hb
    | posInf =>
      simp only [JSNum.mul]
      split_ifs <;> first | rfl | (exfalso; rcases lt_or_eq_of_le ha with h | h <;> simp_all)
    | fin b =>
      simp only [JSNum.lt, decide_eq_false_iff_not, not_lt] at hb
      have h := JSNum.le_arith 0 a b (a * b) (fun _ _ => by decide!) (mul_nonneg ha hb)
      show (JSNum.arith a b (a * b)).lt (.fin 0) = false
      cases hr : JSNum.arith a b (a * b) with
      | nan => rfl
      | negInf => rw [hr] at h; simp [JSNum.le] at h
      | posInf => rfl
      | fin r =>
        rw [hr] at h
        simp only [JSNum.le, decide_eq_true_eq] at h
        simp [JSNum.lt, h]

/-- An arc whose radius is not negative is drawn. -/
theorem arcOf_not_negative (x y r s e : JSNum) (hr : r.lt (.fin 0) = false) :
    arcOf x y r s e = Draw.emit [.arc x y r s e] := by
  unfold arcOf
  simp [hr]

/-- The factors `0.25 + i * 0.25` and `1 + i * 0.3` of the three ripples. -/
theorem ripple_factors :
    (JSNum.fin (1 / 4)).add ((JSNum.fin ((0 : ℕ) : ℚ)).mul (.fin (1 / 4))) = .fin (1 / 4) ∧
    (JSNum.fin (1 / 4)).add ((JSNum.fin ((1 : ℕ) : ℚ)).mul (.fin (1 / 4))) = .fin (1 / 2) ∧
    (JSNum.fin (1 / 4)).add ((JSNum.fin ((2 : ℕ) : ℚ)).mul (.fin (1 / 4))) = .fin (3 / 4) ∧
    (JSNum.fin 1).add ((JSNum.fin ((0 : ℕ) : ℚ)).mul (roundDouble (3 / 10))) = .fin 1 ∧
    (JSNum.fin 1).add ((JSNum.fin ((1 : ℕ) : ℚ)).mul (roundDouble (3 / 10))) =
      roundDouble (13 / 10) ∧
    (JSNum.fin 1).add ((JSNum.fin ((2 : ℕ) : ℚ)).mul (roundDouble (3 / 10))) =
      roundDouble (16 / 10) := by
  decide!

theorem decimal_not_negative :
    (roundDouble (1 / 10)).lt (.fin 0) = false ∧ (roundDouble (13 / 10)).lt (.fin 0) = false ∧
    (roundDouble (16 / 10)).lt (.fin 0) = false ∧ (roundDouble (3 / 10)).lt (.fin 0) = false ∧
    (roundDouble (7 / 10)).lt (.fin 0) = false := by
  decide!

/-- The method `toLowerCase` beyond ASCII: the Kelvin sign (U+212A) becomes `k`,
so that a room named "Sun DEC" followed by the Kelvin sign has the deck flag;
the capital E with acute (U+00C9) becomes the small one (U+00E9); a capital
sigma at the end of a word becomes the final sigma. -/
theorem toLowerCase_beyond_ascii :
    toLowerCase ("Sun DEC" ++ String.singleton (Char.ofNat 0x212A)) = "sun deck".toList ∧
    (roomFlags (toLowerCase "Swimming Pool")
      (toLowerCase ("Sun DEC" ++ String.singleton (Char.ofNat 0x212A)))).isDeck = true ∧
    toLowerCase (String.singleton (Char.ofNat 0xC9) ++ "tage") =
      Char.ofNat 0xE9 :: "tage".toList ∧
    toLowerCase (String.mk [Char.ofNat 0x391, Char.ofNat 0x3A3, ' ', Char.ofNat 0x3A3,
      Char.ofNat 0x391]) =
      [Char.ofNat 0x3B1, Char.ofNat 0x3C2, ' ', Char.ofNat 0x3C3, Char.ofNat 0x3B1] := by
  decide!

/-- One ripple of a pool of positive width: a path with one arc, stroked. -/
theorem drawRipple_calls (x y w h : ℚ) (hw : 0 < w) (i : Nat) :
    drawRipple (.fin x) (.fin y) (.fin w) (.fin h) i = Draw.emit
      [.beginPath,
       .arc ((JSNum.fin x).add ((JSNum.fin w).mul
           ((JSNum.fin (1 / 4)).add ((JSNum.fin i).mul (.fin (1 / 4))))))
         ((JSNum.fin y).add ((JSNum.fin h).mul (.fin (1 / 2))))
         (((JSNum.fin w).mul (roundDouble (1 / 10))).mul
           ((JSNum.fin 1).add ((JSNum.fin i).mul (roundDouble (3 / 10)))))
         (.fin 0) (mathPI.mul (.fin 2)),
       .stroke] := by
  have hi : (JSNum.fin (i : ℚ)).lt (.fin 0) = false := by
    simp [JSNum.lt]
  have h1 : (JSNum.fin 1).lt (.fin 0) = false := by decide!
  have hsum : ((JSNum.fin 1).add ((JSNum.fin i).mul (roundDouble (3 / 10)))).lt (.fin 0) =
      false := by
    have hm := mul_not_negative _ _ hi decimal_not_negative.2.2.2.1
    cases hp : (JSNum.fin (i : ℚ)).mul (roundDouble (3 / 10)) with
    | nan => rfl
    | negInf => rw [hp] at hm; simp [JSNum.lt] at hm
    | posInf => rfl
    | fin p =>
      rw [hp] at hm
      simp only [JSNum.lt, decide_eq_false_iff_not, not_lt] at hm
      have h := JSNum.le_arith 0 1 p (1 + p) (fun _ _ => by decide!) (by linarith)
      show (JSNum.arith 1 p (1 + p)).lt (.fin 0) = false
      cases hr : JSNum.arith 1 p (1 + p) with
      | nan => rfl
      | negInf => rw [hr] at h; simp [JSNum.le] at h
      | posInf => rfl
      | fin r =>
        rw [hr] at h
        simp only [JSNum.le, decide_eq_true_eq] at h
        simp [JSNum.lt, h]
  have hwn : (JSNum.fin w).lt (.fin 0) = false := by
    simp [JSNum.lt, le_of_lt hw]
  unfold drawRipple
  rw [arcOf_not_negative _ _ _ _ _
    (mul_not_negative _ _ (mul_not_negative _ _ hwn decimal_not_negative.1) hsum)]
  rfl

/-- The extremes `drawHouseOutline` computes over well-formed rooms, at least
one: they are the extremes over all room corners, and the minima are finite. -/
theorem outline_extremes {rooms : List Room} (hne : rooms ≠ [])
    (hr : ∀ r ∈ rooms, r.wellFormed) :
    ∃ mn my : ℚ,
      minimumOf ((rooms.flatMap roomCorners).map (fun p => p.x)) = .fin mn ∧
      minimumOf ((rooms.flatMap roomCorners).map (fun p => p.y)) = .fin my ∧
      rooms.foldl outlineAddRoom
        { minX := .posInf, minY := .posInf, maxX := .negInf, maxY := .negInf } =
        { minX := .fin mn, minY := .fin my,
          maxX := maximumOf ((rooms.flatMap roomCorners).map (fun p => p.x)),
          maxY := maximumOf ((rooms.flatMap roomCorners).map (fun p => p.y)) } := by
  obtain ⟨e1, e2, e3, e4⟩ := foldl_outline_eq_bounds rooms
    { minX := .posInf, minY := .posInf, maxX := .negInf, maxY := .negInf } boundsInit
    rfl rfl rfl rfl
  obtain ⟨q1, q2, q3, q4⟩ := foldl_rooms_eq rooms boundsInit hr
  have hsh := foldl_rooms_shaped rooms boundsInit hr boundsInit_shaped
  have hseen : (rooms.foldl boundsAddRoom boundsInit).hasValidElements = true := by
    cases rooms with
    | nil => exact absurd rfl hne
    | cons r0 rs =>
      obtain ⟨x, y, w, h, hd, _, _⟩ := hr r0 (List.mem_cons_self _ _)
      exact foldl_rooms_seen rs _ (fun r' hr' => hr r' (List.mem_cons_of_mem _ hr'))
        (by simp [boundsAddRoom, hd])
  rcases hsh with h0 | ⟨_, mn, my, hx, hy⟩
  · rw [h0] at hseen
    cases hseen
  · refine ⟨mn, my, ?_, ?_, ?_⟩
    · rw [← hx, q1]; rfl
    · rw [← hy, q2]; rfl
    · rw [hx] at e1
      rw [hy] at e2
      rw [q3] at e3
      rw [q4] at e4
      generalize rooms.foldl outlineAddRoom
        { minX := .posInf, minY := .posInf, maxX := .negInf, maxY := .negInf } = o at *
      cases o
      simp only at e1 e2 e3 e4
      rw [e1, e2, e3, e4]
      rfl

/-- Subtracting 1 does not move a finite number up, and adding 1 does not move a
number down. -/
theorem pad_one (m : ℚ) (M : JSNum) (hM : M ≠ .nan) :
    ((JSNum.fin m).sub (.fin 1)).le (.fin m) = true ∧ M.le (M.add (.fin 1)) = true := by
  constructor
  · rw [sub_fin_eq]
    exact JSNum.arith_le m _ _ _ (fun h _ => h) (by linarith)
  · cases M with
    | nan => exact absurd rfl hM
    | posInf => rfl
    | negInf => rfl
    | fin q =>
      show (JSNum.fin q).le (JSNum.arith q 1 (q + 1)) = true
      exact JSNum.le_arith q _ _ _ (fun h _ => h) (by linarith)

/-- The outline along one axis when no operation rounds: it starts at `m - 1`
and is `M + 1 - (m - 1)` long. -/
theorem pad_exact (m M : ℚ) (h1 : isDouble (m - 1) = true) (h2 : isDouble (M + 1) = true)
    (h3 : isDouble (M + 1 - (m - 1)) = true) :
    (JSNum.fin m).sub (.fin 1) = .fin (m - 1) ∧
    ((JSNum.fin M).add (.fin 1)).sub ((JSNum.fin m).sub (.fin 1)) = .fin (M + 1 - (m - 1)) := by
  rw [sub_exact _ _ (fun _ _ => h1), add_exact _ _ (fun _ _ => h2),
    sub_exact _ _ (fun _ _ => h3)]
  exact ⟨rfl, rfl⟩

/-- A natural number below `2 ^ 53` is a double. -/
theorem isDouble_nat (m : Nat) (h : m < 2 ^ 53) : isDouble (m : ℚ) = true := by
  rw [isDouble_iff]
  have hp : (0 : ℚ) < 2 ^ 1074 := pow_pos (by norm_num) _
  have hr : roundAbs (m : ℚ) = m * 2 ^ 1074 := by
    rw [← roundAbs_of_eq m 1 (by norm_num) (m : ℚ) (by simp), roundMagnitude_eq]
    have hG : gridExponent m 1 ≤ 1074 := by
      rw [gridExponent_eq, Nat.div_one]
      rcases Nat.eq_zero_or_pos m with h0 | hpos
      · subst h0; simp
      · have hlt : m * 2 ^ 1074 < 2 ^ 1127 := by
          calc m * 2 ^ 1074 < 2 ^ 53 * 2 ^ 1074 :=
                Nat.mul_lt_mul_of_pos_right h (Nat.pow_pos (by norm_num))
            _ = 2 ^ 1127 := by rw [← pow_add]
        have := Nat.log_lt_of_lt_pow (Nat.mul_ne_zero hpos.ne' (by positivity)) hlt
        omega
    have hdvd : 1 * 2 ^ gridExponent m 1 ∣ m * 2 ^ 1074 := by
      rw [one_mul]
      exact Dvd.dvd.mul_left (pow_dvd_pow 2 hG) _
    rw [roundHalfEven_of_dvd _ _ (by positivity) hdvd]
    rw [one_mul] at hdvd ⊢
    exact Nat.div_mul_cancel hdvd
  have hlt : ¬ (2 ^ 2098 ≤ roundAbs (m : ℚ)) := by
    rw [hr, not_le]
    calc m * 2 ^ 1074 < 2 ^ 53 * 2 ^ 1074 :=
          Nat.mul_lt_mul_of_pos_right h (Nat.pow_pos (by norm_num))
      _ = 2 ^ 1127 := by rw [← pow_add]
      _ < 2 ^ 2098 := Nat.pow_lt_pow_right (by decide) (by decide)
  have key : ((roundAbs (m : ℚ) : ℕ) : ℚ) / 2 ^ 1074 = m := by
    rw [hr, Nat.cast_mul, cast_two_pow, mul_div_assoc, div_self hp.ne', mul_one]
  have e := roundDouble_of_nonneg (m : ℚ) (Nat.cast_nonneg m)
  rw [if_neg hlt, key] at e
  exact e

/-- An operation whose exact result `r` lies between 0 and `2 ^ 53 - 1` gives a
finite number less than 1 away from `r`: rounding does not cross the integers
next to `r`, which are doubles. -/
theorem arith_near (a b r : ℚ) (h0 : 0 ≤ r) (h1 : r ≤ 2 ^ 53 - 1) :
    ∃ c : ℚ, JSNum.arith a b r = .fin c ∧ r - 1 < c ∧ c < r + 1 := by
  have hfl : ((⌊r⌋₊ : ℕ) : ℚ) ≤ r := Nat.floor_le h0
  have hfl' : r < (⌊r⌋₊ : ℚ) + 1 := Nat.lt_floor_add_one r
  have hce : r ≤ ((⌈r⌉₊ : ℕ) : ℚ) := Nat.le_ceil r
  have hce' : ((⌈r⌉₊ : ℕ) : ℚ) < r + 1 := Nat.ceil_lt_add_one h0
  have hcn : ⌈r⌉₊ < 2 ^ 53 := by
    have : ((⌈r⌉₊ : ℕ) : ℚ) < ((2 ^ 53 : ℕ) : ℚ) := by
      push_cast
      linarith
    exact_mod_cast this
  have hfn : ⌊r⌋₊ < 2 ^ 53 := lt_of_le_of_lt (Nat.floor_le_ceil r) hcn
  have lo := JSNum.le_arith (⌊r⌋₊ : ℚ) a b r (fun _ _ => isDouble_nat _ hfn) hfl
  have hi := JSNum.arith_le (⌈r⌉₊ : ℚ) a b r (fun _ _ => isDouble_nat _ hcn) hce
  cases hc : JSNum.arith a b r with
  | nan => rw [hc] at lo; simp [JSNum.le] at lo
  | posInf => rw [hc] at hi; simp [JSNum.le] at hi
  | negInf => rw [hc] at lo; simp [JSNum.le] at lo
  | fin c =>
    rw [hc] at lo hi
    simp only [JSNum.le, decide_eq_true_eq] at lo hi
    exact ⟨c, rfl, by linarith, by linarith⟩

/-- A sum between 0 and `2 ^ 53 - 1` is computed with an error below 1. -/
theorem add_near (a b : ℚ) (h0 : 0 ≤ a + b) (h1 : a + b ≤ 2 ^ 53 - 1) :
    ∃ c : ℚ, (JSNum.fin a).add (.fin b) = .fin c ∧ a + b - 1 < c ∧ c < a + b + 1 :=
  arith_near a b (a + b) h0 h1

theorem moveTo_dimensions {r : Room} {d : Dimensions} (hd : r.dimensions = some d)
    (px py : JSNum) :
    (r.moveTo px py).dimensions = some { d with x := px, y := py } := by
  simp [Room.moveTo, hd]

/-- One step of the packer on a room with dimensions. -/
theorem packRoom_some (adj : List Room) (cx cy mh : JSNum) (r : Room) (d : Dimensions)
    (hd : r.dimensions = some d) :
    packRoom ⟨adj, cx, cy, mh⟩ r =
      if cx.gt (.fin 0) && (cx.add d.width).gt (.fin 30) then
        ⟨adj ++ [r.moveTo (.fin 0) (cy.add (mh.add (.fin 2)))],
          (JSNum.fin 0).add (d.width.add (.fin 2)), cy.add (mh.add (.fin 2)),
          JSNum.max (.fin 0) d.height⟩
      else
        ⟨adj ++ [r.moveTo cx cy], cx.add (d.width.add (.fin 2)), cy, JSNum.max mh d.height⟩ := by
  unfold packRoom
  rw [hd]
  simp only [packWraps]
  by_cases hc : (cx.gt (.fin 0) && (cx.add d.width).gt (.fin 30)) = true
  · simp only [hc, if_true, Room.moveTo, hd, Option.map_some']
  · simp only [hc, Bool.false_eq_true, if_false, Room.moveTo, hd, Option.map_some']

theorem foldl_packRoom_eq :
    ∀ (rooms : List Room) (adj : List Room) (cx cy mh : JSNum),
      (rooms.foldl packRoom ⟨adj, cx, cy, mh⟩).adjusted =
        adj ++ shelfPackDouble cx cy mh rooms := by
  intro rooms
  induction rooms with
  | nil => intro adj cx cy mh; simp [shelfPackDouble]
  | cons r rs ih =>
    intro adj cx cy mh
    simp only [List.foldl_cons]
    cases hd : r.dimensions with
    | none =>
      have hp : packRoom ⟨adj, cx, cy, mh⟩ r = ⟨adj, cx, cy, mh⟩ := by
        unfold packRoom
        rw [hd]
      rw [hp, ih]
      conv_rhs => unfold shelfPackDouble
      rw [hd]
    | some d =>
      rw [packRoom_some adj cx cy mh r d hd]
      conv_rhs => unfold shelfPackDouble
      rw [hd]
      by_cases hc : (cx.gt (.fin 0) && (cx.add d.width).gt (.fin 30)) = true
      · simp only [hc, if_true]
        rw [ih]
        simp
      · simp only [hc, Bool.false_eq_true, if_false]
        rw [ih]
        simp

theorem adjustOverlappingRooms_eq (rooms : List Room) :
    adjustOverlappingRooms rooms = shelfPackDouble (.fin 0) (.fin 0) (.fin 0) rooms := by
  unfold adjustOverlappingRooms
  cases rooms with
  | nil => rfl
  | cons r rs =>
    have : ((r :: rs).length == 0) = false := rfl
    simp only [this, Bool.false_eq_true, if_false]
    have := foldl_packRoom_eq (r :: rs) [] (.fin 0) (.fin 0) (.fin 0)
    simpa [packInit] using this

theorem shelfPackDouble_moved :
    ∀ (rooms : List Room), (∀ r ∈ rooms, r.wellFormed) → ∀ (cx cy mh : JSNum),
      List.Forall₂ (fun r a => ∃ x y : JSNum, a = r.moveTo x y) rooms
        (shelfPackDouble cx cy mh rooms) := by
  intro rooms
  induction rooms with
  | nil => intro _ cx cy mh; simp [shelfPackDouble]
  | cons r rs ih =>
    intro hr cx cy mh
    obtain ⟨x, y, w, h, hd, hw, hh⟩ := hr r (List.mem_cons_self _ _)
    have hrs : ∀ r' ∈ rs, r'.wellFormed := fun r' hr' => hr r' (List.mem_cons_of_mem _ hr')
    unfold shelfPackDouble
    rw [hd]
    simp only
    split_ifs
    · exact List.Forall₂.cons ⟨_, _, rfl⟩ (ih hrs _ _ _)
    · exact List.Forall₂.cons ⟨_, _, rfl⟩ (ih hrs _ _ _)

theorem exactAdd_fin (a b : ℚ) : JSNum.exactAdd (.fin a) (.fin b) = .fin (a + b) := rfl

theorem apartFrom_of_clear {a b : Room} {ax ay aw ah bx by' bw bh : ℚ}
    (ha : a.dimensions = some { x := .fin ax, y := .fin ay, width := .fin aw, height := .fin ah })
    (hb : b.dimensions = some { x := .fin bx, y := .fin by', width := .fin bw, height := .fin bh })
    (h : ax + aw ≤ bx ∨ ay + ah ≤ by') : a.apartFrom b := by
  refine ⟨_, _, ha, hb, ?_⟩
  simp only [Dimensions.overlaps, exactAdd_fin, JSNum.lt]
  rcases h with h | h
  · have : ¬ (bx < ax + aw) := not_lt.mpr h
    simp [this]
  · have : ¬ (by' < ay + ah) := not_lt.mpr h
    simp [this]

theorem heightBudget_cons (r : Room) (rs : List Room) (x y w h : ℚ)
    (hd : r.dimensions = some { x := .fin x, y := .fin y, width := .fin w, height := .fin h }) :
    heightBudget (r :: rs) = h + 4 + heightBudget rs := by
  simp [heightBudget, hd, JSNum.toRat]

theorem heightBudget_nonneg :
    ∀ (rooms : List Room), (∀ r ∈ rooms, r.wellFormed) → 0 ≤ heightBudget rooms := by
  intro rooms
  induction rooms with
  | nil => intro _; simp [heightBudget]
  | cons r rs ih =>
    intro hr
    obtain ⟨x, y, w, h, hd, hw, hh⟩ := hr r (List.mem_cons_self _ _)
    have := ih (fun r' hr' => hr r' (List.mem_cons_of_mem _ hr'))
    rw [heightBudget_cons r rs x y w h hd]
    linarith

/-- A sum that does not exceed 30 in doubles is below 31. -/
theorem sum_below_of_not_gt (cx w : ℚ)
    (h : ((JSNum.fin cx).add (.fin w)).gt (.fin 30) = false) : cx + w < 31 := by
  by_contra hge
  rw [not_lt] at hge
  have h31 := JSNum.le_arith 31 cx w (cx + w) (fun _ _ => isDouble_nat 31 (by norm_num)) hge
  have e : (JSNum.fin cx).add (.fin w) = JSNum.arith cx w (cx + w) := rfl
  rw [e] at h
  cases hc : JSNum.arith cx w (cx + w) with
  | nan => rw [hc] at h31; simp [JSNum.le] at h31
  | posInf => rw [hc] at h; simp [JSNum.gt, JSNum.lt] at h
  | negInf => rw [hc] at h31; simp [JSNum.le] at h31
  | fin c =>
    rw [hc] at h h31
    simp only [JSNum.le, decide_eq_true_eq] at h31
    simp only [JSNum.gt, JSNum.lt, decide_eq_false_iff_not, not_lt] at h
    linarith

/-- The rooms placed by `shelfPackDouble` from `(cx, cy)` in a row of height
`mh`, when the widths are at most `2 ^ 52` and the heights with their allowance
fit below `2 ^ 53`: every position is finite, each room lies in the row, at `cx`
or further right, or at or below the bottom of the row; and the rooms are
pairwise apart. -/
theorem shelfPackDouble_apart :
    ∀ (rooms : List Room), (∀ r ∈ rooms, r.wellFormed) →
      (∀ r ∈ rooms, ∀ x y w h : ℚ,
        r.dimensions = some { x := .fin x, y := .fin y, width := .fin w, height := .fin h } →
        w ≤ 2 ^ 52) →
      ∀ (cx cy mh : ℚ), 0 ≤ cx → 0 ≤ cy → 0 ≤ mh →
      cy + mh + heightBudget rooms ≤ 2 ^ 53 - 1 →
      (∀ a ∈ shelfPackDouble (.fin cx) (.fin cy) (.fin mh) rooms, ∃ ax ay aw ah : ℚ,
        a.dimensions =
          some { x := .fin ax, y := .fin ay, width := .fin aw, height := .fin ah } ∧
        cy ≤ ay ∧ (ay = cy → cx ≤ ax) ∧ (ay ≠ cy → cy + mh ≤ ay)) ∧
      (shelfPackDouble (.fin cx) (.fin cy) (.fin mh) rooms).Pairwise Room.apartFrom := by
  intro rooms
  induction rooms with
  | nil =>
    intro _ _ cx cy mh _ _ _ _
    simp [shelfPackDouble]
  | cons r rs ih =>
    intro hr hwid cx cy mh hcx hcy hmh hbud
    obtain ⟨x, y, w, h, hd, hw, hh⟩ := hr r (List.mem_cons_self _ _)
    have hrs : ∀ r' ∈ rs, r'.wellFormed := fun r' hr' => hr r' (List.mem_cons_of_mem _ hr')
    have hwrs : ∀ r' ∈ rs, ∀ x y w h : ℚ,
        r'.dimensions = some { x := .fin x, y := .fin y, width := .fin w, height := .fin h } →
        w ≤ 2 ^ 52 := fun r' hr' => hwid r' (List.mem_cons_of_mem _ hr')
    have hwb : w ≤ 2 ^ 52 := hwid r (List.mem_cons_self _ _) x y w h hd
    have hB := heightBudget_nonneg rs hrs
    rw [heightBudget_cons r rs x y w h hd] at hbud
    have h52 : (2 : ℚ) ^ 52 + 3 ≤ 2 ^ 53 - 1 := by norm_num
    obtain ⟨t, ht, ht1, ht2⟩ := add_near w 2 (by linarith) (by linarith)
    unfold shelfPackDouble
    rw [hd]
    simp only
    by_cases hc : ((JSNum.fin cx).gt (.fin 0) && ((JSNum.fin cx).add (.fin w)).gt (.fin 30)) = true
    · rw [if_pos hc]
      obtain ⟨u, hu, hu1, hu2⟩ := add_near mh 2 (by linarith) (by linarith)
      obtain ⟨cy', hcy', hy1, hy2⟩ := add_near cy u (by linarith) (by linarith)
      obtain ⟨cx', hcx', hx1, _⟩ := add_near 0 t (by linarith) (by linarith)
      rw [ht, hu, hcy', hcx', max_fin, max_eq_right (le_of_lt hh)]
      obtain ⟨hreg, hpw⟩ := ih hrs hwrs cx' cy' h (by linarith) (by linarith) (le_of_lt hh)
        (by linarith)
      have hfirst : (r.moveTo (.fin 0) (.fin cy')).dimensions =
          some { x := .fin 0, y := .fin cy', width := .fin w, height := .fin h } := by
        rw [moveTo_dimensions hd]
      constructor
      · intro a ha
        rcases List.mem_cons.1 ha with rfl | ha
        · refine ⟨0, cy', w, h, hfirst, by linarith, ?_, ?_⟩
          · intro he; linarith
          · intro _; linarith
        · obtain ⟨ax, ay, aw, ah, had, h1, h2, h3⟩ := hreg a ha
          refine ⟨ax, ay, aw, ah, had, by linarith, ?_, ?_⟩
          · intro he; linarith
          · intro _; linarith
      · rw [List.pairwise_cons]
        refine ⟨?_, hpw⟩
        intro a ha
        obtain ⟨ax, ay, aw, ah, had, h1, h2, h3⟩ := hreg a ha
        apply apartFrom_of_clear hfirst had
        by_cases he : ay = cy'
        · left; have := h2 he; linarith
        · right; have := h3 he; linarith
    · rw [if_neg hc]
      have hsum : cx + t ≤ 2 ^ 53 - 1 := by
        by_cases h0 : 0 < cx
        · have hgt : ((JSNum.fin cx).add (.fin w)).gt (.fin 30) = false := by
            cases hg : ((JSNum.fin cx).add (.fin w)).gt (.fin 30) with
            | false => rfl
            | true =>
              exfalso
              apply hc
              rw [hg]
              simp [JSNum.gt, JSNum.lt, h0]
          have := sum_below_of_not_gt cx w hgt
          have : (34 : ℚ) ≤ 2 ^ 53 - 1 := by norm_num
          linarith
        · have : cx = 0 := le_antisymm (not_lt.mp h0) hcx
          linarith
      obtain ⟨cx', hcx', hx1, _⟩ := add_near cx t (by linarith) hsum
      rw [ht, hcx', max_fin]
      obtain ⟨hreg, hpw⟩ := ih hrs hwrs cx' cy (max mh h) (by linarith) hcy
        (le_max_of_le_left hmh)
        (by
          have : max mh h ≤ mh + h := max_le (by linarith) (by linarith)
          linarith)
      have hfirst : (r.moveTo (.fin cx) (.fin cy)).dimensions =
          some { x := .fin cx, y := .fin cy, width := .fin w, height := .fin h } := by
        rw [moveTo_dimensions hd]
      constructor
      · intro a ha
        rcases List.mem_cons.1 ha with rfl | ha
        · refine ⟨cx, cy, w, h, hfirst, le_refl _, ?_, ?_⟩
          · intro _; exact le_refl _
          · intro hne; exact absurd rfl hne
        · obtain ⟨ax, ay, aw, ah, had, h1, h2, h3⟩ := hreg a ha
          refine ⟨ax, ay, aw, ah, had, h1, ?_, ?_⟩
          · intro he; have := h2 he; linarith
          · intro hne
            have := h3 hne
            have := le_max_left mh h
            linarith
      · rw [List.pairwise_cons]
        refine ⟨?_, hpw⟩
        intro a ha
        obtain ⟨ax, ay, aw, ah, had, h1, h2, h3⟩ := hreg a ha
        apply apartFrom_of_clear hfirst had
        by_cases he : ay = cy
        · left; have := h2 he; linarith
        · right
          have := h3 he
          have := le_max_right mh h
          linarith

theorem widthsBounded_spec {rooms : List Room} (h : widthsBounded rooms = true) :
    ∀ r ∈ rooms, ∀ x y w h : ℚ,
      r.dimensions = some { x := .fin x, y := .fin y, width := .fin w, height := .fin h } →
      w ≤ 2 ^ 52 := by
  intro r hr x y w h' hd
  have := List.all_eq_true.1 h r hr
  rw [hd] at this
  simpa [JSNum.le] using this

/-- The padded extent `size - 100` of a surface is finite. -/
theorem padded_extent_finite (size : Nat) (h : 100 < size) :
    ∃ e : ℚ, (JSNum.fin size).sub (.fin 100) = .fin e ∧ 1 ≤ e := by
  have h1 := padded_extent_ge_one size h
  have hle : ((JSNum.fin size).sub (.fin 100)).le (.fin size) = true := by
    rw [sub_fin_eq]
    exact JSNum.arith_le size _ _ _ (fun h _ => h) (by linarith)
  cases he : (JSNum.fin (size : ℚ)).sub (.fin 100) with
  | nan => rw [he] at h1; simp [JSNum.le] at h1
  | negInf => rw [he] at h1; simp [JSNum.le] at h1
  | posInf => rw [he] at hle; simp [JSNum.le] at hle
  | fin e =>
    rw [he] at h1
    simp only [JSNum.le, decide_eq_true_eq] at h1
    exact ⟨e, rfl, h1⟩

/-- A quotient of a finite number that is at least 1 by a finite number that is
at least 1 is finite and positive. -/
theorem quotient_finite (e b : ℚ) (he : 1 ≤ e) (hb : 1 ≤ b) :
    ∃ s : ℚ, (JSNum.fin e).div (.fin b) = .fin s ∧ 0 < s := by
  have hpos := quotient_pos (.fin e) b (by simpa [JSNum.le] using he) (by linarith)
  have hle : ((JSNum.fin e).div (.fin b)).le (.fin e) = true := by
    rw [div_fin_eq _ _ (by linarith)]
    refine JSNum.arith_le e _ _ _ (fun h _ => h) ?_
    rw [div_le_iff₀ (by linarith)]
    nlinarith
  cases hq : (JSNum.fin e).div (.fin b) with
  | nan => rw [hq] at hle; simp [JSNum.le] at hle
  | negInf => rw [hq] at hpos; simp [JSNum.lt] at hpos
  | posInf => rw [hq] at hle; simp [JSNum.le] at hle
  | fin s =>
    rw [hq] at hpos
    simp only [JSNum.lt, decide_eq_true_eq] at hpos
    exact ⟨s, rfl, hpos⟩

/-- For finite bounds at least 1 wide and high on a surface more than 100 wide
and high the scale is finite and positive. -/
theorem renderScale_finite (bounds : Bounds) (canvas : Size) (bw bh : ℚ)
    (hw : bounds.width = .fin bw) (hh : bounds.height = .fin bh)
    (hbw : 1 ≤ bw) (hbh : 1 ≤ bh)
    (hW : 100 < canvas.width) (hH : 100 < canvas.height) :
    ∃ s : ℚ, renderScale bounds canvas = .fin s ∧ 0 < s := by
  obtain ⟨e1, he1, h1⟩ := padded_extent_finite canvas.width hW
  obtain ⟨e2, he2, h2⟩ := padded_extent_finite canvas.height hH
  obtain ⟨s1, hs1, p1⟩ := quotient_finite e1 bw h1 hbw
  obtain ⟨s2, hs2, p2⟩ := quotient_finite e2 bh h2 hbh
  rw [renderScale_eq, hw, hh, he1, he2, hs1, hs2, min_fin]
  exact ⟨_, rfl, lt_min p1 p2⟩

/-- In a model with finite bounds whose extents are computed without rounding,
every room corner and wall endpoint is a finite point inside the bounds. -/
theorem model_points_in_bounds {a : JSVal} {fp : FloorPlan}
    (h : processFloorPlanData a = .ok (some fp)) (mn my bw bh Mx My : ℚ)
    (hb : fp.bounds =
      { minX := .fin mn, minY := .fin my, width := .fin bw, height := .fin bh })
    (hMx : maximumOf ((cornerPoints fp.rooms fp.walls).map (fun p => p.x)) = .fin Mx)
    (hMy : maximumOf ((cornerPoints fp.rooms fp.walls).map (fun p => p.y)) = .fin My)
    (hex : isDouble (Mx - mn) = true) (hey : isDouble (My - my) = true) :
    ∀ p ∈ cornerPoints fp.rooms fp.walls, ∃ px py : ℚ,
      p = { x := .fin px, y := .fin py } ∧
      mn ≤ px ∧ px ≤ mn + bw ∧ my ≤ py ∧ py ≤ my + bh := by
  have hr := model_rooms_wellFormed h
  have hw := model_walls_wellFormed h
  obtain ⟨_, _, _, _, _, _, hcalc⟩ := processFloorPlanData_some_inv a fp h
  have href : fp.bounds = referenceBounds fp.rooms fp.walls := by
    rw [hcalc]; exact calculateOptimalBounds_eq_reference hr hw
  have hne : fp.rooms ≠ [] ∨ fp.walls ≠ [] := by
    by_contra hcon
    push_neg at hcon
    rw [hcon.1, hcon.2] at hMx
    simp [cornerPoints, maximumOf] at hMx
  rw [href, referenceBounds_of_nonempty hne] at hb
  injection hb with b1 b2 b3 b4
  rw [hMx, b1, sub_exact _ _ (fun _ _ => hex), max_fin] at b3
  rw [hMy, b2, sub_exact _ _ (fun _ _ => hey), max_fin] at b4
  have e3 := JSNum.fin.inj b3
  have e4 := JSNum.fin.inj b4
  have hin := cornerPoints_in_extremes hr hw
  intro p hp
  obtain ⟨c1, c2, c3, c4⟩ := hin p hp
  rw [b1] at c1
  rw [hMx] at c2
  rw [b2] at c3
  rw [hMy] at c4
  obtain ⟨px, py⟩ := p
  cases px with
  | nan => simp [JSNum.le] at c1
  | posInf => simp [JSNum.le] at c2
  | negInf => simp [JSNum.le] at c1
  | fin px =>
    cases py with
    | nan => simp [JSNum.le] at c3
    | posInf => simp [JSNum.le] at c4
    | negInf => simp [JSNum.le] at c3
    | fin py =>
      simp only [JSNum.le, decide_eq_true_eq] at c1 c2 c3 c4
      have := le_max_left (Mx - mn) 10
      have := le_max_left (My - my) 10
      exact ⟨px, py, rfl, c1, by linarith, c3, by linarith⟩

/-- The finite extents of the bounds of a model are at least 10. -/
theorem model_bounds_ge_ten {a : JSVal} {fp : FloorPlan}
    (h : processFloorPlanData a = .ok (some fp)) (bw bh : ℚ)
    (hw : fp.bounds.width = .fin bw) (hh : fp.bounds.height = .fin bh) :
    10 ≤ bw ∧ 10 ≤ bh := by
  have hr := model_rooms_wellFormed h
  have hwl := model_walls_wellFormed h
  obtain ⟨_, _, _, _, _, _, hcalc⟩ := processFloorPlanData_some_inv a fp h
  have href : fp.bounds = referenceBounds fp.rooms fp.walls := by
    rw [hcalc]; exact calculateOptimalBounds_eq_reference hr hwl
  have key : ∀ (v : JSNum) (b : ℚ), JSNum.max v (.fin 10) = .fin b → 10 ≤ b := by
    intro v b hv
    cases v with
    | nan => simp [JSNum.max] at hv
    | posInf => simp [JSNum.max, JSNum.le] at hv
    | negInf =>
      simp only [JSNum.max, JSNum.le, if_true] at hv
      rw [← JSNum.fin.inj hv]
    | fin q =>
      rw [max_fin] at hv
      rw [← JSNum.fin.inj hv]
      exact le_max_right _ _
  by_cases hne : fp.rooms ≠ [] ∨ fp.walls ≠ []
  · rw [href, referenceBounds_of_nonempty hne] at hw hh
    exact ⟨key _ _ hw, key _ _ hh⟩
  · push_neg at hne
    rw [href, hne.1, hne.2] at hw hh
    simp only [referenceBounds, List.isEmpty_nil, Bool.and_self, if_true] at hw hh
    rw [← JSNum.fin.inj hw, ← JSNum.fin.inj hh]
    norm_num

/-- The position of a rational in the grid is the floor of its multiple. -/
theorem gridIndex_eq_floor (q : ℚ) : gridIndex q = ⌊q * 2 ^ 1074⌋ := by
  unfold gridIndex
  rw [Nat.shiftLeft_eq, one_mul]
  have h : q * 2 ^ 1074 = ((q.num * ((2 ^ 1074 : ℕ) : ℤ) : ℤ) : ℚ) / (q.den : ℚ) := by
    conv_lhs => rw [← Rat.num_div_den q]
    push_cast
    ring
  rw [h, Rat.floor_intCast_div_natCast]

/-- A double lies on the grid. -/
theorem gridIndex_double (q : ℚ) (h : isDouble q = true) :
    ((gridIndex q : ℤ) : ℚ) = q * 2 ^ 1074 := by
  have hp : (0 : ℚ) < 2 ^ 1074 := pow_pos (by norm_num) _
  rw [gridIndex_eq_floor]
  have hr := (isDouble_iff q).mp h
  rcases lt_or_le q 0 with hq | hq
  · rw [roundDouble_of_neg q hq] at hr
    by_cases hov : 2 ^ 2098 ≤ roundAbs q
    · rw [if_pos hov] at hr; cases hr
    · rw [if_neg hov] at hr
      have hr := JSNum.fin.inj hr
      have e : q * 2 ^ 1074 = ((-(roundAbs q : ℤ) : ℤ) : ℚ) := by
        conv_lhs => rw [← hr]
        push_cast
        rw [neg_mul, div_mul_cancel₀ _ hp.ne']
      rw [e, Int.floor_intCast]
  · rw [roundDouble_of_nonneg q hq] at hr
    by_cases hov : 2 ^ 2098 ≤ roundAbs q
    · rw [if_pos hov] at hr; cases hr
    · rw [if_neg hov] at hr
      have hr := JSNum.fin.inj hr
      have e : q * 2 ^ 1074 = (((roundAbs q : ℤ) : ℤ) : ℚ) := by
        conv_lhs => rw [← hr]
        push_cast
        rw [div_mul_cancel₀ _ hp.ne']
      rw [e, Int.floor_intCast]

/-- Between doubles the position in the grid is strictly monotone. -/
theorem gridIndex_lt {a b : ℚ} (ha : isDouble a = true) (hb : isDouble b = true) (h : a < b) :
    gridIndex a < gridIndex b := by
  have hp : (0 : ℚ) < 2 ^ 1074 := pow_pos (by norm_num) _
  have e : ((gridIndex a : ℤ) : ℚ) < ((gridIndex b : ℤ) : ℚ) := by
    rw [gridIndex_double a ha, gridIndex_double b hb]
    exact mul_lt_mul_of_pos_right h hp
  exact_mod_cast e

/-- The position in the grid is monotone. -/
theorem gridIndex_mono {a b : ℚ} (h : a ≤ b) : gridIndex a ≤ gridIndex b := by
  have hp : (0 : ℚ) < 2 ^ 1074 := pow_pos (by norm_num) _
  rw [gridIndex_eq_floor, gridIndex_eq_floor]
  exact Int.floor_le_floor (mul_le_mul_of_nonneg_right h hp.le)

/-- With more fuel than there are doubles from the start to below the bound, one
unit of fuel more does not change the values of a loop on doubles: the fuel is
not what ends the loop. -/
theorem loopValues_fuel (bound : JSNum) (s : ℚ) (hs : isDouble s = true) (cap : ℤ)
    (hcap : ∀ v : ℚ, isDouble v = true → (JSNum.fin v).lt bound = true → gridIndex v ≤ cap) :
    ∀ (fuel : Nat) (a : ℚ), isDouble a = true → (cap - gridIndex a).toNat + 2 ≤ fuel →
      loopValues (fuel + 1) (.fin a) bound (.fin s) =
        loopValues fuel (.fin a) bound (.fin s) := by
  intro fuel
  induction fuel with
  | zero => intro a _ h; omega
  | succ fuel ih =>
    intro a ha hf
    have hend : ∀ v : JSNum, v.lt bound = false →
        loopValues (fuel + 1) v bound (.fin s) = loopValues fuel v bound (.fin s) := by
      intro v hv
      have h1 : 1 ≤ fuel := by omega
      obtain ⟨k, rfl⟩ : ∃ k, fuel = k + 1 := ⟨fuel - 1, by omega⟩
      simp [loopValues, hv]
    have hstep : loopValues (fuel + 1) ((JSNum.fin a).add (.fin s)) bound (.fin s) =
        loopValues fuel ((JSNum.fin a).add (.fin s)) bound (.fin s) ∨
        ((JSNum.fin a).add (.fin s)).le (.fin a) = true := by
      have hv : (JSNum.fin a).add (.fin s) = roundDouble (a + s) := by
        show JSNum.arith a s (a + s) = _
        unfold JSNum.arith
        rw [ha, hs]
        rfl
      cases hc : (JSNum.fin a).add (.fin s) with
      | nan => left; exact hend _ (by cases bound <;> rfl)
      | posInf => left; exact hend _ (by cases bound <;> rfl)
      | negInf => right; rfl
      | fin a' =>
        rw [hc] at hv
        have ha' : isDouble a' = true := isDouble_of_round _ _ hv.symm
        by_cases hle : a' ≤ a
        · right; simpa [JSNum.le] using hle
        · left
          rw [not_le] at hle
          cases hlt : (JSNum.fin a').lt bound with
          | false => exact hend _ hlt
          | true =>
            have h1 := hcap a' ha' hlt
            have h2 := gridIndex_lt ha ha' hle
            exact ih a' ha' (by omega)
    unfold loopValues
    by_cases h1 : (!(JSNum.fin a).lt bound) = true
    · simp only [h1, if_true]
    · simp only [h1, Bool.false_eq_true, if_false]
      by_cases h2 : ((JSNum.fin a).add (.fin s)).le (.fin a) = true
      · simp only [h2, if_true]
      · simp only [h2, Bool.false_eq_true, if_false]
        rcases hstep with h | h
        · rw [h]
        · exact absurd h h2

/-- The fuel of `forRange` is enough for a loop on doubles: with any amount of
fuel more the values are those of `forRange`, so `forRange` gives `none` only
for a loop that never ends. -/
theorem forRange_fuel (a s : ℚ) (bound : JSNum) (ha : isDouble a = true)
    (hs : isDouble s = true) (k : Nat) :
    loopValues (loopFuel (.fin a) bound (.fin s) + k) (.fin a) bound (.fin s) =
      forRange (.fin a) bound (.fin s) := by
  have hp : (0 : ℚ) < 2 ^ 1074 := pow_pos (by norm_num) _
  induction k with
  | zero => rfl
  | succ k ih =>
    rw [← ih, ← Nat.add_assoc]
    cases bound with
    | nan =>
      have e : ∀ n, loopValues (n + 1) (.fin a) .nan (.fin s) = some [] := by
        intro n; simp [loopValues, JSNum.lt]
      have h3 : loopFuel (.fin a) .nan (.fin s) = 3 := rfl
      rw [h3]
      rw [e (3 + k), show 3 + k = (2 + k) + 1 by omega, e (2 + k)]
    | negInf =>
      have e : ∀ n, loopValues (n + 1) (.fin a) .negInf (.fin s) = some [] := by
        intro n; simp [loopValues, JSNum.lt]
      have h3 : loopFuel (.fin a) .negInf (.fin s) = 3 := rfl
      rw [h3]
      rw [e (3 + k), show 3 + k = (2 + k) + 1 by omega, e (2 + k)]
    | posInf =>
      refine loopValues_fuel .posInf s hs ((1 <<< 2098 : ℕ) : ℤ) ?_ _ a ha ?_
      · intro v hv _
        have hlt := isDouble_abs_lt v hv
        have hv' : v < 2 ^ 1024 := lt_of_le_of_lt (le_abs_self v) hlt
        have e : ((gridIndex v : ℤ) : ℚ) < (((1 <<< 2098 : ℕ) : ℤ) : ℚ) := by
          rw [gridIndex_double v hv, Nat.shiftLeft_eq, one_mul]
          push_cast
          calc v * 2 ^ 1074 < 2 ^ 1024 * 2 ^ 1074 := mul_lt_mul_of_pos_right hv' hp
            _ = 2 ^ 2098 := by rw [← pow_add]
        exact le_of_lt (by exact_mod_cast e)
      · show _ ≤ (((1 <<< 2098 : ℕ) : ℤ) - gridIndex a).toNat + 3 + k
        omega
    | fin b =>
      refine loopValues_fuel (.fin b) s hs (gridIndex b) ?_ _ a ha ?_
      · intro v _ hlt
        simp only [JSNum.lt, decide_eq_true_eq] at hlt
        exact gridIndex_mono (le_of_lt hlt)
      · show _ ≤ (gridIndex b - gridIndex a).toNat +
            (if 0 < s then (⌈(b - a) / s⌉).toNat else 0) + 3 + k
        omega

/-- A sum that is a double is computed exactly. -/
theorem add_fin_exact (a b : ℚ) (h : isDouble (a + b) = true) :
    (JSNum.fin a).add (.fin b) = .fin (a + b) :=
  JSNum.arith_exact a b (a + b) (fun _ _ => h)

theorem zero_add_fin (t : ℚ) (h : isDouble t = true) : (JSNum.fin 0).add (.fin t) = .fin t := by
  have e := add_fin_exact 0 t (by rw [zero_add]; exact h)
  rw [zero_add] at e
  exact e

theorem gt_fin (a b : ℚ) : (JSNum.fin a).gt (.fin b) = decide (b < a) := rfl

/-- When no sum rounds, the packing in doubles is the reference shelf packing. -/
theorem shelfPackDouble_exact :
    ∀ (rooms : List Room), (∀ r ∈ rooms, r.wellFormed) → ∀ (x y rh : ℚ), 0 ≤ rh →
      packExact x y rh rooms = true →
      shelfPackDouble (.fin x) (.fin y) (.fin rh) rooms = shelfPack x y rh rooms := by
  intro rooms
  induction rooms with
  | nil => intro _ x y rh _ _; rfl
  | cons r rs ih =>
    intro hr x y rh hrh hp
    obtain ⟨rx, ry, w, h, hd, hw, hh⟩ := hr r (List.mem_cons_self _ _)
    have hrs : ∀ r' ∈ rs, r'.wellFormed := fun r' hr' => hr r' (List.mem_cons_of_mem _ hr')
    unfold packExact at hp
    rw [hd] at hp
    simp only [JSNum.toRat, Bool.and_eq_true] at hp
    obtain ⟨⟨h1, h2⟩, h3⟩ := hp
    unfold shelfPackDouble shelfPack
    rw [hd]
    simp only [JSNum.toRat]
    rw [add_fin_exact x w h1, add_fin_exact w 2 h2, gt_fin, gt_fin]
    by_cases hc : 0 < x ∧ 30 < x + w
    · rw [if_pos hc] at h3
      simp only [Bool.and_eq_true] at h3
      obtain ⟨⟨h4, h5⟩, h6⟩ := h3
      have hcb : (decide (0 < x) && decide (30 < x + w)) = true := by simp [hc.1, hc.2]
      rw [if_pos hcb, if_pos hc, add_fin_exact rh 2 h4, add_fin_exact y (rh + 2) h5,
        zero_add_fin _ h2, max_fin, max_eq_right hh.le]
      have e : y + (rh + 2) = y + rh + 2 := by ring
      rw [e] at *
      rw [ih hrs _ _ _ hh.le h6]
      rfl
    · rw [if_neg hc] at h3
      simp only [Bool.and_eq_true] at h3
      obtain ⟨h4, h6⟩ := h3
      have hcb : ¬ (decide (0 < x) && decide (30 < x + w)) = true := by
        simpa using (not_and.mp hc)
      rw [if_neg hcb, if_neg hc, add_fin_exact x (w + 2) h4, max_fin]
      have e : x + (w + 2) = x + w + 2 := by ring
      rw [e] at *
      rw [ih hrs _ _ _ (le_max_of_le_left hrh) h6]
      rfl

/-! ## The properties of the normalizer -/

/-- C1 (the claim fails): a payload whose floor-plan section is present and
whose `rooms` array holds a `null` entry next to a valid room is not normalized
into a model without the `null` entry; the property read on `null` throws inside
the `try` block and `processFloorPlanData` returns `null`. -/
theorem processFloorPlanData_null_entry :
    (floorPlanSection payloadNullRoom).truthy = true ∧
      processFloorPlanData payloadNullRoom = .ok none :=
  ⟨rfl, rfl⟩

/-- C1 (amended): for every payload that has a floor-plan section, in which no
entry of `rooms`, `walls`, `doors`, `windows` or `furniture` is `null` or
`undefined` and no object has an own property named `toString`,
`processFloorPlanData` returns a model and not `null`, whatever else is
malformed; the rooms of the model hold, in order, exactly the rectangles of the
raw rooms that `validateDimensions` accepts, the other raw rooms being
dropped. -/
theorem processFloorPlanData_returns_model (apiResponse : JSVal)
    (hsec : (floorPlanSection apiResponse).truthy = true)
    (hentries : noNullishEntries apiResponse = true)
    (hplain : apiResponse.hasOwnToString = false) :
    ∃ fp : FloorPlan, processFloorPlanData apiResponse = .ok (some fp) ∧
      fp.rooms.map (fun r => r.dimensions) =
        ((sectionEntries apiResponse "rooms").filterMap rawRoomDimensions).map some := by
  have hne := noNullishEntries_mem hentries
  have hpl := sectionEntries_plain apiResponse
  obtain ⟨rs, hr⟩ := pass_ok_of_forall processRoom (fun room => room.dimensions.isSome)
    (sectionField apiResponse "rooms") (fun x hx j =>
      processRoom_of_plain x j (hne "rooms" (by simp) x hx).1 (hne "rooms" (by simp) x hx).2
        (hpl "rooms" hplain x hx))
  obtain ⟨ws, hw⟩ := pass_ok_of_forall processWall wallKept
    (sectionField apiResponse "walls") (fun x hx j =>
      processWall_of_plain x j (hne "walls" (by simp) x hx).1 (hne "walls" (by simp) x hx).2
        (hpl "walls" hplain x hx))
  obtain ⟨ds, hd⟩ := pass_ok_of_forall processDoor (fun door => door.position.isSome)
    (sectionField apiResponse "doors") (fun x hx j =>
      processDoor_of_plain x j (hne "doors" (by simp) x hx).1 (hne "doors" (by simp) x hx).2
        (hpl "doors" hplain x hx))
  obtain ⟨wis, hwi⟩ := pass_ok_of_forall processWindow (fun window => window.position.isSome)
    (sectionField apiResponse "windows") (fun x hx j =>
      processWindow_of_plain x j (hne "windows" (by simp) x hx).1
        (hne "windows" (by simp) x hx).2 (hpl "windows" hplain x hx))
  obtain ⟨fs, hf⟩ := pass_ok_of_forall processFurnitureItem
    (fun item => item.position.isSome && item.dimensions.isSome)
    (sectionField apiResponse "furniture") (fun x hx j =>
      processFurnitureItem_of_plain x j (hne "furniture" (by simp) x hx).1
        (hne "furniture" (by simp) x hx).2 (hpl "furniture" hplain x hx))
  obtain ⟨fp, hfp, hrs, -⟩ := processFloorPlanData_some_of_ok apiResponse hsec hr hw hd hwi hf
  refine ⟨fp, hfp, ?_⟩
  rw [hrs]
  exact processRooms_dimensions hr

/-- The amended C1 at a payload whose `rooms` array holds a number, a string, a
room with `null` dimensions, a room of negative width and one valid room, and
whose `walls` is a string. -/
theorem processFloorPlanData_returns_model_witness :
    ∃ fp : FloorPlan, processFloorPlanData payloadMalformedRooms = .ok (some fp) ∧
      fp.rooms.map (fun r => r.dimensions) =
        ((sectionEntries payloadMalformedRooms "rooms").filterMap rawRoomDimensions).map some :=
  processFloorPlanData_returns_model payloadMalformedRooms rfl rfl rfl

/-- C2: `processFloorPlanData` never raises, whatever value it is given: it
returns `null` or a model (whose `rooms`, `walls`, `doors`, `windows` and
`furniture` are lists and whose `bounds` has the fields `minX`, `minY`, `width`
and `height`, as the type `FloorPlan` records). -/
theorem processFloorPlanData_total (apiResponse : JSVal) :
    processFloorPlanData apiResponse = .ok none ∨
      ∃ fp : FloorPlan, processFloorPlanData apiResponse = .ok (some fp) := by
  by_cases hsec : (floorPlanSection apiResponse).truthy = true
  · rw [processFloorPlanData_of_section apiResponse hsec]
    cases processFloorPlanBody apiResponse (floorPlanSection apiResponse) with
    | error e => exact Or.inl rfl
    | ok fp => exact Or.inr ⟨fp, rfl⟩
  · left
    simp [processFloorPlanData, hsec, pure, Except.pure]

/-- C3: for every payload with no floor-plan section, that is whose
`apiResponse?.analysis?.floorPlan` is `undefined` (no `analysis`, or no
`floorPlan` in it) or `null`, `processFloorPlanData` returns `null`. -/
theorem processFloorPlanData_no_section (apiResponse : JSVal)
    (h : floorPlanSection apiResponse = .undefined ∨ floorPlanSection apiResponse = .null) :
    processFloorPlanData apiResponse = .ok none := by
  have hsec : (floorPlanSection apiResponse).truthy = false := by
    rcases h with h | h <;> rw [h] <;> rfl
  simp [processFloorPlanData, hsec, pure, Except.pure]

/-- C3 at the empty object, at a payload without `analysis`, at an `analysis`
without `floorPlan` and at an `analysis` whose `floorPlan` is `null`. -/
theorem processFloorPlanData_no_section_witness :
    processFloorPlanData (.obj []) = .ok none ∧
    processFloorPlanData (.obj [("status", .str "ok")]) = .ok none ∧
    processFloorPlanData (.obj [("analysis", .obj [("projectInfo", .obj [])])]) = .ok none ∧
    processFloorPlanData (.obj [("analysis", .obj [("floorPlan", .null)])]) = .ok none :=
  ⟨processFloorPlanData_no_section _ (Or.inl rfl),
   processFloorPlanData_no_section _ (Or.inl rfl),
   processFloorPlanData_no_section _ (Or.inl rfl),
   processFloorPlanData_no_section _ (Or.inr rfl)⟩

/-- C4 (the claim fails): the wall from `(0, 0)` to `(10, 0)` with input
thickness 0 is in the normalized model with thickness 4, not 1. -/
theorem wall_zero_thickness_not_one :
    ∃ fp : FloorPlan, processFloorPlanData payloadZeroThickness = .ok (some fp) ∧
      fp.walls.map (fun w => (w.start, w.end_, w.thickness)) =
        [(some { x := .fin 0, y := .fin 0 }, some { x := .fin 10, y := .fin 0 }, .fin 4)] ∧
      JSNum.fin 4 ≠ JSNum.fin 1 :=
  ⟨_, rfl, rfl, by decide⟩

/-- C4 (amended): a wall whose input thickness is 0, with valid and distinct
start and end, is processed into a wall of thickness exactly 4 (a thickness of
0 is falsy, so the default 4 replaces it before the floor of 1 applies), and
that wall, with its start and end, is in the walls of every normalized model
built from a payload that holds the raw wall. -/
theorem wall_zero_thickness_default (wall : JSVal) (s e : Point)
    (hs : validatePoint (wall.optChain "start") = .ok (some s))
    (he : validatePoint (wall.optChain "end") = .ok (some e))
    (hne : s ≠ e)
    (hth : wall.optChain "thickness" = .ofRat 0) :
    (∀ i : Nat, ∃ w, processWall wall i = .ok w ∧ wallKept w = true ∧
      w.thickness = .fin 4 ∧ w.start = some s ∧ w.end_ = some e) ∧
    (∀ (apiResponse : JSVal) (fp : FloorPlan),
      processFloorPlanData apiResponse = .ok (some fp) →
      wall ∈ sectionEntries apiResponse "walls" →
      ∃ w ∈ fp.walls, w.thickness = .fin 4 ∧ w.start = some s ∧ w.end_ = some e) := by
  refine ⟨processWall_zero_thickness wall s e hs he hne hth, ?_⟩
  intro a fp hfp hmem
  obtain ⟨_, _, hw, _⟩ := processFloorPlanData_some_inv a fp hfp
  obtain ⟨mapped, hm, hout⟩ := processWalls_inv hw
  obtain ⟨y, hy, j, hj⟩ := mapIdxFrom_ok_image processWall _ 0 mapped hm wall hmem
  obtain ⟨w, hwj, hk, ht, hws, hwe⟩ := processWall_zero_thickness wall s e hs he hne hth j
  have hyw : w = y := by
    rw [hwj] at hj
    exact Except.ok.inj hj
  subst hyw
  refine ⟨w, ?_, ht, hws, hwe⟩
  rw [hout]
  exact List.mem_filter.2 ⟨hy, hk⟩

/-- The amended C4 at the wall from `(0, 0)` to `(10, 0)` with thickness 0. -/
theorem wall_zero_thickness_default_witness :
    ∃ fp : FloorPlan, processFloorPlanData payloadZeroThickness = .ok (some fp) ∧
      ∃ w ∈ fp.walls, w.thickness = .fin 4 ∧ w.start = some { x := .fin 0, y := .fin 0 } ∧
        w.end_ = some { x := .fin 10, y := .fin 0 } :=
  ⟨_, rfl, (wall_zero_thickness_default rawZeroThicknessWall
    { x := .fin 0, y := .fin 0 } { x := .fin 10, y := .fin 0 } rfl rfl (by decide) rfl).2
    payloadZeroThickness _ rfl (List.mem_singleton.2 rfl)⟩

/-- C5 (the code at the failing input): a door without `position` and a window
whose `position` is a string are both in the normalized model, at the position
`(0, 0)`. -/
theorem doors_windows_without_position_kept :
    ∃ fp : FloorPlan, processFloorPlanData payloadNoPosition = .ok (some fp) ∧
      fp.doors.map (fun d => d.position) = [some { x := .fin 0, y := .fin 0 }] ∧
      fp.windows.map (fun w => w.position) = [some { x := .fin 0, y := .fin 0 }] :=
  ⟨_, rfl, rfl, rfl⟩

/-- C6 (the code at the failing input): a furniture item without position and
dimensions, and one whose dimensions have width -5, are both in the normalized
model, with the position `(0, 0)` for the first and the dimensions
`(0, 0, 10, 10)` for both. -/
theorem furniture_without_geometry_kept :
    ∃ fp : FloorPlan, processFloorPlanData payloadBadFurniture = .ok (some fp) ∧
      fp.furniture.map (fun f => (f.position, f.dimensions)) =
        [(some { x := .fin 0, y := .fin 0 },
          some { x := .fin 0, y := .fin 0, width := .fin 10, height := .fin 10 }),
         (some { x := .fin 1, y := .fin 1 },
          some { x := .fin 0, y := .fin 0, width := .fin 10, height := .fin 10 })] :=
  ⟨_, rfl, rfl⟩

/-- C7: in every normalized model every room has finite `x`, `y`, `width`
and `height` with `width > 0` and `height > 0`; the rooms hold, in order,
exactly the rectangles `validateDimensions` accepts among the raw rooms, as
parsed and not clamped; and a raw room whose dimensions are missing, have a
non-finite field or have `width <= 0` or `height <= 0` contributes no room. -/
theorem rooms_valid_dimensions (apiResponse : JSVal) (fp : FloorPlan)
    (h : processFloorPlanData apiResponse = .ok (some fp)) :
    (∀ r ∈ fp.rooms, ∃ x y w ht : ℚ,
      r.dimensions = some { x := .fin x, y := .fin y, width := .fin w, height := .fin ht } ∧
      0 < w ∧ 0 < ht) ∧
    fp.rooms.map (fun r => r.dimensions) =
      ((sectionEntries apiResponse "rooms").filterMap rawRoomDimensions).map some ∧
    (∀ room : JSVal, dimensionsRejected (room.optChain "dimensions") = true →
      rawRoomDimensions room = none) := by
  obtain ⟨_, hr, _⟩ := processFloorPlanData_some_inv apiResponse fp h
  have hmap := processRooms_dimensions hr
  refine ⟨?_, hmap, ?_⟩
  · intro r hr'
    have hmem : r.dimensions ∈ fp.rooms.map (fun r => r.dimensions) :=
      List.mem_map.2 ⟨r, hr', rfl⟩
    rw [hmap] at hmem
    obtain ⟨d, hd, hdr⟩ := List.mem_map.1 hmem
    obtain ⟨room, _, hroom⟩ := List.mem_filterMap.1 hd
    unfold rawRoomDimensions at hroom
    split at hroom
    · rename_i d' hv
      cases hroom
      obtain ⟨_, _, _, _, _, _, x, y, w, ht, hxy, hw, hh⟩ := validateDimensions_some hv
      exact ⟨x, y, w, ht, by rw [← hdr, hxy], hw, hh⟩
    · cases hroom
  · intro room hrej
    unfold rawRoomDimensions
    split
    · rename_i d hv
      obtain ⟨h1, h2, hx, hy, hw, hh, x, y, w, ht, hxy, hwp, hhp⟩ := validateDimensions_some hv
      subst hxy
      simp only at hx hy hw hh
      simp [dimensionsRejected, h1, h2, ← hx, ← hy, ← hw, ← hh, JSNum.isFinite, JSNum.le,
        not_le.2 hwp, not_le.2 hhp] at hrej
    · rfl

/-- C7 at the payload whose only room has width -5 and height 10: the model
has no room; and a raw room whose width is the string "1e400" (which parses to
`Infinity`) or whose height is the string "1e-400" (which parses to 0)
contributes no room. -/
theorem rooms_valid_dimensions_witness :
    ∃ fp : FloorPlan, processFloorPlanData payloadNegativeWidthRoom = .ok (some fp) ∧
      fp.rooms.length = 0 ∧
      rawRoomDimensions rawOverflowRoom = none ∧ rawRoomDimensions rawUnderflowRoom = none ∧
      ((∀ r ∈ fp.rooms, ∃ x y w ht : ℚ,
        r.dimensions = some { x := .fin x, y := .fin y, width := .fin w, height := .fin ht } ∧
        0 < w ∧ 0 < ht) ∧
      fp.rooms.map (fun r => r.dimensions) =
        ((sectionEntries payloadNegativeWidthRoom "rooms").filterMap rawRoomDimensions).map
          some ∧
      (∀ room : JSVal, dimensionsRejected (room.optChain "dimensions") = true →
        rawRoomDimensions room = none)) :=
  ⟨_, rfl, rfl,
    (rooms_valid_dimensions payloadNegativeWidthRoom _ rfl).2.2 rawOverflowRoom (by decide!),
    (rooms_valid_dimensions payloadNegativeWidthRoom _ rfl).2.2 rawUnderflowRoom (by decide!),
    rooms_valid_dimensions payloadNegativeWidthRoom _ rfl⟩

/-- C8: in every normalized model every wall has a start different from its end;
the walls hold, in order, exactly the parsed start and end of the raw walls
whose parsed start differs from the parsed end; and a raw wall whose parsed
start equals its parsed end contributes no wall. -/
theorem walls_distinct_ends (apiResponse : JSVal) (fp : FloorPlan)
    (h : processFloorPlanData apiResponse = .ok (some fp)) :
    (∀ w ∈ fp.walls, ∃ s e : Point, w.start = some s ∧ w.end_ = some e ∧ s ≠ e) ∧
    fp.walls.map (fun w => (w.start, w.end_)) =
      ((sectionEntries apiResponse "walls").filterMap rawWallKeptEnds).map
        (fun p => (some p.1, some p.2)) ∧
    (∀ wall : JSVal, (rawWallEnds wall).1 = (rawWallEnds wall).2 →
      rawWallKeptEnds wall = none) := by
  obtain ⟨_, _, hw, _⟩ := processFloorPlanData_some_inv apiResponse fp h
  have hmap := processWalls_ends hw
  refine ⟨?_, hmap, ?_⟩
  · intro w hw'
    have hmem : (w.start, w.end_) ∈ fp.walls.map (fun w => (w.start, w.end_)) :=
      List.mem_map.2 ⟨w, hw', rfl⟩
    rw [hmap] at hmem
    obtain ⟨p, hp, hpw⟩ := List.mem_map.1 hmem
    obtain ⟨wall, _, hwall⟩ := List.mem_filterMap.1 hp
    unfold rawWallKeptEnds at hwall
    split at hwall
    · cases hwall
    · rename_i hne
      cases hwall
      simp only [Prod.mk.injEq] at hpw
      exact ⟨_, _, hpw.1.symm, hpw.2.symm, hne⟩
  · intro wall heq
    simp [rawWallKeptEnds, heq]

/-- C8 at a payload with a wall from `(3, 4)` to `(3, 4)` and a wall from
`(0, 0)` to `(10, 0)`: the model has the second wall only. -/
theorem walls_distinct_ends_witness :
    ∃ fp : FloorPlan, processFloorPlanData payloadEqualEnds = .ok (some fp) ∧
      fp.walls.map (fun w => (w.start, w.end_)) =
        [(some { x := .fin 0, y := .fin 0 }, some { x := .fin 10, y := .fin 0 })] ∧
      ((∀ w ∈ fp.walls, ∃ s e : Point, w.start = some s ∧ w.end_ = some e ∧ s ≠ e) ∧
      fp.walls.map (fun w => (w.start, w.end_)) =
        ((sectionEntries payloadEqualEnds "walls").filterMap rawWallKeptEnds).map
          (fun p => (some p.1, some p.2)) ∧
      (∀ wall : JSVal, (rawWallEnds wall).1 = (rawWallEnds wall).2 →
        rawWallKeptEnds wall = none)) :=
  ⟨_, rfl, rfl, walls_distinct_ends payloadEqualEnds _ rfl⟩

/-- C9 (the code at the failing input): a wall whose thickness is the string
`"thick"`, a door whose width is the string `"wide"` and a window whose width is
an object and whose height is the string `"tall"` are in the normalized model
with thickness, width and height `NaN`, and `NaN >= 1`, `NaN >= 10` and
`NaN >= 5` are all false. -/
theorem clamps_give_nan_on_text :
    ∃ fp : FloorPlan, processFloorPlanData payloadTextThickness = .ok (some fp) ∧
      fp.walls.map (fun w => w.thickness) = [.nan] ∧
      fp.doors.map (fun d => d.width) = [.nan] ∧
      fp.windows.map (fun w => (w.width, w.height)) = [(.nan, .nan)] ∧
      JSNum.ge .nan (.fin 1) = false ∧ JSNum.ge .nan (.fin 10) = false ∧
      JSNum.ge .nan (.fin 5) = false :=
  ⟨_, rfl, rfl, rfl, rfl, rfl, rfl, rfl⟩

/-- C10: a raw door whose position is an object with the numbers `px` and `py`
and whose width is a number `w` with `0 < w < 10` is processed, at any index,
into a door of width exactly 10 at position exactly `(px, py)`, and every
normalized model built from a payload that holds the raw door at index `i` of
its doors holds that door at index `i` of its doors: it is raised to the floor,
not rejected. -/
theorem door_width_raised (door : JSVal) (fields : List (String × JSVal)) (px py w : ℚ)
    (hpos : door.optChain "position" = .obj fields)
    (hx : JSVal.lookup "x" fields = .ofRat px) (hy : JSVal.lookup "y" fields = .ofRat py)
    (hw : door.optChain "width" = .ofRat w) (h0 : 0 < w) (h10 : w < 10) :
    (∀ i : Nat, ∃ d, processDoor door i = .ok d ∧ d.width = .fin 10 ∧
      d.position = some { x := .fin px, y := .fin py }) ∧
    (∀ (apiResponse : JSVal) (fp : FloorPlan) (i : Nat),
      processFloorPlanData apiResponse = .ok (some fp) →
      (sectionEntries apiResponse "doors").get? i = some door →
      ∃ d, fp.doors.get? i = some d ∧ d.width = .fin 10 ∧
        d.position = some { x := .fin px, y := .fin py }) := by
  refine ⟨processDoor_narrow door fields px py w hpos hx hy hw h0 h10, ?_⟩
  intro a fp i hfp hget
  obtain ⟨_, _, _, hd, _⟩ := processFloorPlanData_some_inv a fp hfp
  obtain ⟨y, hy', hj⟩ := mapIdxFrom_ok_get processDoor _ 0 fp.doors (processDoors_inv hd) i
    door hget
  obtain ⟨d, hdi, hdw, hdp⟩ := processDoor_narrow door fields px py w hpos hx hy hw h0 h10 (0 + i)
  have hyd : d = y := by
    rw [hdi] at hj
    exact Except.ok.inj hj
  subst hyd
  exact ⟨d, hy', hdw, hdp⟩

/-- C10 at the door `{position: {x: 5, y: 5}, width: 2}`: the model holds it
with width 10 at `(5, 5)`. -/
theorem door_width_raised_witness :
    ∃ fp : FloorPlan, processFloorPlanData payloadNarrowDoor = .ok (some fp) ∧
      ∃ d, fp.doors.get? 0 = some d ∧ d.width = .fin 10 ∧
        d.position = some { x := .fin 5, y := .fin 5 } :=
  ⟨_, rfl, (door_width_raised rawNarrowDoor [("x", .ofRat 5), ("y", .ofRat 5)] 5 5 2 rfl rfl rfl
    rfl (by norm_num) (by norm_num)).2 payloadNarrowDoor _ 0 rfl rfl⟩

set_option maxRecDepth 10000 in
/-- C11 (the claim fails): with the rooms `(2.2, 0, 5, 20)` and `(12, 0, 0.4, 20)`
the bounds are `minX = 2.2` and `width = 12.4 - 2.2`, which is the double 10.2,
and `bounds.minX + bounds.width` is 12.399999999999999 in double precision, below
the right edge `12 + 0.4 = 12.4` of the second room. -/
theorem bounds_right_edge_short :
    ∃ fp : FloorPlan, processFloorPlanData payloadRoundedBounds = .ok (some fp) ∧
      fp.rooms.map (fun r => r.dimensions) =
        [some { x := .fin (2476979795053773 / 1125899906842624), y := .fin 0, width := .fin 5,
                height := .fin 20 },
         some { x := .fin 12, y := .fin 0,
                width := .fin (3602879701896397 / 9007199254740992), height := .fin 20 }] ∧
      fp.bounds =
        { minX := .fin (2476979795053773 / 1125899906842624), minY := .fin 0,
          width := .fin (2871044762448691 / 281474976710656), height := .fin 20 } ∧
      (JSNum.fin 12).add (.fin (3602879701896397 / 9007199254740992)) =
        .fin (6980579422424269 / 562949953421312) ∧
      fp.bounds.minX.add fp.bounds.width = .fin (1745144855606067 / 140737488355328) ∧
      JSNum.le ((JSNum.fin 12).add (.fin (3602879701896397 / 9007199254740992)))
        (fp.bounds.minX.add fp.bounds.width) = false :=
  ⟨_, by with_unfolding_all rfl, by with_unfolding_all rfl, by with_unfolding_all rfl,
    by decide!, by with_unfolding_all rfl, by with_unfolding_all rfl⟩

/-- C11 (amended): in every normalized model every room rectangle and every wall
endpoint lies between the minima `bounds.minX`, `bounds.minY` and the maxima
`maxX`, `maxY` over all room corners and wall endpoints, the right and bottom
edges `x + width` and `y + height` being the sums as computed in double
precision: `bounds.minX <= x`, `x + width <= maxX`, `bounds.minY <= y` and
`y + height <= maxY` for each room, and both coordinates of the start and of the
end of each wall lie between the minima and the maxima; with a room or a wall
`bounds.width` is `max(maxX - bounds.minX, 10)` and `bounds.height` is
`max(maxY - bounds.minY, 10)`, the differences rounded; and where neither the
difference `maxX - bounds.minX` nor the sum `bounds.minX + bounds.width` rounds,
`maxX <= bounds.minX + bounds.width` (likewise for `y`), so that the far edges
of the bounds enclose the model. -/
theorem bounds_contain_model (apiResponse : JSVal) (fp : FloorPlan)
    (h : processFloorPlanData apiResponse = .ok (some fp)) :
    (∀ r ∈ fp.rooms, ∀ d, r.dimensions = some d →
      JSNum.le fp.bounds.minX d.x = true ∧
      JSNum.le (d.x.add d.width)
        (maximumOf ((cornerPoints fp.rooms fp.walls).map (fun p => p.x))) = true ∧
      JSNum.le fp.bounds.minY d.y = true ∧
      JSNum.le (d.y.add d.height)
        (maximumOf ((cornerPoints fp.rooms fp.walls).map (fun p => p.y))) = true) ∧
    (∀ w ∈ fp.walls, ∀ p, (w.start = some p ∨ w.end_ = some p) →
      JSNum.le fp.bounds.minX p.x = true ∧
      JSNum.le p.x (maximumOf ((cornerPoints fp.rooms fp.walls).map (fun p => p.x))) = true ∧
      JSNum.le fp.bounds.minY p.y = true ∧
      JSNum.le p.y (maximumOf ((cornerPoints fp.rooms fp.walls).map (fun p => p.y))) = true) ∧
    ((fp.rooms ≠ [] ∨ fp.walls ≠ []) →
      fp.bounds.width = JSNum.max
        ((maximumOf ((cornerPoints fp.rooms fp.walls).map (fun p => p.x))).sub fp.bounds.minX)
        (.fin 10) ∧
      fp.bounds.height = JSNum.max
        ((maximumOf ((cornerPoints fp.rooms fp.walls).map (fun p => p.y))).sub fp.bounds.minY)
        (.fin 10)) ∧
    (∀ mn mx : ℚ, fp.bounds.minX = .fin mn →
      maximumOf ((cornerPoints fp.rooms fp.walls).map (fun p => p.x)) = .fin mx →
      isDouble (mx - mn) = true → isDouble (mn + max (mx - mn) 10) = true →
      JSNum.le (maximumOf ((cornerPoints fp.rooms fp.walls).map (fun p => p.x)))
        (fp.bounds.minX.add fp.bounds.width) = true) ∧
    (∀ mn mx : ℚ, fp.bounds.minY = .fin mn →
      maximumOf ((cornerPoints fp.rooms fp.walls).map (fun p => p.y)) = .fin mx →
      isDouble (mx - mn) = true → isDouble (mn + max (mx - mn) 10) = true →
      JSNum.le (maximumOf ((cornerPoints fp.rooms fp.walls).map (fun p => p.y)))
        (fp.bounds.minY.add fp.bounds.height) = true) := by
  have hr := model_rooms_wellFormed h
  have hw := model_walls_wellFormed h
  obtain ⟨_, _, _, _, _, _, hb⟩ := processFloorPlanData_some_inv apiResponse fp h
  have href : fp.bounds = referenceBounds fp.rooms fp.walls := by
    rw [hb]; exact calculateOptimalBounds_eq_reference hr hw
  have hin := cornerPoints_in_extremes hr hw
  have hne_of_fin : ∀ (f : Point → JSNum) (mx : ℚ),
      maximumOf ((cornerPoints fp.rooms fp.walls).map f) = .fin mx →
      fp.rooms ≠ [] ∨ fp.walls ≠ [] := by
    intro f mx hmx
    by_contra hcon
    push_neg at hcon
    rw [hcon.1, hcon.2] at hmx
    simp [cornerPoints, maximumOf] at hmx
  refine ⟨?_, ?_, ?_, ?_, ?_⟩
  · intro r hmem d hd
    have hne : fp.rooms ≠ [] ∨ fp.walls ≠ [] := Or.inl (List.ne_nil_of_mem hmem)
    rw [href, referenceBounds_of_nonempty hne]
    have hc : ∀ p ∈ roomCorners r, p ∈ cornerPoints fp.rooms fp.walls := fun p hp =>
      List.mem_append_left _ (List.mem_flatMap.2 ⟨r, hmem, hp⟩)
    have h1 := hin _ (hc ⟨d.x, d.y⟩ (by simp [roomCorners, hd]))
    have h2 := hin _ (hc ⟨d.x.add d.width, d.y.add d.height⟩ (by simp [roomCorners, hd]))
    exact ⟨h1.1, h2.2.1, h1.2.2.1, h2.2.2.2⟩
  · intro w hmem p hp
    have hne : fp.rooms ≠ [] ∨ fp.walls ≠ [] := Or.inr (List.ne_nil_of_mem hmem)
    rw [href, referenceBounds_of_nonempty hne]
    have hc : p ∈ cornerPoints fp.rooms fp.walls := by
      apply List.mem_append_right
      refine List.mem_flatMap.2 ⟨w, hmem, ?_⟩
      rcases hp with hp | hp <;> simp [wallEndpoints, hp]
    exact hin p hc
  · intro hne
    rw [href, referenceBounds_of_nonempty hne]
    exact ⟨rfl, rfl⟩
  · intro mn mx hmn hmx he hs
    have hne := hne_of_fin _ mx hmx
    rw [href, referenceBounds_of_nonempty hne] at hmn ⊢
    simp only at hmn ⊢
    rw [hmx, hmn]
    obtain ⟨e1, e2⟩ := far_edge_exact mn mx he hs
    rw [e1]
    simpa [JSNum.le] using e2
  · intro mn mx hmn hmx he hs
    have hne := hne_of_fin _ mx hmx
    rw [href, referenceBounds_of_nonempty hne] at hmn ⊢
    simp only at hmn ⊢
    rw [hmx, hmn]
    obtain ⟨e1, e2⟩ := far_edge_exact mn mx he hs
    rw [e1]
    simpa [JSNum.le] using e2

/-- The amended C11 at a payload with a room `(1, 2, 3, 4)` among malformed
rooms. -/
theorem bounds_contain_model_witness :
    ∃ fp : FloorPlan, processFloorPlanData payloadMalformedRooms = .ok (some fp) ∧
      fp.rooms.length = 1 ∧
      (∀ r ∈ fp.rooms, ∀ d, r.dimensions = some d →
        JSNum.le fp.bounds.minX d.x = true ∧
        JSNum.le (d.x.add d.width)
          (maximumOf ((cornerPoints fp.rooms fp.walls).map (fun p => p.x))) = true ∧
        JSNum.le fp.bounds.minY d.y = true ∧
        JSNum.le (d.y.add d.height)
          (maximumOf ((cornerPoints fp.rooms fp.walls).map (fun p => p.y))) = true) ∧
      ((fp.rooms ≠ [] ∨ fp.walls ≠ []) →
        fp.bounds.width = JSNum.max
          ((maximumOf ((cornerPoints fp.rooms fp.walls).map (fun p => p.x))).sub fp.bounds.minX)
          (.fin 10) ∧
        fp.bounds.height = JSNum.max
          ((maximumOf ((cornerPoints fp.rooms fp.walls).map (fun p => p.y))).sub fp.bounds.minY)
          (.fin 10)) :=
  ⟨_, rfl, rfl, (bounds_contain_model payloadMalformedRooms _ rfl).1,
    (bounds_contain_model payloadMalformedRooms _ rfl).2.2.1⟩

/-- C12: the bounds of every normalized model equal the reference definition:
the default `{minX: 0, minY: 0, width: 100, height: 100}` when the model has no
room and no wall, otherwise the componentwise minima over all room corners and
wall endpoints for `minX` and `minY`, and `max(maxX - minX, 10)`,
`max(maxY - minY, 10)` for `width` and `height`. -/
theorem bounds_eq_reference (apiResponse : JSVal) (fp : FloorPlan)
    (h : processFloorPlanData apiResponse = .ok (some fp)) :
    fp.bounds = referenceBounds fp.rooms fp.walls := by
  obtain ⟨_, _, _, _, _, _, hb⟩ := processFloorPlanData_some_inv apiResponse fp h
  rw [hb]
  exact calculateOptimalBounds_eq_reference (model_rooms_wellFormed h) (model_walls_wellFormed h)

/-- C12 at the payload with the single room named "Kitchen" of dimensions
`(0, 0, 10, 10)` and no wall: the model has exactly one room, named "Kitchen",
and the bounds `{minX: 0, minY: 0, width: 10, height: 10}`. -/
theorem bounds_eq_reference_witness :
    ∃ fp : FloorPlan, processFloorPlanData payloadKitchen = .ok (some fp) ∧
      fp.rooms.map (fun r => r.name) = [.str "Kitchen"] ∧
      fp.bounds = { minX := .fin 0, minY := .fin 0, width := .fin 10, height := .fin 10 } ∧
      fp.bounds = referenceBounds fp.rooms fp.walls :=
  ⟨_, rfl, rfl, by decide!, bounds_eq_reference payloadKitchen _ rfl⟩

/-- C13: a raw room with valid dimensions is processed, at any index `i`, into
a room with those dimensions whose colour is entry `i mod 10` of the palette
when the raw room has no (truthy) colour, and the colour of the raw room when
it has one; in every normalized model built from a payload that holds the raw
room at index `i` of its `rooms`, that room is among the rooms; the palette has
10 entries, the first being `#f8f9fa`. -/
theorem room_color_default_or_kept (room : JSVal) (d : Dimensions)
    (hd : rawRoomDimensions room = some d) :
    (∀ i : Nat, ∃ r, processRoom room i = .ok r ∧ r.dimensions = some d ∧
      ((room.optChain "color").truthy = false →
        ∃ c, roomColors.get? (i % 10) = some c ∧ r.color = .str c) ∧
      ((room.optChain "color").truthy = true → r.color = room.optChain "color")) ∧
    (∀ (apiResponse : JSVal) (fp : FloorPlan) (i : Nat),
      processFloorPlanData apiResponse = .ok (some fp) →
      (sectionEntries apiResponse "rooms").get? i = some room →
      ∃ r ∈ fp.rooms, processRoom room i = .ok r) ∧
    roomColors.length = 10 ∧ roomColors.get? 0 = some "#f8f9fa" := by
  refine ⟨?_, ?_, rfl, rfl⟩
  · intro i
    obtain ⟨r, hr, hdim, hcol⟩ := processRoom_of_valid hd i
    refine ⟨r, hr, hdim, ?_, ?_⟩
    · intro hf
      obtain ⟨c, hc, hdef⟩ := getDefaultRoomColor_palette i
      refine ⟨c, hc, ?_⟩
      rw [hcol, ← hdef]
      simp [JSVal.or, hf]
    · intro ht
      rw [hcol]
      simp [JSVal.or, ht]
  · intro a fp i hfp hget
    obtain ⟨_, hrooms, _⟩ := processFloorPlanData_some_inv a fp hfp
    obtain ⟨mapped, hm, hout⟩ := processRooms_inv hrooms
    obtain ⟨y, hy, hj⟩ := mapIdxFrom_ok_get processRoom _ 0 mapped hm i room hget
    obtain ⟨r, hr, hdim, _⟩ := processRoom_of_valid hd (0 + i)
    have hyr : r = y := by
      rw [hr] at hj
      exact Except.ok.inj hj
    subst hyr
    refine ⟨r, ?_, by simpa using hr⟩
    rw [hout]
    refine List.mem_filter.2 ⟨List.mem_iff_get?.2 ⟨i, hy⟩, ?_⟩
    simp [hdim]

/-- C13 at the room `{name: "Kitchen", dimensions: {x: 0, y: 0, width: 10,
height: 10}}` at index 0: its colour is `#f8f9fa`. -/
theorem room_color_default_or_kept_witness :
    ∃ fp : FloorPlan, processFloorPlanData payloadKitchen = .ok (some fp) ∧
      fp.rooms.map (fun r => r.color) = [.str "#f8f9fa"] ∧
      ∃ r ∈ fp.rooms, processRoom rawKitchenRoom 0 = .ok r :=
  ⟨_, rfl, rfl,
    (room_color_default_or_kept rawKitchenRoom
      { x := .fin 0, y := .fin 0, width := .fin 10, height := .fin 10 } rfl).2.1
      payloadKitchen _ 0 rfl rfl⟩

/-- C14: whenever `validateFloorPlan` returns, `valid` is true exactly when
`errors` is empty, and exactly when `rooms` and `walls` are both arrays and at
least one of them is non-empty; for a model whose `rooms` and `walls` are both
empty arrays it returns `valid = false` with a non-empty `errors`,
`hasRooms = false` and `hasWalls = false`; and it returns on every value in
which no object has an own property named `toString`. -/
theorem validateFloorPlan_valid_iff (floorPlan : JSVal) :
    (∀ r, validateFloorPlan floorPlan = .ok r →
      (r.valid = true ↔ r.errors = []) ∧
      (r.valid = true ↔ ∃ rs ws, floorPlan.optChain "rooms" = .arr rs ∧
        floorPlan.optChain "walls" = .arr ws ∧ (rs ≠ [] ∨ ws ≠ []))) ∧
    (floorPlan.optChain "rooms" = .arr [] → floorPlan.optChain "walls" = .arr [] →
      ∃ r, validateFloorPlan floorPlan = .ok r ∧ r.valid = false ∧ r.errors ≠ [] ∧
        r.hasRooms = .bool false ∧ r.hasWalls = .bool false) ∧
    (floorPlan.hasOwnToString = false → ∃ r, validateFloorPlan floorPlan = .ok r) := by
  refine ⟨?_, ?_, ?_⟩
  · intro r hr
    by_cases hobj : (!floorPlan.truthy || !floorPlan.typeofObject) = true
    · simp only [validateFloorPlan, hobj, if_true, pure, Except.pure, Except.ok.injEq] at hr
      subst hr
      refine ⟨by simp, ?_⟩
      constructor
      · intro h; cases h
      · rintro ⟨rs, ws, h1, _, _⟩
        rw [object_of_optChain_arr h1] at hobj
        cases hobj
    · have hobj' : (!floorPlan.truthy || !floorPlan.typeofObject) = false := by
        simpa using hobj
      obtain ⟨hR, hW, hv, he⟩ := validateFloorPlan_of_object hobj' hr
      have hve : r.valid = true ↔ r.errors = [] := by
        rw [hv]
        simp
      refine ⟨hve, ?_⟩
      rw [hve, he]
      constructor
      · rintro ⟨h1, h2, h3⟩
        obtain ⟨rs, hrs⟩ := Option.isSome_iff_exists.1 h1
        obtain ⟨ws, hws⟩ := Option.isSome_iff_exists.1 h2
        have hrs' : floorPlan.optChain "rooms" = .arr rs := by
          cases hx : floorPlan.optChain "rooms" <;> simp_all [JSVal.asArray]
        have hws' : floorPlan.optChain "walls" = .arr ws := by
          cases hx : floorPlan.optChain "walls" <;> simp_all [JSVal.asArray]
        rw [hrs', andLengthPositive_arr] at hR
        rw [hws', andLengthPositive_arr] at hW
        have e1 := Except.ok.inj hR
        have e2 := Except.ok.inj hW
        refine ⟨rs, ws, hrs', hws', ?_⟩
        rw [← e1, ← e2] at h3
        simp only [JSVal.truthy, Bool.not_eq_true', List.isEmpty_eq_false] at h3
        exact h3
      · rintro ⟨rs, ws, hrs', hws', h3⟩
        rw [hrs', andLengthPositive_arr] at hR
        rw [hws', andLengthPositive_arr] at hW
        have e1 := Except.ok.inj hR
        have e2 := Except.ok.inj hW
        refine ⟨by rw [hrs']; rfl, by rw [hws']; rfl, ?_⟩
        rw [← e1, ← e2]
        simp only [JSVal.truthy, Bool.not_eq_true', List.isEmpty_eq_false]
        exact h3
  · intro h1 h2
    have hobj := object_of_optChain_arr h1
    have ht : floorPlan.truthy = true := by
      cases hf : floorPlan.truthy <;> simp_all
    simp only [validateFloorPlan, hobj, Bool.false_eq_true, if_false, getProp_of_truthy _ _ ht,
      bind, Except.bind, h1, h2, andLengthPositive_arr, pure, Except.pure]
    exact ⟨_, rfl, rfl, by simp [JSVal.asArray, JSVal.truthy], rfl, rfl⟩
  · intro hp
    by_cases hobj : (!floorPlan.truthy || !floorPlan.typeofObject) = true
    · simp only [validateFloorPlan, hobj, if_true, pure, Except.pure]
      exact ⟨_, rfl⟩
    · have hobj' : (!floorPlan.truthy || !floorPlan.typeofObject) = false := by
        simpa using hobj
      have ht : floorPlan.truthy = true := by
        cases hf : floorPlan.truthy <;> simp_all
      obtain ⟨a, ha⟩ := andLengthPositive_of_plain _ (hasOwnToString_optChain floorPlan "rooms" hp)
      obtain ⟨b, hb⟩ := andLengthPositive_of_plain _ (hasOwnToString_optChain floorPlan "walls" hp)
      simp only [validateFloorPlan, hobj', Bool.false_eq_true, if_false,
        getProp_of_truthy _ _ ht, bind, Except.bind, ha, hb, pure, Except.pure]
      exact ⟨_, rfl⟩


/-- C14 at the model `{rooms: [], walls: []}`: `validateFloorPlan` returns
`valid = false` with the one error "Floor plan has no rooms or walls to display",
`hasRooms = false` and `hasWalls = false`. -/
theorem validateFloorPlan_valid_iff_witness :
    validateFloorPlan rawEmptyModel =
        .ok { valid := false, errors := ["Floor plan has no rooms or walls to display"],
              hasRooms := .bool false, hasWalls := .bool false } ∧
      ∃ r, validateFloorPlan rawEmptyModel = .ok r ∧ r.valid = false ∧ r.errors ≠ [] ∧
        r.hasRooms = .bool false ∧ r.hasWalls = .bool false :=
  ⟨rfl, (validateFloorPlan_valid_iff rawEmptyModel).2.1 rfl rfl⟩

set_option maxRecDepth 10000 in
/-- C15 (the claim fails): for the room `(0, 0, 20.1, 10)` on a surface of 800 by
600 the scale is `min(700 / 20.1, 500 / 10) = 34.82587064676617` in double
precision; `bounds.width * s` is 700.0000000000001, above `W - 100 = 700`, as
the product of the two doubles also is before it is rounded, and
`bounds.height * s` is below 500: the box does not fit, and no axis is met with
equality. -/
theorem render_scale_overshoots :
    ∃ (fp : FloorPlan) (bw s : ℚ), processFloorPlanData payloadWideRoom = .ok (some fp) ∧
      fp.bounds = { minX := .fin 0, minY := .fin 0, width := .fin bw, height := .fin 10 } ∧
      bw = 2828823515942093 / 140737488355328 ∧
      renderScale fp.bounds { width := 800, height := 600 } = .fin s ∧
      s = 4901305564613413 / 140737488355328 ∧
      (JSNum.fin bw).mul (.fin s) = .fin (6157265115545601 / 8796093022208) ∧
      (700 : ℚ) < 6157265115545601 / 8796093022208 ∧
      700 < bw * s ∧ 10 * s < 500 :=
  ⟨_, 2828823515942093 / 140737488355328, 4901305564613413 / 140737488355328,
    by with_unfolding_all rfl, by with_unfolding_all rfl, rfl,
    by with_unfolding_all rfl, rfl, by decide!, by norm_num, by norm_num, by norm_num⟩

/-- C15 (amended): for bounds with `width > 0` and `height > 0` and a surface
with `W > 100` and `H > 100`, the scale of the renderer is
`s = min((W - 100) / bounds.width, (H - 100) / bounds.height)` with the
differences and the quotients rounded to double precision; it is positive, and
the render pass applies it to both axes with the one call `scale(s, s)`.  Where
no operation rounds (the two differences and the two quotients are doubles) the
scaled bounding box fits the padded surface, `bounds.width * s <= W - 100` and
`bounds.height * s <= H - 100`, with equality on at least one axis. -/
theorem render_scale_fits (bounds : Bounds) (canvas : Size) (bw bh : ℚ)
    (hw : bounds.width = .fin bw) (hh : bounds.height = .fin bh)
    (hbw : 0 < bw) (hbh : 0 < bh)
    (hW : 100 < canvas.width) (hH : 100 < canvas.height) :
    renderScale bounds canvas =
      JSNum.min (((JSNum.fin canvas.width).sub (.fin 100)).div (.fin bw))
        (((JSNum.fin canvas.height).sub (.fin 100)).div (.fin bh)) ∧
    (JSNum.fin 0).lt (renderScale bounds canvas) = true ∧
    (scaleExact canvas bw bh = true →
      ∃ s : ℚ, renderScale bounds canvas = .fin s ∧
        s = min (((canvas.width : ℚ) - 100) / bw) (((canvas.height : ℚ) - 100) / bh) ∧
        0 < s ∧ bw * s ≤ (canvas.width : ℚ) - 100 ∧ bh * s ≤ (canvas.height : ℚ) - 100 ∧
        (bw * s = (canvas.width : ℚ) - 100 ∨ bh * s = (canvas.height : ℚ) - 100)) ∧
    ∀ (m : MathFns) (fp : FloorPlan) (cv : Size), fp.bounds = bounds →
      (renderEffect m (some fp) (some cv) canvas).calls.get? 5 =
        some (.scale (renderScale bounds canvas) (renderScale bounds canvas)) := by
  have hW' : (0 : ℚ) < (canvas.width : ℚ) - 100 := by
    have : (100 : ℚ) < (canvas.width : ℚ) := by exact_mod_cast hW
    linarith
  have hH' : (0 : ℚ) < (canvas.height : ℚ) - 100 := by
    have : (100 : ℚ) < (canvas.height : ℚ) := by exact_mod_cast hH
    linarith
  refine ⟨by rw [renderScale_eq, hw, hh],
    renderScale_pos bounds canvas bw bh hw hh hbw hbh hW hH, ?_, ?_⟩
  · intro he
    have hs := renderScale_exact bounds canvas bw bh hw hh (ne_of_gt hbw) (ne_of_gt hbh) he
    have hA : bw * (((canvas.width : ℚ) - 100) / bw) = (canvas.width : ℚ) - 100 := by
      field_simp
    have hB : bh * (((canvas.height : ℚ) - 100) / bh) = (canvas.height : ℚ) - 100 := by
      field_simp
    refine ⟨_, hs, rfl, lt_min (div_pos hW' hbw) (div_pos hH' hbh), ?_, ?_, ?_⟩
    · calc bw * min (((canvas.width : ℚ) - 100) / bw) (((canvas.height : ℚ) - 100) / bh)
          ≤ bw * (((canvas.width : ℚ) - 100) / bw) :=
            mul_le_mul_of_nonneg_left (min_le_left _ _) (le_of_lt hbw)
        _ = (canvas.width : ℚ) - 100 := hA
    · calc bh * min (((canvas.width : ℚ) - 100) / bw) (((canvas.height : ℚ) - 100) / bh)
          ≤ bh * (((canvas.height : ℚ) - 100) / bh) :=
            mul_le_mul_of_nonneg_left (min_le_right _ _) (le_of_lt hbh)
        _ = (canvas.height : ℚ) - 100 := hB
    · rcases min_choice (((canvas.width : ℚ) - 100) / bw) (((canvas.height : ℚ) - 100) / bh)
        with h | h
      · left; rw [h]; exact hA
      · right; rw [h]; exact hB
  · intro m fp cv hb
    subst hb
    obtain ⟨rest, hrest⟩ := renderEffect_prelude m fp cv canvas
    rw [hrest]
    rfl

set_option maxRecDepth 10000 in
/-- The amended C15 at the model of the payload with the room "Kitchen" of
`(0, 0, 10, 10)` on a surface of 800 by 600: the scale is `min(70, 50) = 50`,
no operation rounds, and the height is met with equality. -/
theorem render_scale_fits_witness :
    ∃ fp : FloorPlan, processFloorPlanData payloadKitchen = .ok (some fp) ∧
      renderScale fp.bounds { width := 800, height := 600 } = .fin 50 ∧
      (JSNum.fin 0).lt (renderScale fp.bounds { width := 800, height := 600 }) = true ∧
      (∃ s : ℚ, renderScale fp.bounds { width := 800, height := 600 } = .fin s ∧
        s = min ((((800 : ℕ) : ℚ) - 100) / 10) ((((600 : ℕ) : ℚ) - 100) / 10) ∧
        0 < s ∧ 10 * s ≤ ((800 : ℕ) : ℚ) - 100 ∧ 10 * s ≤ ((600 : ℕ) : ℚ) - 100 ∧
        (10 * s = ((800 : ℕ) : ℚ) - 100 ∨ 10 * s = ((600 : ℕ) : ℚ) - 100)) ∧
      (renderEffect mathSample (some fp) (some { width := 300, height := 150 })
        { width := 800, height := 600 }).calls.get? 5 = some (.scale (.fin 50) (.fin 50)) := by
  refine ⟨_, rfl, by with_unfolding_all rfl, ?_, ?_, by with_unfolding_all rfl⟩
  · exact (render_scale_fits _ { width := 800, height := 600 } 10 10
      (by with_unfolding_all rfl) (by with_unfolding_all rfl) (by norm_num) (by norm_num)
      (by decide) (by decide)).2.1
  · exact (render_scale_fits _ { width := 800, height := 600 } 10 10
      (by with_unfolding_all rfl) (by with_unfolding_all rfl) (by norm_num) (by norm_num)
      (by decide) (by decide)).2.2.1 (by decide!)

set_option maxRecDepth 10000 in
/-- C16 as stated fails: for the model of the payload with the single room
`(0.1, 0, 17.6, 10)` on a surface of 800 by 600 the scale is
39.772727272727266 and the offset 46.02272727272733; the left margin
`offsetX + s * minX` and the right margin `W - (offsetX + s * (minX + width))`
computed in doubles are 50.00000000000006 and 49.999999999999886, and the
margins in exact arithmetic differ from each other and from
`(W - width * s) / 2` too. -/
theorem render_offset_off_centre :
    ∃ (fp : FloorPlan) (minX bw s ox : ℚ),
      processFloorPlanData payloadOffsetRoom = .ok (some fp) ∧
      fp.bounds = { minX := .fin minX, minY := .fin 0, width := .fin bw, height := .fin 10 } ∧
      renderScale fp.bounds { width := 800, height := 600 } = .fin s ∧
      renderOffsetX fp.bounds { width := 800, height := 600 } (.fin s) = .fin ox ∧
      (JSNum.fin ox).add ((JSNum.fin s).mul (.fin minX)) =
        .fin (879609302220801 / 17592186044416) ∧
      (JSNum.fin 800).sub ((JSNum.fin ox).add ((JSNum.fin s).mul
        ((JSNum.fin minX).add (.fin bw)))) = .fin (439804651110399 / 8796093022208) ∧
      ox + s * minX ≠ 800 - (ox + s * (minX + bw)) ∧
      ox + s * minX ≠ (800 - bw * s) / 2 ∧
      800 - (ox + s * (minX + bw)) ≠ (800 - bw * s) / 2 :=
  ⟨_, 3602879701896397 / 36028797018963968, 2476979795053773 / 140737488355328,
    2798756870702545 / 70368744177664, 6477123043625899 / 140737488355328,
    by with_unfolding_all rfl, by with_unfolding_all rfl, by with_unfolding_all rfl,
    by with_unfolding_all rfl, by decide!, by decide!, by norm_num, by norm_num, by norm_num⟩

/-- C16 (amended): the offset of the renderer is
`(W - width * s) / 2 - minX * s` computed in doubles, and the same for `y`.
For finite bounds, a surface size and a finite scale `s` for which no operation
of this computation rounds, the offset centres the scaled bounding box: under
`p -> offset + s * p` the left margin `offsetX + s * minX` and the right margin
`W - (offsetX + s * (minX + width))` are both `(W - width * s) / 2`, the top and
bottom margins are both `(H - height * s) / 2`, and the centre of the bounds maps
to `(W / 2, H / 2)`. -/
theorem render_offset_centres (canvas : Size) (minX minY bw bh s : ℚ)
    (hx : offsetExact canvas.width minX bw s = true)
    (hy : offsetExact canvas.height minY bh s = true) :
    ∃ ox oy : ℚ,
      renderOffsetX { minX := .fin minX, minY := .fin minY, width := .fin bw, height := .fin bh }
        canvas (.fin s) = .fin ox ∧
      renderOffsetY { minX := .fin minX, minY := .fin minY, width := .fin bw, height := .fin bh }
        canvas (.fin s) = .fin oy ∧
      ox + s * minX = ((canvas.width : ℚ) - bw * s) / 2 ∧
      (canvas.width : ℚ) - (ox + s * (minX + bw)) = ((canvas.width : ℚ) - bw * s) / 2 ∧
      oy + s * minY = ((canvas.height : ℚ) - bh * s) / 2 ∧
      (canvas.height : ℚ) - (oy + s * (minY + bh)) = ((canvas.height : ℚ) - bh * s) / 2 ∧
      ox + s * (minX + bw / 2) = (canvas.width : ℚ) / 2 ∧
      oy + s * (minY + bh / 2) = (canvas.height : ℚ) / 2 := by
  refine ⟨((canvas.width : ℚ) - bw * s) / 2 - minX * s,
    ((canvas.height : ℚ) - bh * s) / 2 - minY * s, ?_, ?_, ?_, ?_, ?_, ?_, ?_, ?_⟩
  · exact offset_exact hx
  · exact offset_exact hy
  all_goals ring

/-- The amended C16 at the bounds `{2, 1, 10, 10}` with the scale 50 on a surface
of 800 by 600: the offset is `(50, 0)`, the margins are 150 left and right and
50 above and below. -/
theorem render_offset_centres_witness :
    offsetExact ((800 : ℕ) : ℚ) 2 10 50 = true ∧ offsetExact ((600 : ℕ) : ℚ) 1 10 50 = true ∧
    ∃ ox oy : ℚ,
      renderOffsetX { minX := .fin 2, minY := .fin 1, width := .fin 10, height := .fin 10 }
        { width := 800, height := 600 } (.fin 50) = .fin ox ∧
      renderOffsetY { minX := .fin 2, minY := .fin 1, width := .fin 10, height := .fin 10 }
        { width := 800, height := 600 } (.fin 50) = .fin oy ∧
      ox + 50 * 2 = (((800 : ℕ) : ℚ) - 10 * 50) / 2 ∧
      ((800 : ℕ) : ℚ) - (ox + 50 * (2 + 10)) = (((800 : ℕ) : ℚ) - 10 * 50) / 2 ∧
      oy + 50 * 1 = (((600 : ℕ) : ℚ) - 10 * 50) / 2 ∧
      ((600 : ℕ) : ℚ) - (oy + 50 * (1 + 10)) = (((600 : ℕ) : ℚ) - 10 * 50) / 2 ∧
      ox + 50 * (2 + 10 / 2) = ((800 : ℕ) : ℚ) / 2 ∧
      oy + 50 * (1 + 10 / 2) = ((600 : ℕ) : ℚ) / 2 :=
  ⟨by decide!, by decide!,
    render_offset_centres { width := 800, height := 600 } 2 1 10 10 50 (by decide!) (by decide!)⟩

/-- C17: whenever the computed scale is not finite or is `<= 0`, and so for
every model whose bounds are `{0, 0, 0, 0}` on a surface of any size, the render
pass returns after the diagnostic branch: after the prelude (clear, resize,
save, translate, scale) it issues `restore`, the text settings and the two
`fillText` calls of the diagnostic at the centre of the surface, and no call of
a scene stage. -/
theorem render_invalid_scale_diagnostic (m : MathFns) (fp : FloorPlan) (cv dims : Size) :
    (((renderScale fp.bounds dims).isFinite = false ∨
        (renderScale fp.bounds dims).le (.fin 0) = true) →
      (renderEffect m (some fp) (some cv) dims).outcome = .returned ∧
      (renderEffect m (some fp) (some cv) dims).calls =
        [.clearRect (.fin 0) (.fin 0) (.fin cv.width) (.fin cv.height),
         .setWidth dims.width, .setHeight dims.height, .save,
         .translate (renderOffsetX fp.bounds dims (renderScale fp.bounds dims))
           (renderOffsetY fp.bounds dims (renderScale fp.bounds dims)),
         .scale (renderScale fp.bounds dims) (renderScale fp.bounds dims),
         .restore, .fillStyle (.str "#666"), .font (.fin 16), .textAlign "center",
         .fillText (.value (.str "Error rendering floor plan"))
           ((JSNum.fin dims.width).div (.fin 2)) ((JSNum.fin dims.height).div (.fin 2)),
         .fillText (.errorMessage (.invalidScale (renderScale fp.bounds dims)))
           ((JSNum.fin dims.width).div (.fin 2))
           (((JSNum.fin dims.height).div (.fin 2)).add (.fin 20))]) ∧
    (fp.bounds = { minX := .fin 0, minY := .fin 0, width := .fin 0, height := .fin 0 } →
      (renderScale fp.bounds dims).isFinite = false) := by
  constructor
  · intro h
    have ht := @renderTry_invalid m fp _ h
    have ho : (renderTry m fp (renderScale fp.bounds dims)).outcome =
        .threw (.invalidScale (renderScale fp.bounds dims)) := by rw [ht]; rfl
    rw [renderEffect_threw ho, ht]
    exact ⟨rfl, rfl⟩
  · intro hb
    rw [hb]
    exact renderScale_zero_bounds dims

set_option maxRecDepth 10000 in
/-- C17 at a model with one room whose bounds are forced to `{0, 0, 0, 0}`, on a
surface of 800 by 600: the pass issues the prelude and the diagnostic, and
nothing for the room. -/
theorem render_invalid_scale_diagnostic_witness :
    (renderEffect mathSample (some modelZeroBounds) (some { width := 300, height := 150 })
      { width := 800, height := 600 }).outcome = .returned ∧
    (renderEffect mathSample (some modelZeroBounds) (some { width := 300, height := 150 })
      { width := 800, height := 600 }).calls =
      [.clearRect (.fin 0) (.fin 0) (.fin 300) (.fin 150), .setWidth 800, .setHeight 600,
       .save, .translate .nan .nan, .scale .posInf .posInf,
       .restore, .fillStyle (.str "#666"), .font (.fin 16), .textAlign "center",
       .fillText (.value (.str "Error rendering floor plan")) (.fin 400) (.fin 300),
       .fillText (.errorMessage (.invalidScale .posInf)) (.fin 400) (.fin 320)] := by
  have h := (render_invalid_scale_diagnostic mathSample modelZeroBounds
    { width := 300, height := 150 } { width := 800, height := 600 }).1
    (Or.inl (by with_unfolding_all rfl))
  refine ⟨h.1, ?_⟩
  rw [h.2]
  with_unfolding_all rfl

set_option maxRecDepth 10000 in
/-- C18 (the claim fails): with a first room that is drawn and a second room
whose name is the number 101 (on which `toLowerCase` throws), the render pass
ends with the diagnostic drawn, but the fill and the border of the first room
were issued before the throw and nothing clears the surface after them: a
partial scene remains under the message. -/
theorem render_partial_scene_remains :
    ∃ fp : FloorPlan, processFloorPlanData payloadNumericName = .ok (some fp) ∧
      (renderEffect mathSample (some fp) (some { width := 300, height := 150 })
        { width := 800, height := 600 }).calls =
      [.clearRect (.fin 0) (.fin 0) (.fin 300) (.fin 150), .setWidth 800, .setHeight 600,
       .save, .translate (.fin 50) (.fin 125), .scale (.fin 35) (.fin 35),
       .fillStyle (.str "#fff3e0"), .fillRect (.fin 0) (.fin 0) (.fin 10) (.fin 10),
       .strokeStyle "#888888", .lineWidth (.fin (3 / 10)),
       .strokeRect (.fin 0) (.fin 0) (.fin 10) (.fin 10),
       .restore, .fillStyle (.str "#666"), .font (.fin 16), .textAlign "center",
       .fillText (.value (.str "Error rendering floor plan")) (.fin 400) (.fin 300),
       .fillText (.errorMessage .typeError) (.fin 400) (.fin 320)] :=
  ⟨_, rfl, by with_unfolding_all rfl⟩

set_option maxRecDepth 10000 in
/-- C18 (amended): a render pass never lets an error reach its caller, but it
does not always return: it never ends exactly when the scale is valid and a
stage never ends, as the plant loop of a garden room does when adding the step
does not increase the loop variable, which happens for the normalized model of
a payload with one garden room `(1e17, 0, 10, 10)`.  When the pass returns it
ended in one of two ways: the scale was valid, all seven stages returned and the
complete scene is followed by `restore`; or the scale check or a stage threw,
and the calls issued before the throw are followed by `restore` and the
diagnostic message, no further call of the scene being issued.  In particular
when the drawing of a room throws after the rooms before it were drawn, the
calls of the pass are the prelude, the calls of those rooms, the calls the
failing room issued before it threw, and the diagnostic: the calls issued before
the throw are not undone. -/
theorem render_two_outcomes (m : MathFns) (fp : FloorPlan) (cv dims : Size) :
    (∀ e, (renderEffect m (some fp) (some cv) dims).outcome ≠ .threw e) ∧
    ((renderEffect m (some fp) (some cv) dims).outcome = .returned →
      (((renderScale fp.bounds dims).isFinite = true ∧
          (renderScale fp.bounds dims).le (.fin 0) = false ∧
          (renderStages m fp).outcome = .returned ∧
          (renderEffect m (some fp) (some cv) dims).calls =
            renderPrelude fp cv dims ++ (renderStages m fp).calls ++ [.restore]) ∨
        ∃ e, (renderTry m fp (renderScale fp.bounds dims)).outcome = .threw e ∧
          (renderEffect m (some fp) (some cv) dims).calls =
            renderPrelude fp cv dims ++ (renderTry m fp (renderScale fp.bounds dims)).calls ++
              [.restore, .fillStyle (.str "#666"), .font (.fin 16), .textAlign "center",
               .fillText (.value (.str "Error rendering floor plan"))
                 ((JSNum.fin dims.width).div (.fin 2)) ((JSNum.fin dims.height).div (.fin 2)),
               .fillText (.errorMessage e) ((JSNum.fin dims.width).div (.fin 2))
                 (((JSNum.fin dims.height).div (.fin 2)).add (.fin 20))])) ∧
    (∀ (pre post : List Room) (room : Room) (e : RenderError),
      fp.rooms = pre ++ room :: post →
      (∀ r ∈ pre, (drawRoom r).outcome = .returned) →
      (drawRoom room).outcome = .threw e →
      (renderScale fp.bounds dims).isFinite = true →
      (renderScale fp.bounds dims).le (.fin 0) = false →
      (renderEffect m (some fp) (some cv) dims).calls =
        renderPrelude fp cv dims ++
          (pre.flatMap (fun r => (drawRoom r).calls) ++ (drawRoom room).calls) ++
          renderDiagnostic e dims) ∧
    ((renderEffect m (some fp) (some cv) dims).outcome = .hangs ↔
      ((renderScale fp.bounds dims).isFinite = true ∧
        (renderScale fp.bounds dims).le (.fin 0) = false ∧
        (renderStages m fp).outcome = .hangs)) ∧
    (∃ far : FloorPlan, processFloorPlanData payloadFarGarden = .ok (some far) ∧
      (renderEffect m (some far) (some cv) { width := 800, height := 600 }).outcome = .hangs) := by
  refine ⟨?_, ?_, ?_, ?_, ?_⟩
  · intro e
    cases h : (renderTry m fp (renderScale fp.bounds dims)).outcome with
    | returned => rw [renderEffect_returned h]; simp
    | threw e' => rw [renderEffect_threw h]; simp
    | hangs => rw [renderEffect_hangs h]; simp
  · intro hret
    cases h : (renderTry m fp (renderScale fp.bounds dims)).outcome with
    | returned =>
      left
      by_cases hinv : (renderScale fp.bounds dims).isFinite = false ∨
          (renderScale fp.bounds dims).le (.fin 0) = true
      · rw [renderTry_invalid hinv] at h
        cases h
      · have hv := @renderTry_valid m fp _ hinv
        have h1 : (renderScale fp.bounds dims).isFinite = true := by
          cases hf : (renderScale fp.bounds dims).isFinite <;> simp_all
        have h2 : (renderScale fp.bounds dims).le (.fin 0) = false := by
          cases hf : (renderScale fp.bounds dims).le (.fin 0) <;> simp_all
        refine ⟨h1, h2, by rw [← hv]; exact h, ?_⟩
        rw [renderEffect_returned h, hv]
    | threw e =>
      right
      exact ⟨e, rfl, by rw [renderEffect_threw h]; rfl⟩
    | hangs =>
      rw [renderEffect_hangs h] at hret
      cases hret
  · intro pre post room e hrooms hpre hroom h1 h2
    have hv : renderTry m fp (renderScale fp.bounds dims) = renderStages m fp := by
      apply renderTry_valid
      simp [h1, h2]
    have hdr : drawRooms fp.rooms =
        { calls := pre.flatMap (fun r => (drawRoom r).calls) ++ (drawRoom room).calls,
          outcome := .threw e } := by
      rw [drawRooms, hrooms]
      exact forEach_threw drawRoom room post e hroom pre hpre
    have hst : renderStages m fp = drawRooms fp.rooms := by
      unfold renderStages
      exact seq_of_threw (by rw [hdr])
    have ho : (renderTry m fp (renderScale fp.bounds dims)).outcome = .threw e := by
      rw [hv, hst, hdr]
    rw [renderEffect_threw ho, hv, hst, hdr]
  · by_cases hinv : (renderScale fp.bounds dims).isFinite = false ∨
        (renderScale fp.bounds dims).le (.fin 0) = true
    · have hthrow : (renderTry m fp (renderScale fp.bounds dims)).outcome =
          .threw (.invalidScale (renderScale fp.bounds dims)) := by
        rw [renderTry_invalid hinv]
        rfl
      rw [renderEffect_threw hthrow]
      constructor
      · intro h
        cases h
      · rintro ⟨h1, h2, _⟩
        rcases hinv with h | h
        · rw [h1] at h
          cases h
        · rw [h2] at h
          cases h
    · have hv := @renderTry_valid m fp _ hinv
      have h1 : (renderScale fp.bounds dims).isFinite = true := by
        cases hf : (renderScale fp.bounds dims).isFinite <;> simp_all
      have h2 : (renderScale fp.bounds dims).le (.fin 0) = false := by
        cases hf : (renderScale fp.bounds dims).le (.fin 0) <;> simp_all
      cases h : (renderStages m fp).outcome with
      | returned =>
        rw [renderEffect_returned (by rw [hv]; exact h)]
        simp
      | threw e =>
        rw [renderEffect_threw (by rw [hv]; exact h)]
        simp
      | hangs =>
        rw [renderEffect_hangs (by rw [hv]; exact h)]
        simp [h1, h2]
  · refine ⟨_, by with_unfolding_all rfl, ?_⟩
    rw [renderEffect_hangs (by with_unfolding_all rfl)]

/-- The amended C18 at the model of the payload with a room named "Kitchen"
and a room whose name is the number 101: the first room is drawn, the second
throws, and the pass returns with the calls of the first room between the
prelude and the diagnostic; and at the payload of the garden room at `1e17` the
pass never ends. -/
theorem render_two_outcomes_witness :
    processFloorPlanData payloadNumericName = .ok (some modelNumericName) ∧
    (renderEffect mathSample (some modelNumericName) (some { width := 300, height := 150 })
      { width := 800, height := 600 }).calls =
      renderPrelude modelNumericName { width := 300, height := 150 }
          { width := 800, height := 600 } ++
        [.fillStyle (.str "#fff3e0"), .fillRect (.fin 0) (.fin 0) (.fin 10) (.fin 10),
         .strokeStyle "#888888", .lineWidth (.fin (3 / 10)),
         .strokeRect (.fin 0) (.fin 0) (.fin 10) (.fin 10)] ++
        renderDiagnostic .typeError { width := 800, height := 600 } ∧
    (∃ far : FloorPlan, processFloorPlanData payloadFarGarden = .ok (some far) ∧
      (renderEffect mathSample (some far) (some { width := 300, height := 150 })
        { width := 800, height := 600 }).outcome = .hangs) :=
  ⟨by with_unfolding_all rfl,
    (render_two_outcomes mathSample modelNumericName { width := 300, height := 150 }
      { width := 800, height := 600 }).2.2.1
      [{ id := .str "room_0", name := .str "Kitchen", type := .str "kitchen",
         dimensions := some { x := .fin 0, y := .fin 0, width := .fin 10, height := .fin 10 },
         color := .str "#f8f9fa", features := [] }] []
      { id := .str "room_1", name := .ofRat 101, type := .str "bedroom",
        dimensions := some { x := .fin 10, y := .fin 0, width := .fin 10, height := .fin 10 },
        color := .str "#e3f2fd", features := [] }
      .typeError rfl (by intro r hr; rw [List.mem_singleton.1 hr]; rfl) rfl
      (by with_unfolding_all rfl) (by with_unfolding_all rfl),
    (render_two_outcomes mathSample modelNumericName { width := 300, height := 150 }
      { width := 800, height := 600 }).2.2.2.2⟩

/-- C19 (the code at the failing input): three rooms of type "room" named
"Main Hallway", "Roof Terrace" and "Back Patio" are drawn with their own colour,
the thin solid gray border and no dashed border: the hallway flag and the
balcony flag are computed from the type alone (a room of type "Main Hallway" is
flagged), and the deck flag looks for "patio" in the type only. -/
theorem rooms_named_not_styled :
    ∃ fp : FloorPlan, processFloorPlanData payloadNamedRooms = .ok (some fp) ∧
      (drawRooms fp.rooms).outcome = .returned ∧
      (drawRooms fp.rooms).calls =
        [.fillStyle (.str "#f8f9fa"), .fillRect (.fin 0) (.fin 0) (.fin 10) (.fin 4),
         .strokeStyle "#888888", .lineWidth (.fin (3 / 10)),
         .strokeRect (.fin 0) (.fin 0) (.fin 10) (.fin 4),
         .fillStyle (.str "#e3f2fd"), .fillRect (.fin 0) (.fin 4) (.fin 10) (.fin 6),
         .strokeStyle "#888888", .lineWidth (.fin (3 / 10)),
         .strokeRect (.fin 0) (.fin 4) (.fin 10) (.fin 6),
         .fillStyle (.str "#f3e5f5"), .fillRect (.fin 10) (.fin 0) (.fin 5) (.fin 10),
         .strokeStyle "#888888", .lineWidth (.fin (3 / 10)),
         .strokeRect (.fin 10) (.fin 0) (.fin 5) (.fin 10)] ∧
      (roomFlags (toLowerCase "room") (toLowerCase "Main Hallway")).isHallway = false ∧
      (roomFlags (toLowerCase "Main Hallway") (toLowerCase "room")).isHallway = true ∧
      (roomFlags (toLowerCase "room") (toLowerCase "Roof Terrace")).isBalcony = false ∧
      (roomFlags (toLowerCase "room") (toLowerCase "Back Patio")).isDeck = false :=
  ⟨_, rfl, by with_unfolding_all rfl, by with_unfolding_all rfl, by decide, by decide,
    by decide, by decide⟩

set_option maxRecDepth 10000 in
/-- C20 (the code at the failing input): a room of type "terrace garden" is
filled with the balcony colour and bordered as a balcony, yet the garden overlay
and 16 plant dots are drawn on it; a room of type "balcony" named
"pool balcony" is filled with the balcony colour and bordered as a balcony, yet
the pool overlay and the three ripple arcs are drawn on it. -/
theorem room_pattern_of_other_category :
    ∃ fp : FloorPlan, processFloorPlanData payloadMixedRooms = .ok (some fp) ∧
      fp.rooms.map (fun r => (drawRoom r).outcome) = [.returned, .returned] ∧
      fp.rooms.map (fun r => (drawRoom r).calls.filterMap CanvasCall.fillStyleOf) =
        [[.str "#e8f5e8", .str "rgba(76, 175, 80, 0.2)", .str "#4CAF50"],
         [.str "#e8f5e8", .str "rgba(33, 150, 243, 0.2)"]] ∧
      fp.rooms.map (fun r => ((drawRoom r).calls.filter CanvasCall.isArc).length) = [16, 3] ∧
      fp.rooms.map (fun r => (drawRoom r).calls.drop
          ((drawRoom r).calls.length - 6)) =
        [[.strokeStyle "#4CAF50", .lineWidth (.fin (8 / 10)),
          .strokeRect (.fin 0) (.fin 0) (.fin 10) (.fin 10),
          .setLineDash [.fin 2, .fin 2], .strokeRect (.fin 0) (.fin 0) (.fin 10) (.fin 10),
          .setLineDash []],
         [.strokeStyle "#4CAF50", .lineWidth (.fin (8 / 10)),
          .strokeRect (.fin 20) (.fin 0) (.fin 10) (.fin 10),
          .setLineDash [.fin 2, .fin 2], .strokeRect (.fin 20) (.fin 0) (.fin 10) (.fin 10),
          .setLineDash []]] :=
  ⟨_, rfl, by with_unfolding_all rfl, by with_unfolding_all rfl, by with_unfolding_all rfl,
    by with_unfolding_all rfl⟩


/-- C21: a room with finite dimensions of positive width whose type contains
"pool" or "swimming" in any letter case, whose name is a string (or absent) and
for which the hallway, balcony and deck flags are false, is drawn by the pool
branch and the drawing returns: the fill of its rectangle in "#e3f2fd", the
translucent blue overlay of the same rectangle, three ripple arcs each stroked,
at `x + width * 0.25`, `x + width * 0.5` and `x + width * 0.75` with the radii
`width * 0.1 * 1`, `width * 0.1 * 1.3` and `width * 0.1 * 1.6` computed in
doubles, the solid border in "#2196F3" of width 1, the dashed second stroke of
the border and the reset of the dash. -/
theorem pool_room_drawn_as_pool (room : Room) (t : String) (roomName : List Char)
    (x y w h : ℚ)
    (hd : room.dimensions =
      some { x := .fin x, y := .fin y, width := .fin w, height := .fin h })
    (hw : 0 < w)
    (ht : room.type = .str t) (hn : lowerOrEmpty room.name = .ok roomName)
    (hpool : includes (toLowerCase t) "pool" = true ∨
      includes (toLowerCase t) "swimming" = true)
    (hhall : (roomFlags (toLowerCase t) roomName).isHallway = false)
    (hbal : (roomFlags (toLowerCase t) roomName).isBalcony = false)
    (hdeck : (roomFlags (toLowerCase t) roomName).isDeck = false) :
    drawRoom room = Draw.emit
      [.fillStyle (.str "#e3f2fd"), .fillRect (.fin x) (.fin y) (.fin w) (.fin h),
       .fillStyle (.str "rgba(33, 150, 243, 0.2)"),
       .fillRect (.fin x) (.fin y) (.fin w) (.fin h),
       .strokeStyle "#64B5F6", .lineWidth (.fin (2 / 10)),
       .beginPath,
       .arc ((JSNum.fin x).add ((JSNum.fin w).mul (.fin (1 / 4))))
         ((JSNum.fin y).add ((JSNum.fin h).mul (.fin (1 / 2))))
         (((JSNum.fin w).mul (roundDouble (1 / 10))).mul (.fin 1))
         (.fin 0) (mathPI.mul (.fin 2)),
       .stroke,
       .beginPath,
       .arc ((JSNum.fin x).add ((JSNum.fin w).mul (.fin (1 / 2))))
         ((JSNum.fin y).add ((JSNum.fin h).mul (.fin (1 / 2))))
         (((JSNum.fin w).mul (roundDouble (1 / 10))).mul (roundDouble (13 / 10)))
         (.fin 0) (mathPI.mul (.fin 2)),
       .stroke,
       .beginPath,
       .arc ((JSNum.fin x).add ((JSNum.fin w).mul (.fin (3 / 4))))
         ((JSNum.fin y).add ((JSNum.fin h).mul (.fin (1 / 2))))
         (((JSNum.fin w).mul (roundDouble (1 / 10))).mul (roundDouble (16 / 10)))
         (.fin 0) (mathPI.mul (.fin 2)),
       .stroke,
       .strokeStyle "#2196F3", .lineWidth (.fin 1),
       .strokeRect (.fin x) (.fin y) (.fin w) (.fin h),
       .setLineDash [.fin 2, .fin 2], .strokeRect (.fin x) (.fin y) (.fin w) (.fin h),
       .setLineDash []] := by
  have hp : (roomFlags (toLowerCase t) roomName).isPool = true := by
    simp only [roomFlags]
    rcases hpool with h | h <;> simp [h]
  have hty : lowerOrEmpty room.type = .ok (toLowerCase t) := by rw [ht]; rfl
  have hstyle : roomStyle (roomFlags (toLowerCase t) roomName) room.color =
      { roomColor := .str "#e3f2fd", strokeColor := "#2196F3", strokeWidth := .fin 1,
        isSpecialSpace := true } := by
    simp [roomStyle, hp, hhall, hbal, hdeck]
  obtain ⟨f0, f1, f2, g0, g1, g2⟩ := ripple_factors
  have h0 := drawRipple_calls x y w h hw 0
  have h1 := drawRipple_calls x y w h hw 1
  have h2 := drawRipple_calls x y w h hw 2
  rw [f0, g0] at h0
  rw [f1, g1] at h1
  rw [f2, g2] at h2
  have hpat : roomPattern (roomFlags (toLowerCase t) roomName) (.fin x) (.fin y) (.fin w)
      (.fin h) =
      (Draw.emit [.fillStyle (.str "rgba(33, 150, 243, 0.2)"),
        .fillRect (.fin x) (.fin y) (.fin w) (.fin h),
        .strokeStyle "#64B5F6", .lineWidth (.fin (2 / 10))]).seq
      (Draw.forEach [0, 1, 2] (drawRipple (.fin x) (.fin y) (.fin w) (.fin h))) := by
    unfold roomPattern
    rw [if_neg (by rw [hhall]; decide), if_pos hp]
  unfold drawRoom
  rw [hd]
  simp only [hty, hn]
  rw [hstyle, hpat, forEach_cons, forEach_cons, forEach_cons, forEach_nil, h0, h1, h2]
  rfl

/-- C21 at the room of type "Swimming Pool" named "Lap Pool" with dimensions
`(0, 0, 20, 10)`, as the normalizer returns it. -/
theorem pool_room_drawn_as_pool_witness :
    ∃ (fp : FloorPlan) (room : Room), processFloorPlanData payloadPool = .ok (some fp) ∧
      fp.rooms = [room] ∧
      drawRoom room = Draw.emit
        [.fillStyle (.str "#e3f2fd"), .fillRect (.fin 0) (.fin 0) (.fin 20) (.fin 10),
         .fillStyle (.str "rgba(33, 150, 243, 0.2)"),
         .fillRect (.fin 0) (.fin 0) (.fin 20) (.fin 10),
         .strokeStyle "#64B5F6", .lineWidth (.fin (2 / 10)),
         .beginPath,
         .arc ((JSNum.fin 0).add ((JSNum.fin 20).mul (.fin (1 / 4))))
           ((JSNum.fin 0).add ((JSNum.fin 10).mul (.fin (1 / 2))))
           (((JSNum.fin 20).mul (roundDouble (1 / 10))).mul (.fin 1))
           (.fin 0) (mathPI.mul (.fin 2)),
         .stroke,
         .beginPath,
         .arc ((JSNum.fin 0).add ((JSNum.fin 20).mul (.fin (1 / 2))))
           ((JSNum.fin 0).add ((JSNum.fin 10).mul (.fin (1 / 2))))
           (((JSNum.fin 20).mul (roundDouble (1 / 10))).mul (roundDouble (13 / 10)))
           (.fin 0) (mathPI.mul (.fin 2)),
         .stroke,
         .beginPath,
         .arc ((JSNum.fin 0).add ((JSNum.fin 20).mul (.fin (3 / 4))))
           ((JSNum.fin 0).add ((JSNum.fin 10).mul (.fin (1 / 2))))
           (((JSNum.fin 20).mul (roundDouble (1 / 10))).mul (roundDouble (16 / 10)))
           (.fin 0) (mathPI.mul (.fin 2)),
         .stroke,
         .strokeStyle "#2196F3", .lineWidth (.fin 1),
         .strokeRect (.fin 0) (.fin 0) (.fin 20) (.fin 10),
         .setLineDash [.fin 2, .fin 2], .strokeRect (.fin 0) (.fin 0) (.fin 20) (.fin 10),
         .setLineDash []] :=
  ⟨_, _, rfl, rfl,
    pool_room_drawn_as_pool _ "Swimming Pool" (toLowerCase "Lap Pool") 0 0 20 10 rfl
      (by norm_num) rfl rfl (Or.inl (by decide)) (by decide) (by decide) (by decide)⟩

/-- C22: on the scene path (the scale is valid and the seven stages return) the
calls of one render pass are the calls of the prelude, then all calls of
`drawRooms`, then all calls of `drawWalls`, of `drawHouseOutline`, of
`drawDoors`, of `drawWindows`, of `drawFurniture` and of `drawRoomLabels`, in
this order, then `restore`; and each stage returned. -/
theorem render_stage_order (m : MathFns) (fp : FloorPlan) (cv dims : Size)
    (hfin : (renderScale fp.bounds dims).isFinite = true)
    (hpos : (renderScale fp.bounds dims).le (.fin 0) = false)
    (hret : (renderStages m fp).outcome = .returned) :
    (renderEffect m (some fp) (some cv) dims).outcome = .returned ∧
    (renderEffect m (some fp) (some cv) dims).calls =
      renderPrelude fp cv dims ++ (drawRooms fp.rooms).calls ++ (drawWalls fp.walls).calls ++
        (drawHouseOutline fp.rooms).calls ++ (drawDoors m fp.doors).calls ++
        (drawWindows fp.windows).calls ++ (drawFurniture fp.furniture).calls ++
        (drawRoomLabels fp.rooms).calls ++ [.restore] ∧
    (drawRooms fp.rooms).outcome = .returned ∧ (drawWalls fp.walls).outcome = .returned ∧
    (drawHouseOutline fp.rooms).outcome = .returned ∧
    (drawDoors m fp.doors).outcome = .returned ∧
    (drawWindows fp.windows).outcome = .returned ∧
    (drawFurniture fp.furniture).outcome = .returned ∧
    (drawRoomLabels fp.rooms).outcome = .returned := by
  have hv : renderTry m fp (renderScale fp.bounds dims) = renderStages m fp :=
    renderTry_valid (by simp [hfin, hpos])
  have htry : (renderTry m fp (renderScale fp.bounds dims)).outcome = .returned := by
    rw [hv]; exact hret
  have heff := @renderEffect_returned m fp cv dims htry
  unfold renderStages at hret
  obtain ⟨h1, hret, c1⟩ := seq_returned_inv hret
  obtain ⟨h2, hret, c2⟩ := seq_returned_inv hret
  obtain ⟨h3, hret, c3⟩ := seq_returned_inv hret
  obtain ⟨h4, hret, c4⟩ := seq_returned_inv hret
  obtain ⟨h5, hret, c5⟩ := seq_returned_inv hret
  obtain ⟨h6, h7, c6⟩ := seq_returned_inv hret
  refine ⟨by rw [heff], ?_, h1, h2, h3, h4, h5, h6, h7⟩
  rw [heff, hv]
  simp only [renderStages]
  rw [c1, c2, c3, c4, c5, c6]
  simp only [List.append_assoc]

/-- C22 at the model of a payload with a room, a wall, a door, a window and a
furniture item, on a surface of 800 by 600. -/
theorem render_stage_order_witness :
    ∃ fp : FloorPlan, processFloorPlanData payloadFull = .ok (some fp) ∧
      (drawRooms fp.rooms).calls.length = 5 ∧ (drawWalls fp.walls).calls.length = 7 ∧
      (drawHouseOutline fp.rooms).calls.length = 5 ∧
      (drawDoors mathSample fp.doors).calls.length = 15 ∧
      (drawWindows fp.windows).calls.length = 14 ∧
      (drawFurniture fp.furniture).calls.length = 9 ∧
      (drawRoomLabels fp.rooms).calls.length = 9 ∧
      (renderEffect mathSample (some fp) (some { width := 300, height := 150 })
        { width := 800, height := 600 }).calls =
      renderPrelude fp { width := 300, height := 150 } { width := 800, height := 600 } ++
        (drawRooms fp.rooms).calls ++ (drawWalls fp.walls).calls ++
        (drawHouseOutline fp.rooms).calls ++ (drawDoors mathSample fp.doors).calls ++
        (drawWindows fp.windows).calls ++ (drawFurniture fp.furniture).calls ++
        (drawRoomLabels fp.rooms).calls ++ [.restore] :=
  ⟨_, rfl, by with_unfolding_all rfl, by with_unfolding_all rfl, by with_unfolding_all rfl,
    by with_unfolding_all rfl, by with_unfolding_all rfl, by with_unfolding_all rfl,
    by with_unfolding_all rfl,
    (render_stage_order mathSample _ { width := 300, height := 150 }
      { width := 800, height := 600 } (by with_unfolding_all rfl) (by with_unfolding_all rfl)
      (by with_unfolding_all rfl)).2.1⟩

/-- C23: for a room with finite dimensions, a non-empty name (a string) and a
type that is a string, the font size of the label is
`f = max(0.8, min(1.5, min(width, height) / 8))` with the quotient computed in
doubles: it lies in `[0.8, 1.5]` and is the computed `min(width, height) / 8`
whenever that value lies in `[0.8, 1.5]` (the exact quotient when that is a
double); the name is drawn at that size, centred at
`(x + width / 2, y + height / 2 - f / 2)`, and the type is drawn beneath it, at
`y + height / 2 + f / 2` and the size `f * 0.7`, exactly when it is non-empty and
differs from the lowercased name. -/
theorem label_font_size_clamped (room : Room) (n t : String) (x y w h : ℚ)
    (hd : room.dimensions =
      some { x := .fin x, y := .fin y, width := .fin w, height := .fin h })
    (hn : room.name = .str n) (hne : n ≠ "") (ht : room.type = .str t) :
    ∃ f : ℚ, labelFontSize (.fin w) (.fin h) = .fin f ∧
      8 / 10 ≤ f ∧ f ≤ 3 / 2 ∧
      (∀ g : ℚ, (JSNum.fin (min w h)).div (.fin 8) = .fin g → 8 / 10 ≤ g → g ≤ 3 / 2 →
        f = g) ∧
      (isDouble (min w h / 8) = true → 8 / 10 ≤ min w h / 8 → min w h / 8 ≤ 3 / 2 →
        f = min w h / 8) ∧
      drawRoomLabel room = Draw.emit
        ([.font (.fin f),
          .fillText (.value (.str n)) ((JSNum.fin x).add ((JSNum.fin w).div (.fin 2)))
            (((JSNum.fin y).add ((JSNum.fin h).div (.fin 2))).sub
              ((JSNum.fin f).div (.fin 2)))] ++
         if t ≠ "" ∧ t.toList ≠ toLowerCase n then
           [.font ((JSNum.fin f).mul (roundDouble (7 / 10))), .fillStyle (.str "#6b7280"),
            .fillText (.value (.str t)) ((JSNum.fin x).add ((JSNum.fin w).div (.fin 2)))
              (((JSNum.fin y).add ((JSNum.fin h).div (.fin 2))).add
                ((JSNum.fin f).div (.fin 2))),
            .fillStyle (.str "#374151")]
         else []) := by
  obtain ⟨f, hf, h1, h2, _, _, h5⟩ := labelFontSize_spec w h
  refine ⟨f, hf, h1, h2, h5, ?_, ?_⟩
  · intro he hlo hhi
    exact h5 _ (div_exact _ _ (by norm_num) (fun _ _ => he)) hlo hhi
  · unfold drawRoomLabel
    rw [hd]
    simp only [hn, ht, truthy_str hne, Bool.not_true, Bool.false_eq_true, if_false,
      hf, typeTagShown_str, fillTextOf, throwsOnConvert]
    by_cases hc : t ≠ "" ∧ t.toList ≠ toLowerCase n
    · rw [if_pos hc, decide_eq_true hc]
      rfl
    · rw [if_neg hc, decide_eq_false hc]
      rfl

set_option maxRecDepth 10000 in
/-- C23 at the rooms "Master Suite" (type "bedroom", 8 by 20), whose label has
the font size 1 and the type beneath it at 0.7, and "Kitchen" (type "kitchen",
10 by 10), whose type tag is not drawn. -/
theorem label_font_size_clamped_witness :
    ∃ (fp : FloorPlan) (a b : Room), processFloorPlanData payloadLabels = .ok (some fp) ∧
      fp.rooms = [a, b] ∧
      (∃ f : ℚ, labelFontSize (.fin 8) (.fin 20) = .fin f ∧
        8 / 10 ≤ f ∧ f ≤ 3 / 2 ∧
        (∀ g : ℚ, (JSNum.fin (min 8 20)).div (.fin 8) = .fin g → 8 / 10 ≤ g → g ≤ 3 / 2 →
          f = g) ∧
        (isDouble (min (8 : ℚ) 20 / 8) = true → 8 / 10 ≤ min (8 : ℚ) 20 / 8 →
          min (8 : ℚ) 20 / 8 ≤ 3 / 2 → f = min 8 20 / 8) ∧
        drawRoomLabel a = Draw.emit
          ([.font (.fin f),
            .fillText (.value (.str "Master Suite"))
              ((JSNum.fin 0).add ((JSNum.fin 8).div (.fin 2)))
              (((JSNum.fin 0).add ((JSNum.fin 20).div (.fin 2))).sub
                ((JSNum.fin f).div (.fin 2)))] ++
           if "bedroom" ≠ "" ∧ "bedroom".toList ≠ toLowerCase "Master Suite" then
             [.font ((JSNum.fin f).mul (roundDouble (7 / 10))), .fillStyle (.str "#6b7280"),
              .fillText (.value (.str "bedroom"))
                ((JSNum.fin 0).add ((JSNum.fin 8).div (.fin 2)))
                (((JSNum.fin 0).add ((JSNum.fin 20).div (.fin 2))).add
                  ((JSNum.fin f).div (.fin 2))),
              .fillStyle (.str "#374151")]
           else [])) ∧
      labelFontSize (.fin 8) (.fin 20) = .fin 1 ∧
      drawRoomLabel a = Draw.emit
        [.font (.fin 1), .fillText (.value (.str "Master Suite")) (.fin 4) (.fin (19 / 2)),
         .font (roundDouble (7 / 10)), .fillStyle (.str "#6b7280"),
         .fillText (.value (.str "bedroom")) (.fin 4) (.fin (21 / 2)),
         .fillStyle (.str "#374151")] ∧
      drawRoomLabel b = Draw.emit
        [.font (.fin (5 / 4)), .fillText (.value (.str "Kitchen")) (.fin 13) (.fin (35 / 8))] :=
  ⟨_, _, _, rfl, rfl,
    label_font_size_clamped _ "Master Suite" "bedroom" 0 0 8 20 rfl rfl (by decide) rfl,
    by with_unfolding_all rfl, by with_unfolding_all rfl, by with_unfolding_all rfl⟩

/-- C24: the guard of the view depends on the model alone.  A falsy model (no
model at all) gives the "no data" placeholder, and only a falsy model does; a
model whose `rooms` and `walls` are each an array or absent gives the
"incomplete data" placeholder when both are empty or absent and the canvas when
one of them has an element; so does every model the normalizer returns.  The
three views are distinct, and the guard yields exactly one of them. -/
theorem view_guard_cases (floorPlan : JSVal) :
    (floorPlan.truthy = false → viewGuard floorPlan = .ok .noData) ∧
    (∀ view, viewGuard floorPlan = .ok view →
      (view = .noData ↔ floorPlan.truthy = false)) ∧
    (floorPlan.truthy = true → ∀ rs ws : List JSVal,
      (floorPlan.optChain "rooms" = .arr rs ∨
        ((floorPlan.optChain "rooms").isNullish = true ∧ rs = [])) →
      (floorPlan.optChain "walls" = .arr ws ∨
        ((floorPlan.optChain "walls").isNullish = true ∧ ws = [])) →
      viewGuard floorPlan =
        .ok (if rs.isEmpty && ws.isEmpty then .incompleteData else .canvas)) ∧
    (∀ m : FloorPlan, viewGuard m.toJS =
      .ok (if m.rooms.isEmpty && m.walls.isEmpty then .incompleteData else .canvas)) ∧
    View.noData ≠ View.incompleteData ∧ View.noData ≠ View.canvas ∧
    View.incompleteData ≠ View.canvas := by
  have key : floorPlan.truthy = true → ∀ rs ws : List JSVal,
      (floorPlan.optChain "rooms" = .arr rs ∨
        ((floorPlan.optChain "rooms").isNullish = true ∧ rs = [])) →
      (floorPlan.optChain "walls" = .arr ws ∨
        ((floorPlan.optChain "walls").isNullish = true ∧ ws = [])) →
      viewGuard floorPlan =
        .ok (if rs.isEmpty && ws.isEmpty then .incompleteData else .canvas) := by
    intro ht rs ws hr hw
    rw [viewGuard_of_truthy ht (lengthPositive_entries hr) (lengthPositive_entries hw)]
    cases rs <;> cases ws <;> rfl
  refine ⟨?_, ?_, key, ?_, by decide, by decide, by decide⟩
  · intro hf
    simp [viewGuard, hf, pure, Except.pure]
  · intro view hv
    cases ht : floorPlan.truthy with
    | false =>
      simp [viewGuard, ht, pure, Except.pure] at hv
      simp [← hv]
    | true =>
      unfold viewGuard at hv
      simp only [ht, Bool.not_true, Bool.false_eq_true, if_false, bind, Except.bind] at hv
      cases h1 : floorPlan.getProp "rooms" with
      | error e => simp [h1] at hv
      | ok r =>
        simp only [h1] at hv
        cases h2 : r.optLength with
        | error e => simp [h2] at hv
        | ok l1 =>
          simp only [h2] at hv
          cases h3 : l1.greaterThanZero with
          | error e => simp [h3] at hv
          | ok a =>
            simp only [h3] at hv
            cases h4 : floorPlan.getProp "walls" with
            | error e => simp [h4] at hv
            | ok w =>
              simp only [h4] at hv
              cases h5 : w.optLength with
              | error e => simp [h5] at hv
              | ok l2 =>
                simp only [h5] at hv
                cases h6 : l2.greaterThanZero with
                | error e => simp [h6] at hv
                | ok b =>
                  simp only [h6] at hv
                  cases a <;> cases b <;> simp [pure, Except.pure] at hv <;> simp [← hv]
  · intro m
    have ht : m.toJS.truthy = true := rfl
    have := (show m.toJS.truthy = true → _ from fun h =>
      viewGuard_of_truthy h
        (@lengthPositive_entries _ (m.rooms.map Room.toJS) (Or.inl rfl))
        (@lengthPositive_entries _ (m.walls.map Wall.toJS) (Or.inl rfl))) ht
    rw [this]
    cases m.rooms <;> cases m.walls <;> rfl

/-- C24 at no model (`null`), at the model `{rooms: [], walls: []}` and at the
model the normalizer returns for the payload with the room "Kitchen". -/
theorem view_guard_cases_witness :
    viewGuard .null = .ok .noData ∧
    viewGuard rawEmptyModel = .ok .incompleteData ∧
    ∃ fp : FloorPlan, processFloorPlanData payloadKitchen = .ok (some fp) ∧
      viewGuard fp.toJS = .ok .canvas :=
  ⟨(view_guard_cases .null).1 rfl,
    (view_guard_cases rawEmptyModel).2.2.1 rfl [] [] (Or.inl rfl) (Or.inl rfl),
    _, rfl, (view_guard_cases .null).2.2.2.1 _⟩

/-- C25 (the code at the failing input): the colour of the furniture item is an
object on which the conversion to a string throws, so the assignment to
`fillStyle` throws after the `save`, `translate` and `rotate` of the item; the
`catch` block issues its one `restore`, which closes the bracket of the item,
and the message is drawn while the `save` of the pass is still pending: the pass
returns with one `save` unmatched (two `save` calls, one `restore`).  The same
happens for a model with a door of width -4 handed to the renderer directly,
where `arc` throws inside the bracket of the door.  On the scene path (the
`try` block returns) and on the diagnostic path of an invalid scale the trace
of every pass is balanced. -/
theorem render_leaves_save_pending :
    ∃ fp : FloorPlan, processFloorPlanData payloadOpaqueColor = .ok (some fp) ∧
      (renderEffect mathSample (some fp) (some { width := 300, height := 150 })
        { width := 800, height := 600 }).outcome = .returned ∧
      (renderEffect mathSample (some fp) (some { width := 300, height := 150 })
        { width := 800, height := 600 }).calls.take 6 =
        [.clearRect (.fin 0) (.fin 0) (.fin 300) (.fin 150), .setWidth 800, .setHeight 600,
         .save, .translate (.fin 150) (.fin 50), .scale (.fin 50) (.fin 50)] ∧
      (renderEffect mathSample (some fp) (some { width := 300, height := 150 })
        { width := 800, height := 600 }).calls.drop 21 =
        [.save, .translate (.fin 4) (.fin 3), .rotate (.fin 0),
         .restore, .fillStyle (.str "#666"), .font (.fin 16), .textAlign "center",
         .fillText (.value (.str "Error rendering floor plan")) (.fin 400) (.fin 300),
         .fillText (.errorMessage .typeError) (.fin 400) (.fin 320)] ∧
      ((renderEffect mathSample (some fp) (some { width := 300, height := 150 })
        { width := 800, height := 600 }).calls.filter
          (fun c => c matches .save | .restore)).length = 3 ∧
      pendingSaves (renderEffect mathSample (some fp) (some { width := 300, height := 150 })
        { width := 800, height := 600 }).calls 0 = some 1 ∧
      pendingSaves (renderEffect mathSample (some modelNegativeDoor)
        (some { width := 300, height := 150 }) { width := 800, height := 600 }).calls 0 =
          some 1 ∧
      (∃ k : FloorPlan, processFloorPlanData payloadFull = .ok (some k) ∧
        pendingSaves (renderEffect mathSample (some k) (some { width := 300, height := 150 })
          { width := 800, height := 600 }).calls 0 = some 0) ∧
      ∀ (m : MathFns) (k : FloorPlan) (cv dims : Size),
        ((renderTry m k (renderScale k.bounds dims)).outcome = .returned →
          pendingSaves (renderEffect m (some k) (some cv) dims).calls 0 = some 0) ∧
        (((renderScale k.bounds dims).isFinite = false ∨
            (renderScale k.bounds dims).le (.fin 0) = true) →
          pendingSaves (renderEffect m (some k) (some cv) dims).calls 0 = some 0) :=
  ⟨_, rfl, by with_unfolding_all rfl, by with_unfolding_all rfl, by with_unfolding_all rfl,
    by with_unfolding_all rfl, by with_unfolding_all rfl, by with_unfolding_all rfl,
    ⟨_, rfl, by with_unfolding_all rfl⟩, render_balanced_scene⟩

/-- C26 (the claim fails): a room 10 wide and 0.5 high, named "Duct", is kept by
the normalizer and labelled at the font size 0.8, which exceeds its smaller
side 0.5. -/
theorem label_font_exceeds_tiny_room :
    ∃ fp : FloorPlan, processFloorPlanData payloadTinyRoom = .ok (some fp) ∧
      fp.rooms.map (fun r => r.dimensions) =
        [some { x := .fin 0, y := .fin 0, width := .fin 10, height := .fin (1 / 2) }] ∧
      fp.rooms.map (fun r => (drawRoomLabel r).calls) =
        [[.font (.fin (8 / 10)),
          .fillText (.value (.str "Duct")) (.fin 5) (.fin (-3 / 20))]] ∧
      labelFontSize (.fin 10) (.fin (1 / 2)) = .fin (8 / 10) ∧
      ¬ ((8 : ℚ) / 10 ≤ min 10 (1 / 2)) :=
  ⟨_, by with_unfolding_all rfl, by with_unfolding_all rfl, by with_unfolding_all rfl,
    by with_unfolding_all rfl, by norm_num⟩

/-- C26 (amended): for a room with finite dimensions and a non-empty name the
label is drawn at the font size `f = max(0.8, min(1.5, min(width, height) / 8))`,
which is at most the smaller side of the room exactly when that side is at
least 0.8; in a room whose smaller side is below 0.8 the font size is 0.8 and
exceeds it. -/
theorem label_font_fits_iff (room : Room) (n : String) (x y w h : ℚ)
    (hd : room.dimensions =
      some { x := .fin x, y := .fin y, width := .fin w, height := .fin h })
    (hn : room.name = .str n) (hne : n ≠ "") :
    ∃ f : ℚ, labelFontSize (.fin w) (.fin h) = .fin f ∧
      (drawRoomLabel room).calls.head? = some (.font (.fin f)) ∧
      (f ≤ min w h ↔ 8 / 10 ≤ min w h) ∧
      (min w h < 8 / 10 → f = 8 / 10 ∧ min w h < f) := by
  obtain ⟨f, hf, _, _, hiff, hfloor, _⟩ := labelFontSize_spec w h
  refine ⟨f, hf, ?_, hiff, ?_⟩
  · unfold drawRoomLabel
    rw [hd]
    simp only [hn, truthy_str hne, Bool.not_true, Bool.false_eq_true, if_false, hf, seq_emit]
    rfl
  · intro hm
    have := hfloor hm
    exact ⟨this, by rw [this]; exact hm⟩

/-- The amended C26 at the room "Duct" of 10 by 0.5: the font size is 0.8. -/
theorem label_font_fits_iff_witness :
    ∃ (fp : FloorPlan) (room : Room), processFloorPlanData payloadTinyRoom = .ok (some fp) ∧
      fp.rooms = [room] ∧
      ∃ f : ℚ, labelFontSize (.fin 10) (.fin (1 / 2)) = .fin f ∧
        (drawRoomLabel room).calls.head? = some (.font (.fin f)) ∧
        (f ≤ min 10 (1 / 2) ↔ 8 / 10 ≤ min (10 : ℚ) (1 / 2)) ∧
        (min (10 : ℚ) (1 / 2) < 8 / 10 → f = 8 / 10 ∧ min 10 (1 / 2) < f) :=
  ⟨_, _, by with_unfolding_all rfl, rfl,
    label_font_fits_iff _ "Duct" 0 0 10 (1 / 2) (by with_unfolding_all rfl) rfl (by decide)⟩

set_option maxRecDepth 10000 in
/-- C27 (the claim fails): for the model of the payload with the single room
`(0, 0, 0.8, 10)` the outline is stroked from `(-1, -1)` with the width
`(0.8 + 1) - (-1)`, which is 2.8 in doubles, a number below 2.8: the right edge
of the outline, `-1 + width`, is 1.7999999999999998, and the margin to the right
edge 0.8 of the room is 0.9999999999999998, less than 1. -/
theorem house_outline_margin_short :
    ∃ (fp : FloorPlan) (w ow : ℚ), processFloorPlanData payloadNarrowRoom = .ok (some fp) ∧
      fp.rooms.map (fun r => r.dimensions) =
        [some { x := .fin 0, y := .fin 0, width := .fin w, height := .fin 10 }] ∧
      drawHouseOutline fp.rooms = Draw.emit
        [.strokeStyle "#444444", .lineWidth (.fin (8 / 10)),
         .strokeRect (.fin (-1)) (.fin (-1)) (.fin ow) (.fin 12),
         .fillStyle (.str "rgba(0, 0, 0, 0.1)"),
         .fillRect (.fin (-1 / 2)) (.fin (-1 / 2)) (.fin ow) (.fin 12)] ∧
      (JSNum.fin (-1)).add (.fin ow) = .fin (2026619832316723 / 1125899906842624) ∧
      ((JSNum.fin (-1)).add (.fin ow)).sub ((JSNum.fin 0).add (.fin w)) =
        .fin (4503599627370495 / 4503599627370496) ∧
      (-1 + ow) - (0 + w) < 1 :=
  ⟨_, 3602879701896397 / 4503599627370496, 3152519739159347 / 1125899906842624,
    by with_unfolding_all rfl, by with_unfolding_all rfl, by with_unfolding_all rfl,
    by decide!, by decide!, by norm_num⟩

/-- C27 (amended): for a non-empty list of rooms with finite dimensions of
positive width and height, `drawHouseOutline` strokes one rectangle, from
`(minX - 1, minY - 1)` with the width `(maxX + 1) - (minX - 1)` and the height
`(maxY + 1) - (minY - 1)` computed in doubles, where `minX`, `minY`, `maxX`,
`maxY` are the extremes over all room corners (the bounding box of the rooms,
with the far edges `x + width`, `y + height` as computed); the only other
drawing is the fill of the shadow.  Every room lies between the extremes, the
outline starts at or before `minX`, and `maxX + 1` is not below `maxX`.  When no
operation of the padding rounds along an axis, the outline runs there from
`minX - 1` to `maxX + 1` and every room whose far edge is computed exactly lies
inside it with a margin of at least 1 on both sides.  For a list in which no
room has dimensions, and so for the empty list, it issues no call. -/
theorem house_outline_encloses (rooms : List Room) :
    (rooms ≠ [] → (∀ r ∈ rooms, r.wellFormed) →
      ∃ (mn my : ℚ) (Mx My X0 Y0 W H : JSNum),
        minimumOf ((rooms.flatMap roomCorners).map (fun p => p.x)) = .fin mn ∧
        minimumOf ((rooms.flatMap roomCorners).map (fun p => p.y)) = .fin my ∧
        maximumOf ((rooms.flatMap roomCorners).map (fun p => p.x)) = Mx ∧
        maximumOf ((rooms.flatMap roomCorners).map (fun p => p.y)) = My ∧
        X0 = (JSNum.fin mn).sub (.fin 1) ∧ Y0 = (JSNum.fin my).sub (.fin 1) ∧
        W = (Mx.add (.fin 1)).sub X0 ∧ H = (My.add (.fin 1)).sub Y0 ∧
        drawHouseOutline rooms = Draw.emit
          [.strokeStyle "#444444", .lineWidth (.fin (8 / 10)),
           .strokeRect X0 Y0 W H,
           .fillStyle (.str "rgba(0, 0, 0, 0.1)"),
           .fillRect (X0.add (.fin (1 / 2))) (Y0.add (.fin (1 / 2))) W H] ∧
        (∀ r ∈ rooms, ∀ d : Dimensions, r.dimensions = some d →
          JSNum.le (.fin mn) d.x = true ∧ JSNum.le (d.x.add d.width) Mx = true ∧
          JSNum.le (.fin my) d.y = true ∧ JSNum.le (d.y.add d.height) My = true) ∧
        X0.le (.fin mn) = true ∧ Mx.le (Mx.add (.fin 1)) = true ∧
        Y0.le (.fin my) = true ∧ My.le (My.add (.fin 1)) = true ∧
        (∀ M : ℚ, Mx = .fin M → isDouble (mn - 1) = true → isDouble (M + 1) = true →
          isDouble (M + 1 - (mn - 1)) = true →
          X0 = .fin (mn - 1) ∧ W = .fin (M + 1 - (mn - 1)) ∧
          ∀ r ∈ rooms, ∀ x y w h : ℚ,
            r.dimensions =
              some { x := .fin x, y := .fin y, width := .fin w, height := .fin h } →
            isDouble (x + w) = true →
            (mn - 1) + 1 ≤ x ∧ x + w + 1 ≤ (mn - 1) + (M + 1 - (mn - 1))) ∧
        (∀ M : ℚ, My = .fin M → isDouble (my - 1) = true → isDouble (M + 1) = true →
          isDouble (M + 1 - (my - 1)) = true →
          Y0 = .fin (my - 1) ∧ H = .fin (M + 1 - (my - 1)) ∧
          ∀ r ∈ rooms, ∀ x y w h : ℚ,
            r.dimensions =
              some { x := .fin x, y := .fin y, width := .fin w, height := .fin h } →
            isDouble (y + h) = true →
            (my - 1) + 1 ≤ y ∧ y + h + 1 ≤ (my - 1) + (M + 1 - (my - 1)))) ∧
    ((∀ r ∈ rooms, r.dimensions = none) → drawHouseOutline rooms = Draw.emit []) ∧
    drawHouseOutline [] = Draw.emit [] := by
  refine ⟨?_, ?_, rfl⟩
  · intro hne hr
    obtain ⟨mn, my, h1, h2, hacc⟩ := outline_extremes hne hr
    have hwalls : ∀ w ∈ ([] : List Wall), w.wellFormed := by simp
    have hcp : cornerPoints rooms [] = rooms.flatMap roomCorners := by simp [cornerPoints]
    have hext := cornerPoints_in_extremes hr hwalls
    have hnn := cornerPoints_ne_nan hr hwalls
    rw [hcp] at hext hnn
    have hin : ∀ r ∈ rooms, ∀ d : Dimensions, r.dimensions = some d →
        JSNum.le (.fin mn) d.x = true ∧
        JSNum.le (d.x.add d.width)
          (maximumOf ((rooms.flatMap roomCorners).map (fun p => p.x))) = true ∧
        JSNum.le (.fin my) d.y = true ∧
        JSNum.le (d.y.add d.height)
          (maximumOf ((rooms.flatMap roomCorners).map (fun p => p.y))) = true := by
      intro r hmem d hd
      have ha := hext { x := d.x, y := d.y }
        (List.mem_flatMap.2 ⟨r, hmem, by simp [roomCorners, hd]⟩)
      have hb := hext { x := d.x.add d.width, y := d.y.add d.height }
        (List.mem_flatMap.2 ⟨r, hmem, by simp [roomCorners, hd]⟩)
      rw [h1, h2] at ha
      exact ⟨ha.1, hb.2.1, ha.2.2.1, hb.2.2.2⟩
    have hMx : maximumOf ((rooms.flatMap roomCorners).map (fun p => p.x)) ≠ .nan :=
      (foldl_max_ge _ .negInf (by simp)
        (fun v hv => by
          obtain ⟨p, hp, rfl⟩ := List.mem_map.1 hv
          exact (hnn p hp).1)).1
    have hMy : maximumOf ((rooms.flatMap roomCorners).map (fun p => p.y)) ≠ .nan :=
      (foldl_max_ge _ .negInf (by simp)
        (fun v hv => by
          obtain ⟨p, hp, rfl⟩ := List.mem_map.1 hv
          exact (hnn p hp).2)).1
    refine ⟨mn, my, _, _, _, _, _, _, h1, h2, rfl, rfl, rfl, rfl, rfl, rfl, ?_, hin,
      (pad_one mn _ hMx).1, (pad_one mn _ hMx).2, (pad_one my _ hMy).1, (pad_one my _ hMy).2,
      ?_, ?_⟩
    · unfold drawHouseOutline
      have hlen : (rooms.length == 0) = false := by
        cases rooms with
        | nil => exact absurd rfl hne
        | cons _ _ => rfl
      simp only [hlen, Bool.false_eq_true, if_false, hacc, JSNum.strictEq]
      simp
    · intro M hM d1 d2 d3
      rw [hM]
      refine ⟨(pad_exact mn M d1 d2 d3).1, (pad_exact mn M d1 d2 d3).2, ?_⟩
      intro r hmem x y w h hd hxw
      obtain ⟨c1, c2, _, _⟩ := hin r hmem _ hd
      rw [hM] at c2
      simp only [add_exact _ _ (fun _ _ => hxw), JSNum.le, decide_eq_true_eq] at c1 c2
      constructor <;> linarith
    · intro M hM d1 d2 d3
      rw [hM]
      refine ⟨(pad_exact my M d1 d2 d3).1, (pad_exact my M d1 d2 d3).2, ?_⟩
      intro r hmem x y w h hd hyh
      obtain ⟨_, _, c3, c4⟩ := hin r hmem _ hd
      rw [hM] at c4
      simp only [add_exact _ _ (fun _ _ => hyh), JSNum.le, decide_eq_true_eq] at c3 c4
      constructor <;> linarith
  · intro hnone
    unfold drawHouseOutline
    by_cases hlen : (rooms.length == 0) = true
    · simp [hlen]
    · simp only [hlen, Bool.false_eq_true, if_false, foldl_outline_none rooms _ hnone]
      rfl

set_option maxRecDepth 10000 in
/-- The amended C27 at the rooms `(0, 0, 10, 10)` and `(10, 0, 5, 8)`: no
operation rounds, the outline is the rectangle from `(-1, -1)` of 17 by 12, and
both rooms lie inside it with a margin of at least 1. -/
theorem house_outline_encloses_witness :
    ∃ fp : FloorPlan, processFloorPlanData payloadTwoRooms = .ok (some fp) ∧
      drawHouseOutline fp.rooms = Draw.emit
        [.strokeStyle "#444444", .lineWidth (.fin (8 / 10)),
         .strokeRect (.fin (-1)) (.fin (-1)) (.fin 17) (.fin 12),
         .fillStyle (.str "rgba(0, 0, 0, 0.1)"),
         .fillRect (.fin (-1 / 2)) (.fin (-1 / 2)) (.fin 17) (.fin 12)] ∧
      minimumOf ((fp.rooms.flatMap roomCorners).map (fun p => p.x)) = .fin 0 ∧
      maximumOf ((fp.rooms.flatMap roomCorners).map (fun p => p.x)) = .fin 15 ∧
      isDouble ((0 : ℚ) - 1) = true ∧ isDouble ((15 : ℚ) + 1) = true ∧
      isDouble ((15 : ℚ) + 1 - (0 - 1)) = true ∧
      (JSNum.fin 0).sub (.fin 1) = .fin (0 - 1) ∧
      ((JSNum.fin 15).add (.fin 1)).sub ((JSNum.fin 0).sub (.fin 1)) = .fin (15 + 1 - (0 - 1)) ∧
      ∀ r ∈ fp.rooms, ∀ x y w h : ℚ,
        r.dimensions = some { x := .fin x, y := .fin y, width := .fin w, height := .fin h } →
        isDouble (x + w) = true →
        ((0 : ℚ) - 1) + 1 ≤ x ∧ x + w + 1 ≤ (0 - 1) + (15 + 1 - (0 - 1)) := by
  refine ⟨_, rfl, by with_unfolding_all rfl, by with_unfolding_all rfl,
    by with_unfolding_all rfl, by decide!, by decide!, by decide!, ?_⟩
  obtain ⟨mn, my, Mx, My, X0, Y0, W, H, h1, _, h3, _, hX, _, hW, _, _, _, _, _, _, _, hex, _⟩ :=
    (house_outline_encloses _).1 (by simp) (@model_rooms_wellFormed payloadTwoRooms _ rfl)
  have e1 : mn = 0 := by
    have h : JSNum.fin mn = .fin 0 := by rw [← h1]; with_unfolding_all rfl
    exact (JSNum.fin.inj h)
  have e3 : Mx = .fin 15 := by rw [← h3]; with_unfolding_all rfl
  subst e1
  obtain ⟨a, b, c⟩ := hex 15 e3 (by decide!) (by decide!) (by decide!)
  rw [hX] at a
  rw [hW, hX, e3] at b
  exact ⟨a, b, c⟩

set_option maxRecDepth 10000 in
/-- C28 (the claim fails): the packer computes in doubles.  With three rooms
13.9, 6.8 and 5.3 wide the third room would end at `x = 30` exactly and stay in
the row, as the reference shelf packing places it, but the code has
`currentX = 24.700000000000003`, finds `currentX + 5.3 > 30` and moves the room
to a new row.  With a room `1e17` high followed by two rooms 40 wide and 1 high,
each of the two starts a new row at `1e17 + (1 + 2)`, which is `1e17` in doubles
both times: the two rooms are returned at the same position and overlap. -/
theorem adjustOverlappingRooms_rounds :
    (∃ fp : FloorPlan, processFloorPlanData payloadRowOfThirty = .ok (some fp) ∧
      (adjustOverlappingRooms fp.rooms).map (fun r => r.dimensions) =
        [some { x := .fin 0, y := .fin 0,
                width := .fin (7825004352556237 / 562949953421312), height := .fin 10 },
         some { x := .fin (8950904259398861 / 562949953421312), y := .fin 0,
                width := .fin (7656119366529843 / 1125899906842624), height := .fin 10 },
         some { x := .fin 0, y := .fin 12,
                width := .fin (5967269506265907 / 1125899906842624), height := .fin 10 }] ∧
      (shelfPack 0 0 0 fp.rooms).map (fun r => r.dimensions) =
        [some { x := .fin 0, y := .fin 0,
                width := .fin (7825004352556237 / 562949953421312), height := .fin 10 },
         some { x := .fin (8950904259398861 / 562949953421312), y := .fin 0,
                width := .fin (7656119366529843 / 1125899906842624), height := .fin 10 },
         some { x := .fin (27809727699012813 / 1125899906842624), y := .fin 0,
                width := .fin (5967269506265907 / 1125899906842624), height := .fin 10 }] ∧
      (27809727699012813 / 1125899906842624 : ℚ) + 5967269506265907 / 1125899906842624 = 30 ∧
      adjustOverlappingRooms fp.rooms ≠ shelfPack 0 0 0 fp.rooms) ∧
    (∃ (fp : FloorPlan) (a b c : Room),
      processFloorPlanData payloadTallRoom = .ok (some fp) ∧
      adjustOverlappingRooms fp.rooms = [a, b, c] ∧
      b.dimensions = some { x := .fin 0, y := .fin 100000000000000000, width := .fin 40,
                            height := .fin 1 } ∧
      c.dimensions = some { x := .fin 0, y := .fin 100000000000000000, width := .fin 40,
                            height := .fin 1 } ∧
      ¬ b.apartFrom c ∧
      ¬ (adjustOverlappingRooms fp.rooms).Pairwise Room.apartFrom) := by
  have hov : ∀ b c : Room,
      b.dimensions = some { x := .fin 0, y := .fin 100000000000000000, width := .fin 40,
                            height := .fin 1 } →
      c.dimensions = some { x := .fin 0, y := .fin 100000000000000000, width := .fin 40,
                            height := .fin 1 } → ¬ b.apartFrom c := by
    intro b c hb hc
    rintro ⟨db, dc, h1, h2, h3⟩
    rw [hb] at h1
    rw [hc] at h2
    cases h1
    cases h2
    revert h3
    decide!
  constructor
  · have h1 : ∀ fp : FloorPlan, ∀ l1 l2 : List (Option Dimensions), l1 ≠ l2 →
        (adjustOverlappingRooms fp.rooms).map (fun r => r.dimensions) = l1 →
        (shelfPack 0 0 0 fp.rooms).map (fun r => r.dimensions) = l2 →
        adjustOverlappingRooms fp.rooms ≠ shelfPack 0 0 0 fp.rooms := by
      intro fp l1 l2 hne e1 e2 heq
      rw [heq, e2] at e1
      exact hne e1.symm
    refine ⟨_, by with_unfolding_all rfl, by with_unfolding_all rfl,
      by with_unfolding_all rfl, by norm_num, ?_⟩
    refine h1 _ _ _ ?_ (by with_unfolding_all rfl) (by with_unfolding_all rfl)
    decide!
  · refine ⟨_, _, _, _, rfl, by with_unfolding_all rfl, by with_unfolding_all rfl,
      by with_unfolding_all rfl, hov _ _ (by with_unfolding_all rfl) (by with_unfolding_all rfl),
      ?_⟩
    intro hp
    have hbc : ∀ a b c : Room, [a, b, c].Pairwise Room.apartFrom → b.apartFrom c := by
      intro a b c h
      simp only [List.pairwise_cons] at h
      exact h.2.1 c (List.mem_singleton.2 rfl)
    refine hov _ _ ?_ ?_ (hbc _ _ _ hp)
    · with_unfolding_all rfl
    · with_unfolding_all rfl

/-- C28 (amended): for rooms with finite dimensions of positive width and height,
`adjustOverlappingRooms` returns the rooms in their order, each with every field
but the position unchanged (so with its width and height), placed by shelf
packing with the sums computed in doubles (from `(0, 0)`, left to right, the next
room at `x + (width + 2)`, a new row when a room after the first of its row has
`x + width > 30`, the row below starting at `y + (rowHeight + 2)` under the
tallest room).  The rectangles returned are pairwise non-overlapping when every
width is at most `2 ^ 52` and the heights, each with an allowance of 4, sum to at
most `2 ^ 52`: every sum is then within 1 of its exact value.  When no sum of the
packing rounds, the result is the reference shelf packing of the claim. -/
theorem adjustOverlappingRooms_packs (rooms : List Room) (hr : ∀ r ∈ rooms, r.wellFormed) :
    adjustOverlappingRooms rooms = shelfPackDouble (.fin 0) (.fin 0) (.fin 0) rooms ∧
    List.Forall₂ (fun r a => ∃ x y : JSNum, a = r.moveTo x y) rooms
      (adjustOverlappingRooms rooms) ∧
    (widthsBounded rooms = true → heightBudget rooms ≤ 2 ^ 52 →
      (∀ a ∈ adjustOverlappingRooms rooms, ∃ ax ay aw ah : ℚ,
        a.dimensions =
          some { x := .fin ax, y := .fin ay, width := .fin aw, height := .fin ah }) ∧
      (adjustOverlappingRooms rooms).Pairwise Room.apartFrom) ∧
    (packExact 0 0 0 rooms = true → adjustOverlappingRooms rooms = shelfPack 0 0 0 rooms) := by
  rw [adjustOverlappingRooms_eq]
  refine ⟨rfl, shelfPackDouble_moved rooms hr _ _ _, ?_,
    shelfPackDouble_exact rooms hr 0 0 0 le_rfl⟩
  intro hw hb
  have h52 : (2 : ℚ) ^ 52 ≤ 2 ^ 53 - 1 := by norm_num
  obtain ⟨hreg, hpw⟩ := shelfPackDouble_apart rooms hr (widthsBounded_spec hw) 0 0 0
    le_rfl le_rfl le_rfl (by linarith)
  refine ⟨?_, hpw⟩
  intro a ha
  obtain ⟨ax, ay, aw, ah, had, _⟩ := hreg a ha
  exact ⟨ax, ay, aw, ah, had⟩

set_option maxRecDepth 10000 in
/-- The amended C28 at four rooms that all start at `(0, 0)`, of 12 by 8, 12 by
10, 12 by 6 and 9 by 5: the widths are bounded, the heights with their allowance
sum to 45, no sum rounds, and the rooms are placed at `(0, 0)`, `(14, 0)`,
`(0, 12)` and `(14, 12)`, apart from each other, as the reference shelf packing
places them. -/
theorem adjustOverlappingRooms_packs_witness :
    ∃ fp : FloorPlan, processFloorPlanData payloadOverlapping = .ok (some fp) ∧
      widthsBounded fp.rooms = true ∧ heightBudget fp.rooms = 45 ∧
      (adjustOverlappingRooms fp.rooms).map (fun r => (r.name, r.dimensions)) =
        [(.str "Hall",
          some { x := .fin 0, y := .fin 0, width := .fin 12, height := .fin 8 }),
         (.str "Lounge",
          some { x := .fin 14, y := .fin 0, width := .fin 12, height := .fin 10 }),
         (.str "Study",
          some { x := .fin 0, y := .fin 12, width := .fin 12, height := .fin 6 }),
         (.str "Store",
          some { x := .fin 14, y := .fin 12, width := .fin 9, height := .fin 5 })] ∧
      (adjustOverlappingRooms fp.rooms).Pairwise Room.apartFrom ∧
      packExact 0 0 0 fp.rooms = true ∧
      adjustOverlappingRooms fp.rooms = shelfPack 0 0 0 fp.rooms :=
  ⟨_, rfl, by decide!, by decide!, by with_unfolding_all rfl,
    ((adjustOverlappingRooms_packs _ (@model_rooms_wellFormed payloadOverlapping _ rfl)).2.2.1
      (by decide!) (by decide!)).2,
    by decide!,
    (adjustOverlappingRooms_packs _ (@model_rooms_wellFormed payloadOverlapping _ rfl)).2.2.2
      (by decide!)⟩

set_option maxRecDepth 10000 in
/-- C29 (the claim fails): for the model of the payload with the single room
`(1e308, 0, 1e308, 10)` the right edge `x + width` is `Infinity` in doubles, the
width of the bounds is `Infinity`, the scale on a surface of 800 by 600 is 0 and
the offset is `NaN`: the pass draws the diagnostic, and no corner is mapped into
the surface.  For the room `(0, 0, 20.1, 10)` the scale is 34.82587064676617 and
the offset 49.99999999999994: the corner `(0, 0)` of the room is mapped to
`x = 49.99999999999994`, left of the padded surface. -/
theorem model_leaves_padded_surface :
    (∃ fp : FloorPlan, processFloorPlanData payloadHugeRoom = .ok (some fp) ∧
      (cornerPoints fp.rooms fp.walls).length = 4 ∧
      fp.bounds.width = .posInf ∧
      renderScale fp.bounds { width := 800, height := 600 } = .fin 0 ∧
      renderOffsetX fp.bounds { width := 800, height := 600 } (.fin 0) = .nan ∧
      (renderEffect mathSample (some fp) (some { width := 300, height := 150 })
        { width := 800, height := 600 }).calls =
        renderPrelude fp { width := 300, height := 150 } { width := 800, height := 600 } ++
          renderDiagnostic (.invalidScale (.fin 0)) { width := 800, height := 600 }) ∧
    (∃ (fp : FloorPlan) (s ox : ℚ), processFloorPlanData payloadWideRoom = .ok (some fp) ∧
      renderScale fp.bounds { width := 800, height := 600 } = .fin s ∧
      renderOffsetX fp.bounds { width := 800, height := 600 } (.fin s) = .fin ox ∧
      ox = 879609302220799 / 17592186044416 ∧
      ({ x := .fin 0, y := .fin 0 } : Point) ∈ cornerPoints fp.rooms fp.walls ∧
      ox + s * 0 < 50) :=
  ⟨⟨_, by with_unfolding_all rfl, by with_unfolding_all rfl, by with_unfolding_all rfl,
      by with_unfolding_all rfl, by with_unfolding_all rfl, by with_unfolding_all rfl⟩,
    ⟨_, 4901305564613413 / 140737488355328, 879609302220799 / 17592186044416,
      by with_unfolding_all rfl, by with_unfolding_all rfl, by with_unfolding_all rfl, rfl,
      by with_unfolding_all exact List.mem_cons_self _ _, by norm_num⟩⟩

/-- C29 (amended): for every model the normalizer returns whose bounds are finite
and every surface more than 100 wide and 100 high, the scale `s` of the renderer
is finite and positive, and the offset and the scale are the arguments of the
`translate` and `scale` calls of the render pass.  When moreover the extents of
the bounds, the scale and the offset are computed without rounding, the offset
`(ox, oy)` is finite and `p -> (ox + s * p.x, oy + s * p.y)` maps every corner of
every room rectangle and every wall endpoint of the model into
`[50, W - 50] × [50, H - 50]`. -/
theorem model_fits_padded_surface (apiResponse : JSVal) (fp : FloorPlan) (dims : Size)
    (h : processFloorPlanData apiResponse = .ok (some fp))
    (hW : 100 < dims.width) (hH : 100 < dims.height) (mn my bw bh : ℚ)
    (hb : fp.bounds =
      { minX := .fin mn, minY := .fin my, width := .fin bw, height := .fin bh }) :
    ∃ s : ℚ, renderScale fp.bounds dims = .fin s ∧ 0 < s ∧
      (∀ (m : MathFns) (cv : Size),
        (renderEffect m (some fp) (some cv) dims).calls.get? 4 =
          some (.translate (renderOffsetX fp.bounds dims (.fin s))
            (renderOffsetY fp.bounds dims (.fin s))) ∧
        (renderEffect m (some fp) (some cv) dims).calls.get? 5 =
          some (.scale (.fin s) (.fin s))) ∧
      (∀ Mx My : ℚ,
        maximumOf ((cornerPoints fp.rooms fp.walls).map (fun p => p.x)) = .fin Mx →
        maximumOf ((cornerPoints fp.rooms fp.walls).map (fun p => p.y)) = .fin My →
        isDouble (Mx - mn) = true → isDouble (My - my) = true →
        scaleExact dims bw bh = true →
        offsetExact dims.width mn bw s = true → offsetExact dims.height my bh s = true →
        ∃ ox oy : ℚ,
          renderOffsetX fp.bounds dims (.fin s) = .fin ox ∧
          renderOffsetY fp.bounds dims (.fin s) = .fin oy ∧
          ∀ p ∈ cornerPoints fp.rooms fp.walls, ∃ px py : ℚ,
            p = { x := .fin px, y := .fin py } ∧
            50 ≤ ox + s * px ∧ ox + s * px ≤ (dims.width : ℚ) - 50 ∧
            50 ≤ oy + s * py ∧ oy + s * py ≤ (dims.height : ℚ) - 50) := by
  have hw' : fp.bounds.width = .fin bw := by rw [hb]
  have hh' : fp.bounds.height = .fin bh := by rw [hb]
  obtain ⟨hbw, hbh⟩ := model_bounds_ge_ten h bw bh hw' hh'
  obtain ⟨s, hs, hpos⟩ := renderScale_finite fp.bounds dims bw bh hw' hh'
    (by linarith) (by linarith) hW hH
  refine ⟨s, hs, hpos, ?_, ?_⟩
  · intro m cv
    obtain ⟨rest, hrest⟩ := renderEffect_prelude m fp cv dims
    rw [hrest]
    simp [renderPrelude, hs]
  · intro Mx My hMx hMy hex hey hse hox hoy
    have hin := model_points_in_bounds h mn my bw bh Mx My hb hMx hMy hex hey
    have hsv := renderScale_exact fp.bounds dims bw bh hw' hh' (by linarith) (by linarith) hse
    rw [hs] at hsv
    have hsv := JSNum.fin.inj hsv
    have hW' : (0 : ℚ) < (dims.width : ℚ) - 100 := by
      have : (100 : ℚ) < (dims.width : ℚ) := by exact_mod_cast hW
      linarith
    have hH' : (0 : ℚ) < (dims.height : ℚ) - 100 := by
      have : (100 : ℚ) < (dims.height : ℚ) := by exact_mod_cast hH
      linarith
    have hbw0 : (0 : ℚ) < bw := by linarith
    have hbh0 : (0 : ℚ) < bh := by linarith
    have hfw : bw * s ≤ (dims.width : ℚ) - 100 := by
      have hA : bw * (((dims.width : ℚ) - 100) / bw) = (dims.width : ℚ) - 100 := by
        field_simp
      calc bw * s ≤ bw * (((dims.width : ℚ) - 100) / bw) := by
            rw [hsv]
            exact mul_le_mul_of_nonneg_left (min_le_left _ _) (le_of_lt hbw0)
        _ = (dims.width : ℚ) - 100 := hA
    have hfh : bh * s ≤ (dims.height : ℚ) - 100 := by
      have hB : bh * (((dims.height : ℚ) - 100) / bh) = (dims.height : ℚ) - 100 := by
        field_simp
      calc bh * s ≤ bh * (((dims.height : ℚ) - 100) / bh) := by
            rw [hsv]
            exact mul_le_mul_of_nonneg_left (min_le_right _ _) (le_of_lt hbh0)
        _ = (dims.height : ℚ) - 100 := hB
    refine ⟨((dims.width : ℚ) - bw * s) / 2 - mn * s,
      ((dims.height : ℚ) - bh * s) / 2 - my * s, ?_, ?_, ?_⟩
    · rw [hb]
      exact offset_exact hox
    · rw [hb]
      exact offset_exact hoy
    · intro p hp
      obtain ⟨px, py, hpe, h1, h2, h3, h4⟩ := hin p hp
      obtain ⟨a1, a2⟩ := centred_in_padding hpos hfw h1 h2
      obtain ⟨b1, b2⟩ := centred_in_padding hpos hfh h3 h4
      exact ⟨px, py, hpe, a1, a2, b1, b2⟩

set_option maxRecDepth 10000 in
/-- The amended C29 at the model of the payload with a room, a wall, a door, a
window and a furniture item, on a surface of 800 by 600: the bounds are
`{0, 0, 20, 10}`, nothing rounds, the scale is 35 and the offset `(50, 125)`,
and the six corners and wall ends are mapped into `[50, 750] × [50, 550]`. -/
theorem model_fits_padded_surface_witness :
    ∃ fp : FloorPlan, processFloorPlanData payloadFull = .ok (some fp) ∧
      fp.bounds = { minX := .fin 0, minY := .fin 0, width := .fin 20, height := .fin 10 } ∧
      maximumOf ((cornerPoints fp.rooms fp.walls).map (fun p => p.x)) = .fin 20 ∧
      maximumOf ((cornerPoints fp.rooms fp.walls).map (fun p => p.y)) = .fin 10 ∧
      isDouble ((20 : ℚ) - 0) = true ∧ isDouble ((10 : ℚ) - 0) = true ∧
      scaleExact { width := 800, height := 600 } 20 10 = true ∧
      offsetExact ((800 : ℕ) : ℚ) 0 20 35 = true ∧ offsetExact ((600 : ℕ) : ℚ) 0 10 35 = true ∧
      renderScale fp.bounds { width := 800, height := 600 } = .fin 35 ∧
      renderOffsetX fp.bounds { width := 800, height := 600 } (.fin 35) = .fin 50 ∧
      renderOffsetY fp.bounds { width := 800, height := 600 } (.fin 35) = .fin 125 ∧
      (cornerPoints fp.rooms fp.walls).length = 6 ∧
      ∀ p ∈ cornerPoints fp.rooms fp.walls, ∃ px py : ℚ,
        p = { x := .fin px, y := .fin py } ∧
        50 ≤ 50 + 35 * px ∧ 50 + 35 * px ≤ ((800 : ℕ) : ℚ) - 50 ∧
        50 ≤ 125 + 35 * py ∧ 125 + 35 * py ≤ ((600 : ℕ) : ℚ) - 50 := by
  refine ⟨_, rfl, by with_unfolding_all rfl, by with_unfolding_all rfl,
    by with_unfolding_all rfl, by decide!, by decide!, by decide!, by decide!, by decide!,
    by with_unfolding_all rfl, by with_unfolding_all rfl, by with_unfolding_all rfl,
    by with_unfolding_all rfl, ?_⟩
  obtain ⟨s, hs, _, _, hfit⟩ := model_fits_padded_surface payloadFull _
    { width := 800, height := 600 } rfl (by decide) (by decide) 0 0 20 10
    (by with_unfolding_all rfl)
  have hs35 : s = 35 := by
    have e : JSNum.fin s = .fin 35 := by rw [← hs]; with_unfolding_all rfl
    exact JSNum.fin.inj e
  subst hs35
  obtain ⟨ox, oy, hox, hoy, hall⟩ := hfit 20 10 (by with_unfolding_all rfl)
    (by with_unfolding_all rfl) (by decide!) (by decide!) (by decide!) (by decide!) (by decide!)
  have hx50 : ox = 50 := by
    have e : JSNum.fin ox = .fin 50 := by rw [← hox]; with_unfolding_all rfl
    exact JSNum.fin.inj e
  have hy125 : oy = 125 := by
    have e : JSNum.fin oy = .fin 125 := by rw [← hoy]; with_unfolding_all rfl
    exact JSNum.fin.inj e
  subst hx50 hy125
  exact hall

/-- C30 (the code at the failing input): for the payload with a wall of
thickness `"thick"`, a door of width `"wide"` and a window of width `{}` and
height `"tall"` the model `m` has the thickness, the widths and the height
`NaN`; normalizing `{analysis: {floorPlan: m, projectInfo: {totalArea:
m.totalArea}}}` reads each `NaN` as falsy and returns a model with the defaults
4, 30, 40 and 20 in their place, which is not `m`.  At the payload with a room,
a wall, a door, a window and a furniture item, whose model has no `NaN`, the
second pass returns the model itself, and so it does for every model in which
no clamp gave `NaN`. -/
theorem renormalization_replaces_nan :
    ∃ m m' : FloorPlan, processFloorPlanData payloadTextThickness = .ok (some m) ∧
      processFloorPlanData (repayload m) = .ok (some m') ∧
      m.walls.map (fun w => w.thickness) = [.nan] ∧
      m'.walls.map (fun w => w.thickness) = [.fin 4] ∧
      m.doors.map (fun d => d.width) = [.nan] ∧
      m'.doors.map (fun d => d.width) = [.fin 30] ∧
      m.windows.map (fun w => (w.width, w.height)) = [(.nan, .nan)] ∧
      m'.windows.map (fun w => (w.width, w.height)) = [(.fin 40, .fin 20)] ∧
      (∃ k : FloorPlan, processFloorPlanData payloadFull = .ok (some k) ∧
        processFloorPlanData (repayload k) = .ok (some k)) ∧
      ∀ (x : JSVal) (k : FloorPlan), processFloorPlanData x = .ok (some k) →
        k.clampsNumeric → processFloorPlanData (repayload k) = .ok (some k) :=
  ⟨_, _, rfl, rfl, rfl, rfl, rfl, rfl, rfl, rfl, ⟨_, rfl, rfl⟩,
    fun _ _ h hn => renormalization_fixed h hn⟩

end ArchiTechs
